import Mathlib

/-!
# Luna: scanner and single-pass bytecode compiler

A shallow embedding of `scanner.c` and `compiler.c` of the Luna virtual machine.

Conventions of the embedding.

* A C pointer into a NUL-terminated buffer is the list of bytes from the
  pointed-to byte up to the end of the buffer; the terminator is the end of
  the list (reading past the last byte yields `0`).
* The process-wide variables `scanner`, `parser`, `current`, `currentStruct`,
  `currentModuleName`, `importedModulesHead` and the object heap are the
  fields of one `State` value that every function takes and returns.
* The chain of `Compiler` records linked by `enclosing` is a list whose head
  is `current`.
* Heap objects the compiler allocates (`ObjFunction`, `ObjList`) live in
  `State.heap`; a pointer to one is its index.  Strings are interned by
  `copyString`, so a string object is identified with its bytes.
* What `fprintf(stderr, ...)` prints is appended to `State.stderr`.
* Recursion of the recursive-descent parser is bounded by a fuel argument;
  running out of fuel is the fault `Fault.outOfFuel`.
-/

namespace Luna

/-! ## Tokens (scanner.h) -/

/-- Token kinds.  The enum itself is declared in `scanner.h`; the names are the
ones `scanner.c` and `compiler.c` use. -/
inductive TokenType
  | TOKEN_LEFT_PAREN | TOKEN_RIGHT_PAREN
  | TOKEN_LEFT_BRACE | TOKEN_RIGHT_BRACE
  | TOKEN_LEFT_BRACKET | TOKEN_RIGHT_BRACKET
  | TOKEN_COMMA | TOKEN_DOT | TOKEN_MINUS | TOKEN_PLUS
  | TOKEN_SEMICOLON | TOKEN_SLASH | TOKEN_STAR | TOKEN_MOD | TOKEN_COLON
  | TOKEN_BANG | TOKEN_BANG_EQUAL
  | TOKEN_EQUAL | TOKEN_EQUAL_EQUAL
  | TOKEN_GREATER | TOKEN_GREATER_EQUAL
  | TOKEN_LESS | TOKEN_LESS_EQUAL
  | TOKEN_IDENTIFIER | TOKEN_STRING | TOKEN_NUMBER
  | TOKEN_AND | TOKEN_STRUCT | TOKEN_ELSE | TOKEN_FALSE
  | TOKEN_FOR | TOKEN_FUN | TOKEN_IF | TOKEN_NULL | TOKEN_OR
  | TOKEN_PRINT | TOKEN_PRINTLN | TOKEN_RETURN | TOKEN_SUPER | TOKEN_THIS
  | TOKEN_TRUE | TOKEN_VAR | TOKEN_WHILE | TOKEN_IMPORT
  | TOKEN_ERROR | TOKEN_EOF | TOKEN_NEWLINE
  deriving DecidableEq, Repr

open TokenType

/-- The bytes of a string literal of the C source (ASCII). -/
def cstr (s : String) : List Nat := s.data.map Char.toNat

/-- A token: `start` is the pointer to its first byte (the text from there on),
`length` the number of bytes of the lexeme. -/
structure Token where
  type : TokenType
  start : List Nat
  length : Nat
  line : Nat
  deriving DecidableEq, Repr

/-- The lexeme of a token: `length` bytes from `start`. -/
def Token.lexeme (t : Token) : List Nat := t.start.take t.length

/-- The scanner: `start` and `current` point into the source. -/
structure Scanner where
  start : List Nat
  current : List Nat
  line : Nat
  deriving DecidableEq, Repr

namespace Scan

def initScanner (source : List Nat) : Scanner :=
  { start := source, current := source, line := 1 }

def isAlpha (c : Nat) : Bool :=
  (c ≥ 97 && c ≤ 122) || (c ≥ 65 && c ≤ 90) || c == 95

def isDigit (c : Nat) : Bool := c ≥ 48 && c ≤ 57

def peek (sc : Scanner) : Nat := sc.current.headD 0

def isAtEnd (sc : Scanner) : Bool := peek sc == 0

def peekNext (sc : Scanner) : Nat := (sc.current.drop 1).headD 0

/-- The step `scanner.current++`; the byte stepped over is read with `peek` beforehand. -/
def advance (sc : Scanner) : Scanner := { sc with current := sc.current.drop 1 }

/-- Scanner-level `match`: the flag and the scanner after it. -/
def match_ (expected : Nat) (sc : Scanner) : Bool × Scanner :=
  if isAtEnd sc then (false, sc)
  else if peek sc != expected then (false, sc)
  else (true, advance sc)

/-- The difference `scanner.current - scanner.start`. -/
def width (sc : Scanner) : Nat := sc.start.length - sc.current.length

def makeToken (type : TokenType) (sc : Scanner) : Token :=
  { type := type, start := sc.start, length := width sc, line := sc.line }

def errorToken (message : String) (sc : Scanner) : Token :=
  { type := TOKEN_ERROR, start := cstr message, length := (cstr message).length,
    line := sc.line }

/-- The loop `while (peek() != '\n' && !isAtEnd()) advance();` of a comment. -/
def skipComment : List Nat → List Nat
  | [] => []
  | c :: cs => if c != 10 && c != 0 then skipComment cs else c :: cs

/-- The `for (;;)` loop of `skipWhitespace`; every turn but the last steps over
at least one byte, so `current.length + 1` turns are enough. -/
def skipWhitespaceLoop : Nat → Scanner → Scanner
  | 0, sc => sc
  | fuel + 1, sc =>
    let c := peek sc
    if c == 32 || c == 13 || c == 9 then
      skipWhitespaceLoop fuel (advance sc)
    else if c == 10 then
      skipWhitespaceLoop fuel (advance { sc with line := sc.line + 1 })
    else if c == 35 then
      skipWhitespaceLoop fuel { sc with current := skipComment sc.current }
    else sc

def skipWhitespace (sc : Scanner) : Scanner :=
  skipWhitespaceLoop (sc.current.length + 1) sc

/-- The test `memcmp(scanner.start + start, rest, length) == 0`. -/
def memcmpStart (sc : Scanner) (start length : Nat) (rest : String) : Bool :=
  (sc.start.drop start).take length == (cstr rest).take length

def checkKeyword (sc : Scanner) (start length : Nat) (rest : String)
    (type : TokenType) : TokenType :=
  if width sc == start + length && memcmpStart sc start length rest then type
  else TOKEN_IDENTIFIER

/-- The byte `scanner.start[i]`. -/
def startAt (sc : Scanner) (i : Nat) : Nat := (sc.start.drop i).headD 0

def identifierType (sc : Scanner) : TokenType :=
  let c0 := startAt sc 0
  let c1 := startAt sc 1
  if c0 == 97 then checkKeyword sc 1 2 "nd" TOKEN_AND
  else if c0 == 100 then checkKeyword sc 1 2 "ef" TOKEN_FUN
  else if c0 == 101 then checkKeyword sc 1 3 "lse" TOKEN_ELSE
  else if c0 == 102 then
    if width sc > 1 then
      if c1 == 97 then checkKeyword sc 2 3 "lse" TOKEN_FALSE
      else if c1 == 111 then checkKeyword sc 2 1 "r" TOKEN_FOR
      else TOKEN_IDENTIFIER
    else TOKEN_IDENTIFIER
  else if c0 == 105 then
    if width sc > 1 then
      if c1 == 102 then checkKeyword sc 2 0 "" TOKEN_IF
      else if c1 == 109 then checkKeyword sc 2 4 "port" TOKEN_IMPORT
      else TOKEN_IDENTIFIER
    else TOKEN_IDENTIFIER
  else if c0 == 110 then checkKeyword sc 1 3 "ull" TOKEN_NULL
  else if c0 == 111 then checkKeyword sc 1 1 "r" TOKEN_OR
  else if c0 == 112 then
    if width sc ≥ 5 && memcmpStart sc 1 4 "rint" then
      if width sc == 5 then TOKEN_PRINT
      else if width sc == 7 && memcmpStart sc 5 2 "ln" then TOKEN_PRINTLN
      else TOKEN_IDENTIFIER
    else TOKEN_IDENTIFIER
  else if c0 == 114 then checkKeyword sc 1 5 "eturn" TOKEN_RETURN
  else if c0 == 115 then
    if width sc > 1 then
      if c1 == 117 then checkKeyword sc 2 3 "per" TOKEN_SUPER
      else if c1 == 101 then checkKeyword sc 2 2 "lf" TOKEN_THIS
      else if c1 == 116 then checkKeyword sc 2 4 "ruct" TOKEN_STRUCT
      else TOKEN_IDENTIFIER
    else TOKEN_IDENTIFIER
  else if c0 == 116 then
    if width sc > 1 then
      if c1 == 114 then checkKeyword sc 2 2 "ue" TOKEN_TRUE
      else TOKEN_IDENTIFIER
    else TOKEN_IDENTIFIER
  else if c0 == 118 then checkKeyword sc 1 2 "ar" TOKEN_VAR
  else if c0 == 119 then checkKeyword sc 1 4 "hile" TOKEN_WHILE
  else TOKEN_IDENTIFIER

/-- The loop `while (isAlpha(peek()) || isDigit(peek())) advance();`. -/
def identifierLoop : List Nat → List Nat
  | [] => []
  | c :: cs => if isAlpha c || isDigit c then identifierLoop cs else c :: cs

def identifier (sc : Scanner) : Token × Scanner :=
  let sc := { sc with current := identifierLoop sc.current }
  (makeToken (identifierType sc) sc, sc)

/-- The loop `while (isDigit(peek())) advance();`. -/
def digitLoop : List Nat → List Nat
  | [] => []
  | c :: cs => if isDigit c then digitLoop cs else c :: cs

def number (sc : Scanner) : Token × Scanner :=
  let sc := { sc with current := digitLoop sc.current }
  let sc :=
    if peek sc == 46 && isDigit (peekNext sc) then
      let sc := advance sc
      { sc with current := digitLoop sc.current }
    else sc
  (makeToken TOKEN_NUMBER sc, sc)

/-- The loop of `string`: up to the closing quote or the terminator, counting
newlines. -/
def stringLoop : List Nat → Nat → List Nat × Nat
  | [], line => ([], line)
  | c :: cs, line =>
    if c != 34 && c != 0 then stringLoop cs (if c == 10 then line + 1 else line)
    else (c :: cs, line)

def string (sc : Scanner) : Token × Scanner :=
  let r := stringLoop sc.current sc.line
  let sc := { sc with current := r.1, line := r.2 }
  if isAtEnd sc then (errorToken "Unterminated string." sc, sc)
  else
    let sc := advance sc
    (makeToken TOKEN_STRING sc, sc)

/-- Tokens of one byte, `none` for a byte that starts none. -/
def punctuator (c : Nat) : Option TokenType :=
  if c == 40 then some TOKEN_LEFT_PAREN
  else if c == 58 then some TOKEN_COLON
  else if c == 41 then some TOKEN_RIGHT_PAREN
  else if c == 123 then some TOKEN_LEFT_BRACE
  else if c == 125 then some TOKEN_RIGHT_BRACE
  else if c == 59 then some TOKEN_SEMICOLON
  else if c == 44 then some TOKEN_COMMA
  else if c == 46 then some TOKEN_DOT
  else if c == 45 then some TOKEN_MINUS
  else if c == 43 then some TOKEN_PLUS
  else if c == 47 then some TOKEN_SLASH
  else if c == 42 then some TOKEN_STAR
  else if c == 37 then some TOKEN_MOD
  else if c == 91 then some TOKEN_LEFT_BRACKET
  else if c == 93 then some TOKEN_RIGHT_BRACKET
  else none

/-- One-character lookahead for `!=`, `==`, `>=`, `<=`. -/
def twoChar (sc : Scanner) (yes no : TokenType) : Token × Scanner :=
  let r := match_ 61 sc
  (makeToken (if r.1 then yes else no) r.2, r.2)

def scanToken (sc : Scanner) : Token × Scanner :=
  let sc := skipWhitespace sc
  let sc : Scanner := { start := sc.current, current := sc.current, line := sc.line }
  if isAtEnd sc then (makeToken TOKEN_EOF sc, sc)
  else
    let c := peek sc
    let sc := advance sc
    if isAlpha c then identifier sc
    else if isDigit c then number sc
    else
      match punctuator c with
      | some t => (makeToken t sc, sc)
      | none =>
        if c == 33 then twoChar sc TOKEN_BANG_EQUAL TOKEN_BANG
        else if c == 61 then twoChar sc TOKEN_EQUAL_EQUAL TOKEN_EQUAL
        else if c == 62 then twoChar sc TOKEN_GREATER_EQUAL TOKEN_GREATER
        else if c == 60 then twoChar sc TOKEN_LESS_EQUAL TOKEN_LESS
        else if c == 34 then string sc
        else (errorToken "Unexpected character." sc, sc)

end Scan

/-! ## Chunks, values and heap objects (chunk.h, value.h, object.h) -/

/-- Modelled from the spec: the `OpCode` enum of `chunk.h` (missing from the
sources); the instruction names are the ones `compiler.c` emits. -/
inductive OpCode
  | OP_CONSTANT | OP_NULL | OP_TRUE | OP_FALSE | OP_POP
  | OP_GET_LOCAL | OP_SET_LOCAL
  | OP_GET_GLOBAL | OP_DEFINE_GLOBAL | OP_SET_GLOBAL
  | OP_GET_UPVALUE | OP_SET_UPVALUE
  | OP_GET_PROPERTY | OP_SET_PROPERTY | OP_GET_SUPER
  | OP_EQUAL | OP_GREATER | OP_LESS
  | OP_ADD | OP_SUBTRACT | OP_MULTIPLY | OP_DIVIDE | OP_MOD
  | OP_NOT | OP_NEGATE
  | OP_PRINT | OP_PRINTLN
  | OP_JUMP | OP_JUMP_IF_FALSE | OP_LOOP
  | OP_CALL | OP_INVOKE | OP_SUPER_INVOKE
  | OP_CLOSURE | OP_CLOSE_UPVALUE | OP_RETURN
  | OP_STRUCT | OP_INHERIT | OP_METHOD | OP_ADD_LIST
  deriving DecidableEq, Repr

open OpCode

/-- Modelled from the spec: a cell of a chunk's `uint8_t` code array.  The
numeric values of the opcodes are declared in `chunk.h` (missing), so a cell
is either an opcode or an operand byte. -/
inductive Byte
  | op (o : OpCode)
  | raw (n : Nat)
  deriving DecidableEq, Repr

/-- Modelled from the spec: the `Value` of `value.h` (missing), a tagged sum.
A number holds the text `strtod` read it from; a string object is identified
with its interned bytes; any other object is a heap pointer. -/
inductive Value
  | null
  | bool (b : Bool)
  | number (text : List Nat)
  | string (chars : List Nat)
  | obj (ptr : Nat)
  deriving DecidableEq, Repr

/-- Modelled from the spec: the `Chunk` of `chunk.h` (missing): code bytes, the
line of each, and the constant pool. -/
structure Chunk where
  code : List Byte
  lines : List Nat
  constants : List Value
  deriving DecidableEq, Repr

/-- Modelled from the spec: `initChunk` of `chunk.c` (missing): the empty chunk. -/
def initChunk : Chunk := { code := [], lines := [], constants := [] }

/-- Modelled from the spec: `writeChunk` of `chunk.c` (missing): appends one
byte and records the line that produced it. -/
def writeChunk (chunk : Chunk) (byte : Byte) (line : Nat) : Chunk :=
  { chunk with code := chunk.code ++ [byte], lines := chunk.lines ++ [line] }

/-- Modelled from the spec: `addConstant` of `chunk.c` (missing): appends the
value to the pool and returns its index. -/
def addConstant (chunk : Chunk) (value : Value) : Nat × Chunk :=
  (chunk.constants.length, { chunk with constants := chunk.constants ++ [value] })

structure ObjFunction where
  arity : Nat
  upvalueCount : Nat
  chunk : Chunk
  name : Option (List Nat)
  deriving DecidableEq, Repr

/-- The heap objects the compiler allocates. -/
inductive Obj
  | function (f : ObjFunction)
  | list (elements : List Value)
  deriving DecidableEq, Repr

/-! ## Compiler state (compiler.c) -/

abbrev Precedence := Nat

def PREC_NONE : Precedence := 0
def PREC_ASSIGNMENT : Precedence := 1
def PREC_OR : Precedence := 2
def PREC_AND : Precedence := 3
def PREC_EQUALITY : Precedence := 4
def PREC_COMPARISON : Precedence := 5
def PREC_TERM : Precedence := 6
def PREC_FACTOR : Precedence := 7
def PREC_UNARY : Precedence := 8
def PREC_CALL : Precedence := 9
def PREC_PRIMARY : Precedence := 10

/-- The parse functions a `ParseRule` can point to. -/
inductive ParseFn
  | grouping | call | dot | unary | binary | variable_ | string | number
  | and_ | literal | or_ | super_ | self | list
  deriving DecidableEq, Repr

structure ParseRule where
  prefixFn : Option ParseFn
  infixFn : Option ParseFn
  precedence : Precedence
  deriving DecidableEq, Repr

structure Parser where
  current : Token
  previous : Token
  hadError : Bool
  panicMode : Bool
  deriving DecidableEq, Repr

structure Local where
  name : Token
  depth : Int
  isCaptured : Bool
  deriving DecidableEq, Repr

structure Upvalue where
  index : Nat
  isLocal : Bool
  deriving DecidableEq, Repr

inductive FunctionType
  | TYPE_FUNCTION | TYPE_SCRIPT | TYPE_IMPORT | TYPE_METHOD | TYPE_INITIALIZER
  deriving DecidableEq, Repr

open FunctionType

/-- One `Compiler` record; `function` is the pointer to its `ObjFunction`.
`enclosing` is the rest of the list `State.compilers`.  The arrays `locals` and
`upvalues` hold the cells written so far. -/
structure Compiler where
  function : Nat
  type : FunctionType
  locals : List Local
  localCount : Nat
  upvalues : List Upvalue
  scopeDepth : Int
  deriving DecidableEq, Repr

structure StructCompiler where
  hasSuperstruct : Bool
  deriving DecidableEq, Repr

/-- Where `errorAt` says the error is. -/
inductive ErrorPlace
  | atEnd
  | nowhere
  | atLexeme (lexeme : List Nat)
  deriving DecidableEq, Repr

/-- One line written to `stderr`. -/
inductive Diag
  | error (line : Nat) (place : ErrorPlace) (message : List Nat) (moduleName : List Nat)
  | alreadyImported (line : Nat) (current : List Nat) (moduleName : List Nat)
  deriving DecidableEq, Repr

/-- The process-wide state the compiler works on. -/
structure State where
  scanner : Scanner
  parser : Parser
  compilers : List Compiler
  structs : List StructCompiler
  currentModuleName : List Nat
  importedModules : List (List Nat)
  heap : List Obj
  stderr : List Diag
  deriving DecidableEq, Repr

/-- Ways a run ends without a result. -/
inductive Fault
  | outOfFuel
  | nullPointer
  deriving DecidableEq, Repr

abbrev Res (α : Type) := Except Fault α

/-- A token of static storage before anything is written to it. -/
def Token.zero : Token := { type := TOKEN_LEFT_PAREN, start := [], length := 0, line := 0 }

def Local.zero : Local := { name := Token.zero, depth := 0, isCaptured := false }

def Upvalue.zero : Upvalue := { index := 0, isLocal := false }

def Compiler.zero : Compiler :=
  { function := 0, type := TYPE_FUNCTION, locals := [], localCount := 0, upvalues := [],
    scopeDepth := 0 }

def ObjFunction.zero : ObjFunction :=
  { arity := 0, upvalueCount := 0, chunk := initChunk, name := none }

/-- The state of a process that has compiled nothing yet. -/
def State.initial : State :=
  { scanner := { start := [], current := [], line := 0 },
    parser := { current := Token.zero, previous := Token.zero, hadError := false,
                panicMode := false },
    compilers := [], structs := [], currentModuleName := [], importedModules := [],
    heap := [], stderr := [] }

/-- The array store `a[i] = x`; cells never written before are filled with `d`. -/
def store {α : Type} (a : List α) (i : Nat) (x d : α) : List α :=
  if i < a.length then a.set i x else a ++ List.replicate (i - a.length) d ++ [x]

/-- The compiler `k` links up the `enclosing` chain from `current`. -/
def State.compilerAt (s : State) (k : Nat) : Compiler := s.compilers.getD k Compiler.zero

/-- The compiler `current` points to. -/
def State.cur (s : State) : Compiler := s.compilerAt 0

def State.setCompilerAt (s : State) (k : Nat) (c : Compiler) : State :=
  { s with compilers := s.compilers.set k c }

def State.setCur (s : State) (c : Compiler) : State := s.setCompilerAt 0 c

/-- The function object behind a pointer. -/
def State.functionAt (s : State) (ptr : Nat) : ObjFunction :=
  match s.heap.getD ptr (Obj.list []) with
  | Obj.function f => f
  | Obj.list _ => ObjFunction.zero

def State.setFunctionAt (s : State) (ptr : Nat) (f : ObjFunction) : State :=
  { s with heap := s.heap.set ptr (Obj.function f) }

/-- The function `current->function`. -/
def State.curFunction (s : State) : ObjFunction := s.functionAt s.cur.function

/-- The chunk `currentChunk()` returns. -/
def currentChunk (s : State) : Chunk := s.curFunction.chunk

def setCurrentChunk (s : State) (chunk : Chunk) : State :=
  s.setFunctionAt s.cur.function { s.curFunction with chunk := chunk }

/-- Allocation of a heap object: the pointer and the new state. -/
def allocateObject (o : Obj) (s : State) : Nat × State :=
  (s.heap.length, { s with heap := s.heap ++ [o] })

def newFunction (s : State) : Nat × State := allocateObject (Obj.function ObjFunction.zero) s

def newList (s : State) : Nat × State := allocateObject (Obj.list []) s

/-- The interned string `copyString(characters, length)` returns. -/
def copyString (characters : List Nat) (length : Nat) : List Nat := characters.take length

/-! ### Errors and token handling -/

def errorPlace (token : Token) : ErrorPlace :=
  if token.type = TOKEN_EOF then ErrorPlace.atEnd
  else if token.type = TOKEN_ERROR then ErrorPlace.nowhere
  else ErrorPlace.atLexeme token.lexeme

def errorAt (token : Token) (message : List Nat) (s : State) : State :=
  if s.parser.panicMode then s
  else
    { s with
      parser := { s.parser with panicMode := true, hadError := true },
      stderr := s.stderr ++
        [Diag.error token.line (errorPlace token) message s.currentModuleName] }

def importError (token : Token) (moduleName : List Nat) (s : State) : State :=
  if s.parser.panicMode then s
  else
    { s with
      parser := { s.parser with panicMode := true, hadError := true },
      stderr := s.stderr ++
        [Diag.alreadyImported token.line s.currentModuleName moduleName] }

def errorAtCurrent (message : List Nat) (s : State) : State :=
  errorAt s.parser.current message s

def error (message : String) (s : State) : State :=
  errorAt s.parser.current (cstr message) s

/-- The loop of `advance`: scan until a token that is not an error token.  Every
error token steps over at least one byte, so `current.length + 1` turns are
enough. -/
def advanceLoop : Nat → State → State
  | 0, s => s
  | fuel + 1, s =>
    let r := Scan.scanToken s.scanner
    let s := { s with scanner := r.2, parser := { s.parser with current := r.1 } }
    if s.parser.current.type ≠ TOKEN_ERROR then s
    else advanceLoop fuel (errorAtCurrent s.parser.current.start s)

def advance (s : State) : State :=
  advanceLoop (s.scanner.current.length + 1)
    { s with
      parser :=
        { current := s.parser.current, previous := s.parser.current,
          hadError := s.parser.hadError, panicMode := s.parser.panicMode } }

def consume (type : TokenType) (message : String) (s : State) : State :=
  if s.parser.current.type = type then advance s
  else errorAtCurrent (cstr message) s

def check (type : TokenType) (s : State) : Bool := s.parser.current.type = type

/-- Parser-level `match`: the flag and the state after it. -/
def match_ (type : TokenType) (s : State) : Bool × State :=
  if !check type s then (false, s) else (true, advance s)

/-! ### Emission -/

def emitByte (byte : Byte) (s : State) : State :=
  setCurrentChunk s (writeChunk (currentChunk s) byte s.parser.previous.line)

def emitBytes (byte1 byte2 : Byte) (s : State) : State :=
  emitByte byte2 (emitByte byte1 s)

def UINT16_MAX : Nat := 65535
def UINT8_MAX : Nat := 255
def UINT8_COUNT : Nat := 256

def emitLoop (loopStart : Nat) (s : State) : State :=
  let s := emitByte (Byte.op OP_LOOP) s
  let offset := (currentChunk s).code.length - loopStart + 2
  let s := if offset > UINT16_MAX then error "Loop body too large." s else s
  let s := emitByte (Byte.raw ((offset / 256) % 256)) s
  emitByte (Byte.raw (offset % 256)) s

def emitJump (instruction : OpCode) (s : State) : Nat × State :=
  let s := emitByte (Byte.op instruction) s
  let s := emitByte (Byte.raw 255) s
  let s := emitByte (Byte.raw 255) s
  ((currentChunk s).code.length - 2, s)

def emitReturn (s : State) : State :=
  let s :=
    if s.cur.type = TYPE_INITIALIZER then emitBytes (Byte.op OP_GET_LOCAL) (Byte.raw 0) s
    else emitByte (Byte.op OP_NULL) s
  emitByte (Byte.op OP_RETURN) s

def makeConstant (value : Value) (s : State) : Nat × State :=
  let r := addConstant (currentChunk s) value
  let s := setCurrentChunk s r.2
  if r.1 > UINT8_MAX then (0, error "Too many constant in one chunk." s)
  else (r.1, s)

def emitConstant (value : Value) (s : State) : State :=
  let r := makeConstant value s
  emitBytes (Byte.op OP_CONSTANT) (Byte.raw r.1) r.2

def patchJump (offset : Nat) (s : State) : State :=
  let jump := (currentChunk s).code.length - offset - 2
  let s := if jump > UINT16_MAX then error "Too much code to jump over." s else s
  let chunk := currentChunk s
  let chunk := { chunk with code := chunk.code.set offset (Byte.raw ((jump / 256) % 256)) }
  let chunk := { chunk with code := chunk.code.set (offset + 1) (Byte.raw (jump % 256)) }
  setCurrentChunk s chunk

/-! ### Compilers and scopes -/

def initCompiler (type : FunctionType) (s : State) : State :=
  let r := if type = TYPE_IMPORT then (s.cur.function, s) else newFunction s
  let compiler : Compiler :=
    { function := r.1, type := type, locals := [], localCount := 0, upvalues := [],
      scopeDepth := 0 }
  let s := { r.2 with compilers := compiler :: r.2.compilers }
  let s :=
    if type ≠ TYPE_SCRIPT then
      s.setFunctionAt s.cur.function
        { s.curFunction with
          name := some (copyString s.parser.previous.start s.parser.previous.length) }
    else s
  let c := s.cur
  let name : Token :=
    if type ≠ TYPE_FUNCTION ∧ type ≠ TYPE_IMPORT then
      { Token.zero with start := cstr "self", length := 4 }
    else { Token.zero with start := cstr "", length := 0 }
  s.setCur
    { c with
      locals := store c.locals c.localCount { name := name, depth := 0, isCaptured := false }
        Local.zero,
      localCount := c.localCount + 1 }

/-- The function pointer `endCompiler` returns, and the state with `current`
moved to the enclosing compiler. -/
def endCompiler (s : State) : Nat × State :=
  let s := emitReturn s
  let function := s.cur.function
  (function, { s with compilers := s.compilers.drop 1 })

def beginScope (s : State) : State :=
  s.setCur { s.cur with scopeDepth := s.cur.scopeDepth + 1 }

/-- The cell `locals[i]` of a compiler. -/
def Compiler.localAt (c : Compiler) (i : Nat) : Local := c.locals.getD i Local.zero

/-- The cell `upvalues[i]` of a compiler. -/
def Compiler.upvalueAt (c : Compiler) (i : Nat) : Upvalue := c.upvalues.getD i Upvalue.zero

/-- The `while` loop of `endScope`; it runs at most `localCount` times. -/
def endScopeLoop : Nat → State → State
  | 0, s => s
  | fuel + 1, s =>
    let c := s.cur
    if c.localCount > 0 ∧ (c.localAt (c.localCount - 1)).depth > c.scopeDepth then
      let s := emitByte (Byte.op OP_POP) s
      let s :=
        if (s.cur.localAt (s.cur.localCount - 1)).isCaptured then
          emitByte (Byte.op OP_CLOSE_UPVALUE) s
        else emitByte (Byte.op OP_POP) s
      endScopeLoop fuel (s.setCur { s.cur with localCount := s.cur.localCount - 1 })
    else s

def endScope (s : State) : State :=
  let s := s.setCur { s.cur with scopeDepth := s.cur.scopeDepth - 1 }
  endScopeLoop s.cur.localCount s

def markInitialized (s : State) : State :=
  let c := s.cur
  if c.scopeDepth = 0 then s
  else
    s.setCur
      { c with
        locals := store c.locals (c.localCount - 1)
          { c.localAt (c.localCount - 1) with depth := c.scopeDepth } Local.zero }

def defineVariable (global : Nat) (s : State) : State :=
  if s.cur.scopeDepth > 0 then markInitialized s
  else emitBytes (Byte.op OP_DEFINE_GLOBAL) (Byte.raw global) s

def identifierConstant (name : Token) (s : State) : Nat × State :=
  makeConstant (Value.string (copyString name.start name.length)) s

def identifiersEqual (a b : Token) : Bool :=
  if a.length ≠ b.length then false
  else a.start.take a.length == b.start.take a.length

/-- The loop of `resolveLocal`, from cell `i - 1` down to cell `0`. -/
def resolveLocalLoop (compiler : Compiler) (name : Token) : Nat → State → Int × State
  | 0, s => (-1, s)
  | i + 1, s =>
    let local_ := compiler.localAt i
    if identifiersEqual name local_.name then
      ((i : Int),
        if local_.depth = -1 then
          error "Can't read local variable in its own initializer." s
        else s)
    else resolveLocalLoop compiler name i s

def resolveLocal (compiler : Compiler) (name : Token) (s : State) : Int × State :=
  resolveLocalLoop compiler name compiler.localCount s

/-- The search loop of `addUpvalue` over the cells `i .. upvalueCount - 1`:
the first cell equal to the descriptor. -/
def findUpvalue (compiler : Compiler) (index : Nat) (isLocal : Bool) : Nat → Nat → Option Nat
  | 0, _ => none
  | k + 1, i =>
    let upvalue := compiler.upvalueAt i
    if upvalue.index = index ∧ upvalue.isLocal = isLocal then some i
    else findUpvalue compiler index isLocal k (i + 1)

/-- Adds a descriptor to compiler `k` of the chain (`0` is `current`). -/
def addUpvalue (k : Nat) (index : Nat) (isLocal : Bool) (s : State) : Int × State :=
  let compiler := s.compilerAt k
  let upvalueCount := (s.functionAt compiler.function).upvalueCount
  match findUpvalue compiler index isLocal upvalueCount 0 with
  | some i => ((i : Int), s)
  | none =>
    if upvalueCount = UINT8_COUNT then
      (0, error "Too many closure variables in function." s)
    else
      let s := s.setCompilerAt k
        { compiler with
          upvalues := store compiler.upvalues upvalueCount
            { index := index, isLocal := isLocal } Upvalue.zero }
      let f := s.functionAt compiler.function
      ((upvalueCount : Int),
        s.setFunctionAt compiler.function { f with upvalueCount := f.upvalueCount + 1 })

/-- The recursion of `resolveUpvalue` for compiler `k` of the chain; `d` is the
number of compilers that enclose it (`0` when `enclosing` is `NULL`). -/
def resolveUpvalueFrom (name : Token) : Nat → Nat → State → Int × State
  | 0, _, s => (-1, s)
  | d + 1, k, s =>
    let r := resolveLocal (s.compilerAt (k + 1)) name s
    if r.1 ≠ -1 then
      let s := r.2
      let enclosing := s.compilerAt (k + 1)
      let i := r.1.toNat
      let s := s.setCompilerAt (k + 1)
        { enclosing with
          locals := store enclosing.locals i { enclosing.localAt i with isCaptured := true }
            Local.zero }
      addUpvalue k (i % 256) true s
    else
      let u := resolveUpvalueFrom name d (k + 1) r.2
      if u.1 ≠ -1 then addUpvalue k (u.1.toNat % 256) false u.2
      else (-1, u.2)

def resolveUpvalue (k : Nat) (name : Token) (s : State) : Int × State :=
  resolveUpvalueFrom name (s.compilers.length - 1 - k) k s

def addLocal (name : Token) (s : State) : State :=
  let c := s.cur
  if c.localCount = UINT8_COUNT then error "Too many local variables in function." s
  else
    s.setCur
      { c with
        locals := store c.locals c.localCount { name := name, depth := -1, isCaptured := false }
          Local.zero,
        localCount := c.localCount + 1 }

/-- The loop of `declareVariable`, from cell `i - 1` down to cell `0`. -/
def declareVariableLoop (name : Token) : Nat → State → State
  | 0, s => s
  | i + 1, s =>
    let local_ := s.cur.localAt i
    if local_.depth ≠ -1 ∧ local_.depth < s.cur.scopeDepth then s
    else
      let s :=
        if identifiersEqual name local_.name then
          error "Already a variable with self name in self scope." s
        else s
      declareVariableLoop name i s

def declareVariable (s : State) : State :=
  if s.cur.scopeDepth = 0 then s
  else
    let name := s.parser.previous
    let s := declareVariableLoop name s.cur.localCount s
    addLocal name s

def parseVariable (errorMessage : String) (s : State) : Nat × State :=
  let s := consume TOKEN_IDENTIFIER errorMessage s
  let s := declareVariable s
  if s.cur.scopeDepth > 0 then (0, s)
  else identifierConstant s.parser.previous s

/-- A token made by `syntheticToken`: only `start` and `length` are set. -/
def syntheticToken (text : String) : Token :=
  { Token.zero with start := cstr text, length := (cstr text).length }

/-! ### Expressions

The parse functions call each other through `parsePrecedence`; each takes the
function `pp` to call for it, and `n`, the bound of its own loops. -/

def getRule (type : TokenType) : ParseRule :=
  match type with
  | TOKEN_LEFT_PAREN => ⟨some ParseFn.grouping, some ParseFn.call, PREC_CALL⟩
  | TOKEN_DOT => ⟨none, some ParseFn.dot, PREC_CALL⟩
  | TOKEN_MINUS => ⟨some ParseFn.unary, some ParseFn.binary, PREC_TERM⟩
  | TOKEN_PLUS => ⟨none, some ParseFn.binary, PREC_TERM⟩
  | TOKEN_SLASH => ⟨none, some ParseFn.binary, PREC_FACTOR⟩
  | TOKEN_STAR => ⟨none, some ParseFn.binary, PREC_FACTOR⟩
  | TOKEN_MOD => ⟨none, some ParseFn.binary, PREC_FACTOR⟩
  | TOKEN_BANG => ⟨some ParseFn.unary, none, PREC_NONE⟩
  | TOKEN_BANG_EQUAL => ⟨none, some ParseFn.binary, PREC_EQUALITY⟩
  | TOKEN_EQUAL_EQUAL => ⟨none, some ParseFn.binary, PREC_EQUALITY⟩
  | TOKEN_GREATER => ⟨none, some ParseFn.binary, PREC_COMPARISON⟩
  | TOKEN_GREATER_EQUAL => ⟨none, some ParseFn.binary, PREC_COMPARISON⟩
  | TOKEN_LESS => ⟨none, some ParseFn.binary, PREC_COMPARISON⟩
  | TOKEN_LESS_EQUAL => ⟨none, some ParseFn.binary, PREC_COMPARISON⟩
  | TOKEN_IDENTIFIER => ⟨some ParseFn.variable_, none, PREC_NONE⟩
  | TOKEN_STRING => ⟨some ParseFn.string, none, PREC_NONE⟩
  | TOKEN_NUMBER => ⟨some ParseFn.number, none, PREC_NONE⟩
  | TOKEN_AND => ⟨none, some ParseFn.and_, PREC_AND⟩
  | TOKEN_FALSE => ⟨some ParseFn.literal, none, PREC_NONE⟩
  | TOKEN_NULL => ⟨some ParseFn.literal, none, PREC_NONE⟩
  | TOKEN_OR => ⟨none, some ParseFn.or_, PREC_OR⟩
  | TOKEN_SUPER => ⟨some ParseFn.super_, none, PREC_NONE⟩
  | TOKEN_THIS => ⟨some ParseFn.self, none, PREC_NONE⟩
  | TOKEN_TRUE => ⟨some ParseFn.literal, none, PREC_NONE⟩
  | TOKEN_LEFT_BRACKET => ⟨some ParseFn.list, none, PREC_NONE⟩
  | _ => ⟨none, none, PREC_NONE⟩

def expression (pp : Precedence → State → Res State) (s : State) : Res State :=
  pp PREC_ASSIGNMENT s

/-- The `do ... while (match(TOKEN_COMMA))` loop of `argumentList`; `argCount`
is a `uint8_t`. -/
def argumentLoop (pp : Precedence → State → Res State) :
    Nat → Nat → State → Res (Nat × State)
  | 0, _, _ => Except.error Fault.outOfFuel
  | fuel + 1, argCount, s => do
    let s ← expression pp s
    let s := if argCount = 255 then error "Can't have more than 255 arguments." s else s
    let argCount := (argCount + 1) % 256
    let m := match_ TOKEN_COMMA s
    if m.1 then argumentLoop pp fuel argCount m.2 else pure (argCount, m.2)

def argumentList (pp : Precedence → State → Res State) (n : Nat) (s : State) :
    Res (Nat × State) := do
  let r ← (if !check TOKEN_RIGHT_PAREN s then argumentLoop pp n 0 s else pure (0, s))
  pure (r.1, consume TOKEN_RIGHT_PAREN "Expect ')' after arguments." r.2)

def and_ (pp : Precedence → State → Res State) (_canAssign : Bool) (s : State) :
    Res State := do
  let j := emitJump OP_JUMP_IF_FALSE s
  let s := emitByte (Byte.op OP_POP) j.2
  let s ← pp PREC_AND s
  pure (patchJump j.1 s)

def binary (pp : Precedence → State → Res State) (_canAssign : Bool) (s : State) :
    Res State := do
  let operatorType := s.parser.previous.type
  let rule := getRule operatorType
  let s ← pp (rule.precedence + 1) s
  match operatorType with
  | TOKEN_BANG_EQUAL => pure (emitBytes (Byte.op OP_EQUAL) (Byte.op OP_NOT) s)
  | TOKEN_EQUAL_EQUAL => pure (emitByte (Byte.op OP_EQUAL) s)
  | TOKEN_GREATER => pure (emitByte (Byte.op OP_GREATER) s)
  | TOKEN_GREATER_EQUAL => pure (emitBytes (Byte.op OP_LESS) (Byte.op OP_NOT) s)
  | TOKEN_LESS => pure (emitByte (Byte.op OP_LESS) s)
  | TOKEN_LESS_EQUAL => pure (emitBytes (Byte.op OP_GREATER) (Byte.op OP_NOT) s)
  | TOKEN_PLUS => pure (emitByte (Byte.op OP_ADD) s)
  | TOKEN_MINUS => pure (emitByte (Byte.op OP_SUBTRACT) s)
  | TOKEN_SLASH => pure (emitByte (Byte.op OP_DIVIDE) s)
  | TOKEN_STAR => pure (emitByte (Byte.op OP_MULTIPLY) s)
  | TOKEN_MOD => pure (emitByte (Byte.op OP_MOD) s)
  | _ => pure s

def call (pp : Precedence → State → Res State) (n : Nat) (_canAssign : Bool) (s : State) :
    Res State := do
  let r ← argumentList pp n s
  pure (emitBytes (Byte.op OP_CALL) (Byte.raw r.1) r.2)

def literal (_canAssign : Bool) (s : State) : State :=
  match s.parser.previous.type with
  | TOKEN_FALSE => emitByte (Byte.op OP_FALSE) s
  | TOKEN_TRUE => emitByte (Byte.op OP_TRUE) s
  | TOKEN_NULL => emitByte (Byte.op OP_NULL) s
  | _ => s

def grouping (pp : Precedence → State → Res State) (_canAssign : Bool) (s : State) :
    Res State := do
  let s ← expression pp s
  pure (consume TOKEN_RIGHT_PAREN "Expect ')' after expression." s)

/-- The constant is the double `strtod` reads at `parser.previous.start`. -/
def number (_canAssign : Bool) (s : State) : State :=
  emitConstant (Value.number s.parser.previous.start) s

def or_ (pp : Precedence → State → Res State) (_canAssign : Bool) (s : State) :
    Res State := do
  let elseJump := emitJump OP_JUMP_IF_FALSE s
  let endJump := emitJump OP_JUMP elseJump.2
  let s := patchJump elseJump.1 endJump.2
  let s := emitByte (Byte.op OP_POP) s
  let s ← pp PREC_OR s
  pure (patchJump endJump.1 s)

def string (_canAssign : Bool) (s : State) : State :=
  emitConstant
    (Value.string (copyString (s.parser.previous.start.drop 1) (s.parser.previous.length - 2))) s

/-- The first half of `namedVariable`: the get and set opcodes and the operand,
resolved in the order local, upvalue, global. -/
def resolveVariable (name : Token) (s : State) : (OpCode × OpCode × Nat) × State :=
  let r := resolveLocal s.cur name s
  if r.1 ≠ -1 then ((OP_GET_LOCAL, OP_SET_LOCAL, r.1.toNat), r.2)
  else
    let u := resolveUpvalue 0 name r.2
    if u.1 ≠ -1 then ((OP_GET_UPVALUE, OP_SET_UPVALUE, u.1.toNat), u.2)
    else
      let k := identifierConstant name u.2
      ((OP_GET_GLOBAL, OP_SET_GLOBAL, k.1), k.2)

def namedVariable (pp : Precedence → State → Res State) (name : Token) (canAssign : Bool)
    (s : State) : Res State := do
  let v := resolveVariable name s
  let getOp := v.1.1
  let setOp := v.1.2.1
  let arg := v.1.2.2
  let s := v.2
  if canAssign && check TOKEN_EQUAL s then
    let s := (match_ TOKEN_EQUAL s).2
    let s ← expression pp s
    pure (emitBytes (Byte.op setOp) (Byte.raw (arg % 256)) s)
  else
    pure (emitBytes (Byte.op getOp) (Byte.raw (arg % 256)) s)

def variable_ (pp : Precedence → State → Res State) (canAssign : Bool) (s : State) :
    Res State :=
  namedVariable pp s.parser.previous canAssign s

def super_ (pp : Precedence → State → Res State) (n : Nat) (_canAssign : Bool) (s : State) :
    Res State := do
  let s :=
    match s.structs with
    | [] => error "Can't use 'super' outside of struct." s
    | currentStruct :: _ =>
      if !currentStruct.hasSuperstruct then error "Can't use 'super' in leaf struct." s
      else s
  let s := consume TOKEN_DOT "Expect '.' after 'super'." s
  let s := consume TOKEN_IDENTIFIER "Expect superstruct method name." s
  let name := identifierConstant s.parser.previous s
  let s ← namedVariable pp (syntheticToken "self") false name.2
  let m := match_ TOKEN_LEFT_PAREN s
  if m.1 then
    let r ← argumentList pp n m.2
    let s ← namedVariable pp (syntheticToken "super") false r.2
    let s := emitBytes (Byte.op OP_SUPER_INVOKE) (Byte.raw name.1) s
    pure (emitByte (Byte.raw r.1) s)
  else
    let s ← namedVariable pp (syntheticToken "super") false m.2
    pure (emitBytes (Byte.op OP_GET_SUPER) (Byte.raw name.1) s)

def unary (pp : Precedence → State → Res State) (_canAssign : Bool) (s : State) :
    Res State := do
  let operatorType := s.parser.previous.type
  let s ← pp PREC_UNARY s
  match operatorType with
  | TOKEN_BANG => pure (emitByte (Byte.op OP_NOT) s)
  | TOKEN_MINUS => pure (emitByte (Byte.op OP_NEGATE) s)
  | _ => pure s

def dot (pp : Precedence → State → Res State) (n : Nat) (canAssign : Bool) (s : State) :
    Res State := do
  let s := consume TOKEN_IDENTIFIER "Expect properti name after '.'." s
  let name := identifierConstant s.parser.previous s
  let s := name.2
  if canAssign && check TOKEN_EQUAL s then
    let s := (match_ TOKEN_EQUAL s).2
    let s ← expression pp s
    pure (emitBytes (Byte.op OP_SET_PROPERTY) (Byte.raw name.1) s)
  else
    let m := match_ TOKEN_LEFT_PAREN s
    if m.1 then
      let r ← argumentList pp n m.2
      let s := emitBytes (Byte.op OP_INVOKE) (Byte.raw name.1) r.2
      pure (emitByte (Byte.raw r.1) s)
    else
      pure (emitBytes (Byte.op OP_GET_PROPERTY) (Byte.raw name.1) m.2)

def self (pp : Precedence → State → Res State) (_canAssign : Bool) (s : State) :
    Res State :=
  match s.structs with
  | [] => pure (error "Cannot use 'self' out of struct." s)
  | _ :: _ => variable_ pp false s

/-- The `do ... while (match(TOKEN_COMMA))` loop of `list`. -/
def listLoop (pp : Precedence → State → Res State) : Nat → Nat → State → Res State
  | 0, _, _ => Except.error Fault.outOfFuel
  | fuel + 1, length, s => do
    let r ←
      (if length < 255 then
        expression pp s >>= fun s => pure (length + 1, emitByte (Byte.op OP_ADD_LIST) s)
      else pure (length, error "Can't have more than 255 values in one list." s))
    let m := match_ TOKEN_COMMA r.2
    if m.1 then listLoop pp fuel r.1 m.2 else pure m.2

def list (pp : Precedence → State → Res State) (n : Nat) (_canAssign : Bool) (s : State) :
    Res State := do
  let l := newList s
  let s := l.2
  let s ←
    (if !check TOKEN_RIGHT_BRACKET s then
      listLoop pp n 0 s >>= fun s =>
        pure (consume TOKEN_RIGHT_BRACKET "Expect ']' at list values." s)
    else pure s)
  pure (emitConstant (Value.obj l.1) s)

/-- The call `fn(canAssign)` through a `ParseFn` pointer. -/
def applyRule (pp : Precedence → State → Res State) (n : Nat) (fn : ParseFn)
    (canAssign : Bool) (s : State) : Res State :=
  match fn with
  | ParseFn.grouping => grouping pp canAssign s
  | ParseFn.call => call pp n canAssign s
  | ParseFn.dot => dot pp n canAssign s
  | ParseFn.unary => unary pp canAssign s
  | ParseFn.binary => binary pp canAssign s
  | ParseFn.variable_ => variable_ pp canAssign s
  | ParseFn.string => pure (string canAssign s)
  | ParseFn.number => pure (number canAssign s)
  | ParseFn.and_ => and_ pp canAssign s
  | ParseFn.literal => pure (literal canAssign s)
  | ParseFn.or_ => or_ pp canAssign s
  | ParseFn.super_ => super_ pp n canAssign s
  | ParseFn.self => self pp canAssign s
  | ParseFn.list => list pp n canAssign s

/-- The `while (precedence <= getRule(parser.current.type)->precedence)` loop of
`parsePrecedence`. -/
def infixLoop (pp : Precedence → State → Res State) (n : Nat) (precedence : Precedence)
    (canAssign : Bool) : Nat → State → Res State
  | 0, _ => Except.error Fault.outOfFuel
  | fuel + 1, s =>
    if precedence ≤ (getRule s.parser.current.type).precedence then do
      let s := advance s
      match (getRule s.parser.previous.type).infixFn with
      | none => Except.error Fault.nullPointer
      | some infixRule =>
        let s ← applyRule pp n infixRule canAssign s
        infixLoop pp n precedence canAssign fuel s
    else pure s

/-- The parser `parsePrecedence`; the first argument bounds the depth of the
recursion and the length of the loops. -/
def parsePrecedence : Nat → Precedence → State → Res State
  | 0, _, _ => Except.error Fault.outOfFuel
  | n + 1, precedence, s =>
    let s := advance s
    match (getRule s.parser.previous.type).prefixFn with
    | none => pure (error "Expect expression." s)
    | some prefixRule => do
      let canAssign : Bool := precedence ≤ PREC_ASSIGNMENT
      let s ← applyRule (parsePrecedence n) n prefixRule canAssign s
      let s ← infixLoop (parsePrecedence n) n precedence canAssign n s
      if canAssign && check TOKEN_EQUAL s then
        pure (error "Invalid assignment target." (match_ TOKEN_EQUAL s).2)
      else pure s

/-! ### Declarations and statements

`decl` and `stmt` are the functions to call for `declaration()` and
`statement()`; `n` bounds the loops and the expressions. -/

/-- The loop `while (!check(TOKEN_RIGHT_BRACE) && !check(TOKEN_EOF)) declaration();`
of `block`, and the `consume` after it. -/
def block (decl : State → Res State) : Nat → State → Res State
  | 0, _ => Except.error Fault.outOfFuel
  | fuel + 1, s =>
    if !check TOKEN_RIGHT_BRACE s && !check TOKEN_EOF s then do
      let s ← decl s
      block decl fuel s
    else pure (consume TOKEN_RIGHT_BRACE "Expect '\x7d' after block." s)

/-- The `do ... while (match(TOKEN_COMMA))` loop over the parameters in `function`. -/
def parameterLoop : Nat → State → Res State
  | 0, _ => Except.error Fault.outOfFuel
  | fuel + 1, s =>
    let f := s.curFunction
    let s := s.setFunctionAt s.cur.function { f with arity := f.arity + 1 }
    let s :=
      if s.curFunction.arity > 255 then
        errorAtCurrent (cstr "Can't have more than 255 parameters.") s
      else s
    let r := parseVariable "Expect parameter name." s
    let s := defineVariable r.1 r.2
    let m := match_ TOKEN_COMMA s
    if m.1 then parameterLoop fuel m.2 else pure m.2

/-- The loop of `function` that emits the pair of bytes of each upvalue,
cells `i .. i + k - 1` of the compiler just ended. -/
def emitUpvalues (compiler : Compiler) : Nat → Nat → State → State
  | 0, _, s => s
  | k + 1, i, s =>
    let s := emitByte (Byte.raw (if (compiler.upvalueAt i).isLocal then 1 else 0)) s
    let s := emitByte (Byte.raw (compiler.upvalueAt i).index) s
    emitUpvalues compiler k (i + 1) s

def function (decl : State → Res State) (n : Nat) (type : FunctionType) (s : State) :
    Res State := do
  let s := initCompiler type s
  let s := beginScope s
  let s := consume TOKEN_LEFT_PAREN "Expect '(' after function name." s
  let s ← (if !check TOKEN_RIGHT_PAREN s then parameterLoop n s else pure s)
  let s := consume TOKEN_RIGHT_PAREN "Expect ')' after function parameters." s
  let s := consume TOKEN_LEFT_BRACE "Expect '\x7b' before function body." s
  let s ← block decl n s
  let compiler := s.cur
  let r := endCompiler s
  let k := makeConstant (Value.obj r.1) r.2
  let s := emitBytes (Byte.op OP_CLOSURE) (Byte.raw k.1) k.2
  pure (emitUpvalues compiler (s.functionAt r.1).upvalueCount 0 s)

def method (decl : State → Res State) (n : Nat) (s : State) : Res State := do
  let s := consume TOKEN_FUN "Expect 'def' keyword to declare method." s
  let s := consume TOKEN_IDENTIFIER "Expect function name." s
  let constant := identifierConstant s.parser.previous s
  let s := constant.2
  let type :=
    if s.parser.previous.length = 4 ∧ s.parser.previous.start.take 4 = cstr "init" then
      TYPE_INITIALIZER
    else TYPE_METHOD
  let s ← function decl n type s
  pure (emitBytes (Byte.op OP_METHOD) (Byte.raw constant.1) s)

def funDeclaration (decl : State → Res State) (n : Nat) (s : State) : Res State := do
  let global := parseVariable "Expect function name." s
  let s := markInitialized global.2
  let s ← function decl n TYPE_FUNCTION s
  pure (defineVariable global.1 s)

def varDeclaration (n : Nat) (s : State) : Res State := do
  let global := parseVariable "Expect variable name." s
  let m := match_ TOKEN_EQUAL global.2
  let s ← (if m.1 then expression (parsePrecedence n) m.2
           else pure (emitByte (Byte.op OP_NULL) m.2))
  pure (defineVariable global.1 s)

/-- The loop `while (!check(TOKEN_RIGHT_BRACE) && !check(TOKEN_EOF)) method();`
of `structDeclaration`. -/
def methodLoop (decl : State → Res State) (n : Nat) : Nat → State → Res State
  | 0, _ => Except.error Fault.outOfFuel
  | fuel + 1, s =>
    if !check TOKEN_RIGHT_BRACE s && !check TOKEN_EOF s then do
      let s ← method decl n s
      methodLoop decl n fuel s
    else pure s

/-- The field `hasSuperstruct` of the struct compiler `currentStruct` points to. -/
def setHasSuperstruct (b : Bool) (s : State) : State :=
  { s with structs := s.structs.set 0 { hasSuperstruct := b } }

def structDeclaration (decl : State → Res State) (n : Nat) (s : State) : Res State := do
  let s :=
    if s.cur.scopeDepth > 0 then error "Cannot declare struct out of global scope." s else s
  let s := consume TOKEN_IDENTIFIER "Expect struct name." s
  let structName := s.parser.previous
  let nameConstant := identifierConstant s.parser.previous s
  let s := declareVariable nameConstant.2
  let s := emitBytes (Byte.op OP_STRUCT) (Byte.raw nameConstant.1) s
  let s := defineVariable nameConstant.1 s
  let s := { s with structs := { hasSuperstruct := false } :: s.structs }
  let m := match_ TOKEN_COLON s
  let s ←
    (if m.1 then
      variable_ (parsePrecedence n) false
          (consume TOKEN_IDENTIFIER "Expect superstruct name." m.2) >>= fun s =>
        let s :=
          if identifiersEqual structName s.parser.previous then
            error "A struct can't copy behavior from itself." s
          else s
        let s := beginScope s
        let s := addLocal (syntheticToken "super") s
        let s := defineVariable 0 s
        namedVariable (parsePrecedence n) structName false s >>= fun s =>
          let s := emitByte (Byte.op OP_INHERIT) s
          pure (setHasSuperstruct true s)
    else pure m.2)
  let s ← namedVariable (parsePrecedence n) structName false s
  let s ←
    (if check TOKEN_LEFT_BRACE s then
      methodLoop decl n n (consume TOKEN_LEFT_BRACE "Expect '\x7b' before struct body." s)
        >>= fun s => pure (consume TOKEN_RIGHT_BRACE "Expect '\x7d' after struct body." s)
    else pure (consume TOKEN_SEMICOLON "Expect ';' after empty struct declaration." s))
  let s := emitByte (Byte.op OP_POP) s
  let s := if (s.structs.headD { hasSuperstruct := false }).hasSuperstruct then endScope s else s
  pure { s with structs := s.structs.drop 1 }

def addImportedModule (moduleName : List Nat) (s : State) : State :=
  { s with importedModules := moduleName :: s.importedModules }

def isModuleImported (moduleName : List Nat) (s : State) : Bool :=
  s.importedModules.contains moduleName

/-- The buffer `readFile` returns: the bytes of the file `fs` holds at `path`
without a leading byte-order mark, `none` (a `NULL` pointer) when it cannot be
opened. -/
def readFile (fs : List Nat → Option (List Nat)) (path : List Nat) : Option (List Nat) :=
  match fs path with
  | none => none
  | some buffer =>
    if buffer.length ≥ 3 ∧ buffer.take 3 = [0xEF, 0xBB, 0xBF] then some (buffer.drop 3)
    else some buffer

/-- The loop `while (!match(TOKEN_EOF)) declaration();`. -/
def declarationLoop (decl : State → Res State) : Nat → State → Res State
  | 0, _ => Except.error Fault.outOfFuel
  | fuel + 1, s =>
    let m := match_ TOKEN_EOF s
    if m.1 then pure m.2
    else do
      let s ← decl m.2
      declarationLoop decl fuel s

/-- The message of `importModule` for an import below the top level. -/
def importScopeMessage (type : FunctionType) : String :=
  match type with
  | TYPE_METHOD => "Cannot import modules inside a method."
  | TYPE_INITIALIZER => "Cannot import modules inside struct initializer."
  | TYPE_FUNCTION => "Cannot import modules inside function."
  | TYPE_IMPORT => "Cannot import modules inside statement."
  | TYPE_SCRIPT => "Cannot import modules inside statement."

def importModule (fs : List Nat → Option (List Nat)) (decl : State → Res State) (n : Nat)
    (line : Token) (name : List Nat) (length : Nat) (s : State) : Res State :=
  if s.cur.scopeDepth > 0 then
    pure (errorAt line (cstr (importScopeMessage s.cur.type)) s)
  else
    let quoted : Bool :=
      length > 1 ∧ name.headD 0 = 34 ∧ (name.drop (length - 1)).headD 0 = 34
    let start := if quoted then 1 else 0
    let end_ := if quoted then length - 1 else length
    let fileName := (name.drop start).take (end_ - start) ++ cstr ".luna"
    if isModuleImported fileName s then pure (importError line fileName s)
    else
      let s := addImportedModule fileName s
      let previousModuleName := s.currentModuleName
      let s := { s with currentModuleName := fileName }
      match readFile fs fileName with
      | none => Except.error Fault.nullPointer
      | some source => do
        let previousScanner := s.scanner
        let s := { s with scanner := Scan.initScanner source }
        let previousParser := s.parser
        let previousCompiler := s.compilers.length
        let s := initCompiler TYPE_IMPORT s
        let s := advance s
        let s ← declarationLoop decl n s
        pure
          { s with
            parser := previousParser,
            compilers := s.compilers.drop (s.compilers.length - previousCompiler),
            scanner := previousScanner,
            currentModuleName := previousModuleName }

def importDeclaration (fs : List Nat → Option (List Nat)) (decl : State → Res State)
    (n : Nat) (s : State) : Res State :=
  let s := consume TOKEN_STRING "Expect module name." s
  let moduleName := s.parser.previous
  importModule fs decl n moduleName (moduleName.start.drop 1) (moduleName.length - 2) s

def expressionStatement (n : Nat) (s : State) : Res State := do
  let s ← expression (parsePrecedence n) s
  pure (emitByte (Byte.op OP_POP) s)

def forStatement (stmt : State → Res State) (n : Nat) (s : State) : Res State := do
  let s := beginScope s
  let s := consume TOKEN_LEFT_PAREN "Expect '(' after 'for'." s
  let m := match_ TOKEN_SEMICOLON s
  let s ←
    (if m.1 then pure m.2
    else if (match_ TOKEN_VAR m.2).1 then
      varDeclaration n (match_ TOKEN_VAR m.2).2 >>= fun s =>
        pure (consume TOKEN_SEMICOLON "Expect ';' after 'for' var declaration." s)
    else
      expressionStatement n (match_ TOKEN_VAR m.2).2 >>= fun s =>
        pure (consume TOKEN_SEMICOLON "Expect ';' after 'for' expression clause." s))
  let loopStart := (currentChunk s).code.length
  let m := match_ TOKEN_SEMICOLON s
  let r ←
    (if !m.1 then
      expression (parsePrecedence n) m.2 >>= fun s =>
        let s := consume TOKEN_SEMICOLON "Expect ';' after loop condition." s
        let j := emitJump OP_JUMP_IF_FALSE s
        pure (some j.1, emitByte (Byte.op OP_POP) j.2)
    else pure (none, m.2))
  let exitJump : Option Nat := r.1
  let m := match_ TOKEN_RIGHT_PAREN r.2
  let r ←
    (if !m.1 then
      let bodyJump := emitJump OP_JUMP m.2
      let incrementStart := (currentChunk bodyJump.2).code.length
      expression (parsePrecedence n) bodyJump.2 >>= fun s =>
        let s := emitByte (Byte.op OP_POP) s
        let s := consume TOKEN_RIGHT_PAREN "Expect ')' after 'for' clauses." s
        let s := emitLoop loopStart s
        pure (incrementStart, patchJump bodyJump.1 s)
    else pure (loopStart, m.2))
  let loopStart := r.1
  let s ← stmt r.2
  let s := emitLoop loopStart s
  let s :=
    match exitJump with
    | some j => emitByte (Byte.op OP_POP) (patchJump j s)
    | none => s
  pure (endScope s)

def ifStatement (stmt : State → Res State) (n : Nat) (s : State) : Res State := do
  let s := consume TOKEN_LEFT_PAREN "Expect '(' after 'if'." s
  let s ← expression (parsePrecedence n) s
  let s := consume TOKEN_RIGHT_PAREN "Expect ')' after condition." s
  let thenJump := emitJump OP_JUMP_IF_FALSE s
  let s := emitByte (Byte.op OP_POP) thenJump.2
  let s ← stmt s
  let elseJump := emitJump OP_JUMP s
  let s := patchJump thenJump.1 elseJump.2
  let s := emitByte (Byte.op OP_POP) s
  let m := match_ TOKEN_ELSE s
  let s ← (if m.1 then stmt m.2 else pure m.2)
  pure (patchJump elseJump.1 s)

def printStatement (n : Nat) (s : State) : Res State := do
  let s ← expression (parsePrecedence n) s
  pure (emitByte (Byte.op OP_PRINT) s)

def printlnStatement (n : Nat) (s : State) : Res State := do
  let s ← expression (parsePrecedence n) s
  pure (emitByte (Byte.op OP_PRINTLN) s)

def returnStatement (n : Nat) (s : State) : Res State := do
  let s :=
    if s.cur.type = TYPE_SCRIPT then error "Can't return from top level code." s else s
  let m := match_ TOKEN_SEMICOLON s
  if m.1 then pure (emitReturn m.2)
  else
    let s :=
      if m.2.cur.type = TYPE_INITIALIZER then
        error "Cannot return a value from initializer." m.2
      else m.2
    let s ← expression (parsePrecedence n) s
    pure (emitByte (Byte.op OP_RETURN) s)

def whileStatement (stmt : State → Res State) (n : Nat) (s : State) : Res State := do
  let loopStart := (currentChunk s).code.length
  let s := consume TOKEN_LEFT_PAREN "Expect '(' after 'while'." s
  let s ← expression (parsePrecedence n) s
  let s := consume TOKEN_RIGHT_PAREN "Expect ')' after condition." s
  let exitJump := emitJump OP_JUMP_IF_FALSE s
  let s := emitByte (Byte.op OP_POP) exitJump.2
  let s ← stmt s
  let s := emitLoop loopStart s
  let s := patchJump exitJump.1 s
  pure (emitByte (Byte.op OP_POP) s)

/-- The tokens at which `synchronize` stops. -/
def startsStatement (type : TokenType) : Bool :=
  match type with
  | TOKEN_STRUCT | TOKEN_FUN | TOKEN_VAR | TOKEN_FOR | TOKEN_IF | TOKEN_WHILE
  | TOKEN_PRINT | TOKEN_RETURN => true
  | _ => false

/-- The loop of `synchronize`; every turn steps over one token, and a token
that is not end-of-file has at least one byte. -/
def synchronizeLoop : Nat → State → State
  | 0, s => s
  | fuel + 1, s =>
    if s.parser.current.type ≠ TOKEN_EOF then
      if s.parser.previous.type = TOKEN_SEMICOLON then s
      else if startsStatement s.parser.current.type then s
      else synchronizeLoop fuel (advance s)
    else s

def synchronize (s : State) : State :=
  synchronizeLoop (s.scanner.current.length + 2)
    { s with parser := { s.parser with panicMode := false } }

/-- The body of `declaration`. -/
def declarationBody (fs : List Nat → Option (List Nat)) (decl stmt : State → Res State)
    (n : Nat) (s : State) : Res State := do
  let m := match_ TOKEN_SEMICOLON s
  let s ←
    (if m.1 then pure (error "Unexpected token ';'." m.2)
    else if (match_ TOKEN_IMPORT m.2).1 then
      importDeclaration fs decl n (match_ TOKEN_IMPORT m.2).2
    else if (match_ TOKEN_STRUCT m.2).1 then structDeclaration decl n (match_ TOKEN_STRUCT m.2).2
    else if (match_ TOKEN_FUN m.2).1 then funDeclaration decl n (match_ TOKEN_FUN m.2).2
    else if (match_ TOKEN_VAR m.2).1 then varDeclaration n (match_ TOKEN_VAR m.2).2
    else stmt m.2)
  pure (if s.parser.panicMode then synchronize s else s)

/-- The body of `statement`. -/
def statementBody (decl stmt : State → Res State) (n : Nat) (s : State) : Res State :=
  let m := match_ TOKEN_SEMICOLON s
  let s := if m.1 then error "Unexpected token ';'." m.2 else m.2
  let m := match_ TOKEN_PRINT s
  if m.1 then printStatement n m.2
  else
    let m := match_ TOKEN_PRINTLN m.2
    if m.1 then printlnStatement n m.2
    else
      let m := match_ TOKEN_IF m.2
      if m.1 then ifStatement stmt n m.2
      else
        let m := match_ TOKEN_RETURN m.2
        if m.1 then returnStatement n m.2
        else
          let m := match_ TOKEN_WHILE m.2
          if m.1 then whileStatement stmt n m.2
          else
            let m := match_ TOKEN_FOR m.2
            if m.1 then forStatement stmt n m.2
            else
              let m := match_ TOKEN_LEFT_BRACE m.2
              if m.1 then do
                let s := beginScope m.2
                let s ← block decl n s
                pure (endScope s)
              else expressionStatement n m.2

mutual

/-- The parser `declaration`; the fuel bounds the nesting of declarations and
statements, the length of the loops and the expressions. -/
def declaration (fs : List Nat → Option (List Nat)) : Nat → State → Res State
  | 0, _ => Except.error Fault.outOfFuel
  | n + 1, s => declarationBody fs (declaration fs n) (statement fs n) n s

/-- The parser `statement`. -/
def statement (fs : List Nat → Option (List Nat)) : Nat → State → Res State
  | 0, _ => Except.error Fault.outOfFuel
  | n + 1, s => statementBody (declaration fs n) (statement fs n) n s

end

/-- The entry point `compile(filename, source)` run in state `s` with the files
`fs`: the function pointer it returns (`none` for `NULL`) and the state it
leaves. -/
def compile (fs : List Nat → Option (List Nat)) (n : Nat) (filename source : List Nat)
    (s : State) : Res (Option Nat × State) := do
  let s := { s with currentModuleName := filename, scanner := Scan.initScanner source }
  let s := initCompiler TYPE_SCRIPT s
  let s := { s with parser := { s.parser with hadError := false, panicMode := false } }
  let s := advance s
  let s ← declarationLoop (declaration fs n) n s
  let r := endCompiler s
  pure (if r.2.parser.hadError then none else some r.1, r.2)

deriving instance DecidableEq for Except

/-! ## Observations used to state the properties -/

/-- The pointer `current->function` points to a function object. -/
def State.funOK (s : State) : Prop :=
  ∃ f, s.heap[s.cur.function]? = some (Obj.function f)

/-- The scanner yields, in this order, tokens of the given types, none of them
an error token. -/
def scansTypes : Scanner → List TokenType → Bool
  | _, [] => true
  | sc, t :: ts =>
    decide ((Scan.scanToken sc).1.type = t) && decide (t ≠ TOKEN_ERROR) &&
      scansTypes (Scan.scanToken sc).2 ts

/-- The token stream as the parser sees it: `parser.current` has the first
type, and the scanner yields the others. -/
def upcoming (s : State) : List TokenType → Bool
  | [] => true
  | t :: ts => decide (s.parser.current.type = t) && scansTypes s.scanner ts

/-- Whatever `x` returns, `y` returns. -/
def Below {α : Type} (x y : Res α) : Prop := ∀ r, x = Except.ok r → y = Except.ok r

/-- The parser `pp'` extends `pp`. -/
def PPBelow (pp pp' : Precedence → State → Res State) : Prop := ∀ p s, Below (pp p s) (pp' p s)

/-! ## Arithmetic expressions

The expressions of the precedence claim: number literals joined by the Term
operators `+ -` and the Factor operators `* / %`. -/

inductive FactorOp
  | star | slash | mod
  deriving DecidableEq, Repr

inductive TermOp
  | plus | minus
  deriving DecidableEq, Repr

def FactorOp.type : FactorOp → TokenType
  | FactorOp.star => TOKEN_STAR
  | FactorOp.slash => TOKEN_SLASH
  | FactorOp.mod => TOKEN_MOD

def FactorOp.opcode : FactorOp → OpCode
  | FactorOp.star => OP_MULTIPLY
  | FactorOp.slash => OP_DIVIDE
  | FactorOp.mod => OP_MOD

def TermOp.type : TermOp → TokenType
  | TermOp.plus => TOKEN_PLUS
  | TermOp.minus => TOKEN_MINUS

def TermOp.opcode : TermOp → OpCode
  | TermOp.plus => OP_ADD
  | TermOp.minus => OP_SUBTRACT

/-- A product `n0 op1 n1 ... opk nk`: a number literal, then one literal after
each of the listed Factor operators. -/
abbrev Product := List FactorOp

/-- The number of literals of a product. -/
def Product.size (p : Product) : Nat := p.length + 1

/-- The tokens of a product after its first literal. -/
def Product.tail : Product → List TokenType
  | [] => []
  | op :: ops => op.type :: TOKEN_NUMBER :: Product.tail ops

/-- The tokens of a product in source order. -/
def Product.tokens (p : Product) : List TokenType := TOKEN_NUMBER :: Product.tail p

/-- A sum `p0 op1 p1 ... opk pk` of products joined by Term operators. -/
structure Sum where
  first : Product
  rest : List (TermOp × Product)
  deriving DecidableEq, Repr

/-- The tokens of the products after the first, each with its Term operator. -/
def sumTail : List (TermOp × Product) → List TokenType
  | [] => []
  | x :: r => x.1.type :: (Product.tokens x.2 ++ sumTail r)

/-- The tokens of a sum in source order. -/
def Sum.tokens (e : Sum) : List TokenType := Product.tokens e.first ++ sumTail e.rest

/-- An expression tree; a leaf is the literal at position `i` of the source
(counted from 0), an inner node an operator with its two operands. -/
inductive Arith
  | lit (i : Nat)
  | bin (op : OpCode) (l r : Arith)
  deriving DecidableEq, Repr

/-- Left-associative reading of the rest of a product: `acc` is the tree read so
far and `i` the position of the next literal. -/
def Product.treeFrom (acc : Arith) (i : Nat) : Product → Arith
  | [] => acc
  | op :: ops => Product.treeFrom (Arith.bin op.opcode acc (Arith.lit i)) (i + 1) ops

/-- The tree of a product whose first literal is at position `i`. -/
def Product.tree (i : Nat) (p : Product) : Arith := Product.treeFrom (Arith.lit i) (i + 1) p

/-- Left-associative reading of the rest of a sum; each product is a subtree,
so Factor operators bind tighter than Term operators. -/
def sumTreeFrom (acc : Arith) (i : Nat) : List (TermOp × Product) → Arith
  | [] => acc
  | x :: r => sumTreeFrom (Arith.bin x.1.opcode acc (Product.tree i x.2)) (i + x.2.size) r

/-- The tree of a sum: Factor operators above Term operators, all of them
left-associative. -/
def Sum.tree (e : Sum) : Arith := sumTreeFrom (Product.tree 0 e.first) e.first.size e.rest

/-- The operand of the `Constant` instruction of a literal that finds `k`
constants in the pool. -/
def constantOperand (k : Nat) : Nat := if k > UINT8_MAX then 0 else k

/-- The two bytes of a literal that finds `k` constants in the pool. -/
def literalCode (k : Nat) : List Byte := [Byte.op OP_CONSTANT, Byte.raw (constantOperand k)]

/-- Postfix order of a tree, for a pool that holds `c` constants at the start:
the operands, then the operator. -/
def Arith.postorder (c : Nat) : Arith → List Byte
  | Arith.lit i => literalCode (c + i)
  | Arith.bin op l r => Arith.postorder c l ++ Arith.postorder c r ++ [Byte.op op]

/-- The code of the rest of a product, literal by literal. -/
def productTailCode (c : Nat) : Product → List Byte
  | [] => []
  | op :: ops => literalCode c ++ [Byte.op op.opcode] ++ productTailCode (c + 1) ops

/-- The code of a product, literal by literal. -/
def productCode (c : Nat) (p : Product) : List Byte := literalCode c ++ productTailCode (c + 1) p

/-- The code of the rest of a sum, product by product. -/
def sumTailCode (c : Nat) : List (TermOp × Product) → List Byte
  | [] => []
  | x :: r => productCode c x.2 ++ [Byte.op x.1.opcode] ++ sumTailCode (c + x.2.size) r

/-- The state `s'` is `s` with `code` appended to the current chunk and `k`
constants added to its pool. -/
structure Appended (s s' : State) (code : List Byte) (k : Nat) : Prop where
  compilers : s'.compilers = s.compilers
  funOK : s'.funOK
  code : (currentChunk s').code = (currentChunk s).code ++ code
  constants : (currentChunk s').constants.length = (currentChunk s).constants.length + k

/-- The number of literals of the products after the first. -/
def sumTailSize : List (TermOp × Product) → Nat
  | [] => 0
  | x :: r => x.2.size + sumTailSize r

/-- The number of literals of a sum. -/
def Sum.size (e : Sum) : Nat := e.first.size + sumTailSize e.rest

/-! ## Concrete inputs -/

/-- A file system without files. -/
def noFiles : List Nat → Option (List Nat) := fun _ => none

/-- A file system with the one module `m.luna`, whose text `print 1 +` lacks
an operand. -/
def brokenModuleFiles : List Nat → Option (List Nat) :=
  fun path => if path = cstr "m.luna" then some (cstr "print 1 +") else none

/-- The state in which `printStatement` calls `expression()` when the source is
`print 1 + 2 * 3`. -/
def arithmeticState : State :=
  advance (advance (initCompiler TYPE_SCRIPT
    { State.initial with scanner := Scan.initScanner (cstr "print 1 + 2 * 3") }))

/-- The sum `1 + 2 * 3`: the product `1`, then `+` and the product `2 * 3`. -/
def arithmeticSum : Sum := { first := [], rest := [(TermOp.plus, [FactorOp.star])] }

/-- The innermost local of `c` below slot `i` whose name equals `name`: the
slot `resolveLocal` looks for. -/
def findLocal (c : Compiler) (name : Token) : Nat → Option Nat
  | 0 => none
  | i + 1 => if identifiersEqual name (c.localAt i).name then some i else findLocal c name i

/-- The compiler `c` has a local named `name`. -/
def hasLocal (c : Compiler) (name : Token) : Bool := (findLocal c name c.localCount).isSome

/-- The message of `resolveLocal`. -/
def ownInitializerMessage : String := "Can't read local variable in its own initializer."

/-- The field `upvalueCount` of the function of compiler `k` of the chain. -/
def State.upvalueCountAt (s : State) (k : Nat) : Nat :=
  (s.functionAt (s.compilerAt k).function).upvalueCount

/-- Compiler `k` of the chain exists and its `function` points to a function
object. -/
def State.funOKAt (s : State) (k : Nat) : Prop :=
  k < s.compilers.length ∧ ∃ f, s.heap[(s.compilerAt k).function]? = some (Obj.function f)

/-- The message of `addUpvalue`. -/
def tooManyUpvaluesMessage : String := "Too many closure variables in function."

/-- Registering the descriptors of a list one after the other in compiler `k`:
the captures of one function, in the order they are met. -/
def addUpvalues (k : Nat) : List Upvalue → State → State
  | [], s => s
  | d :: ds, s => addUpvalues k ds (addUpvalue k d.index d.isLocal s).2

/-- The state `s'` has the compilers of `s` up to the capture flags of their
locals, their upvalue descriptors and the `upvalueCount` of their functions:
what resolving a name can change besides reporting an error. -/
structure SameFrames (s s' : State) : Prop where
  length : s'.compilers.length = s.compilers.length
  function : ∀ k, (s'.compilerAt k).function = (s.compilerAt k).function
  type : ∀ k, (s'.compilerAt k).type = (s.compilerAt k).type
  localCount : ∀ k, (s'.compilerAt k).localCount = (s.compilerAt k).localCount
  scopeDepth : ∀ k, (s'.compilerAt k).scopeDepth = (s.compilerAt k).scopeDepth
  name : ∀ k i, ((s'.compilerAt k).localAt i).name = ((s.compilerAt k).localAt i).name
  depth : ∀ k i, ((s'.compilerAt k).localAt i).depth = ((s.compilerAt k).localAt i).depth
  heapLength : s'.heap.length = s.heap.length
  isFunction : ∀ ptr : Nat, (∃ f, s.heap[ptr]? = some (Obj.function f)) →
    ∃ f, s'.heap[ptr]? = some (Obj.function f)
  chunk : ∀ ptr, (s'.functionAt ptr).chunk = (s.functionAt ptr).chunk
  scanner : s'.scanner = s.scanner
  current : s'.parser.current = s.parser.current
  previous : s'.parser.previous = s.parser.previous
  structs : s'.structs = s.structs

/-- The source of the closure example: `get` reads the local `x` of `mk`. -/
def closureSource : List Nat :=
  cstr "def mk() { var x = 10 def get() { return x } return get }"

/-- The identifier token `x`. -/
def tokenX : Token := { type := TOKEN_IDENTIFIER, start := cstr "x", length := 1, line := 1 }

/-- Compilers of a script, of a function in it that has declared the local `x`
(its slot 1), and of a function nested in that one, which is `current`. -/
def captureState : State :=
  initCompiler TYPE_FUNCTION
    (addLocal tokenX (initCompiler TYPE_FUNCTION (initCompiler TYPE_SCRIPT State.initial)))

/-- One more function nested inside `captureState`: its enclosing function
reaches `x` only as an upvalue. -/
def relayState : State := initCompiler TYPE_FUNCTION captureState

/-- The diagnostic `error(message)` prints in state `s`. -/
def errorDiag (message : String) (s : State) : Diag :=
  Diag.error s.parser.current.line (errorPlace s.parser.current) (cstr message)
    s.currentModuleName

/-- A function inside a script, with no upvalue yet. -/
def freshFunctionState : State := initCompiler TYPE_FUNCTION (initCompiler TYPE_SCRIPT State.initial)

/-- The 256 descriptors of captured locals of slots `0` to `255`. -/
def manyDescriptors : List Upvalue := (List.range 256).map fun i => ⟨i, true⟩

/-- A script inside a block that has declared and initialised the local `x`
(slot 1). -/
def localState : State :=
  markInitialized (addLocal tokenX (beginScope (initCompiler TYPE_SCRIPT State.initial)))

/-- The state `localState` with `= 2` as the text that follows: `current` is
the `=`. -/
def assignState : State :=
  advance { localState with scanner := Scan.initScanner (cstr "= 2") }

/-- The state after the right-hand side `2` of the assignment in `assignState`
has been compiled. -/
def assignValueState : State :=
  match expression (parsePrecedence 5) (advance (resolveVariable tokenX assignState).2) with
  | Except.ok s => s
  | Except.error _ => State.initial

/-- The state in which `importModule` starts to compile the module text
`source` of the file `fileName`: the module is recorded, the scanner reads the
module, and a compiler of type `TYPE_IMPORT` is current. -/
def importEnter (fileName source : List Nat) (s : State) : State :=
  initCompiler TYPE_IMPORT
    { { addImportedModule fileName s with currentModuleName := fileName } with
      scanner := Scan.initScanner source }

/-- The state `importModule` leaves when the module was compiled from `s0` to
`s1`: parser, compiler chain, scanner and module name of `s0` are restored. -/
def importLeave (s0 s1 : State) : State :=
  { s1 with
    parser := s0.parser,
    compilers := s1.compilers.drop (s1.compilers.length - s0.compilers.length),
    scanner := s0.scanner,
    currentModuleName := s0.currentModuleName }

/-- The step of `parameterLoop` that counts one more parameter. -/
def bumpArity (s : State) : State :=
  s.setFunctionAt s.cur.function { s.curFunction with arity := s.curFunction.arity + 1 }

/-- A relation between states that every step of the compiler respects: it is
reflexive and transitive, holds from a state to the state after each basic
operation, and holds across a compiled function (from before `initCompiler` to
after `endCompiler`) and across an imported module when it holds inside. -/
structure Passes (R : State → State → Prop) : Prop where
  refl : ∀ s, R s s
  trans : ∀ {a b c}, R a b → R b c → R a c
  advance : ∀ s, R s (advance s)
  errorAt : ∀ t m s, R s (errorAt t m s)
  importError : ∀ t m s, R s (importError t m s)
  emitByte : ∀ b s, R s (emitByte b s)
  makeConstant : ∀ v s, R s (makeConstant v s).2
  patchJump : ∀ o s, R s (patchJump o s)
  beginScope : ∀ s, R s (beginScope s)
  endScope : ∀ s, R s (endScope s)
  addLocal : ∀ t s, R s (addLocal t s)
  markInitialized : ∀ s, R s (markInitialized s)
  resolveUpvalue : ∀ k name s, R s (resolveUpvalue k name s).2
  newList : ∀ s, R s (newList s).2
  bumpArity : ∀ s, R s (bumpArity s)
  clearPanic : ∀ s, R s { s with parser := { s.parser with panicMode := false } }
  pushStruct : ∀ s, R s { s with structs := { hasSuperstruct := false } :: s.structs }
  setHasSuperstruct : ∀ b s, R s (setHasSuperstruct b s)
  popStruct : ∀ s, R s { s with structs := s.structs.drop 1 }
  functionBracket : ∀ type s s1, R (initCompiler type s) s1 → R s (endCompiler s1).2
  importBracket : ∀ f src s s1, R (importEnter f src s) s1 → R s (importLeave s s1)

/-- Every result of the computation `x` is `R`-related to `s` (the state inside
the result is read with `p`). -/
def Lands {α : Type} (R : State → State → Prop) (p : α → State) (s : State) (x : Res α) :
    Prop :=
  ∀ a, x = Except.ok a → R s (p a)

/-- What every step of the compiler keeps: the number of compilers in the
chain, the function object and the type of each, the function objects on the
heap, the bound 256 on every `localCount`, and what was written to `stderr`. -/
structure Keeps (s s' : State) : Prop where
  length : s'.compilers.length = s.compilers.length
  function : ∀ k, (s'.compilerAt k).function = (s.compilerAt k).function
  type : ∀ k, (s'.compilerAt k).type = (s.compilerAt k).type
  isFunction : ∀ ptr : Nat, (∃ f, s.heap[ptr]? = some (Obj.function f)) →
    ∃ f, s'.heap[ptr]? = some (Obj.function f)
  localCount : (∀ k, (s.compilerAt k).localCount ≤ UINT8_COUNT) →
    ∀ k, (s'.compilerAt k).localCount ≤ UINT8_COUNT
  stderr : s.stderr <+: s'.stderr

/-- The bytes after a `Closure` instruction and its operand: for each of the
descriptors `i .. i + k - 1` of the compiler, the byte `isLocal` (1 or 0) and
the byte `index`. -/
def closurePairs (compiler : Compiler) : Nat → Nat → List Byte
  | 0, _ => []
  | k + 1, i =>
    Byte.raw (if (compiler.upvalueAt i).isLocal then 1 else 0) ::
      Byte.raw (compiler.upvalueAt i).index :: closurePairs compiler k (i + 1)

/-- The first part of `function`, up to the end of the body: the state in which
`function` calls `endCompiler`. -/
def functionBody (decl : State → Res State) (n : Nat) (type : FunctionType) (s : State) :
    Res State := do
  let s := initCompiler type s
  let s := beginScope s
  let s := consume TOKEN_LEFT_PAREN "Expect '(' after function name." s
  let s ← (if !check TOKEN_RIGHT_PAREN s then parameterLoop n s else pure s)
  let s := consume TOKEN_RIGHT_PAREN "Expect ')' after function parameters." s
  let s := consume TOKEN_LEFT_BRACE "Expect '\x7b' before function body." s
  block decl n s

/-- Inside a function that has declared the local `x` (slot 1), at the
parameter list of a nested function whose body reads `x`. -/
def closureState : State :=
  advance
    { markInitialized (addLocal tokenX (beginScope
        (initCompiler TYPE_FUNCTION (initCompiler TYPE_SCRIPT State.initial)))) with
      scanner := Scan.initScanner (cstr "() { return x }") }

/-- The state at the end of the body of the nested function of `closureState`. -/
def closureBodyState : State :=
  match functionBody (declaration noFiles 10) 10 TYPE_FUNCTION closureState with
  | Except.ok s => s
  | Except.error _ => State.initial

/-- The message of `addLocal`. -/
def tooManyLocalsMessage : String := "Too many local variables in function."

/-- Declaring the locals of a list one after the other in the current
function: one call of `addLocal` for each parameter or `var`. -/
def addLocals : List Token → State → State
  | [], s => s
  | t :: ts, s => addLocals ts (addLocal t s)

/-- The identifier token `v0`, `v1`, ... of number `i`. -/
def localName (i : Nat) : Token :=
  { type := TOKEN_IDENTIFIER, start := cstr ("v" ++ toString i),
    length := (cstr ("v" ++ toString i)).length, line := 1 }

/-- The names `v0 .. v(n-1)`. -/
def localNames (n : Nat) : List Token := (List.range n).map localName

/-- The body of a function inside a script, before its first declaration. -/
def functionBodyState : State :=
  beginScope (initCompiler TYPE_FUNCTION (initCompiler TYPE_SCRIPT State.initial))

/-- The state after `advance` has read the token `t`, the scanner being left at
`sc`: `previous` becomes the old `current`. -/
def State.shift (s : State) (t : Token) (sc : Scanner) : State :=
  { s with
    scanner := sc,
    parser :=
      { current := t, previous := s.parser.current, hadError := s.parser.hadError,
        panicMode := s.parser.panicMode } }

/-- The search of `declareVariable`: a local of the same scope among the cells
`i - 1 .. 0` has the name `name`. -/
def redeclares (c : Compiler) (name : Token) : Nat → Bool
  | 0 => false
  | i + 1 =>
    if (c.localAt i).depth ≠ -1 ∧ (c.localAt i).depth < c.scopeDepth then false
    else if identifiersEqual name (c.localAt i).name then true
    else redeclares c name i

/-- The innermost local named `name` is still uninitialised (depth -1): the
case in which `resolveLocal` reports the error. -/
def readsOwnInitializer (c : Compiler) (name : Token) : Bool :=
  match findLocal c name c.localCount with
  | some i => decide ((c.localAt i).depth = -1)
  | none => false

/-- The state at the identifier of the declaration in `{ var x = x }`, where
`declaration` calls `varDeclaration`. -/
def ownInitializerState : State :=
  beginScope (advance (advance (advance (initCompiler TYPE_SCRIPT
    { State.initial with scanner := Scan.initScanner (cstr "{ var x = x }") }))))

/-- The scanner after `i` tokens were scanned from `sc`. -/
def scanAfter (sc : Scanner) : Nat → Scanner
  | 0 => sc
  | i + 1 => (Scan.scanToken (scanAfter sc i)).2

/-- The token number `i` (from 0) that is scanned from `sc`. -/
def nthToken (sc : Scanner) (i : Nat) : Token := (Scan.scanToken (scanAfter sc i)).1

/-- The state in which `compile` calls `advance` for the first time. -/
def scriptStart (filename source : List Nat) : State :=
  { initCompiler TYPE_SCRIPT
      { State.initial with currentModuleName := filename, scanner := Scan.initScanner source } with
    parser :=
      { (initCompiler TYPE_SCRIPT
          { State.initial with
            currentModuleName := filename, scanner := Scan.initScanner source }).parser with
        hadError := false, panicMode := false } }

/-- The text scans as `{ var x = x }` for some identifier `x`: the types of
the first seven tokens, the two identifiers with the same name, and no error
token after the end of the text. -/
structure ScansOwnInitializer (source : List Nat) : Prop where
  leftBrace : (nthToken (Scan.initScanner source) 0).type = TOKEN_LEFT_BRACE
  var_ : (nthToken (Scan.initScanner source) 1).type = TOKEN_VAR
  name : (nthToken (Scan.initScanner source) 2).type = TOKEN_IDENTIFIER
  equal : (nthToken (Scan.initScanner source) 3).type = TOKEN_EQUAL
  read : (nthToken (Scan.initScanner source) 4).type = TOKEN_IDENTIFIER
  same : identifiersEqual (nthToken (Scan.initScanner source) 4)
    (nthToken (Scan.initScanner source) 2) = true
  rightBrace : (nthToken (Scan.initScanner source) 5).type = TOKEN_RIGHT_BRACE
  eof : (nthToken (Scan.initScanner source) 6).type = TOKEN_EOF
  after : (nthToken (Scan.initScanner source) 7).type ≠ TOKEN_ERROR

/-- The keyword literals: expressions of one token that need no constant. -/
inductive Lit
  | true_ | false_ | null_
  deriving DecidableEq, Repr

def Lit.type : Lit → TokenType
  | Lit.true_ => TOKEN_TRUE
  | Lit.false_ => TOKEN_FALSE
  | Lit.null_ => TOKEN_NULL

def Lit.opcode : Lit → OpCode
  | Lit.true_ => OP_TRUE
  | Lit.false_ => OP_FALSE
  | Lit.null_ => OP_NULL

/-- The tokens of a non-empty argument list: the literals with a comma between
them. -/
def argumentTokens : Lit → List Lit → List TokenType
  | l, [] => [l.type]
  | l, l' :: ls => l.type :: TOKEN_COMMA :: argumentTokens l' ls

/-- The code of the arguments: one opcode each. -/
def argumentCode (ls : List Lit) : List Byte := ls.map fun l => Byte.op l.opcode

/-- The message of `argumentList`. -/
def tooManyArgumentsMessage : String := "Can't have more than 255 arguments."

/-- The tokens between the parentheses of a call whose arguments are keyword
literals. -/
def callTokens : List Lit → List TokenType
  | [] => []
  | l :: ls => argumentTokens l ls

/-- The source `f(true,...,true)` with `n + 1` arguments. -/
def argumentsSource (n : Nat) : List Nat :=
  cstr "f(true" ++ (List.replicate n (cstr ",true")).flatten ++ cstr ")"

/-- The state in which `call` runs for `f(true, null)`: the token `(` has just
been consumed. -/
def callState : State :=
  advance (advance (advance (initCompiler TYPE_SCRIPT
    { State.initial with scanner := Scan.initScanner (cstr "f(true, null)") })))

/-- The module text `print 1+1+...+1` with 257 number literals. -/
def manyConstantsSource : List Nat :=
  cstr "print 1" ++ (List.replicate 256 (cstr "+1")).flatten

/-- A file system with the one module `m.luna`, whose text holds 257 number
literals. -/
def manyConstantsFiles : List Nat → Option (List Nat) :=
  fun path => if path = cstr "m.luna" then some manyConstantsSource else none

/-- A state with a jump to patch: Jump with its placeholder operand at offset
1, then one Pop. -/
def jumpState : State :=
  emitByte (Byte.op OP_POP) (emitJump OP_JUMP (initCompiler TYPE_SCRIPT State.initial)).2

/-- What compiling inside a compiler keeps of the compilers that enclose it and
of the registry of modules: the length of the chain, the scope depth of every
compiler but the current one, and every registered module. -/
structure Outer (s s' : State) : Prop where
  length : s'.compilers.length = s.compilers.length
  scopeDepth : ∀ k, (s'.compilerAt (k + 1)).scopeDepth = (s.compilerAt (k + 1)).scopeDepth
  registry : ∀ x, x ∈ s.importedModules → x ∈ s'.importedModules

/-- The file name `importDeclaration` and `importModule` build from the string
token `t`: the text between the quotes of the token, without a second pair of
quotes when there is one, then `.luna`. -/
def moduleFile (t : Token) : List Nat :=
  let name := t.start.drop 1
  let length := t.length - 2
  let quoted : Bool :=
    length > 1 ∧ name.headD 0 = 34 ∧ (name.drop (length - 1)).headD 0 = 34
  let start := if quoted then 1 else 0
  let end_ := if quoted then length - 1 else length
  (name.drop start).take (end_ - start) ++ cstr ".luna"

/-- The source scans as `import STRING import STRING` and then ends, and the
two strings name the same module file. -/
structure ScansImportTwice (source : List Nat) : Prop where
  first : (nthToken (Scan.initScanner source) 0).type = TOKEN_IMPORT
  firstName : (nthToken (Scan.initScanner source) 1).type = TOKEN_STRING
  second : (nthToken (Scan.initScanner source) 2).type = TOKEN_IMPORT
  secondName : (nthToken (Scan.initScanner source) 3).type = TOKEN_STRING
  same : moduleFile (nthToken (Scan.initScanner source) 3) =
    moduleFile (nthToken (Scan.initScanner source) 1)
  eof : (nthToken (Scan.initScanner source) 4).type = TOKEN_EOF
  after : (nthToken (Scan.initScanner source) 5).type ≠ TOKEN_ERROR

/-- The state in which `importModule` runs for an import that starts the
source: `import`, the string and the token after it have been scanned. -/
def importState (filename source : List Nat) : State :=
  (((scriptStart filename source).shift (nthToken (Scan.initScanner source) 0)
      (scanAfter (Scan.initScanner source) 1)).shift (nthToken (Scan.initScanner source) 1)
      (scanAfter (Scan.initScanner source) 2)).shift (nthToken (Scan.initScanner source) 2)
      (scanAfter (Scan.initScanner source) 3)

/-- The state in which `importModule` runs for the second import of such a
source, when the module of the first import was compiled up to `s1`. -/
def secondImportState (filename source : List Nat) (s1 : State) : State :=
  ((importLeave (importState filename source) s1).shift (nthToken (Scan.initScanner source) 3)
      (scanAfter (Scan.initScanner source) 4)).shift (nthToken (Scan.initScanner source) 4)
      (scanAfter (Scan.initScanner source) 5)

/-- A file system with the one module `m.luna`, whose text is `print 1`. -/
def printModuleFiles : List Nat → Option (List Nat) :=
  fun path => if path = cstr "m.luna" then some (cstr "print 1") else none

/-- The source that imports the module `m` twice. -/
def importTwiceSource : List Nat := cstr "import \"m\"\nimport \"m\""

/-- The state at the end of the module `m.luna` of `printModuleFiles`, imported
at the start of `importTwiceSource`. -/
def importedModuleState : State :=
  match declarationLoop (declaration printModuleFiles 8) 8
    (advance (importEnter (cstr "m.luna") (cstr "print 1")
      (importState (cstr "main") importTwiceSource))) with
  | Except.ok s => s
  | Except.error _ => State.initial

/-- The state in which `importModule` runs for the import of the source
`{ import "m" }`: the block has begun and the string has been consumed. -/
def blockImportState : State :=
  advance (advance (beginScope (advance (advance (initCompiler TYPE_SCRIPT
    { State.initial with scanner := Scan.initScanner (cstr "\x7b import \"m\" \x7d") })))))

/-! ## Managed objects and the collector (object.h, object.c, lmemory.c)

The heap list `vm.objects` is a list of objects, the first allocated last in
it; an object is identified by its address.  `vm.h`, `vm.c`, `table.c` and
`value.h` are not among the sources, so the fields of `vm` are those that
`lmemory.c` and `object.c` read and write.  The byte accounting
(`bytesAllocated`, `nextGC`) is left out: whether the threshold is exceeded is
an input of every allocation. -/

namespace Mem

/-- Modelled from the spec: the `Value` of `value.h` (missing), as far as the
collector reads it: `IS_OBJ` and `AS_OBJ`. -/
inductive Value
  | null
  | bool (b : Bool)
  | number (n : Nat)
  | obj (ptr : Nat)
  deriving DecidableEq, Repr

/-- Modelled from the spec: the entries of a `Table` of `table.h` (missing): a
key (a string object) and a value. -/
abbrev Table := List (Nat × Value)

/-- The fields of an object after its header, by `ObjType` (object.h); a
pointer that may be `NULL` is an `Option`. -/
inductive Payload
  | string (characters : List Nat) (hash : Nat)
  | function (name : Option Nat) (constants : List Value)
  | native
  | closure (function : Option Nat) (upvalues : List (Option Nat))
  | upvalue (closed : Value)
  | struct_ (name : Option Nat) (methods : Table)
  | instance (klass : Option Nat) (fields : Table)
  | boundMethod (receiver : Value) (method : Option Nat)
  | list (elements : List Value)
  deriving DecidableEq, Repr

/-- An object of the heap list: its address, the header bits and the fields. -/
structure Obj where
  addr : Nat
  isMarked : Bool
  isOnCurrentGC : Bool
  payload : Payload
  deriving DecidableEq, Repr

inductive GCPhase
  | GC_MARK_PHASE
  | GC_SWEEP_PHASE
  | GC_IDLE_PHASE
  deriving DecidableEq, Repr

open GCPhase

/-- The state of the allocator and collector: the heap list, what `markRoots`
reads of `vm` and of the compiler chain, the gray stack, the string table, the
phase and the cursor `currentMarkIndex`.  `fresh` is an address no object has
had. -/
structure VM where
  objects : List Obj
  fresh : Nat
  stack : List Value
  frames : List (Option Nat)
  openUpvalues : List Nat
  globals : Table
  compilerRoots : List (Option Nat)
  initString : Option Nat
  grayStack : List Nat
  strings : List Nat
  gcPhase : GCPhase
  currentMarkIndex : Nat
  deriving DecidableEq, Repr

/-- The state before anything is allocated. -/
def VM.init : VM :=
  { objects := [], fresh := 0, stack := [], frames := [], openUpvalues := [], globals := [],
    compilerRoots := [], initString := none, grayStack := [], strings := [],
    gcPhase := GC_IDLE_PHASE, currentMarkIndex := 0 }

/-- The object at an address of the heap list. -/
def VM.objectAt (s : VM) (a : Nat) : Option Obj := s.objects.find? (fun o => o.addr = a)

/-- The fields of the object at an address. -/
def VM.payloadAt (s : VM) (a : Nat) : Option Payload := (s.objectAt a).map fun o => o.payload

/-! ### Marking (lmemory.c) -/

/-- Sets the two bits of the object at address `a`. -/
def setMarked (a : Nat) (objects : List Obj) : List Obj :=
  objects.map fun o => if o.addr = a then { o with isMarked := true, isOnCurrentGC := true } else o

def markObject (object : Option Nat) (s : VM) : VM :=
  match object with
  | none => s
  | some a =>
    match s.objectAt a with
    | none => s
    | some o =>
      if o.isMarked then s
      else { s with objects := setMarked a s.objects, grayStack := s.grayStack ++ [a] }

def markValue (value : Value) (s : VM) : VM :=
  match value with
  | Value.obj a => markObject (some a) s
  | _ => s

def markArray (array : List Value) (s : VM) : VM :=
  array.foldl (fun s v => markValue v s) s

/-- Modelled from the spec: `markTable` of `table.c` (missing): marks the key
and the value of every entry. -/
def markTable (table : Table) (s : VM) : VM :=
  table.foldl (fun s e => markValue e.2 (markObject (some e.1) s)) s

/-- The function `markCompilerRoots` of compiler.c, on the functions of the
compiler chain from `current` outwards. -/
def markCompilerRoots (s : VM) : VM :=
  s.compilerRoots.foldl (fun s f => markObject f s) s

/-- The first loop of `markRoots`; the flag tells that the function returned
from inside the loop. -/
def markStackLoop : Nat → VM → Bool × VM
  | 0, s => (false, s)
  | fuel + 1, s =>
    if s.currentMarkIndex < s.stack.length then
      let s := markValue (s.stack.getD s.currentMarkIndex Value.null) s
      let s := { s with currentMarkIndex := s.currentMarkIndex + 1 }
      if s.currentMarkIndex % 8 = 0 then (true, s) else markStackLoop fuel s
    else (false, s)

/-- The second loop of `markRoots`. -/
def markFrameLoop : Nat → VM → Bool × VM
  | 0, s => (false, s)
  | fuel + 1, s =>
    if s.currentMarkIndex < s.frames.length then
      let s := markObject (s.frames.getD s.currentMarkIndex none) s
      let s := { s with currentMarkIndex := s.currentMarkIndex + 1 }
      if s.currentMarkIndex % 8 = 0 then (true, s) else markFrameLoop fuel s
    else (false, s)

/-- The third loop of `markRoots`, over the list that starts at
`vm.openUpvalues`. -/
def markUpvalueLoop : List Nat → VM → Bool × VM
  | [], s => (false, s)
  | upvalue :: next, s =>
    let s := markObject (some upvalue) s
    let s := { s with currentMarkIndex := s.currentMarkIndex + 1 }
    if s.currentMarkIndex % 8 = 0 then (true, s) else markUpvalueLoop next s

def markRoots (s : VM) : VM :=
  let r := markStackLoop (s.stack.length + 1) s
  if r.1 then r.2
  else
    let s := { r.2 with currentMarkIndex := 0 }
    let r := markFrameLoop (s.frames.length + 1) s
    if r.1 then r.2
    else
      let r := markUpvalueLoop r.2.openUpvalues r.2
      if r.1 then r.2
      else
        let s := markTable r.2.globals r.2
        let s := markCompilerRoots s
        let s := markObject s.initString s
        { s with gcPhase := GC_SWEEP_PHASE, currentMarkIndex := 0 }

def blanckenObject (object : Obj) (s : VM) : VM :=
  match object.payload with
  | Payload.boundMethod receiver method => markObject method (markValue receiver s)
  | Payload.struct_ name methods => markTable methods (markObject name s)
  | Payload.instance klass fields => markTable fields (markObject klass s)
  | Payload.closure function upvalues =>
    upvalues.foldl (fun s u => markObject u s) (markObject function s)
  | Payload.function name constants => markArray constants (markObject name s)
  | Payload.upvalue closed => markValue closed s
  | Payload.native => s
  | Payload.string _ _ => s
  | Payload.list _ => s

/-- The loop of `traceReferences`; no function of the sources calls it. -/
def traceReferences : Nat → VM → VM
  | 0, s => s
  | fuel + 1, s =>
    match s.grayStack.getLast? with
    | none => s
    | some a =>
      let s := { s with grayStack := s.grayStack.dropLast }
      match s.objectAt a with
      | none => traceReferences fuel s
      | some o => traceReferences fuel (blanckenObject o s)

/-- The loop of `sweep` on the heap list: an object that is freed is no longer
in the list. -/
def sweepList : List Obj → List Obj
  | [] => []
  | o :: next =>
    if o.isMarked then { o with isMarked := false, isOnCurrentGC := false } :: sweepList next
    else if o.isOnCurrentGC then sweepList next
    else o :: sweepList next

def sweep (s : VM) : VM := { s with objects := sweepList s.objects }

def collectGarbage (s : VM) : VM :=
  match s.gcPhase with
  | GC_IDLE_PHASE => { s with gcPhase := GC_MARK_PHASE, currentMarkIndex := 0 }
  | GC_MARK_PHASE =>
    let s := markRoots s
    if s.gcPhase ≠ GC_MARK_PHASE then { s with gcPhase := GC_SWEEP_PHASE } else s
  | GC_SWEEP_PHASE => { sweep s with gcPhase := GC_IDLE_PHASE }

/-- The function `reallocate` when it is asked for a new or larger block:
`over` tells whether `vm.bytesAllocated > vm.nextGC` holds. -/
def reallocate (over : Bool) (s : VM) : VM :=
  if over ∨ s.gcPhase ≠ GC_IDLE_PHASE then collectGarbage s else s

/-! ### Allocation and strings (object.c) -/

/-- The function `allocateObject`, followed by the initialisation of the
fields by its caller: the block is obtained from `reallocate`, the bits are
cleared and the object becomes the head of the heap list. -/
def allocateObject (over : Bool) (payload : Payload) (s : VM) : Nat × VM :=
  let s := reallocate over s
  (s.fresh,
    { s with
      objects :=
        { addr := s.fresh, isMarked := false, isOnCurrentGC := false, payload := payload } ::
          s.objects,
      fresh := s.fresh + 1 })

def hashString (key : List Nat) (length : Nat) : Nat :=
  (key.take length).foldl (fun hash c => ((hash ^^^ (c % 256)) * 16777619) % 2 ^ 32) 2166136261

/-- Modelled from the spec: `tableFindString` of `table.c` (missing): the first
key of the table whose length, hash and bytes are the given ones. -/
def tableFindString (s : VM) (characters : List Nat) (length : Nat) (hash : Nat) :
    Option Nat :=
  s.strings.find? fun k =>
    match s.payloadAt k with
    | some (Payload.string chars h) =>
      decide (chars.length = length ∧ h = hash ∧ chars = characters.take length)
    | _ => false

/-- Modelled from the spec: `tableSet` of `table.c` (missing) on the string
table: when the table must grow (`grow` is `some over`) the new array comes from
`reallocate`; then the key is added unless it is there. -/
def tableSet (grow : Option Bool) (key : Nat) (s : VM) : VM :=
  let s :=
    match grow with
    | some over => reallocate over s
    | none => s
  if key ∈ s.strings then s else { s with strings := s.strings ++ [key] }

/-- The function `allocateString`; `push` and `pop` are those of the VM stack. -/
def allocateString (over : Bool) (grow : Option Bool) (chars : List Nat) (length : Nat)
    (hash : Nat) (s : VM) : Nat × VM :=
  let r := allocateObject over (Payload.string (chars.take length) hash) s
  let s := { r.2 with stack := r.2.stack ++ [Value.obj r.1] }
  let s := tableSet grow r.1 s
  (r.1, { s with stack := s.stack.dropLast })

def takeString (over : Bool) (grow : Option Bool) (characters : List Nat) (length : Nat)
    (s : VM) : Nat × VM :=
  let hash := hashString characters length
  match tableFindString s characters length hash with
  | some intern => (intern, s)
  | none => allocateString over grow characters length hash s

/-- The function `copyString`; `overChars` is the input of the allocation of
the copy of the bytes. -/
def copyString (overChars over : Bool) (grow : Option Bool) (characters : List Nat)
    (length : Nat) (s : VM) : Nat × VM :=
  let hash := hashString characters length
  match tableFindString s characters length hash with
  | some intern => (intern, s)
  | none =>
    let s := reallocate overChars s
    allocateString over grow (characters.take length) length hash s

/-! ### Reachability and the states of a run -/

/-- The object a value points to, if any. -/
def Value.ref : Value → Option Nat
  | Value.obj a => some a
  | _ => none

/-- The objects `markTable` marks: the keys and the values that are objects. -/
def tableRefs (table : Table) : List Nat :=
  table.flatMap fun e => e.1 :: e.2.ref.toList

/-- The tracing edges: the objects `blanckenObject` marks for an object with
these fields. -/
def Payload.references : Payload → List Nat
  | Payload.boundMethod receiver method => receiver.ref.toList ++ method.toList
  | Payload.struct_ name methods => name.toList ++ tableRefs methods
  | Payload.instance klass fields => klass.toList ++ tableRefs fields
  | Payload.closure fn upvalues => fn.toList ++ upvalues.filterMap id
  | Payload.function name constants => name.toList ++ constants.filterMap Value.ref
  | Payload.upvalue closed => closed.ref.toList
  | Payload.native => []
  | Payload.string _ _ => []
  | Payload.list _ => []

/-- The roots `markRoots` walks: stack, call frames, open upvalues, globals,
compiler chain and the init string. -/
def roots (s : VM) : List Nat :=
  s.stack.filterMap Value.ref ++ s.frames.filterMap id ++ s.openUpvalues ++
    tableRefs s.globals ++ s.compilerRoots.filterMap id ++ s.initString.toList

/-- The address is that of a root or is reached from a root through tracing
edges. -/
inductive Reach (s : VM) : Nat → Prop
  | root {a : Nat} : a ∈ roots s → Reach s a
  | edge {a b : Nat} {p : Payload} :
    Reach s a → s.payloadAt a = some p → b ∈ p.references → Reach s b

/-- The addresses of the heap list, in its order. -/
def VM.addrs (s : VM) : List Nat := s.objects.map fun o => o.addr

/-- The header bits of the heap list, in its order. -/
def VM.bits (s : VM) : List (Nat × Bool × Bool) :=
  s.objects.map fun o => (o.addr, o.isMarked, o.isOnCurrentGC)

/-- A step of the program between two allocations: it may change the roots and
the fields of the objects, not the heap list, the header bits, the gray stack,
the phase or the cursor. -/
structure Mutates (s s' : VM) : Prop where
  bits : s'.bits = s.bits
  fresh : s'.fresh = s.fresh
  grayStack : s'.grayStack = s.grayStack
  gcPhase : s'.gcPhase = s.gcPhase
  currentMarkIndex : s'.currentMarkIndex = s.currentMarkIndex

/-- The states of a run: from the state before any allocation, through
allocations, calls of `markObject`, collector steps and steps of the program. -/
inductive Run : VM → Prop
  | init : Run VM.init
  | allocate {s : VM} (over : Bool) (payload : Payload) :
    Run s → Run (allocateObject over payload s).2
  | mark {s : VM} (object : Option Nat) : Run s → Run (markObject object s)
  | collect {s : VM} : Run s → Run (collectGarbage s)
  | mutate {s s' : VM} : Run s → Mutates s s' → Run s'

/-- The addresses and the fields of the heap list, without the header bits. -/
def VM.skeleton (s : VM) : List (Nat × Payload) := s.objects.map fun o => (o.addr, o.payload)

/-- Every object has `isOnCurrentGC` equal to `isMarked`. -/
def BitsEqual (s : VM) : Prop := ∀ o ∈ s.objects, o.isOnCurrentGC = o.isMarked

/-- What a collector step keeps when the header bits agree: the objects with
their fields, the roots, the string table, and the agreement of the bits. -/
structure Marks (s s' : VM) : Prop where
  skeleton : BitsEqual s → s'.skeleton = s.skeleton
  bits : BitsEqual s → BitsEqual s'
  fresh : s'.fresh = s.fresh
  strings : s'.strings = s.strings
  stack : s'.stack = s.stack
  frames : s'.frames = s.frames
  openUpvalues : s'.openUpvalues = s.openUpvalues
  globals : s'.globals = s.globals
  compilerRoots : s'.compilerRoots = s.compilerRoots
  initString : s'.initString = s.initString

/-- The bytes and the hash of the string object at an address. -/
def VM.stringAt (s : VM) (a : Nat) : Option (List Nat × Nat) :=
  match s.payloadAt a with
  | some (Payload.string chars h) => some (chars, h)
  | _ => none

/-- The string table is sound: the header bits agree, no two objects share an
address and `fresh` is above all, every key is a string object that stores the
hash of its bytes, and no two keys have the same bytes. -/
structure Interned (s : VM) : Prop where
  bits : BitsEqual s
  fresh : ∀ o ∈ s.objects, o.addr < s.fresh
  keys : ∀ k ∈ s.strings, ∃ chars, s.stringAt k = some (chars, hashString chars chars.length)
  unique : ∀ k ∈ s.strings, ∀ k' ∈ s.strings, ∀ chars h h',
    s.stringAt k = some (chars, h) → s.stringAt k' = some (chars, h') → k = k'

/-! ### Concrete states -/

/-- A function, a closure of it, and one call frame that runs the closure;
the collector is idle. -/
def frameVM : VM :=
  let f := allocateObject false (Payload.function none []) VM.init
  let c := allocateObject false (Payload.closure (some f.1) []) f.2
  { c.2 with frames := [some c.1] }

/-- The state two collector steps after `frameVM`: Idle to Mark, then the call
of `markRoots`. -/
def markedFrameVM : VM := collectGarbage (collectGarbage frameVM)

/-- One string object that nothing refers to; the collector is idle. -/
def garbageVM : VM :=
  (allocateObject false (Payload.string [120] (hashString [120] 1)) VM.init).2

end Mem

namespace Mem

/-- The function and the closure of `frameVM` with the closure running in eight
call frames (a recursion of depth 8); the collector is in the Mark phase with
the cursor at 0, as after the step that leaves Idle. -/
def recursionVM : VM :=
  collectGarbage { frameVM with frames := List.replicate 8 (some 1) }

/-- The state `frameVM` with eight numbers on the VM stack, in the Mark phase
with the cursor at 0. -/
def numbersVM : VM :=
  collectGarbage { frameVM with stack := List.replicate 8 (Value.number 0) }

end Mem

/-- Modelled from the spec: the keyword table, by the exact bytes of the lexeme:
`and, or, if, else, while, for, return, var, def, struct, super, self, true,
false, null, print, println, import`, each with its own kind, and Identifier for
every other lexeme. -/
def keywordKind (lexeme : List Nat) : TokenType :=
  if lexeme = cstr "and" then TOKEN_AND
  else if lexeme = cstr "or" then TOKEN_OR
  else if lexeme = cstr "if" then TOKEN_IF
  else if lexeme = cstr "else" then TOKEN_ELSE
  else if lexeme = cstr "while" then TOKEN_WHILE
  else if lexeme = cstr "for" then TOKEN_FOR
  else if lexeme = cstr "return" then TOKEN_RETURN
  else if lexeme = cstr "var" then TOKEN_VAR
  else if lexeme = cstr "def" then TOKEN_FUN
  else if lexeme = cstr "struct" then TOKEN_STRUCT
  else if lexeme = cstr "super" then TOKEN_SUPER
  else if lexeme = cstr "self" then TOKEN_THIS
  else if lexeme = cstr "true" then TOKEN_TRUE
  else if lexeme = cstr "false" then TOKEN_FALSE
  else if lexeme = cstr "null" then TOKEN_NULL
  else if lexeme = cstr "print" then TOKEN_PRINT
  else if lexeme = cstr "println" then TOKEN_PRINTLN
  else if lexeme = cstr "import" then TOKEN_IMPORT
  else TOKEN_IDENTIFIER

/-- The keywords of the language. -/
def keywords : List (List Nat) :=
  [cstr "and", cstr "or", cstr "if", cstr "else", cstr "while", cstr "for", cstr "return",
    cstr "var", cstr "def", cstr "struct", cstr "super", cstr "self", cstr "true", cstr "false",
    cstr "null", cstr "print", cstr "println", cstr "import"]

/-- A byte of `[A-Za-z0-9_]`. -/
def isWordByte (c : Nat) : Bool := Scan.isAlpha c || Scan.isDigit c

/-- The bytes `emitReturn` emits in a compiler of the given type: the implicit
value (slot 0 in an initializer, `null` otherwise) and `Return`. -/
def implicitReturn (type : FunctionType) : List Byte :=
  if type = TYPE_INITIALIZER then [Byte.op OP_GET_LOCAL, Byte.raw 0, Byte.op OP_RETURN]
  else [Byte.op OP_NULL, Byte.op OP_RETURN]

/-- The state in which `method` calls `function`: after its two calls of
`consume` and the call of `identifierConstant`; the name of the method is the
token `parser.previous`. -/
def methodStart (s : State) : State :=
  let s := consume TOKEN_FUN "Expect 'def' keyword to declare method." s
  let s := consume TOKEN_IDENTIFIER "Expect function name." s
  (identifierConstant s.parser.previous s).2

/-- The test of `method` on the name of the method:
`length == 4 && memcmp(start, "init", 4) == 0`. -/
def namedInit (name : Token) : Bool :=
  decide (name.length = 4 ∧ name.start.take 4 = cstr "init")

/-- The function type `method` passes to `function`. -/
def methodType (s : State) : FunctionType :=
  if namedInit (methodStart s).parser.previous then TYPE_INITIALIZER else TYPE_METHOD

/-- Inside a script, at the first token of the text `source` of a method. -/
def methodState (source : String) : State :=
  advance
    { initCompiler TYPE_SCRIPT State.initial with scanner := Scan.initScanner (cstr source) }

/-- The state at the end of the body of the method of `methodState source`. -/
def methodBodyState (source : String) : State :=
  match functionBody (declaration noFiles 10) 10 (methodType (methodState source))
      (methodStart (methodState source)) with
  | Except.ok s => s
  | Except.error _ => State.initial

/-- The text holds no token: only spaces, tabs, carriage returns, newlines and
comments, each from a `#` to the end of its line.  The flag tells whether the
text starts inside a comment; a NUL byte ends the text. -/
def blankFrom : Bool → List Nat → Bool
  | _, [] => true
  | false, c :: cs =>
    if c = 0 then true
    else if c = 32 ∨ c = 13 ∨ c = 9 ∨ c = 10 then blankFrom false cs
    else if c = 35 then blankFrom true cs
    else false
  | true, c :: cs =>
    if c = 0 then true
    else if c = 10 then blankFrom false cs
    else blankFrom true cs

/-- A source without a token. -/
def blankSource (source : List Nat) : Bool := blankFrom false source

/-- Inside the body of a function of a script, at the first token of the text
`source`, `return` being the token read last. -/
def returnState (source : String) : State :=
  advance { functionBodyState with scanner := Scan.initScanner (cstr source) }

/-- The `switch` of `binary`: what is emitted for the operator after the right
operand. -/
def binaryOperator (operatorType : TokenType) (s : State) : State :=
  match operatorType with
  | TOKEN_BANG_EQUAL => emitBytes (Byte.op OP_EQUAL) (Byte.op OP_NOT) s
  | TOKEN_EQUAL_EQUAL => emitByte (Byte.op OP_EQUAL) s
  | TOKEN_GREATER => emitByte (Byte.op OP_GREATER) s
  | TOKEN_GREATER_EQUAL => emitBytes (Byte.op OP_LESS) (Byte.op OP_NOT) s
  | TOKEN_LESS => emitByte (Byte.op OP_LESS) s
  | TOKEN_LESS_EQUAL => emitBytes (Byte.op OP_GREATER) (Byte.op OP_NOT) s
  | TOKEN_PLUS => emitByte (Byte.op OP_ADD) s
  | TOKEN_MINUS => emitByte (Byte.op OP_SUBTRACT) s
  | TOKEN_SLASH => emitByte (Byte.op OP_DIVIDE) s
  | TOKEN_STAR => emitByte (Byte.op OP_MULTIPLY) s
  | TOKEN_MOD => emitByte (Byte.op OP_MOD) s
  | _ => s

/-- The bytes of `binaryOperator`. -/
def binaryCode (operatorType : TokenType) : List Byte :=
  match operatorType with
  | TOKEN_BANG_EQUAL => [Byte.op OP_EQUAL, Byte.op OP_NOT]
  | TOKEN_EQUAL_EQUAL => [Byte.op OP_EQUAL]
  | TOKEN_GREATER => [Byte.op OP_GREATER]
  | TOKEN_GREATER_EQUAL => [Byte.op OP_LESS, Byte.op OP_NOT]
  | TOKEN_LESS => [Byte.op OP_LESS]
  | TOKEN_LESS_EQUAL => [Byte.op OP_GREATER, Byte.op OP_NOT]
  | TOKEN_PLUS => [Byte.op OP_ADD]
  | TOKEN_MINUS => [Byte.op OP_SUBTRACT]
  | TOKEN_SLASH => [Byte.op OP_DIVIDE]
  | TOKEN_STAR => [Byte.op OP_MULTIPLY]
  | TOKEN_MOD => [Byte.op OP_MOD]
  | _ => []

/-- The state in which `parsePrecedence` calls `binary` for the text `source`
of a number, an operator and a second operand: the number is compiled and the
operator is `parser.previous`. -/
def binaryState (source : String) : State :=
  advance (number false (advance (advance (initCompiler TYPE_SCRIPT
    { State.initial with scanner := Scan.initScanner (cstr source) }))))

/-- The state after the right operand of `binaryState source` is compiled. -/
def binaryOperandState (source : String) : State :=
  match parsePrecedence 5
      ((getRule (binaryState source).parser.previous.type).precedence + 1)
      (binaryState source) with
  | Except.ok s => s
  | Except.error _ => State.initial

namespace Mem

/-- The FNV-1a hash of 32 bits in the words of the specification: from `h`,
for each byte in order, `h := ((h xor byte) * 16777619) mod 2^32`. -/
def fnv1aFrom (h : Nat) : List Nat → Nat
  | [] => h
  | byte :: rest => fnv1aFrom (((h ^^^ byte) * 16777619) % 2 ^ 32) rest

/-- The FNV-1a hash of a byte sequence: `fnv1aFrom` started at 2166136261. -/
def fnv1a (bytes : List Nat) : Nat := fnv1aFrom 2166136261 bytes

end Mem

namespace Scan

/-- The cursor moved forward from the text `l` to its suffix `l'` without
stepping over the terminator: none of the bytes stepped over is NUL. -/
def Forward (l l' : List Nat) : Prop := ∃ pre, l = pre ++ l' ∧ 0 ∉ pre

end Scan

/-- The code of the elements of a list literal whose elements are keyword
literals: for each element its opcode and then `AddList`. -/
def listCode (ls : List Lit) : List Byte :=
  ls.flatMap fun l => [Byte.op l.opcode, Byte.op OP_ADD_LIST]

/-- The message of `list`. -/
def tooManyValuesMessage : String := "Can't have more than 255 values in one list."

/-- From `s` to `s'` the bytes `code` were appended to the current chunk and
nothing else of the heap changed: the constants of the chunk and every other
object are as they were. -/
structure Emits (s s' : State) (code : List Byte) : Prop where
  compilers : s'.compilers = s.compilers
  funOK : s'.funOK
  code : (currentChunk s').code = (currentChunk s).code ++ code
  constants : (currentChunk s').constants = (currentChunk s).constants
  cells : ∀ p, p ≠ s.cur.function → s'.heap[p]? = s.heap[p]?

/-- The state in which `parsePrecedence` calls `list` for the text `source` of
a list literal: `[` is `parser.previous`. -/
def listState (source : String) : State :=
  advance (advance (initCompiler TYPE_SCRIPT
    { State.initial with scanner := Scan.initScanner (cstr source) }))

/-- The source `print [true,...,true]` with `n + 1` elements. -/
def listSource (n : Nat) : List Nat :=
  cstr "print [true" ++ (List.replicate n (cstr ",true")).flatten ++ cstr "]"

/-- The state in which `and` parses its right operand: JumpIfFalse with its
placeholder and Pop are emitted. -/
def andOperandState (s : State) : State :=
  emitByte (Byte.op OP_POP) (emitJump OP_JUMP_IF_FALSE s).2

/-- The state in which `or` parses its right operand: JumpIfFalse, patched to
skip the Jump, Jump with its placeholder, and Pop are emitted. -/
def orOperandState (s : State) : State :=
  emitByte (Byte.op OP_POP)
    (patchJump (emitJump OP_JUMP_IF_FALSE s).1
      (emitJump OP_JUMP (emitJump OP_JUMP_IF_FALSE s).2).2)

/-- The state in which `parsePrecedence` calls `and` or `or` for the text
`source` of a keyword literal, the operator and a second operand: the literal
is compiled and the operator is `parser.previous`. -/
def logicalState (source : String) : State :=
  advance (literal false (advance (advance (initCompiler TYPE_SCRIPT
    { State.initial with scanner := Scan.initScanner (cstr source) }))))

/-- The state in which `expression` is called for the text `source`: its first
token is `parser.current`. -/
def expressionState (source : String) : State :=
  advance (initCompiler TYPE_SCRIPT
    { State.initial with scanner := Scan.initScanner (cstr source) })

/-- The state in which `parsePrecedence` calls `super_` for the text `source`
of a method body, in a method of a struct that has a superstruct: the script
has the local `super` of `structDeclaration` in a scope of its own, the
compiler of the method is on top of the chain with `self` in slot 0, and
`super` is `parser.previous`. -/
def superState (source : String) : State :=
  advance (advance (beginScope (initCompiler TYPE_METHOD
    (setHasSuperstruct true
      (defineVariable 0 (addLocal (syntheticToken "super") (beginScope
        { initCompiler TYPE_SCRIPT
            { State.initial with scanner := Scan.initScanner (cstr source) } with
          structs := [{ hasSuperstruct := false }] })))))))

/-- The source of a struct `B` with the superstruct `A`, whose methods use
`super.m(true, null)` and `super.m`. -/
def superSource : String :=
  "struct A \x7b def m() \x7b \x7d \x7d struct B : A \x7b def m() \x7b super.m(true, null) \x7d def k() \x7b print super.m \x7d \x7d"

/-- The state in which `parsePrecedence` calls `and` or `or` for the text
`source` of a keyword literal, the operator and a second operand, in a function
declared in the script while the script has the local `x` in a block: the
literal is compiled and the operator is `parser.previous`. -/
def captureLogicalState (source : String) : State :=
  advance (literal false (advance (advance (initCompiler TYPE_FUNCTION
    (defineVariable 0 (addLocal tokenX (beginScope (initCompiler TYPE_SCRIPT
      { State.initial with scanner := Scan.initScanner (cstr source) }))))))))

/-- A file system with the one module `m.luna`, whose text is a block that
declares `x` with the initializer `x`. -/
def ownInitializerFiles : List Nat → Option (List Nat) :=
  fun path => if path = cstr "m.luna" then some (cstr "\x7b var x = x \x7d") else none

/-- A file system with the modules `a.luna`, which imports `m` twice, and
`m.luna`, whose text is `print 1`. -/
def twiceImportingFiles : List Nat → Option (List Nat) :=
  fun path =>
    if path = cstr "a.luna" then some (cstr "import \"m\" import \"m\"")
    else if path = cstr "m.luna" then some (cstr "print 1")
    else none

/-- A file system with the one module `m.luna`, whose text is `1 = 2`. -/
def badAssignmentFiles : List Nat → Option (List Nat) :=
  fun path => if path = cstr "m.luna" then some (cstr "1 = 2") else none

/-- The source `f(1,...,1)` with `n + 1` arguments, each the number literal
`1`. -/
def numberArgumentsSource (n : Nat) : List Nat :=
  cstr "f(1" ++ (List.replicate n (cstr ",1")).flatten ++ cstr ")"

/-- The source `var a = [1,...,1]` with `n + 1` elements, each the number
literal `1`. -/
def numberListSource (n : Nat) : List Nat :=
  cstr "var a = [1" ++ (List.replicate n (cstr ",1")).flatten ++ cstr "]"

/-- The test `if (argCount == 255) error(...)` that `argumentList` makes after
each argument. -/
def argumentCheck (argCount : Nat) (s : State) : State :=
  if argCount = 255 then error "Can't have more than 255 arguments." s else s

/-- The arguments of a call compile one after the other: `args` holds, for each
argument in order, the state in which `expression()` returns for it.  The first
is compiled from `s` with `argCount = c`; after each the count is tested; a
comma follows every argument but the last, and the next argument is compiled
from the state after the comma. -/
def argumentsCompile (pp : Precedence → State → Res State) : Nat → State → List State → Prop
  | _, _, [] => False
  | c, s, [a] =>
    expression pp s = Except.ok a ∧ (argumentCheck c a).parser.current.type ≠ TOKEN_COMMA
  | c, s, a :: b :: rest =>
    expression pp s = Except.ok a ∧ (argumentCheck c a).parser.current.type = TOKEN_COMMA ∧
      argumentsCompile pp ((c + 1) % 256) (advance (argumentCheck c a)) (b :: rest)

/-- The arguments between the parentheses of a call: none when `)` is the
current token, and otherwise those that `argumentsCompile` describes. -/
def callArguments (pp : Precedence → State → Res State) (s : State) (args : List State) :
    Prop :=
  if args = [] then check TOKEN_RIGHT_PAREN s = true
  else check TOKEN_RIGHT_PAREN s = false ∧ argumentsCompile pp 0 s args

/-- The state in which the loop of `argumentList` ends: the state after the test
that follows the last argument. -/
def argumentsEnd (s : State) (args : List State) : State :=
  match args.getLast? with
  | none => s
  | some a => argumentCheck ((args.length - 1) % 256) a

/-- The states in which `expression()` returns for the two arguments of
`f(true, null)`, compiled from `callState`. -/
def callStateArguments : List State :=
  [emitByte (Byte.op OP_TRUE) (advance callState),
    emitByte (Byte.op OP_NULL)
      (advance (advance (emitByte (Byte.op OP_TRUE) (advance callState))))]

/-- The steps the functions that parse an expression are made of: a relation
that is reflexive and transitive and holds across each of them holds between
the state before and the state after every expression.  `patchJump` is called
by `and` and by `or` only, on the placeholder they emitted before the right
operand: `patchAnd` and `patchOr` are these two calls, from the state `a` the
operand leaves. -/
structure ExprSteps (R : State → State → Prop) : Prop where
  refl : ∀ s, R s s
  trans : ∀ {a b c}, R a b → R b c → R a c
  advance : ∀ s, R s (advance s)
  errorAt : ∀ t m s, R s (errorAt t m s)
  emitByte : ∀ b s, R s (emitByte b s)
  makeConstant : ∀ v s, R s (makeConstant v s).2
  patchAnd : ∀ s a, R (andOperandState s) a →
    R s (patchJump (emitJump OP_JUMP_IF_FALSE s).1 a)
  patchOr : ∀ s a, R (orOperandState s) a →
    R s (patchJump (emitJump OP_JUMP (emitJump OP_JUMP_IF_FALSE s).2).1 a)
  resolveUpvalue : ∀ k name s, R s (resolveUpvalue k name s).2
  newList : ∀ s, R s (newList s).2

/-- What an expression keeps: the number of compilers in the chain, the function
of each, the number, the names and the depths of the locals of each, the stack
of structs, the constants of every function, after which new ones may follow,
and every heap object that is not the function of a compiler of the chain. -/
structure ExprKeeps (s s' : State) : Prop where
  length : s'.compilers.length = s.compilers.length
  function : ∀ k, (s'.compilerAt k).function = (s.compilerAt k).function
  localCount : ∀ k, (s'.compilerAt k).localCount = (s.compilerAt k).localCount
  name : ∀ k i, ((s'.compilerAt k).localAt i).name = ((s.compilerAt k).localAt i).name
  depth : ∀ k i, ((s'.compilerAt k).localAt i).depth = ((s.compilerAt k).localAt i).depth
  structs : s'.structs = s.structs
  constants : ∀ p, (s.functionAt p).chunk.constants <+: (s'.functionAt p).chunk.constants
  cells : ∀ p o, (∀ k, (s.compilerAt k).function ≠ p) → s.heap[p]? = some o →
    s'.heap[p]? = some o

/-- What an expression does to the code of the current function: it adds bytes
after those that are there, and the current function still is one. -/
def Grows (s s' : State) : Prop :=
  s.funOK → s'.funOK ∧ (currentChunk s).code <+: (currentChunk s').code

/-- The elements of a list literal compile one after the other: `elems` holds,
for each element in order, the state in which `expression()` returns for it.
The first is compiled from `s`; AddList is emitted after each; a comma follows
every element but the last, and the next element is compiled from the state
after the comma; `more` tells whether a comma follows the last of them. -/
def elementsCompile (pp : Precedence → State → Res State) (more : Bool) :
    State → List State → Prop
  | _, [] => False
  | s, [a] =>
    expression pp s = Except.ok a ∧ decide (a.parser.current.type = TOKEN_COMMA) = more
  | s, a :: b :: rest =>
    expression pp s = Except.ok a ∧ a.parser.current.type = TOKEN_COMMA ∧
      elementsCompile pp more (advance (emitByte (Byte.op OP_ADD_LIST) a)) (b :: rest)

/-- The states in which `expression()` returns for the two elements of
`[true, null]`, compiled from the state `newList` leaves of
`listState "[true, null]"`. -/
def listStateElements : List State :=
  [emitByte (Byte.op OP_TRUE) (advance (newList (listState "[true, null]")).2),
    emitByte (Byte.op OP_NULL)
      (advance (advance (emitByte (Byte.op OP_ADD_LIST)
        (emitByte (Byte.op OP_TRUE) (advance (newList (listState "[true, null]")).2)))))]

/-- The state of `super_` after `.` and the method name are consumed, the name
is added to the constants and `self` is loaded with GetLocal 0: what is left is
the argument list, if any, the load of `super` and the last instruction. -/
def superSelfState (s : State) : State :=
  emitBytes (Byte.op OP_GET_LOCAL) (Byte.raw 0)
    (identifierConstant (advance (advance s)).parser.previous (advance (advance s))).2

/-- The states in which `expression()` returns for the two arguments of
`super.m(true, null)`, compiled from the state after the parenthesis. -/
def superStateArguments : List State :=
  [emitByte (Byte.op OP_TRUE)
      (advance (advance (superSelfState (superState "super.m(true, null)")))),
    emitByte (Byte.op OP_NULL)
      (advance (advance (emitByte (Byte.op OP_TRUE)
        (advance (advance (superSelfState (superState "super.m(true, null)")))))))]

/-! ## Basic facts about the state -/

theorem functionAt_of_get {s : State} {ptr : Nat} {f : ObjFunction}
    (h : s.heap[ptr]? = some (Obj.function f)) : s.functionAt ptr = f := by
  simp [State.functionAt, List.getD, h]

theorem get_setFunctionAt {s : State} {ptr : Nat} {g : ObjFunction} (f : ObjFunction)
    (h : s.heap[ptr]? = some (Obj.function g)) :
    (s.setFunctionAt ptr f).heap[ptr]? = some (Obj.function f) := by
  have hlt : ptr < s.heap.length := by
    rcases List.getElem?_eq_some_iff.1 h with ⟨hlt, _⟩
    exact hlt
  simp [State.setFunctionAt, List.getElem?_set, hlt]

@[simp] theorem setFunctionAt_compilers (s : State) (ptr : Nat) (f : ObjFunction) :
    (s.setFunctionAt ptr f).compilers = s.compilers := rfl

@[simp] theorem setFunctionAt_parser_eq (s : State) (ptr : Nat) (f : ObjFunction) :
    (s.setFunctionAt ptr f).parser = s.parser := rfl

@[simp] theorem setFunctionAt_scanner (s : State) (ptr : Nat) (f : ObjFunction) :
    (s.setFunctionAt ptr f).scanner = s.scanner := rfl

@[simp] theorem setFunctionAt_stderr (s : State) (ptr : Nat) (f : ObjFunction) :
    (s.setFunctionAt ptr f).stderr = s.stderr := rfl

@[simp] theorem setFunctionAt_structs (s : State) (ptr : Nat) (f : ObjFunction) :
    (s.setFunctionAt ptr f).structs = s.structs := rfl

@[simp] theorem setFunctionAt_cur (s : State) (ptr : Nat) (f : ObjFunction) :
    (s.setFunctionAt ptr f).cur = s.cur := rfl

theorem currentChunk_setCurrentChunk {s : State} (h : s.funOK) (chunk : Chunk) :
    currentChunk (setCurrentChunk s chunk) = chunk := by
  obtain ⟨g, hg⟩ := h
  unfold currentChunk State.curFunction setCurrentChunk
  rw [setFunctionAt_cur, functionAt_of_get (get_setFunctionAt _ hg)]

theorem funOK_setCurrentChunk {s : State} (h : s.funOK) (chunk : Chunk) :
    (setCurrentChunk s chunk).funOK := by
  obtain ⟨g, hg⟩ := h
  exact ⟨_, get_setFunctionAt _ hg⟩

/-! ### `errorAt` touches the flags of the parser and `stderr` only -/

@[simp] theorem errorAt_compilers (t : Token) (m : List Nat) (s : State) :
    (errorAt t m s).compilers = s.compilers := by
  unfold errorAt; split <;> rfl

@[simp] theorem errorAt_heap (t : Token) (m : List Nat) (s : State) :
    (errorAt t m s).heap = s.heap := by
  unfold errorAt; split <;> rfl

@[simp] theorem errorAt_scanner (t : Token) (m : List Nat) (s : State) :
    (errorAt t m s).scanner = s.scanner := by
  unfold errorAt; split <;> rfl

@[simp] theorem errorAt_structs (t : Token) (m : List Nat) (s : State) :
    (errorAt t m s).structs = s.structs := by
  unfold errorAt; split <;> rfl

@[simp] theorem errorAt_current (t : Token) (m : List Nat) (s : State) :
    (errorAt t m s).parser.current = s.parser.current := by
  unfold errorAt; split <;> rfl

@[simp] theorem errorAt_previous (t : Token) (m : List Nat) (s : State) :
    (errorAt t m s).parser.previous = s.parser.previous := by
  unfold errorAt; split <;> rfl

@[simp] theorem errorAt_cur (t : Token) (m : List Nat) (s : State) :
    (errorAt t m s).cur = s.cur := by
  simp [State.cur, State.compilerAt]

@[simp] theorem errorAt_currentChunk (t : Token) (m : List Nat) (s : State) :
    currentChunk (errorAt t m s) = currentChunk s := by
  simp [currentChunk, State.curFunction, State.functionAt]

@[simp] theorem errorAt_funOK (t : Token) (m : List Nat) (s : State) :
    (errorAt t m s).funOK ↔ s.funOK := by
  simp [State.funOK]

@[simp] theorem error_compilers (m : String) (s : State) :
    (error m s).compilers = s.compilers := errorAt_compilers _ _ _

@[simp] theorem error_heap (m : String) (s : State) : (error m s).heap = s.heap :=
  errorAt_heap _ _ _

@[simp] theorem error_scanner (m : String) (s : State) : (error m s).scanner = s.scanner :=
  errorAt_scanner _ _ _

@[simp] theorem error_structs (m : String) (s : State) : (error m s).structs = s.structs :=
  errorAt_structs _ _ _

@[simp] theorem error_current (m : String) (s : State) :
    (error m s).parser.current = s.parser.current := errorAt_current _ _ _

@[simp] theorem error_previous (m : String) (s : State) :
    (error m s).parser.previous = s.parser.previous := errorAt_previous _ _ _

@[simp] theorem error_cur (m : String) (s : State) : (error m s).cur = s.cur :=
  errorAt_cur _ _ _

@[simp] theorem error_currentChunk (m : String) (s : State) :
    currentChunk (error m s) = currentChunk s := errorAt_currentChunk _ _ _

@[simp] theorem error_funOK (m : String) (s : State) : (error m s).funOK ↔ s.funOK :=
  errorAt_funOK _ _ _

@[simp] theorem errorAtCurrent_compilers (m : List Nat) (s : State) :
    (errorAtCurrent m s).compilers = s.compilers := errorAt_compilers _ _ _

@[simp] theorem errorAtCurrent_heap (m : List Nat) (s : State) :
    (errorAtCurrent m s).heap = s.heap := errorAt_heap _ _ _

@[simp] theorem errorAtCurrent_structs (m : List Nat) (s : State) :
    (errorAtCurrent m s).structs = s.structs := errorAt_structs _ _ _

@[simp] theorem errorAtCurrent_scanner (m : List Nat) (s : State) :
    (errorAtCurrent m s).scanner = s.scanner := errorAt_scanner _ _ _

@[simp] theorem errorAtCurrent_current (m : List Nat) (s : State) :
    (errorAtCurrent m s).parser.current = s.parser.current := errorAt_current _ _ _

/-! ### `advance` touches the scanner, the parser and `stderr` only -/

theorem advanceLoop_compilers (fuel : Nat) (s : State) :
    (advanceLoop fuel s).compilers = s.compilers := by
  induction fuel generalizing s with
  | zero => rfl
  | succ k ih =>
    unfold advanceLoop
    dsimp only
    split
    · rfl
    · rw [ih]; simp

theorem advanceLoop_heap (fuel : Nat) (s : State) : (advanceLoop fuel s).heap = s.heap := by
  induction fuel generalizing s with
  | zero => rfl
  | succ k ih =>
    unfold advanceLoop
    dsimp only
    split
    · rfl
    · rw [ih]; simp

theorem advanceLoop_structs (fuel : Nat) (s : State) :
    (advanceLoop fuel s).structs = s.structs := by
  induction fuel generalizing s with
  | zero => rfl
  | succ k ih =>
    unfold advanceLoop
    dsimp only
    split
    · rfl
    · rw [ih]; simp

@[simp] theorem advance_compilers (s : State) : (advance s).compilers = s.compilers := by
  unfold advance; rw [advanceLoop_compilers]

@[simp] theorem advance_heap (s : State) : (advance s).heap = s.heap := by
  unfold advance; rw [advanceLoop_heap]

@[simp] theorem advance_structs (s : State) : (advance s).structs = s.structs := by
  unfold advance; rw [advanceLoop_structs]

@[simp] theorem advance_cur (s : State) : (advance s).cur = s.cur := by
  simp [State.cur, State.compilerAt]

@[simp] theorem advance_currentChunk (s : State) : currentChunk (advance s) = currentChunk s := by
  simp [currentChunk, State.curFunction, State.functionAt]

@[simp] theorem advance_funOK (s : State) : (advance s).funOK ↔ s.funOK := by
  simp [State.funOK]

/-- When the next token is no error token, `advance` is one `scanToken`. -/
theorem advance_of_scan (s : State) (h : (Scan.scanToken s.scanner).1.type ≠ TOKEN_ERROR) :
    advance s =
      { s with
        scanner := (Scan.scanToken s.scanner).2,
        parser :=
          { current := (Scan.scanToken s.scanner).1, previous := s.parser.current,
            hadError := s.parser.hadError, panicMode := s.parser.panicMode } } := by
  unfold advance advanceLoop
  simp [h]

/-- Stepping over a token that is followed by a token of type `b`. -/
theorem advance_upcoming {s : State} {a b : TokenType} {ts : List TokenType}
    (h : upcoming s (a :: b :: ts) = true) :
    upcoming (advance s) (b :: ts) = true ∧ (advance s).parser.previous = s.parser.current ∧
      (advance s).parser.hadError = s.parser.hadError ∧
      (advance s).parser.panicMode = s.parser.panicMode ∧ (advance s).stderr = s.stderr := by
  simp only [upcoming, scansTypes, Bool.and_eq_true, decide_eq_true_eq] at h
  obtain ⟨_, ⟨hb, hne⟩, hrest⟩ := h
  have hne' : (Scan.scanToken s.scanner).1.type ≠ TOKEN_ERROR := by rw [hb]; exact hne
  rw [advance_of_scan s hne']
  simp [upcoming, hb, hrest]

/-! ### Emission appends to the current chunk -/

@[simp] theorem setCurrentChunk_compilers (s : State) (c : Chunk) :
    (setCurrentChunk s c).compilers = s.compilers := rfl

@[simp] theorem setCurrentChunk_parser_eq (s : State) (c : Chunk) :
    (setCurrentChunk s c).parser = s.parser := rfl

@[simp] theorem setCurrentChunk_scanner (s : State) (c : Chunk) :
    (setCurrentChunk s c).scanner = s.scanner := rfl

@[simp] theorem setCurrentChunk_stderr (s : State) (c : Chunk) :
    (setCurrentChunk s c).stderr = s.stderr := rfl

@[simp] theorem setCurrentChunk_structs (s : State) (c : Chunk) :
    (setCurrentChunk s c).structs = s.structs := rfl

@[simp] theorem setCurrentChunk_cur (s : State) (c : Chunk) :
    (setCurrentChunk s c).cur = s.cur := rfl

@[simp] theorem emitByte_compilers (b : Byte) (s : State) :
    (emitByte b s).compilers = s.compilers := rfl

@[simp] theorem emitByte_parser_eq (b : Byte) (s : State) : (emitByte b s).parser = s.parser := rfl

@[simp] theorem emitByte_scanner (b : Byte) (s : State) :
    (emitByte b s).scanner = s.scanner := rfl

@[simp] theorem emitByte_stderr (b : Byte) (s : State) : (emitByte b s).stderr = s.stderr := rfl

@[simp] theorem emitByte_structs (b : Byte) (s : State) :
    (emitByte b s).structs = s.structs := rfl

@[simp] theorem emitByte_cur (b : Byte) (s : State) : (emitByte b s).cur = s.cur := rfl

theorem emitByte_funOK {s : State} (h : s.funOK) (b : Byte) : (emitByte b s).funOK :=
  funOK_setCurrentChunk h _

theorem emitByte_code {s : State} (h : s.funOK) (b : Byte) :
    (currentChunk (emitByte b s)).code = (currentChunk s).code ++ [b] := by
  unfold emitByte
  rw [currentChunk_setCurrentChunk h]
  rfl

theorem emitByte_constants {s : State} (h : s.funOK) (b : Byte) :
    (currentChunk (emitByte b s)).constants = (currentChunk s).constants := by
  unfold emitByte
  rw [currentChunk_setCurrentChunk h]
  rfl

@[simp] theorem emitBytes_compilers (a b : Byte) (s : State) :
    (emitBytes a b s).compilers = s.compilers := rfl

@[simp] theorem emitBytes_parser_eq (a b : Byte) (s : State) :
    (emitBytes a b s).parser = s.parser := rfl

@[simp] theorem emitBytes_scanner (a b : Byte) (s : State) :
    (emitBytes a b s).scanner = s.scanner := rfl

@[simp] theorem emitBytes_stderr (a b : Byte) (s : State) :
    (emitBytes a b s).stderr = s.stderr := rfl

@[simp] theorem emitBytes_structs (a b : Byte) (s : State) :
    (emitBytes a b s).structs = s.structs := rfl

@[simp] theorem emitBytes_cur (a b : Byte) (s : State) : (emitBytes a b s).cur = s.cur := rfl

theorem emitBytes_funOK {s : State} (h : s.funOK) (a b : Byte) : (emitBytes a b s).funOK :=
  emitByte_funOK (emitByte_funOK h a) b

theorem emitBytes_code {s : State} (h : s.funOK) (a b : Byte) :
    (currentChunk (emitBytes a b s)).code = (currentChunk s).code ++ [a, b] := by
  unfold emitBytes
  rw [emitByte_code (emitByte_funOK h a), emitByte_code h]
  simp

theorem emitBytes_constants {s : State} (h : s.funOK) (a b : Byte) :
    (currentChunk (emitBytes a b s)).constants = (currentChunk s).constants := by
  unfold emitBytes
  rw [emitByte_constants (emitByte_funOK h a), emitByte_constants h]

/-- The operand `makeConstant` returns when the pool already holds `k` constants. -/
theorem makeConstant_fst (v : Value) (s : State) :
    (makeConstant v s).1 =
      if (currentChunk s).constants.length > UINT8_MAX then 0
      else (currentChunk s).constants.length := by
  unfold makeConstant addConstant
  dsimp only
  split <;> rfl

@[simp] theorem makeConstant_compilers (v : Value) (s : State) :
    (makeConstant v s).2.compilers = s.compilers := by
  unfold makeConstant; dsimp only; split <;> simp

@[simp] theorem makeConstant_scanner (v : Value) (s : State) :
    (makeConstant v s).2.scanner = s.scanner := by
  unfold makeConstant; dsimp only; split <;> simp

@[simp] theorem makeConstant_structs (v : Value) (s : State) :
    (makeConstant v s).2.structs = s.structs := by
  unfold makeConstant; dsimp only; split <;> simp

@[simp] theorem makeConstant_current (v : Value) (s : State) :
    (makeConstant v s).2.parser.current = s.parser.current := by
  unfold makeConstant; dsimp only; split <;> simp

@[simp] theorem makeConstant_previous (v : Value) (s : State) :
    (makeConstant v s).2.parser.previous = s.parser.previous := by
  unfold makeConstant; dsimp only; split <;> simp

@[simp] theorem makeConstant_cur (v : Value) (s : State) :
    (makeConstant v s).2.cur = s.cur := by
  simp [State.cur, State.compilerAt]

theorem makeConstant_funOK {s : State} (h : s.funOK) (v : Value) :
    (makeConstant v s).2.funOK := by
  unfold makeConstant; dsimp only
  split
  · exact (error_funOK _ _).2 (funOK_setCurrentChunk h _)
  · exact funOK_setCurrentChunk h _

theorem makeConstant_code {s : State} (h : s.funOK) (v : Value) :
    (currentChunk (makeConstant v s).2).code = (currentChunk s).code := by
  unfold makeConstant; dsimp only
  split
  · rw [error_currentChunk, currentChunk_setCurrentChunk h]; rfl
  · rw [currentChunk_setCurrentChunk h]; rfl

theorem makeConstant_constants {s : State} (h : s.funOK) (v : Value) :
    (currentChunk (makeConstant v s).2).constants = (currentChunk s).constants ++ [v] := by
  unfold makeConstant; dsimp only
  split
  · rw [error_currentChunk, currentChunk_setCurrentChunk h]; rfl
  · rw [currentChunk_setCurrentChunk h]; rfl

/-- The two bytes a literal emits when the pool already holds `k` constants. -/
theorem emitConstant_code {s : State} (h : s.funOK) (v : Value) :
    (currentChunk (emitConstant v s)).code =
      (currentChunk s).code ++
        [Byte.op OP_CONSTANT,
          Byte.raw (if (currentChunk s).constants.length > UINT8_MAX then 0
                    else (currentChunk s).constants.length)] := by
  unfold emitConstant
  dsimp only
  rw [emitBytes_code (makeConstant_funOK h v), makeConstant_code h, makeConstant_fst]

theorem emitConstant_constants {s : State} (h : s.funOK) (v : Value) :
    (currentChunk (emitConstant v s)).constants = (currentChunk s).constants ++ [v] := by
  unfold emitConstant
  dsimp only
  rw [emitBytes_constants (makeConstant_funOK h v), makeConstant_constants h]

theorem emitConstant_funOK {s : State} (h : s.funOK) (v : Value) : (emitConstant v s).funOK :=
  emitBytes_funOK (makeConstant_funOK h v) _ _

@[simp] theorem emitConstant_compilers (v : Value) (s : State) :
    (emitConstant v s).compilers = s.compilers := by
  simp [emitConstant]

@[simp] theorem emitConstant_scanner (v : Value) (s : State) :
    (emitConstant v s).scanner = s.scanner := by
  simp [emitConstant]

@[simp] theorem emitConstant_current (v : Value) (s : State) :
    (emitConstant v s).parser.current = s.parser.current := by
  simp [emitConstant]

/-! ### More fuel never changes a result -/


theorem below_refl {α : Type} (x : Res α) : Below x x := fun _ h => h

theorem below_error {α : Type} (e : Fault) (y : Res α) : Below (Except.error e) y := by
  intro r h; cases h

theorem below_bind {α β : Type} {x x' : Res α} {f f' : α → Res β} (hx : Below x x')
    (hf : ∀ a, Below (f a) (f' a)) : Below (x >>= f) (x' >>= f') := by
  intro r h
  cases x with
  | error e => cases h
  | ok a =>
    rw [hx a rfl]
    exact hf a r h

theorem below_ite {α : Type} {c : Prop} [Decidable c] {a a' b b' : Res α} (ha : Below a a')
    (hb : Below b b') : Below (if c then a else b) (if c then a' else b') := by
  by_cases h : c
  · rw [if_pos h, if_pos h]; exact ha
  · rw [if_neg h, if_neg h]; exact hb


theorem expression_below {pp pp' : Precedence → State → Res State} (h : PPBelow pp pp')
    (s : State) : Below (expression pp s) (expression pp' s) := h _ _

theorem binary_below {pp pp' : Precedence → State → Res State} (h : PPBelow pp pp')
    (c : Bool) (s : State) : Below (binary pp c s) (binary pp' c s) := by
  unfold binary
  exact below_bind (h _ _) (fun _ => below_refl _)

theorem argumentLoop_below {pp pp' : Precedence → State → Res State} (h : PPBelow pp pp')
    {fuel fuel' : Nat} (hf : fuel ≤ fuel') (c : Nat) (s : State) :
    Below (argumentLoop pp fuel c s) (argumentLoop pp' fuel' c s) := by
  induction fuel generalizing fuel' c s with
  | zero => exact below_error _ _
  | succ k ih =>
    obtain ⟨k', rfl⟩ : ∃ k', fuel' = k' + 1 := ⟨fuel' - 1, by omega⟩
    unfold argumentLoop
    refine below_bind (h _ _) (fun a => ?_)
    exact below_ite (ih (by omega) _ _) (below_refl _)

theorem argumentList_below {pp pp' : Precedence → State → Res State} (h : PPBelow pp pp')
    {n n' : Nat} (hn : n ≤ n') (s : State) :
    Below (argumentList pp n s) (argumentList pp' n' s) := by
  unfold argumentList
  exact below_bind (below_ite (argumentLoop_below h hn _ _) (below_refl _)) (fun _ => below_refl _)

theorem and_below {pp pp' : Precedence → State → Res State} (h : PPBelow pp pp')
    (c : Bool) (s : State) : Below (and_ pp c s) (and_ pp' c s) := by
  unfold and_
  exact below_bind (h _ _) (fun _ => below_refl _)

theorem or_below {pp pp' : Precedence → State → Res State} (h : PPBelow pp pp')
    (c : Bool) (s : State) : Below (or_ pp c s) (or_ pp' c s) := by
  unfold or_
  exact below_bind (h _ _) (fun _ => below_refl _)

theorem unary_below {pp pp' : Precedence → State → Res State} (h : PPBelow pp pp')
    (c : Bool) (s : State) : Below (unary pp c s) (unary pp' c s) := by
  unfold unary
  exact below_bind (h _ _) (fun _ => below_refl _)

theorem grouping_below {pp pp' : Precedence → State → Res State} (h : PPBelow pp pp')
    (c : Bool) (s : State) : Below (grouping pp c s) (grouping pp' c s) := by
  unfold grouping
  exact below_bind (h _ _) (fun _ => below_refl _)

theorem call_below {pp pp' : Precedence → State → Res State} (h : PPBelow pp pp')
    {n n' : Nat} (hn : n ≤ n') (c : Bool) (s : State) :
    Below (call pp n c s) (call pp' n' c s) := by
  unfold call
  exact below_bind (argumentList_below h hn _) (fun _ => below_refl _)

theorem namedVariable_below {pp pp' : Precedence → State → Res State} (h : PPBelow pp pp')
    (name : Token) (c : Bool) (s : State) :
    Below (namedVariable pp name c s) (namedVariable pp' name c s) := by
  unfold namedVariable
  dsimp only
  exact below_ite (below_bind (h _ _) (fun _ => below_refl _)) (below_refl _)

theorem variable_below {pp pp' : Precedence → State → Res State} (h : PPBelow pp pp')
    (c : Bool) (s : State) : Below (variable_ pp c s) (variable_ pp' c s) :=
  namedVariable_below h _ _ _

theorem super_below {pp pp' : Precedence → State → Res State} (h : PPBelow pp pp')
    {n n' : Nat} (hn : n ≤ n') (c : Bool) (s : State) :
    Below (super_ pp n c s) (super_ pp' n' c s) := by
  unfold super_
  dsimp only
  refine below_bind (namedVariable_below h _ _ _) (fun a => ?_)
  refine below_ite ?_ ?_
  · refine below_bind (argumentList_below h hn _) (fun b => ?_)
    exact below_bind (namedVariable_below h _ _ _) (fun _ => below_refl _)
  · exact below_bind (namedVariable_below h _ _ _) (fun _ => below_refl _)

theorem dot_below {pp pp' : Precedence → State → Res State} (h : PPBelow pp pp')
    {n n' : Nat} (hn : n ≤ n') (c : Bool) (s : State) :
    Below (dot pp n c s) (dot pp' n' c s) := by
  unfold dot
  dsimp only
  refine below_ite (below_bind (h _ _) (fun _ => below_refl _)) ?_
  exact below_ite (below_bind (argumentList_below h hn _) (fun _ => below_refl _)) (below_refl _)

theorem self_below {pp pp' : Precedence → State → Res State} (h : PPBelow pp pp')
    (c : Bool) (s : State) : Below (self pp c s) (self pp' c s) := by
  unfold self
  split
  · exact below_refl _
  · exact variable_below h _ _

theorem listLoop_below {pp pp' : Precedence → State → Res State} (h : PPBelow pp pp')
    {fuel fuel' : Nat} (hf : fuel ≤ fuel') (c : Nat) (s : State) :
    Below (listLoop pp fuel c s) (listLoop pp' fuel' c s) := by
  induction fuel generalizing fuel' c s with
  | zero => exact below_error _ _
  | succ k ih =>
    obtain ⟨k', rfl⟩ : ∃ k', fuel' = k' + 1 := ⟨fuel' - 1, by omega⟩
    unfold listLoop
    refine below_bind ?_ (fun a => ?_)
    · exact below_ite (below_bind (h _ _) (fun _ => below_refl _)) (below_refl _)
    · exact below_ite (ih (by omega) _ _) (below_refl _)

theorem list_below {pp pp' : Precedence → State → Res State} (h : PPBelow pp pp')
    {n n' : Nat} (hn : n ≤ n') (c : Bool) (s : State) :
    Below (list pp n c s) (list pp' n' c s) := by
  unfold list
  dsimp only
  refine below_bind ?_ (fun _ => below_refl _)
  exact below_ite (below_bind (listLoop_below h hn _ _) (fun _ => below_refl _)) (below_refl _)

theorem applyRule_below {pp pp' : Precedence → State → Res State} (h : PPBelow pp pp')
    {n n' : Nat} (hn : n ≤ n') (fn : ParseFn) (c : Bool) (s : State) :
    Below (applyRule pp n fn c s) (applyRule pp' n' fn c s) := by
  cases fn <;> simp only [applyRule]
  · exact grouping_below h _ _
  · exact call_below h hn _ _
  · exact dot_below h hn _ _
  · exact unary_below h _ _
  · exact binary_below h _ _
  · exact variable_below h _ _
  · exact below_refl _
  · exact below_refl _
  · exact and_below h _ _
  · exact below_refl _
  · exact or_below h _ _
  · exact super_below h hn _ _
  · exact self_below h _ _
  · exact list_below h hn _ _

theorem infixLoop_below {pp pp' : Precedence → State → Res State} (h : PPBelow pp pp')
    {n n' : Nat} (hn : n ≤ n') (p : Precedence) (c : Bool) {fuel fuel' : Nat}
    (hf : fuel ≤ fuel') (s : State) :
    Below (infixLoop pp n p c fuel s) (infixLoop pp' n' p c fuel' s) := by
  induction fuel generalizing fuel' s with
  | zero => exact below_error _ _
  | succ k ih =>
    obtain ⟨k', rfl⟩ : ∃ k', fuel' = k' + 1 := ⟨fuel' - 1, by omega⟩
    unfold infixLoop
    refine below_ite ?_ (below_refl _)
    dsimp only
    split
    · exact below_refl _
    · exact below_bind (applyRule_below h hn _ _ _) (fun a => ih (by omega) a)

/-- More fuel never changes what `parsePrecedence` returns. -/
theorem parsePrecedence_below {n n' : Nat} (hn : n ≤ n') :
    PPBelow (parsePrecedence n) (parsePrecedence n') := by
  induction n generalizing n' with
  | zero => intro p s; exact below_error _ _
  | succ k ih =>
    obtain ⟨k', rfl⟩ : ∃ k', n' = k' + 1 := ⟨n' - 1, by omega⟩
    intro p s
    unfold parsePrecedence
    dsimp only
    split
    · exact below_refl _
    · have hk : k ≤ k' := by omega
      refine below_bind (applyRule_below (ih hk) hk _ _ _) (fun a => ?_)
      exact below_bind (infixLoop_below (ih hk) hk _ _ hk _) (fun _ => below_refl _)

/-! ### Arithmetic expressions -/

theorem appended_refl {s : State} (h : s.funOK) : Appended s s [] 0 :=
  ⟨rfl, h, by simp, by simp⟩

theorem Appended.trans {s s' s'' : State} {c c' : List Byte} {k k' : Nat}
    (h : Appended s s' c k) (h' : Appended s' s'' c' k') : Appended s s'' (c ++ c') (k + k') :=
  ⟨h'.compilers.trans h.compilers, h'.funOK, by rw [h'.code, h.code, List.append_assoc],
    by rw [h'.constants, h.constants, Nat.add_assoc]⟩

theorem appended_advance {s : State} (h : s.funOK) : Appended s (advance s) [] 0 :=
  ⟨advance_compilers s, (advance_funOK s).2 h, by simp, by simp⟩

theorem appended_error {s : State} (h : s.funOK) (m : String) : Appended s (error m s) [] 0 :=
  ⟨error_compilers m s, (error_funOK m s).2 h, by simp, by simp⟩

theorem appended_emitByte {s : State} (h : s.funOK) (b : Byte) :
    Appended s (emitByte b s) [b] 0 :=
  ⟨rfl, emitByte_funOK h b, emitByte_code h b, by rw [emitByte_constants h]; rfl⟩

theorem appended_number {s : State} (h : s.funOK) (c : Bool) :
    Appended s (number c s) (literalCode (currentChunk s).constants.length) 1 := by
  unfold number
  exact ⟨emitConstant_compilers _ s, emitConstant_funOK h _, emitConstant_code h _,
    by rw [emitConstant_constants h]; simp⟩

theorem upcoming_congr {s s' : State} (hs : s'.scanner = s.scanner)
    (hc : s'.parser.current = s.parser.current) (ts : List TokenType) :
    upcoming s' ts = upcoming s ts := by
  cases ts with
  | nil => rfl
  | cons t ts => simp [upcoming, hs, hc]

theorem upcoming_head {s : State} {t : TokenType} {ts : List TokenType}
    (h : upcoming s (t :: ts) = true) : s.parser.current.type = t := by
  simp only [upcoming, Bool.and_eq_true, decide_eq_true_eq] at h
  exact h.1

theorem getRule_number : getRule TOKEN_NUMBER = ⟨some ParseFn.number, none, PREC_NONE⟩ := rfl

/-- A literal followed by a token that binds less than `p`. -/
theorem parse_literal {s : State} {t : TokenType} {ts : List TokenType} {p : Precedence}
    (m : Nat) (hok : s.funOK) (hup : upcoming s (TOKEN_NUMBER :: t :: ts) = true)
    (hp : (getRule t).precedence < p) (hp1 : PREC_ASSIGNMENT < p) :
    ∃ s', parsePrecedence (m + 2) p s = Except.ok s' ∧
      Appended s s' (literalCode (currentChunk s).constants.length) 1 ∧
      upcoming s' (t :: ts) = true := by
  obtain ⟨hup1, hprev, -⟩ := advance_upcoming hup
  have hty : (advance s).parser.previous.type = TOKEN_NUMBER := by
    rw [hprev]; exact upcoming_head hup
  have hok1 : (advance s).funOK := (advance_funOK s).2 hok
  have hna : decide (p ≤ PREC_ASSIGNMENT) = false := decide_eq_false (Nat.not_le.2 hp1)
  have hup2 : upcoming (number false (advance s)) (t :: ts) = true := by
    rw [upcoming_congr (s := advance s) (by simp [number]) (by simp [number])]; exact hup1
  have hcur : (number false (advance s)).parser.current.type = t := upcoming_head hup2
  refine ⟨number false (advance s), ?_, ?_, hup2⟩
  · unfold parsePrecedence
    simp only [hty, getRule_number, hna, applyRule, bind, Except.bind, pure, Except.pure]
    unfold infixLoop
    simp only [hcur, if_neg (Nat.not_le.2 hp), pure, Except.pure]
    simp
  · have h := (appended_advance hok).trans (appended_number hok1 false)
    simpa using h

theorem getRule_factor (op : FactorOp) :
    getRule op.type = ⟨none, some ParseFn.binary, PREC_FACTOR⟩ := by
  cases op <;> rfl

theorem getRule_term_infix (op : TermOp) : (getRule op.type).infixFn = some ParseFn.binary := by
  cases op <;> rfl

theorem getRule_term_precedence (op : TermOp) : (getRule op.type).precedence = PREC_TERM := by
  cases op <;> rfl

@[simp] theorem upcoming_emitByte (b : Byte) (s : State) (ts : List TokenType) :
    upcoming (emitByte b s) ts = upcoming s ts := upcoming_congr rfl rfl ts

/-- The head of the tokens after a literal of a product binds less than a unary operator. -/
theorem product_tail_head (ops : Product) (t : TokenType) (u : List TokenType)
    (ht : (getRule t).precedence < PREC_UNARY) :
    ∃ t' u', Product.tail ops ++ t :: u = t' :: u' ∧ (getRule t').precedence < PREC_UNARY := by
  cases ops with
  | nil => exact ⟨t, u, rfl, ht⟩
  | cons op ops =>
    refine ⟨op.type, _, rfl, ?_⟩
    rw [getRule_factor]
    decide

/-- The rule `binary` for a Factor operator whose right operand is a literal. -/
theorem binary_factor {s : State} (op : FactorOp) {t : TokenType} {ts : List TokenType}
    (m : Nat) (c : Bool) (hok : s.funOK) (hprev : s.parser.previous.type = op.type)
    (hup : upcoming s (TOKEN_NUMBER :: t :: ts) = true)
    (ht : (getRule t).precedence < PREC_UNARY) :
    ∃ s', binary (parsePrecedence (m + 2)) c s = Except.ok s' ∧
      Appended s s' (literalCode (currentChunk s).constants.length ++ [Byte.op op.opcode]) 1 ∧
      upcoming s' (t :: ts) = true := by
  obtain ⟨s1, h1, ha, hu⟩ := parse_literal (p := PREC_FACTOR + 1) m hok hup ht (by decide)
  unfold binary
  simp only [hprev, getRule_factor, h1, bind, Except.bind]
  cases op
  · exact ⟨_, rfl, ha.trans (appended_emitByte ha.funOK _), by simpa using hu⟩
  · exact ⟨_, rfl, ha.trans (appended_emitByte ha.funOK _), by simpa using hu⟩
  · exact ⟨_, rfl, ha.trans (appended_emitByte ha.funOK _), by simpa using hu⟩

/-- The loop of `parsePrecedence` steps over the rest of a product. -/
theorem infixLoop_factors (p : Product) {s : State} {t : TokenType} {u : List TokenType}
    {q : Precedence} (c : Bool) (m n : Nat) (hq : q ≤ PREC_FACTOR) (hok : s.funOK)
    (hup : upcoming s (Product.tail p ++ t :: u) = true)
    (ht : (getRule t).precedence < PREC_UNARY) :
    ∃ s', Appended s s' (productTailCode (currentChunk s).constants.length p) p.length ∧
      upcoming s' (t :: u) = true ∧
      ∀ k, infixLoop (parsePrecedence (m + 2)) n q c (p.length + k) s =
        infixLoop (parsePrecedence (m + 2)) n q c k s' := by
  induction p generalizing s with
  | nil => exact ⟨s, appended_refl hok, hup, fun k => by simp⟩
  | cons op ops ih =>
    obtain ⟨t', u', htail, ht'⟩ := product_tail_head ops t u ht
    have hup' : upcoming s (op.type :: TOKEN_NUMBER :: t' :: u') = true := by
      rw [← htail]; exact hup
    obtain ⟨hup1, hprev, -⟩ := advance_upcoming hup'
    have hok1 : (advance s).funOK := (advance_funOK s).2 hok
    have hty : (advance s).parser.previous.type = op.type := by
      rw [hprev]; exact upcoming_head hup'
    obtain ⟨s2, h2, ha2, hu2⟩ := binary_factor op m c hok1 hty hup1 ht'
    rw [← htail] at hu2
    obtain ⟨s3, ha3, hu3, h3⟩ := ih ha2.funOK hu2
    refine ⟨s3, ?_, hu3, fun k => ?_⟩
    · have h := ((appended_advance hok).trans ha2).trans ha3
      have hc : (currentChunk s2).constants.length = (currentChunk s).constants.length + 1 := by
        rw [ha2.constants]; simp
      rw [hc] at h
      simpa [productTailCode, Nat.add_comm] using h
    · have hlen : (op :: ops).length + k = (ops.length + k) + 1 := by simp; omega
      rw [hlen, infixLoop]
      have hcur : s.parser.current.type = op.type := upcoming_head hup'
      have hle : q ≤ (getRule s.parser.current.type).precedence := by
        rw [hcur, getRule_factor]; exact hq
      simp only [if_pos hle, hty, getRule_factor, applyRule, h2, bind, Except.bind]
      exact h3 k

theorem infixLoop_exit (pp : Precedence → State → Res State) (n : Nat) {q : Precedence}
    (c : Bool) (k : Nat) {s : State} (h : (getRule s.parser.current.type).precedence < q) :
    infixLoop pp n q c (k + 1) s = Except.ok s := by
  rw [infixLoop, if_neg (Nat.not_le.2 h)]
  rfl

@[simp] theorem upcoming_number (c : Bool) (s : State) (ts : List TokenType) :
    upcoming (number c s) ts = upcoming s ts :=
  upcoming_congr (by simp [number]) (by simp [number]) ts

/-- A product followed by a token that binds less than a Factor operator. -/
theorem parse_product (p : Product) {s : State} {t : TokenType} {u : List TokenType} (m : Nat)
    (hm : p.length ≤ m + 1) (hok : s.funOK)
    (hup : upcoming s (Product.tokens p ++ t :: u) = true)
    (ht : (getRule t).precedence < PREC_FACTOR) :
    ∃ s', parsePrecedence (m + 3) PREC_FACTOR s = Except.ok s' ∧
      Appended s s' (productCode (currentChunk s).constants.length p) p.size ∧
      upcoming s' (t :: u) = true := by
  have ht8 : (getRule t).precedence < PREC_UNARY := Nat.lt_trans ht (by decide)
  obtain ⟨t', u', htail, -⟩ := product_tail_head p t u ht8
  have hup' : upcoming s (TOKEN_NUMBER :: t' :: u') = true := by
    rw [← htail]; exact hup
  obtain ⟨hup1, hprev, -⟩ := advance_upcoming hup'
  have hty : (advance s).parser.previous.type = TOKEN_NUMBER := by
    rw [hprev]; exact upcoming_head hup'
  have hok1 : (advance s).funOK := (advance_funOK s).2 hok
  have ha2 := appended_number hok1 false
  have hu2 : upcoming (number false (advance s)) (Product.tail p ++ t :: u) = true := by
    rw [upcoming_number, htail]; exact hup1
  obtain ⟨s3, ha3, hu3, h3⟩ :=
    infixLoop_factors p false m (m + 2) (Nat.le_refl PREC_FACTOR) ha2.funOK hu2 ht8
  refine ⟨s3, ?_, ?_, hu3⟩
  · obtain ⟨k, hk⟩ : ∃ k, m + 2 = p.length + (k + 1) := ⟨m + 1 - p.length, by omega⟩
    have hcur : (getRule s3.parser.current.type).precedence < PREC_FACTOR := by
      rw [upcoming_head hu3]; exact ht
    have hloop : infixLoop (parsePrecedence (m + 2)) (m + 2) PREC_FACTOR false (m + 2)
        (number false (advance s)) = Except.ok s3 := by
      have h := h3 (k + 1)
      rw [← hk] at h
      rw [h, infixLoop_exit _ _ _ _ hcur]
    have hd : decide (PREC_FACTOR ≤ PREC_ASSIGNMENT) = false := by decide
    rw [parsePrecedence]
    simp only [hty, getRule_number, applyRule, hd, hloop, bind, Except.bind, pure, Except.pure]
    rfl
  · have h := ((appended_advance hok).trans ha2).trans ha3
    have hc : (currentChunk (number false (advance s))).constants.length =
        (currentChunk s).constants.length + 1 := by
      rw [ha2.constants]; simp
    rw [hc] at h
    simpa [productCode, Product.size, Nat.add_comm] using h

/-- The head of the tokens after a product of a sum binds less than a Factor operator. -/
theorem sum_tail_head (r : List (TermOp × Product)) (t : TokenType) (u : List TokenType)
    (ht : (getRule t).precedence < PREC_FACTOR) :
    ∃ t' u', sumTail r ++ t :: u = t' :: u' ∧ (getRule t').precedence < PREC_FACTOR := by
  cases r with
  | nil => exact ⟨t, u, rfl, ht⟩
  | cons x r =>
    refine ⟨x.1.type, _, rfl, ?_⟩
    rw [getRule_term_precedence]
    decide

/-- The rule `binary` for a Term operator whose right operand is a product. -/
theorem binary_term {s : State} (op : TermOp) (p : Product) {t : TokenType}
    {u : List TokenType} (m : Nat) (c : Bool) (hm : p.length ≤ m + 1) (hok : s.funOK)
    (hprev : s.parser.previous.type = op.type)
    (hup : upcoming s (Product.tokens p ++ t :: u) = true)
    (ht : (getRule t).precedence < PREC_FACTOR) :
    ∃ s', binary (parsePrecedence (m + 3)) c s = Except.ok s' ∧
      Appended s s' (productCode (currentChunk s).constants.length p ++ [Byte.op op.opcode])
        p.size ∧
      upcoming s' (t :: u) = true := by
  obtain ⟨s1, h1, ha, hu⟩ := parse_product p m hm hok hup ht
  have h1' : parsePrecedence (m + 3) (PREC_TERM + 1) s = Except.ok s1 := h1
  unfold binary
  simp only [hprev, getRule_term_precedence, h1', bind, Except.bind]
  cases op
  · exact ⟨_, rfl, ha.trans (appended_emitByte ha.funOK _), by simpa using hu⟩
  · exact ⟨_, rfl, ha.trans (appended_emitByte ha.funOK _), by simpa using hu⟩

/-- The loop of `parsePrecedence` steps over the rest of a sum. -/
theorem infixLoop_terms (r : List (TermOp × Product)) {s : State} {t : TokenType}
    {u : List TokenType} {q : Precedence} (c : Bool) (m n : Nat) (hq : q ≤ PREC_TERM)
    (hm : ∀ x ∈ r, List.length (Prod.snd x) ≤ m + 1) (hok : s.funOK)
    (hup : upcoming s (sumTail r ++ t :: u) = true)
    (ht : (getRule t).precedence < PREC_FACTOR) :
    ∃ s', Appended s s' (sumTailCode (currentChunk s).constants.length r) (sumTailSize r) ∧
      upcoming s' (t :: u) = true ∧
      ∀ k, infixLoop (parsePrecedence (m + 3)) n q c (r.length + k) s =
        infixLoop (parsePrecedence (m + 3)) n q c k s' := by
  induction r generalizing s with
  | nil => exact ⟨s, appended_refl hok, hup, fun k => by simp⟩
  | cons x r ih =>
    obtain ⟨t', u', htail, ht'⟩ := sum_tail_head r t u ht
    have hup' : upcoming s (x.1.type :: (Product.tokens x.2 ++ t' :: u')) = true := by
      rw [← htail]
      simpa [sumTail, List.append_assoc] using hup
    have hup'' : upcoming s (x.1.type :: TOKEN_NUMBER :: (Product.tail x.2 ++ t' :: u')) = true :=
      hup'
    obtain ⟨hup1, hprev, -⟩ := advance_upcoming hup''
    have hok1 : (advance s).funOK := (advance_funOK s).2 hok
    have hty : (advance s).parser.previous.type = x.1.type := by
      rw [hprev]; exact upcoming_head hup'
    obtain ⟨s2, h2, ha2, hu2⟩ :=
      binary_term x.1 x.2 m c (hm x (List.mem_cons_self _ _)) hok1 hty hup1 ht'
    rw [← htail] at hu2
    obtain ⟨s3, ha3, hu3, h3⟩ :=
      ih (fun y hy => hm y (List.mem_cons_of_mem _ hy)) ha2.funOK hu2
    refine ⟨s3, ?_, hu3, fun k => ?_⟩
    · have h := ((appended_advance hok).trans ha2).trans ha3
      have hc : (currentChunk s2).constants.length =
          (currentChunk s).constants.length + x.2.size := by
        rw [ha2.constants]; simp
      rw [hc] at h
      simpa [sumTailCode, sumTailSize, Nat.add_comm] using h
    · have hlen : (x :: r).length + k = (r.length + k) + 1 := by simp; omega
      rw [hlen, infixLoop]
      have hcur : s.parser.current.type = x.1.type := upcoming_head hup'
      have hle : q ≤ (getRule s.parser.current.type).precedence := by
        rw [hcur, getRule_term_precedence]; exact hq
      simp only [if_pos hle, hty, getRule_term_infix, applyRule, h2, bind, Except.bind]
      exact h3 k

theorem postorder_treeFrom (c : Nat) (p : Product) (acc : Arith) (i : Nat) :
    Arith.postorder c (Product.treeFrom acc i p) =
      Arith.postorder c acc ++ productTailCode (c + i) p := by
  induction p generalizing acc i with
  | nil => simp [Product.treeFrom, productTailCode]
  | cons op ops ih =>
    rw [Product.treeFrom, ih]
    simp [Arith.postorder, productTailCode, Nat.add_assoc]

theorem postorder_product (c i : Nat) (p : Product) :
    Arith.postorder c (Product.tree i p) = productCode (c + i) p := by
  rw [Product.tree, postorder_treeFrom]
  simp [Arith.postorder, productCode, Nat.add_assoc]

theorem postorder_sumTreeFrom (c : Nat) (r : List (TermOp × Product)) (acc : Arith) (i : Nat) :
    Arith.postorder c (sumTreeFrom acc i r) = Arith.postorder c acc ++ sumTailCode (c + i) r := by
  induction r generalizing acc i with
  | nil => simp [sumTreeFrom, sumTailCode]
  | cons x r ih =>
    rw [sumTreeFrom, ih]
    simp [Arith.postorder, sumTailCode, postorder_product, Nat.add_assoc]

theorem postorder_sum (c : Nat) (e : Sum) :
    Arith.postorder c (Sum.tree e) =
      productCode c e.first ++ sumTailCode (c + e.first.size) e.rest := by
  rw [Sum.tree, postorder_sumTreeFrom, postorder_product]
  simp

theorem length_le_sumTailSize (r : List (TermOp × Product)) : r.length ≤ sumTailSize r := by
  induction r with
  | nil => simp [sumTailSize]
  | cons x r ih => simp [sumTailSize, Product.size]; omega

theorem mem_length_lt_sumTailSize (r : List (TermOp × Product)) :
    ∀ x ∈ r, List.length (Prod.snd x) < sumTailSize r := by
  induction r with
  | nil => intro x hx; cases hx
  | cons y r ih =>
    intro x hx
    rcases List.mem_cons.1 hx with h | h
    · subst h; simp [sumTailSize, Product.size]; omega
    · have := ih x h
      simp [sumTailSize, Product.size]; omega

theorem match_appended (t : TokenType) {s : State} (h : s.funOK) :
    Appended s (match_ t s).2 [] 0 := by
  unfold match_
  split
  · exact appended_refl h
  · exact appended_advance h

/-- Arithmetic over number literals: `expression()` emits the postfix order of
the tree that has Factor operators above Term operators and every operator
left-associative. -/
theorem expression_arithmetic (e : Sum) (stop : TokenType) (rest : List TokenType) (s : State)
    (hok : s.funOK) (hup : upcoming s (Sum.tokens e ++ stop :: rest) = true)
    (hstop : (getRule stop).precedence = PREC_NONE) :
    ∃ N, ∀ n, N ≤ n → ∃ s', expression (parsePrecedence n) s = Except.ok s' ∧
      Appended s s' (Arith.postorder (currentChunk s).constants.length (Sum.tree e))
        (Sum.size e) := by
  refine ⟨Sum.size e + 4, fun n hn => ?_⟩
  obtain ⟨M, rfl⟩ : ∃ M, n = M + 4 := ⟨n - 4, by omega⟩
  have hst7 : (getRule stop).precedence < PREC_FACTOR := by rw [hstop]; decide
  have hst1 : (getRule stop).precedence < PREC_ASSIGNMENT := by rw [hstop]; decide
  obtain ⟨t1, u1, htail1, ht1⟩ := sum_tail_head e.rest stop rest hst7
  have ht18 : (getRule t1).precedence < PREC_UNARY := Nat.lt_trans ht1 (by decide)
  obtain ⟨t0, u0, htail0, -⟩ := product_tail_head e.first t1 u1 ht18
  have hup0 : upcoming s (TOKEN_NUMBER :: t0 :: u0) = true := by
    rw [← htail0, ← htail1]
    simpa [Sum.tokens, Product.tokens, List.append_assoc] using hup
  obtain ⟨hupa, hprev, -⟩ := advance_upcoming hup0
  have hty : (advance s).parser.previous.type = TOKEN_NUMBER := by
    rw [hprev]; exact upcoming_head hup0
  have hok1 : (advance s).funOK := (advance_funOK s).2 hok
  have ha2 := appended_number hok1 true
  have hu2 : upcoming (number true (advance s)) (Product.tail e.first ++ t1 :: u1) = true := by
    rw [upcoming_number, htail0]; exact hupa
  have hsz : Sum.size e = e.first.length + 1 + sumTailSize e.rest := rfl
  have hlenr := length_le_sumTailSize e.rest
  obtain ⟨s3, ha3, hu3, h3⟩ :=
    infixLoop_factors e.first true (M + 1) (M + 3) (q := PREC_ASSIGNMENT) (by decide)
      ha2.funOK hu2 ht18
  rw [← htail1] at hu3
  obtain ⟨s4, ha4, hu4, h4⟩ :=
    infixLoop_terms e.rest true M (M + 3) (q := PREC_ASSIGNMENT) (by decide)
      (fun x hx => by have := mem_length_lt_sumTailSize e.rest x hx; omega) ha3.funOK hu3 hst7
  have hcur : (getRule s4.parser.current.type).precedence < PREC_ASSIGNMENT := by
    rw [upcoming_head hu4]; exact hst1
  obtain ⟨k, hk⟩ : ∃ k, M + 3 = e.first.length + (e.rest.length + (k + 1)) :=
    ⟨M + 2 - e.first.length - e.rest.length, by omega⟩
  have hloop : infixLoop (parsePrecedence (M + 3)) (M + 3) PREC_ASSIGNMENT true (M + 3)
      (number true (advance s)) = Except.ok s4 := by
    have h := h3 (e.rest.length + (k + 1))
    rw [h4 (k + 1), infixLoop_exit _ _ _ _ hcur] at h
    rw [← hk] at h
    exact h
  have hd : decide (PREC_ASSIGNMENT ≤ PREC_ASSIGNMENT) = true := by decide
  have hall : Appended s s4 (Arith.postorder (currentChunk s).constants.length (Sum.tree e))
      (Sum.size e) := by
    have h := (((appended_advance hok).trans ha2).trans ha3).trans ha4
    have hc2 : (currentChunk (number true (advance s))).constants.length =
        (currentChunk s).constants.length + 1 := by
      rw [ha2.constants]; simp
    have hc3 : (currentChunk s3).constants.length =
        (currentChunk s).constants.length + e.first.size := by
      rw [ha3.constants, hc2]; simp [Product.size]; omega
    rw [hc3, hc2] at h
    rw [postorder_sum]
    simpa [productCode, Sum.size, Product.size, Nat.add_comm, Nat.add_left_comm,
      List.append_assoc] using h
  unfold expression
  rw [parsePrecedence]
  simp only [hty, getRule_number, applyRule, hd, hloop, bind, Except.bind, pure, Except.pure,
    Bool.true_and]
  split
  · refine ⟨_, rfl, ?_⟩
    have h := (hall.trans (match_appended TOKEN_EQUAL hall.funOK)).trans
      (appended_error (match_appended TOKEN_EQUAL hall.funOK).funOK "Invalid assignment target.")
    simpa using h
  · exact ⟨_, rfl, hall⟩

/-! ### Scopes -/

theorem setCur_cur {s : State} (h : s.compilers ≠ []) (c : Compiler) : (s.setCur c).cur = c := by
  cases hc : s.compilers with
  | nil => exact absurd hc h
  | cons a as => simp [State.setCur, State.setCompilerAt, State.cur, State.compilerAt, hc]

theorem setCur_compilers_ne {s : State} (h : s.compilers ≠ []) (c : Compiler) :
    (s.setCur c).compilers ≠ [] := by
  cases hc : s.compilers with
  | nil => exact absurd hc h
  | cons a as => simp [State.setCur, State.setCompilerAt, hc]

@[simp] theorem setCur_heap (s : State) (c : Compiler) : (s.setCur c).heap = s.heap := rfl

@[simp] theorem setCur_parser_eq (s : State) (c : Compiler) : (s.setCur c).parser = s.parser := rfl

@[simp] theorem setCur_scanner (s : State) (c : Compiler) : (s.setCur c).scanner = s.scanner :=
  rfl

@[simp] theorem setCur_stderr (s : State) (c : Compiler) : (s.setCur c).stderr = s.stderr := rfl

theorem emitByte_compilers_ne {s : State} (h : s.compilers ≠ []) (b : Byte) :
    (emitByte b s).compilers ≠ [] := h

theorem findLocal_some {c : Compiler} {name : Token} {n i : Nat}
    (h : findLocal c name n = some i) :
    i < n ∧ identifiersEqual name (c.localAt i).name = true ∧
      ∀ j, i < j → j < n → identifiersEqual name (c.localAt j).name = false := by
  induction n with
  | zero => simp [findLocal] at h
  | succ n ih =>
    rw [findLocal] at h
    by_cases hm : identifiersEqual name (c.localAt n).name = true
    · rw [if_pos hm] at h
      cases h
      exact ⟨Nat.lt_succ_self _, hm, fun j h1 h2 => by omega⟩
    · rw [if_neg hm] at h
      obtain ⟨h1, h2, h3⟩ := ih h
      refine ⟨by omega, h2, fun j hj hj' => ?_⟩
      by_cases hjn : j = n
      · subst hjn; simpa using hm
      · exact h3 j hj (by omega)

theorem findLocal_none {c : Compiler} {name : Token} {n : Nat}
    (h : findLocal c name n = none) :
    ∀ j, j < n → identifiersEqual name (c.localAt j).name = false := by
  induction n with
  | zero => intro j hj; omega
  | succ n ih =>
    rw [findLocal] at h
    by_cases hm : identifiersEqual name (c.localAt n).name = true
    · rw [if_pos hm] at h; cases h
    · rw [if_neg hm] at h
      intro j hj
      by_cases hjn : j = n
      · subst hjn; simpa using hm
      · exact ih h j (by omega)

/-- The loop of `resolveLocal` returns the innermost matching slot, `-1` when
there is none, and reports the error when that local has depth `-1`. -/
theorem resolveLocalLoop_eq (c : Compiler) (name : Token) (n : Nat) (s : State) :
    resolveLocalLoop c name n s =
      match findLocal c name n with
      | none => (-1, s)
      | some i =>
        ((i : Int),
          if (c.localAt i).depth = -1 then error ownInitializerMessage s else s) := by
  induction n with
  | zero => rfl
  | succ n ih =>
    rw [resolveLocalLoop, findLocal]
    by_cases hm : identifiersEqual name (c.localAt n).name = true
    · simp only [hm, if_true]; rfl
    · simp only [hm, if_false]
      exact ih

theorem resolveLocal_eq (c : Compiler) (name : Token) (s : State) :
    resolveLocal c name s =
      match findLocal c name c.localCount with
      | none => (-1, s)
      | some i =>
        ((i : Int),
          if (c.localAt i).depth = -1 then error ownInitializerMessage s else s) :=
  resolveLocalLoop_eq c name c.localCount s

theorem resolveLocal_fst_eq_neg_one (c : Compiler) (name : Token) (s : State) :
    (resolveLocal c name s).1 = -1 ↔ hasLocal c name = false := by
  rw [resolveLocal_eq, hasLocal]
  cases findLocal c name c.localCount with
  | none => simp
  | some i => simp

@[simp] theorem resolveLocal_compilers (c : Compiler) (name : Token) (s : State) :
    (resolveLocal c name s).2.compilers = s.compilers := by
  rw [resolveLocal_eq]
  cases findLocal c name c.localCount with
  | none => rfl
  | some i => dsimp only; split <;> simp

@[simp] theorem resolveLocal_heap (c : Compiler) (name : Token) (s : State) :
    (resolveLocal c name s).2.heap = s.heap := by
  rw [resolveLocal_eq]
  cases findLocal c name c.localCount with
  | none => rfl
  | some i => dsimp only; split <;> simp

theorem resolveLocal_miss {c : Compiler} {name : Token} {s : State}
    (h : (resolveLocal c name s).1 = -1) : resolveLocal c name s = (-1, s) := by
  rw [resolveLocal_eq] at h ⊢
  cases hf : findLocal c name c.localCount with
  | none => rfl
  | some i => rw [hf] at h; simp at h

/-! ### Array cells -/

theorem getD_store_same {α : Type} (a : List α) (i : Nat) (x d d' : α) :
    (store a i x d).getD i d' = x := by
  unfold store
  by_cases h : i < a.length
  · rw [if_pos h]
    simp [List.getD, List.getElem?_set, h]
  · rw [if_neg h]
    have hlen : (a ++ List.replicate (i - a.length) d).length = i := by
      simp; omega
    rw [List.getD_eq_getElem?_getD, List.getElem?_append_right (by omega), hlen]
    simp

theorem getD_store_ne {α : Type} (a : List α) {i j : Nat} (x d : α) (h : j ≠ i) :
    (store a i x d).getD j d = a.getD j d := by
  unfold store
  by_cases hi : i < a.length
  · rw [if_pos hi]
    simp [List.getD, List.getElem?_set, Ne.symm h]
  · rw [if_neg hi]
    rw [List.getD_eq_getElem?_getD, List.getD_eq_getElem?_getD]
    by_cases hj : j < a.length
    · rw [List.getElem?_append_left (by simp; omega), List.getElem?_append_left hj]
    · have hja : a[j]? = none := List.getElem?_eq_none (by omega)
      rw [hja]
      by_cases hji : j < i
      · rw [List.getElem?_append_left (by simp; omega),
          List.getElem?_append_right (by omega)]
        have hlt : j - a.length < i - a.length := by omega
        simp [List.getElem?_replicate, hlt]
      · rw [List.getElem?_eq_none (by simp; omega)]

/-! ### Upvalue descriptors -/

theorem compilerAt_setCompilerAt_same {s : State} {k : Nat} (h : k < s.compilers.length)
    (c : Compiler) : (s.setCompilerAt k c).compilerAt k = c := by
  simp [State.setCompilerAt, State.compilerAt, List.getD, List.getElem?_set, h]

theorem compilerAt_setCompilerAt_ne (s : State) {k k' : Nat} (h : k' ≠ k) (c : Compiler) :
    (s.setCompilerAt k c).compilerAt k' = s.compilerAt k' := by
  simp [State.setCompilerAt, State.compilerAt, List.getD, List.getElem?_set, Ne.symm h]

@[simp] theorem setCompilerAt_length (s : State) (k : Nat) (c : Compiler) :
    (s.setCompilerAt k c).compilers.length = s.compilers.length := by
  simp [State.setCompilerAt]

@[simp] theorem setCompilerAt_heap (s : State) (k : Nat) (c : Compiler) :
    (s.setCompilerAt k c).heap = s.heap := rfl

@[simp] theorem setCompilerAt_parser_eq (s : State) (k : Nat) (c : Compiler) :
    (s.setCompilerAt k c).parser = s.parser := rfl

@[simp] theorem setCompilerAt_stderr (s : State) (k : Nat) (c : Compiler) :
    (s.setCompilerAt k c).stderr = s.stderr := rfl

@[simp] theorem setCompilerAt_scanner (s : State) (k : Nat) (c : Compiler) :
    (s.setCompilerAt k c).scanner = s.scanner := rfl

@[simp] theorem setCompilerAt_functionAt (s : State) (k : Nat) (c : Compiler) (ptr : Nat) :
    (s.setCompilerAt k c).functionAt ptr = s.functionAt ptr := rfl

@[simp] theorem setFunctionAt_compilerAt (s : State) (ptr : Nat) (f : ObjFunction) (k : Nat) :
    (s.setFunctionAt ptr f).compilerAt k = s.compilerAt k := rfl

theorem findUpvalue_some {c : Compiler} {index : Nat} {isLocal : Bool} {n : Nat} :
    ∀ {i0 i : Nat}, findUpvalue c index isLocal n i0 = some i →
      i0 ≤ i ∧ i < i0 + n ∧ c.upvalueAt i = ⟨index, isLocal⟩ ∧
        ∀ j, i0 ≤ j → j < i → c.upvalueAt j ≠ ⟨index, isLocal⟩ := by
  induction n with
  | zero => intro i0 i h; simp [findUpvalue] at h
  | succ n ih =>
    intro i0 i h
    rw [findUpvalue] at h
    by_cases hm : (c.upvalueAt i0).index = index ∧ (c.upvalueAt i0).isLocal = isLocal
    · simp only [hm, and_self, if_true] at h
      cases h
      refine ⟨Nat.le_refl _, by omega, ?_, fun j h1 h2 => by omega⟩
      cases hc : c.upvalueAt i0
      rw [hc] at hm
      simp at hm
      simp [hm.1, hm.2]
    · rw [if_neg hm] at h
      obtain ⟨h1, h2, h3, h4⟩ := ih h
      refine ⟨by omega, by omega, h3, fun j hj hj' => ?_⟩
      by_cases hj0 : j = i0
      · subst hj0
        intro hc
        apply hm
        rw [hc]
        exact ⟨rfl, rfl⟩
      · exact h4 j (by omega) hj'

theorem findUpvalue_none {c : Compiler} {index : Nat} {isLocal : Bool} {n : Nat} :
    ∀ {i0 : Nat}, findUpvalue c index isLocal n i0 = none →
      ∀ j, i0 ≤ j → j < i0 + n → c.upvalueAt j ≠ ⟨index, isLocal⟩ := by
  induction n with
  | zero => intro i0 _ j h1 h2; omega
  | succ n ih =>
    intro i0 h
    rw [findUpvalue] at h
    by_cases hm : (c.upvalueAt i0).index = index ∧ (c.upvalueAt i0).isLocal = isLocal
    · simp only [hm, and_self, if_true] at h
      cases h
    · rw [if_neg hm] at h
      intro j hj hj'
      by_cases hj0 : j = i0
      · subst hj0
        intro hc
        apply hm
        rw [hc]
        exact ⟨rfl, rfl⟩
      · exact ih h j (by omega) (by omega)

/-- A descriptor that is already registered is reused: `addUpvalue` returns its
index and leaves the state as it is. -/
theorem addUpvalue_found {k index : Nat} {isLocal : Bool} {s : State} {i : Nat}
    (h : findUpvalue (s.compilerAt k) index isLocal (s.upvalueCountAt k) 0 = some i) :
    addUpvalue k index isLocal s = ((i : Int), s) := by
  unfold addUpvalue
  unfold State.upvalueCountAt at h
  simp only [h]

/-- A new descriptor when the function already has 256: the error. -/
theorem addUpvalue_full {k index : Nat} {isLocal : Bool} {s : State}
    (h : findUpvalue (s.compilerAt k) index isLocal (s.upvalueCountAt k) 0 = none)
    (hfull : s.upvalueCountAt k = UINT8_COUNT) :
    addUpvalue k index isLocal s = (0, error tooManyUpvaluesMessage s) := by
  unfold addUpvalue
  unfold State.upvalueCountAt at h hfull
  dsimp only
  rw [h]
  dsimp only
  rw [if_pos hfull]
  rfl

/-- A new descriptor when there is room: it goes to cell `upvalueCount`, which is
returned, and `upvalueCount` grows by one. -/
theorem addUpvalue_new {k index : Nat} {isLocal : Bool} {s : State}
    (h : findUpvalue (s.compilerAt k) index isLocal (s.upvalueCountAt k) 0 = none)
    (hroom : s.upvalueCountAt k ≠ UINT8_COUNT) (hok : s.funOKAt k) :
    (addUpvalue k index isLocal s).1 = (s.upvalueCountAt k : Int) ∧
      (addUpvalue k index isLocal s).2.upvalueCountAt k = s.upvalueCountAt k + 1 ∧
      ((addUpvalue k index isLocal s).2.compilerAt k).upvalueAt (s.upvalueCountAt k) =
        ⟨index, isLocal⟩ ∧
      (∀ j, j ≠ s.upvalueCountAt k →
        ((addUpvalue k index isLocal s).2.compilerAt k).upvalueAt j =
          (s.compilerAt k).upvalueAt j) ∧
      ((addUpvalue k index isLocal s).2.compilerAt k).locals = (s.compilerAt k).locals ∧
      ((addUpvalue k index isLocal s).2.compilerAt k).localCount =
        (s.compilerAt k).localCount ∧
      (∀ k', k' ≠ k →
        (addUpvalue k index isLocal s).2.compilerAt k' = s.compilerAt k') ∧
      (addUpvalue k index isLocal s).2.parser = s.parser ∧
      (addUpvalue k index isLocal s).2.stderr = s.stderr := by
  obtain ⟨hk, f, hf⟩ := hok
  have hcount : (s.functionAt (s.compilerAt k).function).upvalueCount = s.upvalueCountAt k := rfl
  have heq : addUpvalue k index isLocal s =
      ((s.upvalueCountAt k : Int),
        (s.setCompilerAt k
          { s.compilerAt k with
            upvalues := store (s.compilerAt k).upvalues (s.upvalueCountAt k)
              { index := index, isLocal := isLocal } Upvalue.zero }).setFunctionAt
          (s.compilerAt k).function
          { s.functionAt (s.compilerAt k).function with
            upvalueCount := (s.functionAt (s.compilerAt k).function).upvalueCount + 1 }) := by
    unfold addUpvalue
    unfold State.upvalueCountAt at h hroom
    simp only [h, hroom, if_false]
    rfl
  rw [heq]
  have hf' : (s.setCompilerAt k
      { s.compilerAt k with
        upvalues := store (s.compilerAt k).upvalues (s.upvalueCountAt k)
          { index := index, isLocal := isLocal } Upvalue.zero }).heap[(s.compilerAt k).function]? =
      some (Obj.function f) := hf
  have hc1 : ∀ g, ((s.setCompilerAt k
      { s.compilerAt k with
        upvalues := store (s.compilerAt k).upvalues (s.upvalueCountAt k)
          { index := index, isLocal := isLocal } Upvalue.zero }).setFunctionAt
      (s.compilerAt k).function g).compilerAt k =
      { s.compilerAt k with
        upvalues := store (s.compilerAt k).upvalues (s.upvalueCountAt k)
          { index := index, isLocal := isLocal } Upvalue.zero } := by
    intro g
    rw [setFunctionAt_compilerAt]
    exact compilerAt_setCompilerAt_same hk _
  refine ⟨rfl, ?_, ?_, ?_, ?_, ?_, ?_, rfl, rfl⟩
  · show ((_ : State).functionAt ((_ : State).compilerAt k).function).upvalueCount = _
    rw [hc1]
    exact congrArg ObjFunction.upvalueCount (functionAt_of_get (get_setFunctionAt _ hf'))
  · show ((_ : State).compilerAt k).upvalueAt _ = _
    rw [hc1]
    exact getD_store_same _ _ _ _ _
  · intro j hj
    show ((_ : State).compilerAt k).upvalueAt _ = _
    rw [hc1]
    exact getD_store_ne _ _ _ hj
  · show ((_ : State).compilerAt k).locals = _
    rw [hc1]
  · show ((_ : State).compilerAt k).localCount = _
    rw [hc1]
  · intro k' hk'
    show (_ : State).compilerAt k' = _
    rw [setFunctionAt_compilerAt, compilerAt_setCompilerAt_ne _ hk']

theorem addUpvalue_funOKAt {k index : Nat} {isLocal : Bool} {s : State} (hok : s.funOKAt k) :
    (addUpvalue k index isLocal s).2.funOKAt k := by
  cases hfind : findUpvalue (s.compilerAt k) index isLocal (s.upvalueCountAt k) 0 with
  | some i => rw [addUpvalue_found hfind]; exact hok
  | none =>
    by_cases hfull : s.upvalueCountAt k = UINT8_COUNT
    · rw [addUpvalue_full hfind hfull]
      obtain ⟨hk, f, hf⟩ := hok
      exact ⟨by simpa using hk, f, by simpa [State.compilerAt] using hf⟩
    · obtain ⟨hk, f, hf⟩ := hok
      have heq : addUpvalue k index isLocal s =
          ((s.upvalueCountAt k : Int),
            (s.setCompilerAt k
              { s.compilerAt k with
                upvalues := store (s.compilerAt k).upvalues (s.upvalueCountAt k)
                  { index := index, isLocal := isLocal } Upvalue.zero }).setFunctionAt
              (s.compilerAt k).function
              { s.functionAt (s.compilerAt k).function with
                upvalueCount :=
                  (s.functionAt (s.compilerAt k).function).upvalueCount + 1 }) := by
        unfold addUpvalue
        unfold State.upvalueCountAt at hfind hfull
        simp only [hfind, hfull, if_false]
        rfl
      rw [heq]
      refine ⟨by simpa using hk, ?_⟩
      exact ⟨_, by
        show (_ : State).heap[((_ : State).compilerAt k).function]? = _
        rw [setFunctionAt_compilerAt, compilerAt_setCompilerAt_same hk]
        exact get_setFunctionAt _ hf⟩

/-- Distinct descriptors registered one after the other fill the cells in
order, and no error is reported while there is room. -/
theorem addUpvalues_spec (k : Nat) (ds : List Upvalue) :
    ∀ (l : List Upvalue) (s : State), s.funOKAt k → s.upvalueCountAt k = l.length →
      (∀ i, i < l.length → (s.compilerAt k).upvalueAt i = l.getD i Upvalue.zero) →
      (l ++ ds).Nodup → l.length + ds.length ≤ UINT8_COUNT →
      (addUpvalues k ds s).funOKAt k ∧
        (addUpvalues k ds s).upvalueCountAt k = l.length + ds.length ∧
        (∀ i, i < l.length + ds.length →
          ((addUpvalues k ds s).compilerAt k).upvalueAt i = (l ++ ds).getD i Upvalue.zero) ∧
        (addUpvalues k ds s).parser = s.parser ∧ (addUpvalues k ds s).stderr = s.stderr := by
  induction ds with
  | nil =>
    intro l s hok hcount hcells _ _
    refine ⟨hok, by simpa using hcount, fun i hi => ?_, rfl, rfl⟩
    simpa using hcells i (by simpa using hi)
  | cons d ds ih =>
    intro l s hok hcount hcells hnodup hlen
    have hd : d ∉ l := by
      intro hmem
      have := List.nodup_append.1 hnodup
      exact this.2.2 hmem (List.mem_cons_self _ _)
    have hfind : findUpvalue (s.compilerAt k) d.index d.isLocal (s.upvalueCountAt k) 0 = none := by
      cases hf : findUpvalue (s.compilerAt k) d.index d.isLocal (s.upvalueCountAt k) 0 with
      | none => rfl
      | some i =>
        exfalso
        obtain ⟨-, hi, hcell, -⟩ := findUpvalue_some hf
        rw [hcount] at hi
        have hi' : i < l.length := by omega
        rw [hcells i hi'] at hcell
        apply hd
        have : d = l.getD i Upvalue.zero := by rw [hcell]
        rw [this, List.getD_eq_getElem _ _ hi']
        exact List.getElem_mem _
    have hroom : s.upvalueCountAt k ≠ UINT8_COUNT := by
      rw [hcount]
      simp only [List.length_cons] at hlen
      omega
    obtain ⟨-, h2, h3, h4, -, -, -, h8, h9⟩ := addUpvalue_new hfind hroom hok
    have hnodup' : ((l ++ [d]) ++ ds).Nodup := by simpa using hnodup
    obtain ⟨r1, r2, r3, r4, r5⟩ := ih (l ++ [d]) (addUpvalue k d.index d.isLocal s).2
      (addUpvalue_funOKAt hok) (by rw [h2, hcount]; simp)
      (by
        intro i hi
        by_cases hil : i = l.length
        · subst hil
          rw [← hcount, h3, hcount]
          simp [List.getD_eq_getElem?_getD]
        · have hi' : i < l.length := by simp at hi; omega
          rw [h4 i (by rw [hcount]; exact hil), hcells i hi']
          simp [List.getD_eq_getElem?_getD, List.getElem?_append_left hi'])
      hnodup' (by simp at hlen ⊢; omega)
    refine ⟨r1, ?_, ?_, by rw [addUpvalues, r4, h8], by rw [addUpvalues, r5, h9]⟩
    · rw [addUpvalues, r2]; simp; omega
    · intro i hi
      rw [addUpvalues, r3 i (by simp at hi ⊢; omega)]
      simp

/-! ### Resolving a name leaves the frames as they are -/

theorem sameFrames_refl (s : State) : SameFrames s s :=
  ⟨rfl, fun _ => rfl, fun _ => rfl, fun _ => rfl, fun _ => rfl, fun _ _ => rfl, fun _ _ => rfl,
    rfl, fun _ h => h, fun _ => rfl, rfl, rfl, rfl, rfl⟩

theorem SameFrames.chain {s s' s'' : State} (h : SameFrames s s') (h' : SameFrames s' s'') :
    SameFrames s s'' :=
  ⟨h'.length.trans h.length, fun k => (h'.function k).trans (h.function k),
    fun k => (h'.type k).trans (h.type k),
    fun k => (h'.localCount k).trans (h.localCount k),
    fun k => (h'.scopeDepth k).trans (h.scopeDepth k),
    fun k i => (h'.name k i).trans (h.name k i), fun k i => (h'.depth k i).trans (h.depth k i),
    h'.heapLength.trans h.heapLength, fun ptr hp => h'.isFunction ptr (h.isFunction ptr hp),
    fun ptr => (h'.chunk ptr).trans (h.chunk ptr), h'.scanner.trans h.scanner,
    h'.current.trans h.current, h'.previous.trans h.previous, h'.structs.trans h.structs⟩

theorem sameFrames_errorAt (t : Token) (m : List Nat) (s : State) :
    SameFrames s (errorAt t m s) := by
  have hc : ∀ k, (errorAt t m s).compilerAt k = s.compilerAt k := by
    intro k; simp [State.compilerAt]
  have hf : ∀ ptr, (errorAt t m s).functionAt ptr = s.functionAt ptr := by
    intro ptr; simp [State.functionAt]
  exact ⟨by simp, fun k => by rw [hc], fun k => by rw [hc], fun k => by rw [hc],
    fun k => by rw [hc], fun k i => by rw [hc], fun k i => by rw [hc], by simp,
    fun ptr h => by simpa using h, fun ptr => by rw [hf], by simp, by simp, by simp, by simp⟩

theorem sameFrames_error (m : String) (s : State) : SameFrames s (error m s) :=
  sameFrames_errorAt _ _ _

theorem sameFrames_resolveLocal (c : Compiler) (name : Token) (s : State) :
    SameFrames s (resolveLocal c name s).2 := by
  rw [resolveLocal_eq]
  cases findLocal c name c.localCount with
  | none => exact sameFrames_refl s
  | some i =>
    dsimp only
    split
    · exact sameFrames_error _ _
    · exact sameFrames_refl s

/-- Replacing a compiler by one that differs in capture flags and upvalue
descriptors only. -/
theorem sameFrames_setCompilerAt (s : State) (k : Nat) (c : Compiler)
    (h1 : c.function = (s.compilerAt k).function) (h2 : c.type = (s.compilerAt k).type)
    (h3 : c.localCount = (s.compilerAt k).localCount)
    (h4 : c.scopeDepth = (s.compilerAt k).scopeDepth)
    (h5 : ∀ i, (c.localAt i).name = ((s.compilerAt k).localAt i).name)
    (h6 : ∀ i, (c.localAt i).depth = ((s.compilerAt k).localAt i).depth) :
    SameFrames s (s.setCompilerAt k c) := by
  by_cases hk : k < s.compilers.length
  · have hsame := compilerAt_setCompilerAt_same hk c
    have hother : ∀ k', k' ≠ k → (s.setCompilerAt k c).compilerAt k' = s.compilerAt k' :=
      fun k' h => compilerAt_setCompilerAt_ne s h _
    refine ⟨by simp, ?_, ?_, ?_, ?_, ?_, ?_, rfl, fun _ h => h, fun _ => rfl, rfl, rfl, rfl, rfl⟩
    · intro k'
      by_cases h : k' = k
      · subst h; rw [hsame, h1]
      · rw [hother k' h]
    · intro k'
      by_cases h : k' = k
      · subst h; rw [hsame, h2]
      · rw [hother k' h]
    · intro k'
      by_cases h : k' = k
      · subst h; rw [hsame, h3]
      · rw [hother k' h]
    · intro k'
      by_cases h : k' = k
      · subst h; rw [hsame, h4]
      · rw [hother k' h]
    · intro k' j
      by_cases h : k' = k
      · subst h; rw [hsame, h5]
      · rw [hother k' h]
    · intro k' j
      by_cases h : k' = k
      · subst h; rw [hsame, h6]
      · rw [hother k' h]
  · have hid : s.setCompilerAt k c = s := by
      unfold State.setCompilerAt
      rw [List.set_eq_of_length_le (by omega)]
    rw [hid]
    exact sameFrames_refl s

/-- Setting the capture flag of one local. -/
theorem sameFrames_capture (s : State) (k i : Nat) :
    SameFrames s
      (s.setCompilerAt k
        { s.compilerAt k with
          locals := store (s.compilerAt k).locals i
            { (s.compilerAt k).localAt i with isCaptured := true } Local.zero }) := by
  refine sameFrames_setCompilerAt s k _ rfl rfl rfl rfl (fun j => ?_) (fun j => ?_)
  · unfold Compiler.localAt
    by_cases hj : j = i
    · subst hj; rw [getD_store_same]
    · rw [getD_store_ne _ _ _ hj]
  · unfold Compiler.localAt
    by_cases hj : j = i
    · subst hj; rw [getD_store_same]
    · rw [getD_store_ne _ _ _ hj]

theorem functionAt_setFunctionAt (s : State) (ptr p : Nat) (f : ObjFunction) :
    (s.setFunctionAt ptr f).functionAt p =
      if p = ptr ∧ ptr < s.heap.length then f else s.functionAt p := by
  unfold State.setFunctionAt State.functionAt
  simp only [List.getD_eq_getElem?_getD, List.getElem?_set]
  by_cases hp : ptr = p
  · subst hp
    by_cases hl : ptr < s.heap.length
    · simp [hl]
    · simp [hl, List.getElem?_eq_none (Nat.le_of_not_lt hl)]
  · have hp' : ¬ p = ptr := fun h => hp h.symm
    simp [hp, hp']

/-- Changing the `upvalueCount` of a function object. -/
theorem sameFrames_setUpvalueCount (s : State) (ptr n : Nat) :
    SameFrames s (s.setFunctionAt ptr { s.functionAt ptr with upvalueCount := n }) := by
  refine ⟨rfl, fun _ => rfl, fun _ => rfl, fun _ => rfl, fun _ => rfl, fun _ _ => rfl,
    fun _ _ => rfl, by simp [State.setFunctionAt], ?_, ?_, rfl, rfl, rfl, rfl⟩
  · rintro p ⟨f, hf⟩
    unfold State.setFunctionAt
    simp only [List.getElem?_set]
    by_cases hp : ptr = p
    · subst hp
      have hlt : ptr < s.heap.length := (List.getElem?_eq_some_iff.1 hf).1
      refine ⟨{ s.functionAt ptr with upvalueCount := n }, ?_⟩
      simp [hlt]
    · exact ⟨f, by simp [hp, hf]⟩
  · intro p
    rw [functionAt_setFunctionAt]
    split
    · rename_i h; rw [h.1]
    · rfl

theorem sameFrames_addUpvalue (k index : Nat) (isLocal : Bool) (s : State) :
    SameFrames s (addUpvalue k index isLocal s).2 := by
  unfold addUpvalue
  dsimp only
  split
  · exact sameFrames_refl s
  · split
    · exact sameFrames_error _ _
    · exact (sameFrames_setCompilerAt s k
        { s.compilerAt k with
          upvalues := store (s.compilerAt k).upvalues
            (s.functionAt (s.compilerAt k).function).upvalueCount
            { index := index, isLocal := isLocal } Upvalue.zero }
        rfl rfl rfl rfl (fun _ => rfl) (fun _ => rfl)).chain
        (sameFrames_setUpvalueCount _ (s.compilerAt k).function
          ((s.functionAt (s.compilerAt k).function).upvalueCount + 1))

theorem addUpvalue_ne_neg_one (k index : Nat) (isLocal : Bool) (s : State) :
    (addUpvalue k index isLocal s).1 ≠ -1 := by
  unfold addUpvalue
  dsimp only
  split
  · simp
  · split
    · simp
    · simp

theorem sameFrames_resolveUpvalueFrom (name : Token) (d : Nat) :
    ∀ (k : Nat) (s : State), SameFrames s (resolveUpvalueFrom name d k s).2 := by
  induction d with
  | zero => intro k s; exact sameFrames_refl s
  | succ d ih =>
    intro k s
    rw [resolveUpvalueFrom]
    dsimp only
    split
    · exact ((sameFrames_resolveLocal (s.compilerAt (k + 1)) name s).chain
        (sameFrames_capture (resolveLocal (s.compilerAt (k + 1)) name s).2 (k + 1)
          (resolveLocal (s.compilerAt (k + 1)) name s).1.toNat)).chain
        (sameFrames_addUpvalue _ _ _ _)
    · split
      · exact ((sameFrames_resolveLocal (s.compilerAt (k + 1)) name s).chain
          (ih (k + 1) (resolveLocal (s.compilerAt (k + 1)) name s).2)).chain
          (sameFrames_addUpvalue _ _ _ _)
      · exact (sameFrames_resolveLocal (s.compilerAt (k + 1)) name s).chain
          (ih (k + 1) (resolveLocal (s.compilerAt (k + 1)) name s).2)

theorem sameFrames_resolveUpvalue (k : Nat) (name : Token) (s : State) :
    SameFrames s (resolveUpvalue k name s).2 :=
  sameFrames_resolveUpvalueFrom name _ k s

/-- A miss changes nothing: when `resolveUpvalue` returns `-1` the state is the one
it was called in. -/
theorem resolveUpvalueFrom_miss (name : Token) (d : Nat) :
    ∀ (k : Nat) (s : State), (resolveUpvalueFrom name d k s).1 = -1 →
      resolveUpvalueFrom name d k s = (-1, s) := by
  induction d with
  | zero => intro k s _; rfl
  | succ d ih =>
    intro k s h
    rw [resolveUpvalueFrom] at h ⊢
    dsimp only at h ⊢
    by_cases h1 : (resolveLocal (s.compilerAt (k + 1)) name s).1 ≠ -1
    · rw [if_pos h1] at h
      exact absurd h (addUpvalue_ne_neg_one _ _ _ _)
    · rw [if_neg h1] at h ⊢
      have h1' : (resolveLocal (s.compilerAt (k + 1)) name s).1 = -1 := by
        by_contra hc; exact h1 hc
      have hr := resolveLocal_miss h1'
      by_cases h2 : (resolveUpvalueFrom name d (k + 1)
          (resolveLocal (s.compilerAt (k + 1)) name s).2).1 ≠ -1
      · rw [if_pos h2] at h
        exact absurd h (addUpvalue_ne_neg_one _ _ _ _)
      · rw [if_neg h2]
        have h2' : (resolveUpvalueFrom name d (k + 1)
            (resolveLocal (s.compilerAt (k + 1)) name s).2).1 = -1 := by
          by_contra hc; exact h2 hc
        rw [ih _ _ h2', hr]

theorem SameFrames.funOKAt {s s' : State} (h : SameFrames s s') {k : Nat} (hok : s.funOKAt k) :
    s'.funOKAt k := by
  obtain ⟨hk, hf⟩ := hok
  refine ⟨by rw [h.length]; exact hk, ?_⟩
  rw [h.function k]
  exact h.isFunction _ hf

theorem addUpvalue_compilerAt_ne (k index : Nat) (isLocal : Bool) (s : State) {k' : Nat}
    (h : k' ≠ k) : (addUpvalue k index isLocal s).2.compilerAt k' = s.compilerAt k' := by
  unfold addUpvalue
  dsimp only
  split
  · rfl
  · split
    · simp [State.compilerAt]
    · show (_ : State).compilerAt k' = _
      rw [setFunctionAt_compilerAt, compilerAt_setCompilerAt_ne _ h]

/-- After `addUpvalue` the descriptor is registered at the index returned,
unless the function was full and the descriptor new. -/
theorem addUpvalue_registers {k index : Nat} {isLocal : Bool} {s : State} (hok : s.funOKAt k)
    (hroom : s.upvalueCountAt k ≠ UINT8_COUNT ∨
      ∃ i, i < s.upvalueCountAt k ∧ (s.compilerAt k).upvalueAt i = ⟨index, isLocal⟩) :
    ∃ i : Nat, (addUpvalue k index isLocal s).1 = (i : Int) ∧
      i < (addUpvalue k index isLocal s).2.upvalueCountAt k ∧
      ((addUpvalue k index isLocal s).2.compilerAt k).upvalueAt i = ⟨index, isLocal⟩ := by
  cases hfind : findUpvalue (s.compilerAt k) index isLocal (s.upvalueCountAt k) 0 with
  | some i =>
    obtain ⟨-, hi, hcell, -⟩ := findUpvalue_some hfind
    rw [addUpvalue_found hfind]
    exact ⟨i, rfl, by show i < s.upvalueCountAt k; omega, hcell⟩
  | none =>
    have hr : s.upvalueCountAt k ≠ UINT8_COUNT := by
      rcases hroom with h | ⟨i, hi, hcell⟩
      · exact h
      · exact absurd hcell (findUpvalue_none hfind i (Nat.zero_le _) (by omega))
    obtain ⟨h1, h2, h3, -⟩ := addUpvalue_new hfind hr hok
    exact ⟨s.upvalueCountAt k, h1, by omega, h3⟩

/-- The recursion of `resolveUpvalue`, for a compiler that has an enclosing one. -/
theorem resolveUpvalue_step (k : Nat) (name : Token) (s : State)
    (hk : k + 1 < s.compilers.length) :
    resolveUpvalue k name s =
      if (resolveLocal (s.compilerAt (k + 1)) name s).1 ≠ -1 then
        addUpvalue k ((resolveLocal (s.compilerAt (k + 1)) name s).1.toNat % 256) true
          ((resolveLocal (s.compilerAt (k + 1)) name s).2.setCompilerAt (k + 1)
            { (resolveLocal (s.compilerAt (k + 1)) name s).2.compilerAt (k + 1) with
              locals := store
                ((resolveLocal (s.compilerAt (k + 1)) name s).2.compilerAt (k + 1)).locals
                (resolveLocal (s.compilerAt (k + 1)) name s).1.toNat
                { ((resolveLocal (s.compilerAt (k + 1)) name s).2.compilerAt (k + 1)).localAt
                    (resolveLocal (s.compilerAt (k + 1)) name s).1.toNat with
                  isCaptured := true }
                Local.zero })
      else if (resolveUpvalue (k + 1) name
          (resolveLocal (s.compilerAt (k + 1)) name s).2).1 ≠ -1 then
        addUpvalue k
          ((resolveUpvalue (k + 1) name
            (resolveLocal (s.compilerAt (k + 1)) name s).2).1.toNat % 256) false
          (resolveUpvalue (k + 1) name (resolveLocal (s.compilerAt (k + 1)) name s).2).2
      else
        (-1, (resolveUpvalue (k + 1) name (resolveLocal (s.compilerAt (k + 1)) name s).2).2) := by
  obtain ⟨d, hd⟩ : ∃ d, s.compilers.length - 1 - k = d + 1 :=
    ⟨s.compilers.length - 2 - k, by omega⟩
  have hd' : (resolveLocal (s.compilerAt (k + 1)) name s).2.compilers.length - 1 - (k + 1) = d := by
    rw [resolveLocal_compilers]; omega
  unfold resolveUpvalue
  rw [hd, hd', resolveUpvalueFrom]

/-- A compiler without an enclosing one resolves no upvalue. -/
theorem resolveUpvalue_outermost (k : Nat) (name : Token) (s : State)
    (hk : s.compilers.length ≤ k + 1) : resolveUpvalue k name s = (-1, s) := by
  have hd : s.compilers.length - 1 - k = 0 := by omega
  unfold resolveUpvalue
  rw [hd, resolveUpvalueFrom]

theorem resolveUpvalue_miss {k : Nat} {name : Token} {s : State}
    (h : (resolveUpvalue k name s).1 = -1) : resolveUpvalue k name s = (-1, s) :=
  resolveUpvalueFrom_miss name _ k s h

theorem resolveLocal_hit {c : Compiler} {name : Token} {j : Nat}
    (h : findLocal c name c.localCount = some j) (s : State) :
    ∃ sE, resolveLocal c name s = ((j : Int), sE) ∧ sE.compilers = s.compilers ∧
      sE.heap = s.heap := by
  refine ⟨(resolveLocal c name s).2, ?_, resolveLocal_compilers _ _ _, resolveLocal_heap _ _ _⟩
  rw [resolveLocal_eq, h]

/-- A name that is a local of the enclosing compiler: the local is marked as
captured and the descriptor `(index = slot, isLocal = true)` is registered. -/
theorem resolveUpvalue_local_hit (k : Nat) (name : Token) (s : State) (j : Nat)
    (hk : k + 1 < s.compilers.length) (hok : s.funOKAt k)
    (hfind : findLocal (s.compilerAt (k + 1)) name (s.compilerAt (k + 1)).localCount = some j)
    (hj : j < 256)
    (hroom : s.upvalueCountAt k ≠ UINT8_COUNT ∨
      ∃ i, i < s.upvalueCountAt k ∧ (s.compilerAt k).upvalueAt i = ⟨j, true⟩) :
    (((resolveUpvalue k name s).2.compilerAt (k + 1)).localAt j).isCaptured = true ∧
      ∃ i : Nat, (resolveUpvalue k name s).1 = (i : Int) ∧
        i < (resolveUpvalue k name s).2.upvalueCountAt k ∧
        ((resolveUpvalue k name s).2.compilerAt k).upvalueAt i = ⟨j, true⟩ := by
  obtain ⟨sE, hr, hcomp, hheap⟩ := resolveLocal_hit hfind s
  have hne : ((j : Int), sE).1 ≠ -1 := by simp
  have hmod : j % 256 = j := Nat.mod_eq_of_lt hj
  rw [resolveUpvalue_step k name s hk, hr, if_pos hne]
  simp only [Int.toNat_ofNat, hmod]
  have hk' : k + 1 < sE.compilers.length := by rw [hcomp]; exact hk
  have hsame := compilerAt_setCompilerAt_same hk'
    { sE.compilerAt (k + 1) with
      locals := store (sE.compilerAt (k + 1)).locals j
        { (sE.compilerAt (k + 1)).localAt j with isCaptured := true } Local.zero }
  have hkc : (sE.setCompilerAt (k + 1)
      { sE.compilerAt (k + 1) with
        locals := store (sE.compilerAt (k + 1)).locals j
          { (sE.compilerAt (k + 1)).localAt j with isCaptured := true } Local.zero }).compilerAt k =
      s.compilerAt k := by
    rw [compilerAt_setCompilerAt_ne _ (by omega)]
    simp [State.compilerAt, hcomp]
  have hcount : (sE.setCompilerAt (k + 1)
      { sE.compilerAt (k + 1) with
        locals := store (sE.compilerAt (k + 1)).locals j
          { (sE.compilerAt (k + 1)).localAt j with isCaptured := true } Local.zero }).upvalueCountAt k =
      s.upvalueCountAt k := by
    unfold State.upvalueCountAt
    rw [hkc]
    simp [State.functionAt, hheap]
  have hok1 : (sE.setCompilerAt (k + 1)
      { sE.compilerAt (k + 1) with
        locals := store (sE.compilerAt (k + 1)).locals j
          { (sE.compilerAt (k + 1)).localAt j with isCaptured := true } Local.zero }).funOKAt k := by
    obtain ⟨h1, f, hf⟩ := hok
    refine ⟨by simpa [hcomp] using h1, f, ?_⟩
    rw [hkc]
    simpa [hheap] using hf
  refine ⟨?_, ?_⟩
  · rw [addUpvalue_compilerAt_ne _ _ _ _ (by omega : k + 1 ≠ k), hsame]
    unfold Compiler.localAt
    rw [getD_store_same]
  · apply addUpvalue_registers hok1
    rw [hcount, hkc]
    exact hroom

/-- A name that the enclosing compiler resolves as its upvalue `j`: the
descriptor `(index = j, isLocal = false)` is registered. -/
theorem resolveUpvalue_upvalue_hit (k : Nat) (name : Token) (s : State) (j : Nat)
    (hk : k + 1 < s.compilers.length) (hok : s.funOKAt k)
    (hmiss : hasLocal (s.compilerAt (k + 1)) name = false)
    (hup : (resolveUpvalue (k + 1) name s).1 = (j : Int)) (hj : j < 256)
    (hroom : (resolveUpvalue (k + 1) name s).2.upvalueCountAt k ≠ UINT8_COUNT ∨
      ∃ i, i < (resolveUpvalue (k + 1) name s).2.upvalueCountAt k ∧
        ((resolveUpvalue (k + 1) name s).2.compilerAt k).upvalueAt i = ⟨j, false⟩) :
    ∃ i : Nat, (resolveUpvalue k name s).1 = (i : Int) ∧
      i < (resolveUpvalue k name s).2.upvalueCountAt k ∧
      ((resolveUpvalue k name s).2.compilerAt k).upvalueAt i = ⟨j, false⟩ := by
  have hr := resolveLocal_miss ((resolveLocal_fst_eq_neg_one _ name s).2 hmiss)
  have hne : ¬ ((-1 : Int), s).1 ≠ -1 := by simp
  have hne2 : (resolveUpvalue (k + 1) name s).1 ≠ -1 := by rw [hup]; omega
  have hmod : j % 256 = j := Nat.mod_eq_of_lt hj
  rw [resolveUpvalue_step k name s hk, hr, if_neg hne]
  simp only
  rw [if_pos hne2, hup]
  simp only [Int.toNat_ofNat, hmod]
  exact addUpvalue_registers ((sameFrames_resolveUpvalue (k + 1) name s).funOKAt hok) hroom

/-- A name that is neither: `-1`, and the state is left as it was. -/
theorem resolveUpvalue_none (k : Nat) (name : Token) (s : State)
    (hmiss : hasLocal (s.compilerAt (k + 1)) name = false)
    (hup : (resolveUpvalue (k + 1) name s).1 = -1) :
    resolveUpvalue k name s = (-1, s) := by
  by_cases hk : k + 1 < s.compilers.length
  · have hr := resolveLocal_miss ((resolveLocal_fst_eq_neg_one _ name s).2 hmiss)
    have hne : ¬ ((-1 : Int), s).1 ≠ -1 := by simp
    have hne2 : ¬ (resolveUpvalue (k + 1) name s).1 ≠ -1 := by rw [hup]; simp
    rw [resolveUpvalue_step k name s hk, hr, if_neg hne]
    simp only
    rw [if_neg hne2, resolveUpvalue_miss hup]
  · exact resolveUpvalue_outermost k name s (by omega)

/-- A descriptor that is registered already is reused: `addUpvalue` returns the
first index that holds it and changes nothing. -/
theorem addUpvalue_reuses (k index : Nat) (isLocal : Bool) (s : State) (i0 : Nat)
    (hi0 : i0 < s.upvalueCountAt k)
    (hcell : (s.compilerAt k).upvalueAt i0 = ⟨index, isLocal⟩) :
    ∃ i : Nat, i ≤ i0 ∧ addUpvalue k index isLocal s = ((i : Int), s) ∧
      (s.compilerAt k).upvalueAt i = ⟨index, isLocal⟩ := by
  cases hfind : findUpvalue (s.compilerAt k) index isLocal (s.upvalueCountAt k) 0 with
  | none => exact absurd hcell (findUpvalue_none hfind i0 (Nat.zero_le _) (by omega))
  | some i =>
    obtain ⟨-, -, hc, hfirst⟩ := findUpvalue_some hfind
    refine ⟨i, ?_, addUpvalue_found hfind, hc⟩
    by_contra hgt
    exact hfirst i0 (Nat.zero_le _) (by omega) hcell

theorem findUpvalue_eq_none {c : Compiler} {index : Nat} {isLocal : Bool} {n : Nat}
    (h : ∀ i, i < n → c.upvalueAt i ≠ ⟨index, isLocal⟩) :
    findUpvalue c index isLocal n 0 = none := by
  cases hf : findUpvalue c index isLocal n 0 with
  | none => rfl
  | some i =>
    obtain ⟨-, hi, hcell, -⟩ := findUpvalue_some hf
    exact absurd hcell (h i (by omega))

/-- What `error` does outside panic mode: one diagnostic, and both flags set. -/
theorem error_reports (m : String) (s : State) (h : s.parser.panicMode = false) :
    (error m s).stderr = s.stderr ++ [errorDiag m s] ∧ (error m s).parser.hadError = true ∧
      (error m s).parser.panicMode = true := by
  unfold error errorAt
  rw [h]
  exact ⟨rfl, rfl, rfl⟩

/-- A descriptor that is new for a function with 256 of them: `addUpvalue`
reports the error, returns 0 and registers nothing. -/
theorem addUpvalue_overflow (k : Nat) (d : Upvalue) (s : State)
    (hfull : s.upvalueCountAt k = UINT8_COUNT)
    (hnew : ∀ i, i < UINT8_COUNT → (s.compilerAt k).upvalueAt i ≠ d)
    (hpanic : s.parser.panicMode = false) :
    (addUpvalue k d.index d.isLocal s).1 = 0 ∧
      (addUpvalue k d.index d.isLocal s).2.upvalueCountAt k = UINT8_COUNT ∧
      (addUpvalue k d.index d.isLocal s).2.compilers = s.compilers ∧
      (addUpvalue k d.index d.isLocal s).2.parser.hadError = true ∧
      (addUpvalue k d.index d.isLocal s).2.stderr =
        s.stderr ++ [errorDiag tooManyUpvaluesMessage s] := by
  have hfind : findUpvalue (s.compilerAt k) d.index d.isLocal (s.upvalueCountAt k) 0 = none :=
    findUpvalue_eq_none (by rw [hfull]; exact hnew)
  rw [addUpvalue_full hfind hfull]
  obtain ⟨h1, h2, -⟩ := error_reports tooManyUpvaluesMessage s hpanic
  refine ⟨rfl, ?_, error_compilers _ _, h2, h1⟩
  show ((error tooManyUpvaluesMessage s).functionAt
    ((error tooManyUpvaluesMessage s).compilerAt k).function).upvalueCount = _
  rw [← hfull]
  simp [State.upvalueCountAt, State.functionAt, State.compilerAt]

/-- The same through `resolveUpvalue`: a local of the enclosing function that
is not yet captured by a function with 256 upvalues. -/
theorem resolveUpvalue_overflow (k : Nat) (name : Token) (s : State) (j : Nat)
    (hk : k + 1 < s.compilers.length)
    (hfind : findLocal (s.compilerAt (k + 1)) name (s.compilerAt (k + 1)).localCount = some j)
    (hcount : (s.compilerAt (k + 1)).localCount ≤ UINT8_COUNT)
    (hdepth : ((s.compilerAt (k + 1)).localAt j).depth ≠ -1)
    (hfull : s.upvalueCountAt k = UINT8_COUNT)
    (hnew : ∀ i, i < UINT8_COUNT → (s.compilerAt k).upvalueAt i ≠ ⟨j, true⟩)
    (hpanic : s.parser.panicMode = false) :
    (resolveUpvalue k name s).1 = 0 ∧
      (resolveUpvalue k name s).2.upvalueCountAt k = UINT8_COUNT ∧
      (resolveUpvalue k name s).2.parser.hadError = true ∧
      (resolveUpvalue k name s).2.stderr =
        s.stderr ++ [errorDiag tooManyUpvaluesMessage s] := by
  have hj : j < 256 := Nat.lt_of_lt_of_le (findLocal_some hfind).1 hcount
  have hr : resolveLocal (s.compilerAt (k + 1)) name s = ((j : Int), s) := by
    rw [resolveLocal_eq, hfind]
    simp only [if_neg hdepth]
  have hne : ((j : Int), s).1 ≠ -1 := by simp
  have hmod : j % 256 = j := Nat.mod_eq_of_lt hj
  rw [resolveUpvalue_step k name s hk, hr, if_pos hne]
  simp only [Int.toNat_ofNat, hmod]
  have hkc : (s.setCompilerAt (k + 1)
      { s.compilerAt (k + 1) with
        locals := store (s.compilerAt (k + 1)).locals j
          { (s.compilerAt (k + 1)).localAt j with isCaptured := true } Local.zero }).compilerAt k =
      s.compilerAt k := compilerAt_setCompilerAt_ne _ (by omega) _
  have h := addUpvalue_overflow k ⟨j, true⟩ (s.setCompilerAt (k + 1)
      { s.compilerAt (k + 1) with
        locals := store (s.compilerAt (k + 1)).locals j
          { (s.compilerAt (k + 1)).localAt j with isCaptured := true } Local.zero })
    (by unfold State.upvalueCountAt; rw [hkc]; exact hfull) (by rw [hkc]; exact hnew)
    (by simpa using hpanic)
  exact ⟨h.1, h.2.1, h.2.2.2.1, h.2.2.2.2⟩

/-! ### Which of local, upvalue and global a name is -/

/-- The function `resolveUpvalue` finds the name exactly when a compiler further
up the chain has a local of that name. -/
theorem resolveUpvalue_ne_neg_one_iff (name : Token) (s : State) :
    ∀ (n k : Nat), s.compilers.length - k ≤ n →
      ((resolveUpvalue k name s).1 ≠ -1 ↔
        ∃ k', k < k' ∧ k' < s.compilers.length ∧ hasLocal (s.compilerAt k') name = true) := by
  intro n
  induction n with
  | zero =>
    intro k hn
    rw [resolveUpvalue_outermost k name s (by omega)]
    constructor
    · intro h; exact absurd rfl h
    · rintro ⟨k', h1, h2, -⟩; omega
  | succ n ih =>
    intro k hn
    by_cases hk : k + 1 < s.compilers.length
    · rw [resolveUpvalue_step k name s hk]
      by_cases hloc : (resolveLocal (s.compilerAt (k + 1)) name s).1 = -1
      · have hmiss := (resolveLocal_fst_eq_neg_one _ name s).1 hloc
        rw [if_neg (not_not.2 hloc), resolveLocal_miss hloc]
        have hrec := ih (k + 1) (by omega)
        by_cases hu : (resolveUpvalue (k + 1) name s).1 = -1
        · simp only [if_neg (not_not.2 hu)]
          constructor
          · intro h; exact absurd rfl h
          · rintro ⟨k', h1, h2, h3⟩
            exfalso
            by_cases hk' : k' = k + 1
            · subst hk'; rw [hmiss] at h3; exact Bool.false_ne_true h3
            · exact (not_not.2 hu) (hrec.2 ⟨k', by omega, h2, h3⟩)
        · simp only [if_pos hu]
          constructor
          · intro _
            obtain ⟨k', h1, h2, h3⟩ := hrec.1 hu
            exact ⟨k', by omega, h2, h3⟩
          · intro _; exact addUpvalue_ne_neg_one _ _ _ _
      · rw [if_pos hloc]
        constructor
        · intro _
          refine ⟨k + 1, by omega, hk, ?_⟩
          cases hb : hasLocal (s.compilerAt (k + 1)) name with
          | true => rfl
          | false => exact absurd ((resolveLocal_fst_eq_neg_one _ name s).2 hb) hloc
        · intro _; exact addUpvalue_ne_neg_one _ _ _ _
    · rw [resolveUpvalue_outermost k name s (by omega)]
      constructor
      · intro h; exact absurd rfl h
      · rintro ⟨k', h1, h2, -⟩; omega

theorem SameFrames.funOK {s s' : State} (h : SameFrames s s') (hok : s.funOK) : s'.funOK := by
  obtain ⟨f, hf⟩ := hok
  have := h.isFunction s.cur.function ⟨f, hf⟩
  unfold State.funOK State.cur
  rw [h.function 0]
  exact this

theorem SameFrames.currentChunk {s s' : State} (h : SameFrames s s') :
    Luna.currentChunk s' = Luna.currentChunk s := by
  unfold Luna.currentChunk State.curFunction State.cur
  rw [h.function 0, h.chunk]

/-- The name is a local of the current function. -/
theorem resolveVariable_local {name : Token} {s : State} {j : Nat}
    (h : findLocal s.cur name s.cur.localCount = some j) :
    (resolveVariable name s).1 = (OP_GET_LOCAL, OP_SET_LOCAL, j) ∧
      SameFrames s (resolveVariable name s).2 := by
  obtain ⟨sE, hr, -, -⟩ := resolveLocal_hit h s
  have hs := sameFrames_resolveLocal s.cur name s
  have hne : ((j : Int), sE).1 ≠ -1 := by simp
  unfold resolveVariable
  rw [hr] at hs ⊢
  simp only [if_pos hne, Int.toNat_ofNat]
  exact ⟨trivial, hs⟩

/-- The name is no local of the current function but `resolveUpvalue` finds it. -/
theorem resolveVariable_upvalue {name : Token} {s : State}
    (h : hasLocal s.cur name = false) (hu : (resolveUpvalue 0 name s).1 ≠ -1) :
    (resolveVariable name s).1 =
        (OP_GET_UPVALUE, OP_SET_UPVALUE, (resolveUpvalue 0 name s).1.toNat) ∧
      SameFrames s (resolveVariable name s).2 := by
  have hr := resolveLocal_miss ((resolveLocal_fst_eq_neg_one _ name s).2 h)
  have hne : ¬ ((-1 : Int), s).1 ≠ -1 := by simp
  unfold resolveVariable
  rw [hr]
  simp only [if_neg hne, if_pos hu]
  exact ⟨trivial, sameFrames_resolveUpvalue 0 name s⟩

/-- The name is neither: it goes to the constant pool. -/
theorem resolveVariable_global {name : Token} {s : State}
    (h : hasLocal s.cur name = false) (hu : (resolveUpvalue 0 name s).1 = -1) :
    resolveVariable name s =
      ((OP_GET_GLOBAL, OP_SET_GLOBAL, (identifierConstant name s).1),
        (identifierConstant name s).2) := by
  have hr := resolveLocal_miss ((resolveLocal_fst_eq_neg_one _ name s).2 h)
  have hne : ¬ ((-1 : Int), s).1 ≠ -1 := by simp
  unfold resolveVariable
  rw [hr]
  simp only [if_neg hne, if_neg (not_not.2 hu), resolveUpvalue_miss hu]

/-- Resolving a name leaves the token `current` in place. -/
theorem resolveVariable_current (name : Token) (s : State) :
    (resolveVariable name s).2.parser.current = s.parser.current := by
  cases hf : findLocal s.cur name s.cur.localCount with
  | some j => exact (resolveVariable_local hf).2.current
  | none =>
    have hl : hasLocal s.cur name = false := by rw [hasLocal, hf]; rfl
    by_cases hu : (resolveUpvalue 0 name s).1 = -1
    · rw [resolveVariable_global hl hu]
      exact makeConstant_current _ _
    · exact (resolveVariable_upvalue hl hu).2.current

/-- Resolving a name emits nothing. -/
theorem resolveVariable_frame (name : Token) (s : State) (hok : s.funOK) :
    (resolveVariable name s).2.funOK ∧
      (currentChunk (resolveVariable name s).2).code = (currentChunk s).code := by
  cases hf : findLocal s.cur name s.cur.localCount with
  | some j =>
    obtain ⟨-, hs⟩ := resolveVariable_local hf
    exact ⟨hs.funOK hok, by rw [hs.currentChunk]⟩
  | none =>
    have hl : hasLocal s.cur name = false := by rw [hasLocal, hf]; rfl
    by_cases hu : (resolveUpvalue 0 name s).1 = -1
    · rw [resolveVariable_global hl hu]
      exact ⟨makeConstant_funOK hok _, makeConstant_code hok _⟩
    · obtain ⟨-, hs⟩ := resolveVariable_upvalue hl hu
      exact ⟨hs.funOK hok, by rw [hs.currentChunk]⟩

theorem check_resolveVariable (t : TokenType) (name : Token) (s : State) :
    check t (resolveVariable name s).2 = check t s := by
  unfold check
  rw [resolveVariable_current]

/-- The Get form: `canAssign` is false or no `=` follows. -/
theorem namedVariable_get (pp : Precedence → State → Res State) (name : Token)
    (canAssign : Bool) (s : State) (h : (canAssign && check TOKEN_EQUAL s) = false) :
    namedVariable pp name canAssign s =
      Except.ok (emitBytes (Byte.op (resolveVariable name s).1.1)
        (Byte.raw ((resolveVariable name s).1.2.2 % 256)) (resolveVariable name s).2) := by
  unfold namedVariable
  simp only [check_resolveVariable, h]
  rfl

/-- The Set form: `canAssign` is true and `=` follows; the `=` is consumed, the
right-hand side compiled, and then the Set instruction emitted. -/
theorem namedVariable_set (pp : Precedence → State → Res State) (name : Token)
    (canAssign : Bool) (s : State) (h : (canAssign && check TOKEN_EQUAL s) = true) :
    namedVariable pp name canAssign s =
      (expression pp (advance (resolveVariable name s).2)).map
        (emitBytes (Byte.op (resolveVariable name s).1.2.1)
          (Byte.raw ((resolveVariable name s).1.2.2 % 256))) := by
  have hc : check TOKEN_EQUAL (resolveVariable name s).2 = true := by
    rw [check_resolveVariable]
    cases canAssign <;> simp_all
  have hca : canAssign = true := by cases canAssign <;> simp_all
  subst hca
  unfold namedVariable
  simp only [match_, hc, Bool.and_self, Bool.not_true, Bool.false_eq_true, if_false, if_true]
  cases expression pp (advance (resolveVariable name s).2) <;> rfl

/-! ### Relations that every step of the compiler respects -/

section PassesLemmas

variable {R : State → State → Prop}

theorem lands_pure {α : Type} {p : α → State} {s : State} {a : α} (h : R s (p a)) :
    Lands R p s (pure a) := by
  intro b hb
  cases hb
  exact h

theorem lands_ok {α : Type} {p : α → State} {s : State} {a : α} (h : R s (p a)) :
    Lands R p s (Except.ok a) := lands_pure h

theorem lands_error {α : Type} {p : α → State} {s : State} (e : Fault) :
    Lands R p s (Except.error e) := by
  intro b hb
  cases hb

theorem lands_bind (hR : Passes R) {α β : Type} {p : α → State} {q : β → State} {s : State}
    {x : Res α} {f : α → Res β} (hx : Lands R p s x) (hf : ∀ a, Lands R q (p a) (f a)) :
    Lands R q s (x >>= f) := by
  intro b hb
  cases x with
  | error e => cases hb
  | ok a => exact hR.trans (hx a rfl) (hf a b hb)

theorem lands_ite {α : Type} {p : α → State} {s : State} {c : Prop} [Decidable c]
    {x y : Res α} (hx : Lands R p s x) (hy : Lands R p s y) :
    Lands R p s (if c then x else y) := by
  by_cases h : c
  · rw [if_pos h]; exact hx
  · rw [if_neg h]; exact hy

/-- A computation started one step later. -/
theorem lands_after (hR : Passes R) {α : Type} {p : α → State} {s a : State} {x : Res α}
    (h : R s a) (hx : Lands R p a x) : Lands R p s x :=
  fun b hb => hR.trans h (hx b hb)

theorem Passes.error (hR : Passes R) (m : String) (s : State) : R s (Luna.error m s) :=
  hR.errorAt _ _ _

theorem Passes.errorAtCurrent (hR : Passes R) (m : List Nat) (s : State) :
    R s (Luna.errorAtCurrent m s) :=
  hR.errorAt _ _ _

theorem Passes.consume (hR : Passes R) (t : TokenType) (m : String) (s : State) :
    R s (Luna.consume t m s) := by
  unfold Luna.consume
  split
  · exact hR.advance s
  · exact hR.errorAtCurrent _ s

theorem Passes.match_ (hR : Passes R) (t : TokenType) (s : State) :
    R s (Luna.match_ t s).2 := by
  unfold Luna.match_
  split
  · exact hR.refl s
  · exact hR.advance s

theorem Passes.emitBytes (hR : Passes R) (a b : Byte) (s : State) :
    R s (Luna.emitBytes a b s) :=
  hR.trans (hR.emitByte a s) (hR.emitByte b _)

theorem Passes.ite (hR : Passes R) {c : Prop} [Decidable c] {s : State} {f : State → State}
    (h : R s (f s)) : R s (if c then f s else s) := by
  split
  · exact h
  · exact hR.refl s

theorem Passes.emitLoop (hR : Passes R) (l : Nat) (s : State) : R s (Luna.emitLoop l s) := by
  unfold Luna.emitLoop
  dsimp only
  refine hR.trans (hR.trans (hR.trans (hR.emitByte (Byte.op OP_LOOP) s) ?_) (hR.emitByte _ _))
    (hR.emitByte _ _)
  exact hR.ite (hR.error _ _)

theorem Passes.emitJump (hR : Passes R) (i : OpCode) (s : State) :
    R s (Luna.emitJump i s).2 :=
  hR.trans (hR.trans (hR.emitByte _ s) (hR.emitByte _ _)) (hR.emitByte _ _)

theorem Passes.emitReturn (hR : Passes R) (s : State) : R s (Luna.emitReturn s) := by
  unfold Luna.emitReturn
  refine hR.trans ?_ (hR.emitByte _ _)
  split
  · exact hR.emitBytes _ _ s
  · exact hR.emitByte _ s

theorem Passes.emitConstant (hR : Passes R) (v : Value) (s : State) :
    R s (Luna.emitConstant v s) :=
  hR.trans (hR.makeConstant v s) (hR.emitBytes _ _ _)

theorem Passes.identifierConstant (hR : Passes R) (t : Token) (s : State) :
    R s (Luna.identifierConstant t s).2 :=
  hR.makeConstant _ s

theorem Passes.defineVariable (hR : Passes R) (g : Nat) (s : State) :
    R s (Luna.defineVariable g s) := by
  unfold Luna.defineVariable
  split
  · exact hR.markInitialized s
  · exact hR.emitBytes _ _ s

theorem Passes.declareVariableLoop (hR : Passes R) (t : Token) (n : Nat) (s : State) :
    R s (Luna.declareVariableLoop t n s) := by
  induction n generalizing s with
  | zero => exact hR.refl s
  | succ n ih =>
    unfold Luna.declareVariableLoop
    dsimp only
    split
    · exact hR.refl s
    · refine hR.trans ?_ (ih _)
      exact hR.ite (hR.error _ _)

theorem Passes.declareVariable (hR : Passes R) (s : State) : R s (Luna.declareVariable s) := by
  unfold Luna.declareVariable
  split
  · exact hR.refl s
  · exact hR.trans (hR.declareVariableLoop _ _ s) (hR.addLocal _ _)

theorem Passes.parseVariable (hR : Passes R) (m : String) (s : State) :
    R s (Luna.parseVariable m s).2 := by
  unfold Luna.parseVariable
  dsimp only
  have h := hR.trans (hR.consume TOKEN_IDENTIFIER m s) (hR.declareVariable _)
  split
  · exact h
  · exact hR.trans h (hR.identifierConstant _ _)

theorem Passes.resolveLocal (hR : Passes R) (c : Compiler) (t : Token) (s : State) :
    R s (Luna.resolveLocal c t s).2 := by
  rw [resolveLocal_eq]
  cases findLocal c t c.localCount with
  | none => exact hR.refl s
  | some i => exact hR.ite (hR.error _ _)

theorem Passes.resolveVariable (hR : Passes R) (t : Token) (s : State) :
    R s (Luna.resolveVariable t s).2 := by
  unfold Luna.resolveVariable
  dsimp only
  have h1 := hR.resolveLocal s.cur t s
  split
  · exact h1
  · have h2 := hR.trans h1 (hR.resolveUpvalue 0 t _)
    split
    · exact h2
    · exact hR.trans h2 (hR.identifierConstant _ _)

theorem Passes.synchronizeLoop (hR : Passes R) (n : Nat) (s : State) :
    R s (Luna.synchronizeLoop n s) := by
  induction n generalizing s with
  | zero => exact hR.refl s
  | succ n ih =>
    unfold Luna.synchronizeLoop
    split
    · split
      · exact hR.refl s
      · split
        · exact hR.refl s
        · exact hR.trans (hR.advance s) (ih _)
    · exact hR.refl s

theorem Passes.synchronize (hR : Passes R) (s : State) : R s (Luna.synchronize s) :=
  hR.trans (hR.clearPanic s) (hR.synchronizeLoop _ _)

theorem Passes.literal (hR : Passes R) (c : Bool) (s : State) : R s (Luna.literal c s) := by
  unfold Luna.literal
  split
  · exact hR.emitByte _ s
  · exact hR.emitByte _ s
  · exact hR.emitByte _ s
  · exact hR.refl s

theorem Passes.number (hR : Passes R) (c : Bool) (s : State) : R s (Luna.number c s) :=
  hR.emitConstant _ s

theorem Passes.string (hR : Passes R) (c : Bool) (s : State) : R s (Luna.string c s) :=
  hR.emitConstant _ s

theorem Passes.emitUpvalues (hR : Passes R) (c : Compiler) (n i : Nat) (s : State) :
    R s (Luna.emitUpvalues c n i s) := by
  induction n generalizing i s with
  | zero => exact hR.refl s
  | succ n ih =>
    unfold Luna.emitUpvalues
    exact hR.trans (hR.trans (hR.emitByte _ s) (hR.emitByte _ _)) (ih _ _)

end PassesLemmas

section PassesExpressions

variable {R : State → State → Prop}

/-- The callback `pp` lands in `R`. -/
theorem lands_expression {pp : Precedence → State → Res State}
    (h : ∀ p s, Lands R id s (pp p s)) (s : State) : Lands R id s (expression pp s) :=
  h _ s

theorem lands_argumentLoop (hR : Passes R) {pp : Precedence → State → Res State}
    (h : ∀ p s, Lands R id s (pp p s)) (fuel c : Nat) (s : State) :
    Lands R Prod.snd s (argumentLoop pp fuel c s) := by
  induction fuel generalizing c s with
  | zero => exact lands_error _
  | succ k ih =>
    unfold argumentLoop
    refine lands_bind hR (lands_expression h s) (fun a => ?_)
    dsimp only
    have hstep : R a (match_ TOKEN_COMMA
        (if c = 255 then error "Can't have more than 255 arguments." a else a)).2 :=
      hR.trans (hR.ite (hR.error _ _)) (hR.match_ _ _)
    exact lands_ite (lands_after hR hstep (ih _ _)) (lands_pure hstep)

theorem lands_argumentList (hR : Passes R) {pp : Precedence → State → Res State}
    (h : ∀ p s, Lands R id s (pp p s)) (n : Nat) (s : State) :
    Lands R Prod.snd s (argumentList pp n s) := by
  unfold argumentList
  refine lands_bind hR (p := Prod.snd) ?_ (fun a => lands_pure (hR.consume _ _ _))
  exact lands_ite (lands_argumentLoop hR h _ _ _) (lands_pure (hR.refl _))

theorem lands_and (hR : Passes R) {pp : Precedence → State → Res State}
    (h : ∀ p s, Lands R id s (pp p s)) (c : Bool) (s : State) :
    Lands R id s (and_ pp c s) := by
  unfold and_
  dsimp only
  refine lands_bind hR (lands_after hR ?_ (h _ _)) (fun a => lands_pure (hR.patchJump _ _))
  exact hR.trans (hR.emitJump _ s) (hR.emitByte _ _)

theorem lands_or (hR : Passes R) {pp : Precedence → State → Res State}
    (h : ∀ p s, Lands R id s (pp p s)) (c : Bool) (s : State) :
    Lands R id s (or_ pp c s) := by
  unfold or_
  dsimp only
  refine lands_bind hR (lands_after hR ?_ (h _ _)) (fun a => lands_pure (hR.patchJump _ _))
  exact hR.trans (hR.trans (hR.trans (hR.emitJump _ s) (hR.emitJump _ _)) (hR.patchJump _ _))
    (hR.emitByte _ _)

theorem lands_binary (hR : Passes R) {pp : Precedence → State → Res State}
    (h : ∀ p s, Lands R id s (pp p s)) (c : Bool) (s : State) :
    Lands R id s (binary pp c s) := by
  unfold binary
  dsimp only
  refine lands_bind hR (h _ _) (fun a => ?_)
  split <;>
    first
    | exact lands_pure (hR.emitBytes _ _ _)
    | exact lands_pure (hR.emitByte _ _)
    | exact lands_pure (hR.refl _)

theorem lands_unary (hR : Passes R) {pp : Precedence → State → Res State}
    (h : ∀ p s, Lands R id s (pp p s)) (c : Bool) (s : State) :
    Lands R id s (unary pp c s) := by
  unfold unary
  dsimp only
  refine lands_bind hR (h _ _) (fun a => ?_)
  split <;>
    first
    | exact lands_pure (hR.emitByte _ _)
    | exact lands_pure (hR.refl _)

theorem lands_grouping (hR : Passes R) {pp : Precedence → State → Res State}
    (h : ∀ p s, Lands R id s (pp p s)) (c : Bool) (s : State) :
    Lands R id s (grouping pp c s) := by
  unfold grouping
  exact lands_bind hR (lands_expression h s) (fun a => lands_pure (hR.consume _ _ _))

theorem lands_call (hR : Passes R) {pp : Precedence → State → Res State}
    (h : ∀ p s, Lands R id s (pp p s)) (n : Nat) (c : Bool) (s : State) :
    Lands R id s (call pp n c s) := by
  unfold call
  exact lands_bind hR (lands_argumentList hR h n s) (fun a => lands_pure (hR.emitBytes _ _ _))

theorem lands_namedVariable (hR : Passes R) {pp : Precedence → State → Res State}
    (h : ∀ p s, Lands R id s (pp p s)) (name : Token) (c : Bool) (s : State) :
    Lands R id s (namedVariable pp name c s) := by
  unfold namedVariable
  dsimp only
  refine lands_ite ?_ (lands_pure ?_)
  · refine lands_bind hR (lands_after hR ?_ (lands_expression h _))
      (fun a => lands_pure (hR.emitBytes _ _ _))
    exact hR.trans (hR.resolveVariable name s) (hR.match_ _ _)
  · exact hR.trans (hR.resolveVariable name s) (hR.emitBytes _ _ _)

theorem lands_variable (hR : Passes R) {pp : Precedence → State → Res State}
    (h : ∀ p s, Lands R id s (pp p s)) (c : Bool) (s : State) :
    Lands R id s (variable_ pp c s) :=
  lands_namedVariable hR h _ _ _

theorem lands_super (hR : Passes R) {pp : Precedence → State → Res State}
    (h : ∀ p s, Lands R id s (pp p s)) (n : Nat) (c : Bool) (s : State) :
    Lands R id s (super_ pp n c s) := by
  unfold super_
  dsimp only
  have h0 : R s (match s.structs with
      | [] => error "Can't use 'super' outside of struct." s
      | currentStruct :: _ =>
        if !currentStruct.hasSuperstruct then error "Can't use 'super' in leaf struct." s
        else s) := by
    split
    · exact hR.error _ _
    · exact hR.ite (hR.error _ _)
  refine lands_bind hR (lands_after hR ?_ (lands_namedVariable hR h _ _ _)) (fun a => ?_)
  · exact hR.trans (hR.trans (hR.trans h0 (hR.consume _ _ _)) (hR.consume _ _ _))
      (hR.identifierConstant _ _)
  · refine lands_ite ?_ ?_
    · refine lands_bind hR (lands_after hR ?_ (lands_argumentList hR h n _)) (fun b => ?_)
      · exact hR.match_ _ _
      · refine lands_bind hR (lands_namedVariable hR h _ _ _) (fun d => ?_)
        exact lands_pure (hR.trans (hR.emitBytes _ _ _) (hR.emitByte _ _))
    · refine lands_bind hR (lands_after hR ?_ (lands_namedVariable hR h _ _ _))
        (fun d => lands_pure (hR.emitBytes _ _ _))
      exact hR.match_ _ _

theorem lands_dot (hR : Passes R) {pp : Precedence → State → Res State}
    (h : ∀ p s, Lands R id s (pp p s)) (n : Nat) (c : Bool) (s : State) :
    Lands R id s (dot pp n c s) := by
  unfold dot
  dsimp only
  have h0 := hR.trans (hR.consume TOKEN_IDENTIFIER "Expect properti name after '.'." s)
    (hR.identifierConstant
      (consume TOKEN_IDENTIFIER "Expect properti name after '.'." s).parser.previous _)
  refine lands_ite ?_ (lands_ite ?_ (lands_pure ?_))
  · refine lands_bind hR (lands_after hR ?_ (lands_expression h _))
      (fun a => lands_pure (hR.emitBytes _ _ _))
    exact hR.trans h0 (hR.match_ _ _)
  · refine lands_bind hR (lands_after hR ?_ (lands_argumentList hR h n _)) (fun b => ?_)
    · exact hR.trans h0 (hR.match_ _ _)
    · exact lands_pure (hR.trans (hR.emitBytes _ _ _) (hR.emitByte _ _))
  · exact hR.trans (hR.trans h0 (hR.match_ _ _)) (hR.emitBytes _ _ _)

theorem lands_self (hR : Passes R) {pp : Precedence → State → Res State}
    (h : ∀ p s, Lands R id s (pp p s)) (c : Bool) (s : State) :
    Lands R id s (self pp c s) := by
  unfold self
  split
  · exact lands_pure (hR.error _ _)
  · exact lands_variable hR h _ _

theorem lands_listLoop (hR : Passes R) {pp : Precedence → State → Res State}
    (h : ∀ p s, Lands R id s (pp p s)) (fuel c : Nat) (s : State) :
    Lands R id s (listLoop pp fuel c s) := by
  induction fuel generalizing c s with
  | zero => exact lands_error _
  | succ k ih =>
    unfold listLoop
    refine lands_bind hR (p := Prod.snd) ?_ (fun a => ?_)
    · refine lands_ite ?_ (lands_pure (hR.error _ _))
      exact lands_bind hR (lands_expression h s) (fun a => lands_pure (hR.emitByte _ _))
    · dsimp only
      exact lands_ite (lands_after hR (hR.match_ _ _) (ih _ _)) (lands_pure (hR.match_ _ _))

theorem lands_list (hR : Passes R) {pp : Precedence → State → Res State}
    (h : ∀ p s, Lands R id s (pp p s)) (n : Nat) (c : Bool) (s : State) :
    Lands R id s (list pp n c s) := by
  unfold list
  dsimp only
  refine lands_bind hR (p := id) ?_ (fun a => lands_pure (hR.emitConstant _ _))
  refine lands_ite ?_ (lands_pure (hR.newList s))
  exact lands_bind hR (lands_after hR (hR.newList s) (lands_listLoop hR h _ _ _))
    (fun a => lands_pure (hR.consume _ _ _))

theorem lands_applyRule (hR : Passes R) {pp : Precedence → State → Res State}
    (h : ∀ p s, Lands R id s (pp p s)) (n : Nat) (fn : ParseFn) (c : Bool) (s : State) :
    Lands R id s (applyRule pp n fn c s) := by
  cases fn <;> simp only [applyRule]
  · exact lands_grouping hR h _ _
  · exact lands_call hR h _ _ _
  · exact lands_dot hR h _ _ _
  · exact lands_unary hR h _ _
  · exact lands_binary hR h _ _
  · exact lands_variable hR h _ _
  · exact lands_pure (hR.string _ _)
  · exact lands_pure (hR.number _ _)
  · exact lands_and hR h _ _
  · exact lands_pure (hR.literal _ _)
  · exact lands_or hR h _ _
  · exact lands_super hR h _ _ _
  · exact lands_self hR h _ _
  · exact lands_list hR h _ _ _

theorem lands_infixLoop (hR : Passes R) {pp : Precedence → State → Res State}
    (h : ∀ p s, Lands R id s (pp p s)) (n : Nat) (p : Precedence) (c : Bool) (fuel : Nat)
    (s : State) : Lands R id s (infixLoop pp n p c fuel s) := by
  induction fuel generalizing s with
  | zero => exact lands_error _
  | succ k ih =>
    unfold infixLoop
    refine lands_ite ?_ (lands_pure (hR.refl _))
    dsimp only
    split
    · exact lands_error _
    · exact lands_bind hR (lands_after hR (hR.advance s) (lands_applyRule hR h _ _ _ _))
        (fun a => ih a)

/-- Every expression lands in `R`. -/
theorem lands_parsePrecedence (hR : Passes R) (n : Nat) :
    ∀ p s, Lands R id s (parsePrecedence n p s) := by
  induction n with
  | zero => intro p s; exact lands_error _
  | succ k ih =>
    intro p s
    unfold parsePrecedence
    dsimp only
    split
    · exact lands_pure (hR.trans (hR.advance s) (hR.error _ _))
    · refine lands_bind hR (lands_after hR (hR.advance s) (lands_applyRule hR ih _ _ _ _))
        (fun a => ?_)
      refine lands_bind hR (lands_infixLoop hR ih _ _ _ _ _) (fun b => ?_)
      exact lands_ite (lands_pure (hR.trans (hR.match_ _ _) (hR.error _ _)))
        (lands_pure (hR.refl _))

end PassesExpressions

section PassesStatements

variable {R : State → State → Prop}

/-- The rule for `>>=` when the first computation starts in another state `a`
than the whole: what follows may use that its result is `R`-related to `a`. -/
theorem lands_bind_via {α β : Type} {p : α → State} {q : β → State} {s a : State}
    {x : Res α} {f : α → Res β} (hx : Lands R p a x)
    (hf : ∀ b, R a (p b) → Lands R q s (f b)) : Lands R q s (x >>= f) := by
  intro b hb
  cases x with
  | error e => cases hb
  | ok c => exact hf c (hx c rfl) b hb

theorem lands_block (hR : Passes R) {decl : State → Res State}
    (hd : ∀ s, Lands R id s (decl s)) (fuel : Nat) (s : State) :
    Lands R id s (block decl fuel s) := by
  induction fuel generalizing s with
  | zero => exact lands_error _
  | succ k ih =>
    unfold block
    refine lands_ite ?_ (lands_pure (hR.consume _ _ _))
    exact lands_bind hR (hd s) (fun a => ih a)

theorem Passes.iteAfter (hR : Passes R) {c : Prop} [Decidable c] {s a : State}
    (f : State → State) (ha : R s a) (hf : R a (f a)) : R s (if c then f a else a) := by
  split
  · exact hR.trans ha hf
  · exact ha

theorem parameterLoop_succ (k : Nat) (s : State) :
    parameterLoop (k + 1) s =
      if (match_ TOKEN_COMMA (defineVariable
          (parseVariable "Expect parameter name."
            (if (bumpArity s).curFunction.arity > 255 then
              errorAtCurrent (cstr "Can't have more than 255 parameters.") (bumpArity s)
            else bumpArity s)).1
          (parseVariable "Expect parameter name."
            (if (bumpArity s).curFunction.arity > 255 then
              errorAtCurrent (cstr "Can't have more than 255 parameters.") (bumpArity s)
            else bumpArity s)).2)).1 then
        parameterLoop k (match_ TOKEN_COMMA (defineVariable
          (parseVariable "Expect parameter name."
            (if (bumpArity s).curFunction.arity > 255 then
              errorAtCurrent (cstr "Can't have more than 255 parameters.") (bumpArity s)
            else bumpArity s)).1
          (parseVariable "Expect parameter name."
            (if (bumpArity s).curFunction.arity > 255 then
              errorAtCurrent (cstr "Can't have more than 255 parameters.") (bumpArity s)
            else bumpArity s)).2)).2
      else
        pure (match_ TOKEN_COMMA (defineVariable
          (parseVariable "Expect parameter name."
            (if (bumpArity s).curFunction.arity > 255 then
              errorAtCurrent (cstr "Can't have more than 255 parameters.") (bumpArity s)
            else bumpArity s)).1
          (parseVariable "Expect parameter name."
            (if (bumpArity s).curFunction.arity > 255 then
              errorAtCurrent (cstr "Can't have more than 255 parameters.") (bumpArity s)
            else bumpArity s)).2)).2 := rfl

theorem lands_parameterLoop (hR : Passes R) (fuel : Nat) (s : State) :
    Lands R id s (parameterLoop fuel s) := by
  induction fuel generalizing s with
  | zero => exact lands_error _
  | succ k ih =>
    have h1 := hR.iteAfter (c := (bumpArity s).curFunction.arity > 255)
      (errorAtCurrent (cstr "Can't have more than 255 parameters.")) (hR.bumpArity s)
      (hR.errorAtCurrent _ _)
    rw [parameterLoop_succ]
    refine lands_ite (lands_after hR ?_ (ih _)) (lands_pure ?_)
    · exact hR.trans (hR.trans (hR.trans h1 (hR.parseVariable "Expect parameter name." _))
        (hR.defineVariable _ _)) (hR.match_ TOKEN_COMMA _)
    · exact hR.trans (hR.trans (hR.trans h1 (hR.parseVariable "Expect parameter name." _))
        (hR.defineVariable _ _)) (hR.match_ TOKEN_COMMA _)

theorem lands_function (hR : Passes R) {decl : State → Res State}
    (hd : ∀ s, Lands R id s (decl s)) (n : Nat) (type : FunctionType) (s : State) :
    Lands R id s (function decl n type s) := by
  unfold function
  dsimp only
  have h0 : R (initCompiler type s)
      (consume TOKEN_LEFT_PAREN "Expect '(' after function name."
        (beginScope (initCompiler type s))) :=
    hR.trans (hR.beginScope _) (hR.consume _ _ _)
  refine lands_bind_via (a := initCompiler type s) (p := id) ?_ (fun b hb => ?_)
  · exact lands_ite (lands_after hR h0 (lands_parameterLoop hR n _)) (lands_pure h0)
  · refine lands_bind_via (a := initCompiler type s) (p := id) ?_ (fun d hd' => ?_)
    · refine lands_after hR ?_ (lands_block hR hd n _)
      exact hR.trans (hR.trans hb (hR.consume _ _ _)) (hR.consume _ _ _)
    · refine lands_pure ?_
      have h1 := hR.functionBracket type s d hd'
      exact hR.trans (hR.trans (hR.trans h1 (hR.makeConstant _ _)) (hR.emitBytes _ _ _))
        (hR.emitUpvalues _ _ _ _)

theorem lands_method (hR : Passes R) {decl : State → Res State}
    (hd : ∀ s, Lands R id s (decl s)) (n : Nat) (s : State) :
    Lands R id s (method decl n s) := by
  unfold method
  dsimp only
  refine lands_bind hR (lands_after hR ?_ (lands_function hR hd n _ _))
    (fun a => lands_pure (hR.emitBytes _ _ _))
  exact hR.trans (hR.trans (hR.consume _ _ s) (hR.consume _ _ _)) (hR.identifierConstant _ _)

theorem lands_funDeclaration (hR : Passes R) {decl : State → Res State}
    (hd : ∀ s, Lands R id s (decl s)) (n : Nat) (s : State) :
    Lands R id s (funDeclaration decl n s) := by
  unfold funDeclaration
  dsimp only
  refine lands_bind hR (lands_after hR ?_ (lands_function hR hd n _ _))
    (fun a => lands_pure (hR.defineVariable _ _))
  exact hR.trans (hR.parseVariable _ s) (hR.markInitialized _)

theorem lands_varDeclaration (hR : Passes R) (n : Nat) (s : State) :
    Lands R id s (varDeclaration n s) := by
  unfold varDeclaration
  dsimp only
  have h0 := hR.trans (hR.parseVariable "Expect variable name." s) (hR.match_ TOKEN_EQUAL _)
  refine lands_bind hR (p := id) ?_ (fun a => lands_pure (hR.defineVariable _ _))
  refine lands_ite ?_ (lands_pure (hR.trans h0 (hR.emitByte _ _)))
  exact lands_after hR h0 (lands_expression (lands_parsePrecedence hR n) _)

theorem lands_methodLoop (hR : Passes R) {decl : State → Res State}
    (hd : ∀ s, Lands R id s (decl s)) (n fuel : Nat) (s : State) :
    Lands R id s (methodLoop decl n fuel s) := by
  induction fuel generalizing s with
  | zero => exact lands_error _
  | succ k ih =>
    unfold methodLoop
    refine lands_ite ?_ (lands_pure (hR.refl _))
    exact lands_bind hR (lands_method hR hd n s) (fun a => ih a)

theorem lands_declarationLoop (hR : Passes R) {decl : State → Res State}
    (hd : ∀ s, Lands R id s (decl s)) (fuel : Nat) (s : State) :
    Lands R id s (declarationLoop decl fuel s) := by
  induction fuel generalizing s with
  | zero => exact lands_error _
  | succ k ih =>
    unfold declarationLoop
    dsimp only
    refine lands_ite (lands_pure (hR.match_ _ _)) ?_
    exact lands_bind hR (lands_after hR (hR.match_ _ _) (hd _)) (fun a => ih a)

theorem lands_importModule (hR : Passes R) (fs : List Nat → Option (List Nat))
    {decl : State → Res State} (hd : ∀ s, Lands R id s (decl s)) (n : Nat) (line : Token)
    (name : List Nat) (length : Nat) (s : State) :
    Lands R id s (importModule fs decl n line name length s) := by
  unfold importModule
  dsimp only
  refine lands_ite (lands_pure (hR.errorAt _ _ _)) ?_
  refine lands_ite (lands_pure (hR.importError _ _ _)) ?_
  split
  · exact lands_error _
  · rename_i source _
    refine lands_bind_via (p := id) (lands_after hR (hR.advance _)
      (lands_declarationLoop hR hd n _)) (fun b hb => lands_pure ?_)
    exact hR.importBracket _ source s b hb

theorem lands_importDeclaration (hR : Passes R) (fs : List Nat → Option (List Nat))
    {decl : State → Res State} (hd : ∀ s, Lands R id s (decl s)) (n : Nat) (s : State) :
    Lands R id s (importDeclaration fs decl n s) := by
  unfold importDeclaration
  exact lands_after hR (hR.consume _ _ s) (lands_importModule hR fs hd n _ _ _ _)

theorem lands_expressionStatement (hR : Passes R) (n : Nat) (s : State) :
    Lands R id s (expressionStatement n s) := by
  unfold expressionStatement
  exact lands_bind hR (lands_expression (lands_parsePrecedence hR n) s)
    (fun a => lands_pure (hR.emitByte _ _))

theorem lands_printStatement (hR : Passes R) (n : Nat) (s : State) :
    Lands R id s (printStatement n s) := by
  unfold printStatement
  exact lands_bind hR (lands_expression (lands_parsePrecedence hR n) s)
    (fun a => lands_pure (hR.emitByte _ _))

theorem lands_printlnStatement (hR : Passes R) (n : Nat) (s : State) :
    Lands R id s (printlnStatement n s) := by
  unfold printlnStatement
  exact lands_bind hR (lands_expression (lands_parsePrecedence hR n) s)
    (fun a => lands_pure (hR.emitByte _ _))

theorem lands_returnStatement (hR : Passes R) (n : Nat) (s : State) :
    Lands R id s (returnStatement n s) := by
  unfold returnStatement
  dsimp only
  have h0 : R s (match_ TOKEN_SEMICOLON
      (if s.cur.type = TYPE_SCRIPT then error "Can't return from top level code." s else s)).2 :=
    hR.trans (hR.ite (hR.error _ _)) (hR.match_ _ _)
  refine lands_ite (lands_pure (hR.trans h0 (hR.emitReturn _))) ?_
  refine lands_bind hR (lands_after hR ?_ (lands_expression (lands_parsePrecedence hR n) _))
    (fun a => lands_pure (hR.emitByte _ _))
  exact hR.trans h0 (hR.ite (hR.error _ _))

theorem lands_whileStatement (hR : Passes R) {stmt : State → Res State}
    (hs : ∀ s, Lands R id s (stmt s)) (n : Nat) (s : State) :
    Lands R id s (whileStatement stmt n s) := by
  unfold whileStatement
  dsimp only
  refine lands_bind hR (lands_after hR (hR.consume _ _ s)
    (lands_expression (lands_parsePrecedence hR n) _)) (fun a => ?_)
  refine lands_bind hR (lands_after hR ?_ (hs _)) (fun b => lands_pure ?_)
  · exact hR.trans (hR.trans (hR.consume _ _ _) (hR.emitJump _ _)) (hR.emitByte _ _)
  · exact hR.trans (hR.trans (hR.emitLoop _ _) (hR.patchJump _ _)) (hR.emitByte _ _)

theorem lands_ifStatement (hR : Passes R) {stmt : State → Res State}
    (hs : ∀ s, Lands R id s (stmt s)) (n : Nat) (s : State) :
    Lands R id s (ifStatement stmt n s) := by
  unfold ifStatement
  dsimp only
  refine lands_bind hR (lands_after hR (hR.consume _ _ s)
    (lands_expression (lands_parsePrecedence hR n) _)) (fun a => ?_)
  refine lands_bind hR (lands_after hR ?_ (hs _)) (fun b => ?_)
  · exact hR.trans (hR.trans (hR.consume _ _ _) (hR.emitJump _ _)) (hR.emitByte _ _)
  · have h0 : R b (match_ TOKEN_ELSE (emitByte (Byte.op OP_POP)
        (patchJump (emitJump OP_JUMP_IF_FALSE
          (consume TOKEN_RIGHT_PAREN "Expect ')' after condition." a)).1
          (emitJump OP_JUMP b).2))).2 :=
      hR.trans (hR.trans (hR.trans (hR.emitJump _ _) (hR.patchJump _ _)) (hR.emitByte _ _))
        (hR.match_ _ _)
    refine lands_bind hR (p := id) ?_ (fun d => lands_pure (hR.patchJump _ _))
    exact lands_ite (lands_after hR h0 (hs _)) (lands_pure h0)

end PassesStatements

section PassesDeclarations

variable {R : State → State → Prop}

theorem lands_forStatement (hR : Passes R) {stmt : State → Res State}
    (hs : ∀ s, Lands R id s (stmt s)) (n : Nat) (s : State) :
    Lands R id s (forStatement stmt n s) := by
  unfold forStatement
  dsimp only
  have h0 := hR.trans (hR.trans (hR.beginScope s)
    (hR.consume TOKEN_LEFT_PAREN "Expect '(' after 'for'." _)) (hR.match_ TOKEN_SEMICOLON _)
  refine lands_bind hR (p := id) ?_ (fun a => ?_)
  · refine lands_ite (lands_pure h0) (lands_ite ?_ ?_)
    · exact lands_bind hR
        (lands_after hR (hR.trans h0 (hR.match_ _ _)) (lands_varDeclaration hR n _))
        (fun a => lands_pure (hR.consume _ _ _))
    · exact lands_bind hR
        (lands_after hR (hR.trans h0 (hR.match_ _ _)) (lands_expressionStatement hR n _))
        (fun a => lands_pure (hR.consume _ _ _))
  · refine lands_bind hR (p := Prod.snd) ?_ (fun r => ?_)
    · refine lands_ite ?_ (lands_pure (hR.match_ _ _))
      refine lands_bind hR (lands_after hR (hR.match_ _ _)
        (lands_expression (lands_parsePrecedence hR n) _)) (fun b => lands_pure ?_)
      exact hR.trans (hR.trans (hR.consume _ _ _) (hR.emitJump _ _)) (hR.emitByte _ _)
    · refine lands_bind hR (p := Prod.snd) ?_ (fun d => ?_)
      · refine lands_ite ?_ (lands_pure (hR.match_ _ _))
        refine lands_bind hR (lands_after hR ?_
          (lands_expression (lands_parsePrecedence hR n) _)) (fun b => lands_pure ?_)
        · exact hR.trans (hR.match_ _ _) (hR.emitJump _ _)
        · exact hR.trans (hR.trans (hR.trans (hR.emitByte _ _) (hR.consume _ _ _))
            (hR.emitLoop _ _)) (hR.patchJump _ _)
      · refine lands_bind hR (hs _) (fun b => lands_pure ?_)
        refine hR.trans (hR.trans (hR.emitLoop d.1 b) ?_) (hR.endScope _)
        split
        · exact hR.trans (hR.patchJump _ _) (hR.emitByte _ _)
        · exact hR.refl _

theorem lands_structDeclaration (hR : Passes R) {decl : State → Res State}
    (hd : ∀ s, Lands R id s (decl s)) (n : Nat) (s : State) :
    Lands R id s (structDeclaration decl n s) := by
  unfold structDeclaration
  dsimp only
  have h1 := hR.trans (hR.ite (c := s.cur.scopeDepth > 0)
      (f := error "Cannot declare struct out of global scope.") (hR.error _ s))
    (hR.consume TOKEN_IDENTIFIER "Expect struct name." _)
  have h2 := hR.trans (hR.trans h1 (hR.identifierConstant
    (consume TOKEN_IDENTIFIER "Expect struct name."
      (if s.cur.scopeDepth > 0 then error "Cannot declare struct out of global scope." s
        else s)).parser.previous _)) (hR.declareVariable _)
  have h3 := hR.trans (hR.trans (hR.trans (hR.trans h2
    (hR.emitBytes (Byte.op OP_STRUCT) (Byte.raw (identifierConstant
      (consume TOKEN_IDENTIFIER "Expect struct name."
        (if s.cur.scopeDepth > 0 then error "Cannot declare struct out of global scope." s
          else s)).parser.previous
      (consume TOKEN_IDENTIFIER "Expect struct name."
        (if s.cur.scopeDepth > 0 then error "Cannot declare struct out of global scope." s
          else s))).1) _))
    (hR.defineVariable (identifierConstant
      (consume TOKEN_IDENTIFIER "Expect struct name."
        (if s.cur.scopeDepth > 0 then error "Cannot declare struct out of global scope." s
          else s)).parser.previous
      (consume TOKEN_IDENTIFIER "Expect struct name."
        (if s.cur.scopeDepth > 0 then error "Cannot declare struct out of global scope." s
          else s))).1 _)) (hR.pushStruct _)) (hR.match_ TOKEN_COLON _)
  refine lands_bind hR (p := id) ?_ (fun a => ?_)
  · refine lands_ite ?_ (lands_pure h3)
    refine lands_bind hR (lands_after hR (hR.trans h3 (hR.consume _ _ _))
      (lands_variable hR (lands_parsePrecedence hR n) _ _)) (fun a => ?_)
    refine lands_bind hR (lands_after hR ?_
      (lands_namedVariable hR (lands_parsePrecedence hR n) _ _ _)) (fun b => lands_pure ?_)
    · exact hR.trans (hR.trans (hR.trans (hR.ite (hR.error _ _)) (hR.beginScope _))
        (hR.addLocal _ _)) (hR.defineVariable _ _)
    · exact hR.trans (hR.emitByte _ _) (hR.setHasSuperstruct _ _)
  · refine lands_bind hR (lands_namedVariable hR (lands_parsePrecedence hR n) _ _ _)
      (fun b => ?_)
    refine lands_bind hR (p := id) ?_ (fun d => lands_pure ?_)
    · refine lands_ite ?_ (lands_pure (hR.consume _ _ _))
      exact lands_bind hR (lands_after hR (hR.consume _ _ _) (lands_methodLoop hR hd n n _))
        (fun e => lands_pure (hR.consume _ _ _))
    · refine hR.trans ?_ (hR.popStruct _)
      exact hR.iteAfter Luna.endScope (hR.emitByte _ _) (hR.endScope _)

theorem lands_declarationBody (hR : Passes R) (fs : List Nat → Option (List Nat))
    {decl stmt : State → Res State} (hd : ∀ s, Lands R id s (decl s))
    (hs : ∀ s, Lands R id s (stmt s)) (n : Nat) (s : State) :
    Lands R id s (declarationBody fs decl stmt n s) := by
  unfold declarationBody
  dsimp only
  have h0 := hR.match_ TOKEN_SEMICOLON s
  refine lands_bind hR (p := id) ?_ (fun a => lands_pure (hR.ite (hR.synchronize _)))
  refine lands_ite (lands_pure (hR.trans h0 (hR.error _ _))) ?_
  refine lands_ite (lands_after hR (hR.trans h0 (hR.match_ _ _))
    (lands_importDeclaration hR fs hd n _)) ?_
  refine lands_ite (lands_after hR (hR.trans h0 (hR.match_ _ _))
    (lands_structDeclaration hR hd n _)) ?_
  refine lands_ite (lands_after hR (hR.trans h0 (hR.match_ _ _))
    (lands_funDeclaration hR hd n _)) ?_
  exact lands_ite (lands_after hR (hR.trans h0 (hR.match_ _ _)) (lands_varDeclaration hR n _))
    (lands_after hR h0 (hs _))

theorem lands_statementBody (hR : Passes R) {decl stmt : State → Res State}
    (hd : ∀ s, Lands R id s (decl s)) (hs : ∀ s, Lands R id s (stmt s)) (n : Nat)
    (s : State) : Lands R id s (statementBody decl stmt n s) := by
  unfold statementBody
  dsimp only
  have h1 := hR.iteAfter (c := (match_ TOKEN_SEMICOLON s).1 = true)
    (error "Unexpected token ';'.") (hR.match_ TOKEN_SEMICOLON s) (hR.error _ _)
  have h2 := hR.trans h1 (hR.match_ TOKEN_PRINT _)
  have h3 := hR.trans h2 (hR.match_ TOKEN_PRINTLN _)
  have h4 := hR.trans h3 (hR.match_ TOKEN_IF _)
  have h5 := hR.trans h4 (hR.match_ TOKEN_RETURN _)
  have h6 := hR.trans h5 (hR.match_ TOKEN_WHILE _)
  have h7 := hR.trans h6 (hR.match_ TOKEN_FOR _)
  have h8 := hR.trans h7 (hR.match_ TOKEN_LEFT_BRACE _)
  refine lands_ite (lands_after hR h2 (lands_printStatement hR n _)) ?_
  refine lands_ite (lands_after hR h3 (lands_printlnStatement hR n _)) ?_
  refine lands_ite (lands_after hR h4 (lands_ifStatement hR hs n _)) ?_
  refine lands_ite (lands_after hR h5 (lands_returnStatement hR n _)) ?_
  refine lands_ite (lands_after hR h6 (lands_whileStatement hR hs n _)) ?_
  refine lands_ite (lands_after hR h7 (lands_forStatement hR hs n _)) ?_
  refine lands_ite ?_ (lands_after hR h8 (lands_expressionStatement hR n _))
  exact lands_bind hR (lands_after hR (hR.trans h8 (hR.beginScope _)) (lands_block hR hd n _))
    (fun a => lands_pure (hR.endScope _))

theorem declaration_succ (fs : List Nat → Option (List Nat)) (n : Nat) (s : State) :
    declaration fs (n + 1) s = declarationBody fs (declaration fs n) (statement fs n) n s := by
  rw [declaration]

theorem statement_succ (fs : List Nat → Option (List Nat)) (n : Nat) (s : State) :
    statement fs (n + 1) s = statementBody (declaration fs n) (statement fs n) n s := by
  rw [statement]

/-- Every declaration and every statement lands in `R`. -/
theorem lands_declaration_statement (hR : Passes R) (fs : List Nat → Option (List Nat))
    (n : Nat) :
    (∀ s, Lands R id s (declaration fs n s)) ∧ (∀ s, Lands R id s (statement fs n s)) := by
  induction n with
  | zero =>
    constructor
    · intro s; rw [declaration]; exact lands_error _
    · intro s; rw [statement]; exact lands_error _
  | succ k ih =>
    constructor
    · intro s
      rw [declaration_succ]
      exact lands_declarationBody hR fs ih.1 ih.2 k s
    · intro s
      rw [statement_succ]
      exact lands_statementBody hR ih.1 ih.2 k s

theorem lands_declaration (hR : Passes R) (fs : List Nat → Option (List Nat)) (n : Nat)
    (s : State) : Lands R id s (declaration fs n s) :=
  (lands_declaration_statement hR fs n).1 s

theorem lands_statement (hR : Passes R) (fs : List Nat → Option (List Nat)) (n : Nat)
    (s : State) : Lands R id s (statement fs n s) :=
  (lands_declaration_statement hR fs n).2 s

end PassesDeclarations

/-! ### The relation `Keeps` -/

theorem keeps_refl (s : State) : Keeps s s :=
  ⟨rfl, fun _ => rfl, fun _ => rfl, fun _ h => h, fun h => h, List.prefix_refl _⟩

theorem Keeps.next {a b c : State} (h : Keeps a b) (h' : Keeps b c) : Keeps a c :=
  ⟨h'.length.trans h.length, fun k => (h'.function k).trans (h.function k),
    fun k => (h'.type k).trans (h.type k), fun ptr hp => h'.isFunction ptr (h.isFunction ptr hp),
    fun hc => h'.localCount (h.localCount hc), h.stderr.trans h'.stderr⟩

/-- A step that leaves the compilers alone. -/
theorem keeps_of_compilers {s s' : State} (hc : s'.compilers = s.compilers)
    (hh : ∀ ptr : Nat, (∃ f, s.heap[ptr]? = some (Obj.function f)) →
      ∃ f, s'.heap[ptr]? = some (Obj.function f))
    (he : s.stderr <+: s'.stderr) : Keeps s s' := by
  have hk : ∀ k, s'.compilerAt k = s.compilerAt k := fun k => by
    unfold State.compilerAt; rw [hc]
  exact ⟨by rw [hc], fun k => by rw [hk], fun k => by rw [hk], hh,
    fun h k => by rw [hk]; exact h k, he⟩

theorem isFunction_setFunctionAt (s : State) (p : Nat) (g : ObjFunction) (ptr : Nat)
    (h : ∃ f, s.heap[ptr]? = some (Obj.function f)) :
    ∃ f, (s.setFunctionAt p g).heap[ptr]? = some (Obj.function f) := by
  obtain ⟨f, hf⟩ := h
  have hlt : ptr < s.heap.length := (List.getElem?_eq_some_iff.1 hf).1
  by_cases hp : p = ptr
  · subst hp
    exact ⟨g, get_setFunctionAt g hf⟩
  · refine ⟨f, ?_⟩
    simp [State.setFunctionAt, List.getElem?_set, hp, hf]

theorem keeps_setFunctionAt (s : State) (p : Nat) (g : ObjFunction) :
    Keeps s (s.setFunctionAt p g) :=
  keeps_of_compilers rfl (isFunction_setFunctionAt s p g) (List.prefix_refl _)

theorem errorAt_stderr (t : Token) (m : List Nat) (s : State) :
    s.stderr <+: (errorAt t m s).stderr := by
  unfold errorAt
  split
  · exact List.prefix_refl _
  · exact List.prefix_append _ _

theorem keeps_errorAt (t : Token) (m : List Nat) (s : State) : Keeps s (errorAt t m s) :=
  keeps_of_compilers (errorAt_compilers t m s) (fun ptr h => by rw [errorAt_heap]; exact h)
    (errorAt_stderr t m s)

theorem keeps_importError (t : Token) (m : List Nat) (s : State) :
    Keeps s (importError t m s) := by
  unfold importError
  split
  · exact keeps_refl s
  · exact keeps_of_compilers rfl (fun _ h => h) (List.prefix_append _ _)

theorem keeps_advanceLoop (fuel : Nat) (s : State) : Keeps s (advanceLoop fuel s) := by
  induction fuel generalizing s with
  | zero => exact keeps_refl s
  | succ k ih =>
    unfold advanceLoop
    dsimp only
    split
    · exact keeps_of_compilers rfl (fun _ h => h) (List.prefix_refl _)
    · refine Keeps.next ?_ (ih _)
      refine Keeps.next ?_ (keeps_errorAt _ _ _)
      exact keeps_of_compilers rfl (fun _ h => h) (List.prefix_refl _)

theorem keeps_advance (s : State) : Keeps s (advance s) := by
  unfold advance
  refine Keeps.next ?_ (keeps_advanceLoop _ _)
  exact keeps_of_compilers rfl (fun _ h => h) (List.prefix_refl _)

theorem keeps_emitByte (b : Byte) (s : State) : Keeps s (emitByte b s) :=
  keeps_setFunctionAt _ _ _

theorem keeps_makeConstant (v : Value) (s : State) : Keeps s (makeConstant v s).2 := by
  unfold makeConstant
  dsimp only
  split
  · exact (keeps_setFunctionAt _ _ _).next (keeps_errorAt _ _ _)
  · exact keeps_setFunctionAt _ _ _

theorem keeps_patchJump (o : Nat) (s : State) : Keeps s (patchJump o s) := by
  unfold patchJump
  dsimp only
  refine Keeps.next ?_ (keeps_setFunctionAt _ _ _)
  split
  · exact keeps_errorAt _ _ _
  · exact keeps_refl s

theorem compilerAt_setCur_succ (s : State) (c : Compiler) (k : Nat) :
    (s.setCur c).compilerAt (k + 1) = s.compilerAt (k + 1) :=
  compilerAt_setCompilerAt_ne s (by omega) c

theorem compilerAt_setCur_zero (s : State) (c : Compiler) :
    (s.setCur c).compilerAt 0 = c ∨ (s.setCur c).compilerAt 0 = s.compilerAt 0 := by
  by_cases h : 0 < s.compilers.length
  · exact Or.inl (compilerAt_setCompilerAt_same h c)
  · right
    have : s.compilers = [] := List.length_eq_zero.1 (by omega)
    simp [State.setCur, State.setCompilerAt, State.compilerAt, this]

/-- A step that replaces `current` by a compiler with the same function and
type and a `localCount` within the bound. -/
theorem keeps_setCur (s : State) (c : Compiler) (hf : c.function = s.cur.function)
    (ht : c.type = s.cur.type)
    (hl : s.cur.localCount ≤ UINT8_COUNT → c.localCount ≤ UINT8_COUNT) :
    Keeps s (s.setCur c) := by
  have key : ∀ k, (s.setCur c).compilerAt k = s.compilerAt k ∨
      (k = 0 ∧ (s.setCur c).compilerAt k = c) := by
    intro k
    cases k with
    | zero =>
      rcases compilerAt_setCur_zero s c with h | h
      · exact Or.inr ⟨rfl, h⟩
      · exact Or.inl h
    | succ k => exact Or.inl (compilerAt_setCur_succ s c k)
  refine ⟨by simp [State.setCur], fun k => ?_, fun k => ?_, fun _ h => h, fun h k => ?_,
    List.prefix_refl _⟩
  · rcases key k with h | ⟨rfl, h⟩
    · rw [h]
    · rw [h, hf]; rfl
  · rcases key k with h | ⟨rfl, h⟩
    · rw [h]
    · rw [h, ht]; rfl
  · rcases key k with h' | ⟨rfl, h'⟩
    · rw [h']; exact h k
    · rw [h']; exact hl (h 0)

theorem keeps_beginScope (s : State) : Keeps s (beginScope s) :=
  keeps_setCur s _ rfl rfl (fun h => h)

theorem keeps_endScopeLoop (fuel : Nat) (s : State) : Keeps s (endScopeLoop fuel s) := by
  induction fuel generalizing s with
  | zero => exact keeps_refl s
  | succ k ih =>
    unfold endScopeLoop
    dsimp only
    split
    · refine Keeps.next ?_ (ih _)
      refine Keeps.next ?_ (keeps_setCur _ _ rfl rfl (fun h => Nat.le_trans (Nat.sub_le _ _) h))
      refine Keeps.next (keeps_emitByte (Byte.op OP_POP) s) ?_
      split
      · exact keeps_emitByte _ _
      · exact keeps_emitByte _ _
    · exact keeps_refl s

theorem keeps_endScope (s : State) : Keeps s (endScope s) := by
  unfold endScope
  refine Keeps.next ?_ (keeps_endScopeLoop _ _)
  exact keeps_setCur s _ rfl rfl (fun h => h)

theorem keeps_addLocal (t : Token) (s : State) : Keeps s (addLocal t s) := by
  unfold addLocal
  dsimp only
  split
  · exact keeps_errorAt _ _ _
  · rename_i h
    refine keeps_setCur s _ rfl rfl (fun hl => ?_)
    show s.cur.localCount + 1 ≤ UINT8_COUNT
    omega

theorem keeps_markInitialized (s : State) : Keeps s (markInitialized s) := by
  unfold markInitialized
  dsimp only
  split
  · exact keeps_refl s
  · exact keeps_setCur s _ rfl rfl (fun h => h)

theorem addUpvalue_stderr (k index : Nat) (isLocal : Bool) (s : State) :
    s.stderr <+: (addUpvalue k index isLocal s).2.stderr := by
  unfold addUpvalue
  dsimp only
  split
  · exact List.prefix_refl _
  · split
    · exact errorAt_stderr _ _ _
    · exact List.prefix_refl _

theorem resolveLocal_stderr (c : Compiler) (name : Token) (s : State) :
    s.stderr <+: (resolveLocal c name s).2.stderr := by
  rw [resolveLocal_eq]
  cases findLocal c name c.localCount with
  | none => exact List.prefix_refl _
  | some i =>
    dsimp only
    split
    · exact errorAt_stderr _ _ _
    · exact List.prefix_refl _

theorem resolveUpvalueFrom_stderr (name : Token) (d : Nat) :
    ∀ (k : Nat) (s : State), s.stderr <+: (resolveUpvalueFrom name d k s).2.stderr := by
  induction d with
  | zero => intro k s; exact List.prefix_refl _
  | succ d ih =>
    intro k s
    unfold resolveUpvalueFrom
    dsimp only
    have h1 := resolveLocal_stderr (s.compilerAt (k + 1)) name s
    split
    · refine List.IsPrefix.trans ?_ (addUpvalue_stderr _ _ _ _)
      exact h1
    · have h2 := h1.trans (ih (k + 1) _)
      split
      · exact h2.trans (addUpvalue_stderr _ _ _ _)
      · exact h2

theorem keeps_resolveUpvalue (k : Nat) (name : Token) (s : State) :
    Keeps s (resolveUpvalue k name s).2 := by
  have h := sameFrames_resolveUpvalue k name s
  exact ⟨h.length, h.function, h.type, h.isFunction,
    fun hc j => by rw [h.localCount]; exact hc j, resolveUpvalueFrom_stderr name _ k s⟩

theorem isFunction_allocateObject (o : Obj) (s : State) (ptr : Nat)
    (h : ∃ f, s.heap[ptr]? = some (Obj.function f)) :
    ∃ f, (allocateObject o s).2.heap[ptr]? = some (Obj.function f) := by
  obtain ⟨f, hf⟩ := h
  have hlt : ptr < s.heap.length := (List.getElem?_eq_some_iff.1 hf).1
  exact ⟨f, by simp [allocateObject, List.getElem?_append_left hlt, hf]⟩

theorem keeps_allocateObject (o : Obj) (s : State) : Keeps s (allocateObject o s).2 :=
  keeps_of_compilers rfl (isFunction_allocateObject o s) (List.prefix_refl _)

theorem initCompiler_compilers (type : FunctionType) (s : State) :
    (initCompiler type s).compilers = (initCompiler type s).cur :: s.compilers := by
  unfold initCompiler
  by_cases h1 : type = TYPE_IMPORT <;> by_cases h2 : type = TYPE_SCRIPT <;>
    simp [h1, h2, State.setCur, State.setCompilerAt, State.cur, State.compilerAt, newFunction,
      allocateObject, State.setFunctionAt]

theorem initCompiler_localCount (type : FunctionType) (s : State) :
    (initCompiler type s).cur.localCount = 1 := by
  unfold initCompiler
  by_cases h1 : type = TYPE_IMPORT <;> by_cases h2 : type = TYPE_SCRIPT <;>
    simp [h1, h2, State.setCur, State.setCompilerAt, State.cur, State.compilerAt, newFunction,
      allocateObject, State.setFunctionAt]

theorem initCompiler_type (type : FunctionType) (s : State) :
    (initCompiler type s).cur.type = type := by
  unfold initCompiler
  by_cases h1 : type = TYPE_IMPORT <;> by_cases h2 : type = TYPE_SCRIPT <;>
    simp [h1, h2, State.setCur, State.setCompilerAt, State.cur, State.compilerAt, newFunction,
      allocateObject, State.setFunctionAt]

theorem initCompiler_stderr (type : FunctionType) (s : State) :
    (initCompiler type s).stderr = s.stderr := by
  unfold initCompiler
  by_cases h1 : type = TYPE_IMPORT <;> by_cases h2 : type = TYPE_SCRIPT <;>
    simp [h1, h2, State.setCur, State.setCompilerAt, State.cur, State.compilerAt, newFunction,
      allocateObject, State.setFunctionAt]

theorem initCompiler_isFunction (type : FunctionType) (s : State) (ptr : Nat)
    (h : ∃ f, s.heap[ptr]? = some (Obj.function f)) :
    ∃ f, (initCompiler type s).heap[ptr]? = some (Obj.function f) := by
  have h1 : ∃ f, (if type = TYPE_IMPORT then (s.cur.function, s) else newFunction s).2.heap[ptr]? =
      some (Obj.function f) := by
    split
    · exact h
    · exact isFunction_allocateObject _ s ptr h
  unfold initCompiler
  dsimp only
  show ∃ f, (State.setCur _ _).heap[ptr]? = some (Obj.function f)
  rw [setCur_heap]
  split
  · exact isFunction_setFunctionAt _ _ _ ptr h1
  · exact h1

theorem compilerAt_succ_of_cons {a s : State} {c : Compiler} (h : a.compilers = c :: s.compilers)
    (k : Nat) : a.compilerAt (k + 1) = s.compilerAt k := by
  simp [State.compilerAt, h]

theorem compilerAt_of_drop_one {a s : State} (h : a.compilers = s.compilers.drop 1) (k : Nat) :
    a.compilerAt k = s.compilerAt (k + 1) := by
  simp [State.compilerAt, h, List.getD_eq_getElem?_getD, Nat.add_comm]

/-- The relation `Keeps` across a compiler that is pushed on the chain at the
start and popped at the end. -/
theorem keeps_bracket {s a b d : State} {c : Compiler} (ha : a.compilers = c :: s.compilers)
    (hc : c.localCount ≤ UINT8_COUNT)
    (hah : ∀ ptr : Nat, (∃ f, s.heap[ptr]? = some (Obj.function f)) →
      ∃ f, a.heap[ptr]? = some (Obj.function f))
    (hae : s.stderr <+: a.stderr) (h : Keeps a b) (hs' : d.compilers = b.compilers.drop 1)
    (hh : ∀ ptr : Nat, (∃ f, b.heap[ptr]? = some (Obj.function f)) →
      ∃ f, d.heap[ptr]? = some (Obj.function f))
    (he : b.stderr <+: d.stderr) : Keeps s d := by
  have hk : ∀ k, d.compilerAt k = b.compilerAt (k + 1) := compilerAt_of_drop_one hs'
  have hk' : ∀ k, a.compilerAt (k + 1) = s.compilerAt k := compilerAt_succ_of_cons ha
  refine ⟨?_, fun k => ?_, fun k => ?_, fun ptr hp => hh ptr (h.isFunction ptr (hah ptr hp)),
    fun hl k => ?_, (hae.trans h.stderr).trans he⟩
  · have := h.length
    rw [ha] at this
    simp [hs', this]
  · rw [hk, h.function, hk']
  · rw [hk, h.type, hk']
  · rw [hk]
    refine h.localCount (fun j => ?_) (k + 1)
    cases j with
    | zero =>
      have : a.compilerAt 0 = c := by simp [State.compilerAt, ha]
      rw [this]; exact hc
    | succ j => rw [hk']; exact hl j

theorem keeps_emitReturn (s : State) : Keeps s (emitReturn s) := by
  unfold emitReturn
  refine Keeps.next ?_ (keeps_emitByte _ _)
  split
  · exact (keeps_emitByte _ s).next (keeps_emitByte _ _)
  · exact keeps_emitByte _ s

theorem keeps_functionBracket (type : FunctionType) (s s1 : State)
    (h : Keeps (initCompiler type s) s1) : Keeps s (endCompiler s1).2 := by
  refine keeps_bracket (initCompiler_compilers type s)
    (by rw [initCompiler_localCount]; decide) (initCompiler_isFunction type s)
    (by rw [initCompiler_stderr]) h (d := (endCompiler s1).2) ?_ ?_ ?_
  · show (emitReturn s1).compilers.drop 1 = s1.compilers.drop 1
    rw [(show (emitReturn s1).compilers = s1.compilers from by
      unfold emitReturn; split <;> rfl)]
  · exact (keeps_emitReturn s1).isFunction
  · exact (keeps_emitReturn s1).stderr

theorem keeps_importBracket (f src : List Nat) (s s1 : State)
    (h : Keeps (importEnter f src s) s1) : Keeps s (importLeave s s1) := by
  have hlen : s1.compilers.length = s.compilers.length + 1 := by
    have := h.length
    unfold importEnter at this
    rw [initCompiler_compilers] at this
    simpa [addImportedModule] using this
  refine keeps_bracket (a := importEnter f src s) (b := s1) (c := (importEnter f src s).cur)
    ?_ ?_ ?_ ?_ h ?_ (fun _ hp => hp) (List.prefix_refl _)
  · unfold importEnter
    rw [initCompiler_compilers]
    rfl
  · unfold importEnter
    rw [initCompiler_localCount]; decide
  · intro ptr hp
    exact initCompiler_isFunction _ _ ptr hp
  · unfold importEnter
    rw [initCompiler_stderr]
    exact List.prefix_refl _
  · show s1.compilers.drop (s1.compilers.length - s.compilers.length) = s1.compilers.drop 1
    rw [hlen]
    simp

/-- Every step of the compiler keeps the chain of compilers, the function
objects, the bound on `localCount` and the diagnostics written so far. -/
theorem keeps_passes : Passes Keeps where
  refl := keeps_refl
  trans := Keeps.next
  advance := keeps_advance
  errorAt := keeps_errorAt
  importError := keeps_importError
  emitByte := keeps_emitByte
  makeConstant := keeps_makeConstant
  patchJump := keeps_patchJump
  beginScope := keeps_beginScope
  endScope := keeps_endScope
  addLocal := keeps_addLocal
  markInitialized := keeps_markInitialized
  resolveUpvalue := keeps_resolveUpvalue
  newList := fun s => keeps_allocateObject _ s
  bumpArity := fun _ => keeps_setFunctionAt _ _ _
  clearPanic := fun _ => keeps_of_compilers rfl (fun _ h => h) (List.prefix_refl _)
  pushStruct := fun _ => keeps_of_compilers rfl (fun _ h => h) (List.prefix_refl _)
  setHasSuperstruct := fun _ _ => keeps_of_compilers rfl (fun _ h => h) (List.prefix_refl _)
  popStruct := fun _ => keeps_of_compilers rfl (fun _ h => h) (List.prefix_refl _)
  functionBracket := keeps_functionBracket
  importBracket := keeps_importBracket

/-! ### The bytes after `Closure` -/

theorem function_eq_body (decl : State → Res State) (n : Nat) (type : FunctionType)
    (s : State) :
    function decl n type s =
      functionBody decl n type s >>= fun s1 =>
        pure (emitUpvalues s1.cur
          ((emitBytes (Byte.op OP_CLOSURE)
            (Byte.raw (makeConstant (Value.obj (endCompiler s1).1) (endCompiler s1).2).1)
            (makeConstant (Value.obj (endCompiler s1).1) (endCompiler s1).2).2).functionAt
              (endCompiler s1).1).upvalueCount 0
          (emitBytes (Byte.op OP_CLOSURE)
            (Byte.raw (makeConstant (Value.obj (endCompiler s1).1) (endCompiler s1).2).1)
            (makeConstant (Value.obj (endCompiler s1).1) (endCompiler s1).2).2)) := by
  unfold function functionBody
  simp only [bind_assoc]

theorem upvalueCount_setChunk (s : State) (ptr : Nat) (c : Chunk) (p : Nat) :
    ((s.setFunctionAt ptr { s.functionAt ptr with chunk := c }).functionAt p).upvalueCount =
      (s.functionAt p).upvalueCount := by
  rw [functionAt_setFunctionAt]
  split
  · rename_i h; rw [h.1]
  · rfl

theorem upvalueCount_emitByte (b : Byte) (s : State) (p : Nat) :
    ((emitByte b s).functionAt p).upvalueCount = (s.functionAt p).upvalueCount :=
  upvalueCount_setChunk _ _ _ _

theorem upvalueCount_emitBytes (a b : Byte) (s : State) (p : Nat) :
    ((emitBytes a b s).functionAt p).upvalueCount = (s.functionAt p).upvalueCount := by
  unfold emitBytes
  rw [upvalueCount_emitByte, upvalueCount_emitByte]

theorem upvalueCount_emitReturn (s : State) (p : Nat) :
    ((emitReturn s).functionAt p).upvalueCount = (s.functionAt p).upvalueCount := by
  unfold emitReturn
  rw [upvalueCount_emitByte]
  split
  · exact upvalueCount_emitBytes _ _ _ _
  · exact upvalueCount_emitByte _ _ _

theorem upvalueCount_makeConstant (v : Value) (s : State) (p : Nat) :
    (((makeConstant v s).2).functionAt p).upvalueCount = (s.functionAt p).upvalueCount := by
  unfold makeConstant
  dsimp only
  split
  · show ((State.functionAt (error _ _) p)).upvalueCount = _
    unfold State.functionAt
    rw [error_heap]
    exact upvalueCount_setChunk _ _ _ _
  · exact upvalueCount_setChunk _ _ _ _

theorem upvalueCount_emitUpvalues (c : Compiler) (n i : Nat) (s : State) (p : Nat) :
    ((emitUpvalues c n i s).functionAt p).upvalueCount = (s.functionAt p).upvalueCount := by
  induction n generalizing i s with
  | zero => rfl
  | succ n ih =>
    unfold emitUpvalues
    rw [ih, upvalueCount_emitByte, upvalueCount_emitByte]

theorem emitUpvalues_funOK (c : Compiler) (n i : Nat) {s : State} (h : s.funOK) :
    (emitUpvalues c n i s).funOK := by
  induction n generalizing i s with
  | zero => exact h
  | succ n ih =>
    unfold emitUpvalues
    exact ih _ (emitByte_funOK (emitByte_funOK h _) _)

theorem emitUpvalues_code (c : Compiler) (n i : Nat) {s : State} (h : s.funOK) :
    (currentChunk (emitUpvalues c n i s)).code = (currentChunk s).code ++ closurePairs c n i := by
  induction n generalizing i s with
  | zero => simp [emitUpvalues, closurePairs]
  | succ n ih =>
    unfold emitUpvalues
    rw [ih _ (emitByte_funOK (emitByte_funOK h _) _), emitByte_code (emitByte_funOK h _),
      emitByte_code h]
    simp [closurePairs]

theorem closurePairs_length (c : Compiler) (n i : Nat) :
    (closurePairs c n i).length = 2 * n := by
  induction n generalizing i with
  | zero => rfl
  | succ n ih => simp [closurePairs, ih]; omega

/-- The pair number `j` after `Closure` is the descriptor `i + j`. -/
theorem closurePairs_get (c : Compiler) (n : Nat) :
    ∀ (i j : Nat), j < n →
      (closurePairs c n i)[2 * j]? =
          some (Byte.raw (if (c.upvalueAt (i + j)).isLocal then 1 else 0)) ∧
        (closurePairs c n i)[2 * j + 1]? = some (Byte.raw (c.upvalueAt (i + j)).index) := by
  induction n with
  | zero => intro i j h; omega
  | succ n ih =>
    intro i j h
    cases j with
    | zero => simp [closurePairs]
    | succ j =>
      have := ih (i + 1) j (by omega)
      have e1 : 2 * (j + 1) = 2 * j + 1 + 1 := by omega
      have e2 : i + (j + 1) = i + 1 + j := by omega
      rw [e1, e2]
      simpa [closurePairs] using this

/-- The compiler that was current when `function` was called is current again
after `endCompiler`, and its function object is still there. -/
theorem functionBody_enclosing (fs : List Nat → Option (List Nat)) (m n : Nat)
    (type : FunctionType) (s s1 : State)
    (h : functionBody (declaration fs m) n type s = Except.ok s1) :
    Keeps s (endCompiler s1).2 := by
  refine keeps_functionBracket type s s1 ?_
  have hR := keeps_passes
  have hl : Lands Keeps id (initCompiler type s)
      (functionBody (declaration fs m) n type s) := by
    unfold functionBody
    dsimp only
    have h0 : Keeps (initCompiler type s)
        (consume TOKEN_LEFT_PAREN "Expect '(' after function name."
          (beginScope (initCompiler type s))) :=
      hR.trans (hR.beginScope _) (hR.consume _ _ _)
    refine lands_bind hR (p := id) ?_ (fun b => ?_)
    · exact lands_ite (lands_after hR h0 (lands_parameterLoop hR n _)) (lands_pure h0)
    · refine lands_after hR ?_ (lands_block hR (lands_declaration hR fs m) n _)
      exact hR.trans (hR.consume _ _ _) (hR.consume _ _ _)
  exact hl s1 h

/-! ### The bound on the locals of a function -/

/-- With room in the array `addLocal` adds the local and reports nothing. -/
theorem addLocal_room (t : Token) (s : State) (hne : s.compilers ≠ [])
    (h : s.cur.localCount ≠ UINT8_COUNT) :
    (addLocal t s).cur.localCount = s.cur.localCount + 1 ∧
      (addLocal t s).cur.localAt s.cur.localCount = ⟨t, -1, false⟩ ∧
      (addLocal t s).compilers ≠ [] ∧
      (addLocal t s).parser = s.parser ∧ (addLocal t s).stderr = s.stderr := by
  unfold addLocal
  dsimp only
  rw [if_neg h]
  refine ⟨?_, ?_, ?_, rfl, rfl⟩
  · rw [setCur_cur hne]
  · rw [setCur_cur hne]
    unfold Compiler.localAt
    rw [getD_store_same]
  · intro h0
    apply hne
    have := congrArg List.length h0
    simp [State.setCur] at this
    exact this

/-- With 256 locals `addLocal` reports the error and adds nothing. -/
theorem addLocal_full (t : Token) (s : State) (h : s.cur.localCount = UINT8_COUNT)
    (hpanic : s.parser.panicMode = false) :
    (addLocal t s).cur.localCount = UINT8_COUNT ∧
      (addLocal t s).compilers = s.compilers ∧
      (addLocal t s).parser.hadError = true ∧
      (addLocal t s).stderr = s.stderr ++ [errorDiag tooManyLocalsMessage s] := by
  unfold addLocal
  dsimp only
  rw [if_pos h]
  obtain ⟨h1, h2, -⟩ := error_reports tooManyLocalsMessage s hpanic
  exact ⟨by rw [error_cur]; exact h, error_compilers _ _, h2, h1⟩

theorem addLocals_room (ts : List Token) :
    ∀ (s : State), s.compilers ≠ [] → s.cur.localCount + ts.length ≤ UINT8_COUNT →
      (addLocals ts s).cur.localCount = s.cur.localCount + ts.length ∧
        (addLocals ts s).parser = s.parser ∧ (addLocals ts s).stderr = s.stderr := by
  induction ts with
  | nil => intro s _ _; exact ⟨rfl, rfl, rfl⟩
  | cons t ts ih =>
    intro s hne hlen
    simp only [List.length_cons] at hlen
    obtain ⟨h1, -, h3, h4, h5⟩ := addLocal_room t s hne (by omega)
    obtain ⟨r1, r2, r3⟩ := ih (addLocal t s) h3 (by rw [h1]; omega)
    refine ⟨?_, by rw [addLocals, r2, h4], by rw [addLocals, r3, h5]⟩
    rw [addLocals, r1, h1, List.length_cons]
    omega

/-- The run of `compile` keeps what `Keeps` says. -/
theorem keeps_compile (fs : List Nat → Option (List Nat)) (n : Nat) (filename source : List Nat)
    (s : State) (r : Option Nat × State)
    (h : compile fs n filename source s = Except.ok r) : Keeps s r.2 := by
  have hR := keeps_passes
  unfold compile at h
  dsimp only at h
  cases hd : declarationLoop (declaration fs n) n
      (advance
        { initCompiler TYPE_SCRIPT
            { s with currentModuleName := filename, scanner := Scan.initScanner source } with
          parser :=
            { (initCompiler TYPE_SCRIPT
                { s with currentModuleName := filename,
                         scanner := Scan.initScanner source }).parser with
              hadError := false, panicMode := false } }) with
  | error e => rw [hd] at h; cases h
  | ok s1 =>
    rw [hd] at h
    cases h
    have h1 : Keeps (initCompiler TYPE_SCRIPT
        { s with currentModuleName := filename, scanner := Scan.initScanner source }) s1 := by
      refine Keeps.next ?_ (lands_declarationLoop hR (lands_declaration hR fs n) n _ s1 hd)
      refine Keeps.next ?_ (keeps_advance _)
      exact keeps_of_compilers rfl (fun _ hp => hp) (List.prefix_refl _)
    have h2 := keeps_functionBracket TYPE_SCRIPT _ s1 h1
    refine Keeps.next ?_ h2
    exact keeps_of_compilers rfl (fun _ hp => hp) (List.prefix_refl _)

/-! ### A local read in its own initializer -/

theorem advance_shift {s : State} {t : Token} {sc : Scanner}
    (h : Scan.scanToken s.scanner = (t, sc)) (ht : t.type ≠ TOKEN_ERROR) :
    advance s = s.shift t sc := by
  rw [advance_of_scan s (by rw [h]; exact ht), h]
  rfl

theorem declareVariableLoop_fresh (name : Token) (n : Nat) (s : State)
    (h : redeclares s.cur name n = false) : declareVariableLoop name n s = s := by
  induction n with
  | zero => rfl
  | succ n ih =>
    rw [redeclares] at h
    rw [declareVariableLoop]
    dsimp only
    split
    · rfl
    · rename_i hc
      rw [if_neg hc] at h
      split at h
      · cases h
      · rename_i hne
        rw [if_neg hne]
        exact ih h

/-- What `resolveLocal` leaves: the state with the error reported exactly when
the innermost matching local has depth -1. -/
theorem resolveLocal_snd (c : Compiler) (name : Token) (s : State) :
    (resolveLocal c name s).2 =
      if readsOwnInitializer c name then error ownInitializerMessage s else s := by
  rw [resolveLocal_eq, readsOwnInitializer]
  cases findLocal c name c.localCount with
  | none => rfl
  | some i =>
    dsimp only
    by_cases h : (c.localAt i).depth = -1
    · simp [h]
    · simp [h]

/-- The local that `addLocal` has just added is the innermost one of its name. -/
theorem findLocal_top {c : Compiler} {name : Token} {n : Nat}
    (h : identifiersEqual name (c.localAt n).name = true) : findLocal c name (n + 1) = some n := by
  rw [findLocal, if_pos h]

@[simp] theorem shift_compilers (s : State) (t : Token) (sc : Scanner) :
    (s.shift t sc).compilers = s.compilers := rfl

@[simp] theorem shift_cur (s : State) (t : Token) (sc : Scanner) : (s.shift t sc).cur = s.cur :=
  rfl

@[simp] theorem shift_stderr (s : State) (t : Token) (sc : Scanner) :
    (s.shift t sc).stderr = s.stderr := rfl

@[simp] theorem shift_scanner (s : State) (t : Token) (sc : Scanner) :
    (s.shift t sc).scanner = sc := rfl

@[simp] theorem shift_current (s : State) (t : Token) (sc : Scanner) :
    (s.shift t sc).parser.current = t := rfl

@[simp] theorem shift_previous (s : State) (t : Token) (sc : Scanner) :
    (s.shift t sc).parser.previous = s.parser.current := rfl

@[simp] theorem shift_panicMode (s : State) (t : Token) (sc : Scanner) :
    (s.shift t sc).parser.panicMode = s.parser.panicMode := rfl

@[simp] theorem shift_hadError (s : State) (t : Token) (sc : Scanner) :
    (s.shift t sc).parser.hadError = s.parser.hadError := rfl

@[simp] theorem shift_currentModuleName (s : State) (t : Token) (sc : Scanner) :
    (s.shift t sc).currentModuleName = s.currentModuleName := rfl

/-- The step `parseVariable` of a local declaration whose name is new in its
scope: the name is consumed and the local added, uninitialised. -/
theorem parseVariable_local (m : String) (s : State) (t : Token) (sc : Scanner)
    (hdepth : s.cur.scopeDepth > 0)
    (hx : s.parser.current.type = TOKEN_IDENTIFIER)
    (hfresh : redeclares s.cur s.parser.current s.cur.localCount = false)
    (h : Scan.scanToken s.scanner = (t, sc)) (ht : t.type ≠ TOKEN_ERROR) :
    parseVariable m s = (0, addLocal s.parser.current (s.shift t sc)) ∧
      (addLocal s.parser.current (s.shift t sc)).cur.scopeDepth = s.cur.scopeDepth := by
  have hd : (addLocal s.parser.current (s.shift t sc)).cur.scopeDepth = s.cur.scopeDepth := by
    unfold addLocal
    dsimp only
    split
    · rw [error_cur]; rfl
    · by_cases hne : s.compilers = []
      · simp [State.setCur, State.setCompilerAt, State.cur, State.compilerAt, hne, State.shift]
      · rw [setCur_cur (by simpa using hne)]
        rfl
  refine ⟨?_, hd⟩
  have h0 : ¬ s.cur.scopeDepth = 0 := by omega
  unfold parseVariable consume
  dsimp only
  rw [if_pos hx, advance_shift h ht]
  unfold declareVariable
  rw [shift_cur, if_neg h0, shift_previous]
  dsimp only
  rw [declareVariableLoop_fresh _ _ (s.shift t sc) (by simpa using hfresh)]
  rw [if_pos (by rw [hd]; exact hdepth)]

theorem resolveVariable_local_eq {name : Token} {s : State} {j : Nat}
    (h : findLocal s.cur name s.cur.localCount = some j) :
    resolveVariable name s =
      ((OP_GET_LOCAL, OP_SET_LOCAL, j),
        if (s.cur.localAt j).depth = -1 then error ownInitializerMessage s else s) := by
  have hne : ((j : Int), if (s.cur.localAt j).depth = -1 then error ownInitializerMessage s
      else s).1 ≠ -1 := by simp
  unfold resolveVariable
  rw [resolveLocal_eq, h]
  simp only [if_pos hne, Int.toNat_ofNat]

@[simp] theorem emitBytes_current (a b : Byte) (s : State) :
    (emitBytes a b s).parser = s.parser := rfl

/-- An expression that is the name of a local of depth -1, followed by a token
that continues no expression: the error is reported at that token, and GetLocal
is emitted all the same. -/
theorem parsePrecedence_own_initializer (n : Nat) (s : State) (t : Token) (sc : Scanner)
    (j : Nat) (hx : s.parser.current.type = TOKEN_IDENTIFIER)
    (h : Scan.scanToken s.scanner = (t, sc)) (ht : t.type ≠ TOKEN_ERROR)
    (ht' : t.type ≠ TOKEN_EQUAL) (hp : (getRule t.type).precedence = PREC_NONE)
    (hfind : findLocal s.cur s.parser.current s.cur.localCount = some j)
    (hd : (s.cur.localAt j).depth = -1) :
    parsePrecedence (n + 2) PREC_ASSIGNMENT s =
      Except.ok (emitBytes (Byte.op OP_GET_LOCAL) (Byte.raw (j % 256))
        (error ownInitializerMessage (s.shift t sc))) := by
  have hrule : (getRule (s.shift t sc).parser.previous.type).prefixFn = some ParseFn.variable_ := by
    rw [shift_previous, hx]; rfl
  have hv := @resolveVariable_local_eq s.parser.current (s.shift t sc) j
    (by simpa using hfind)
  rw [shift_cur, if_pos hd] at hv
  have hcheck : (true && check TOKEN_EQUAL (s.shift t sc)) = false := by
    simp [check, ht']
  have hget := namedVariable_get (parsePrecedence (n + 1)) s.parser.current true (s.shift t sc)
    hcheck
  rw [hv] at hget
  have hexit := infixLoop_exit (parsePrecedence (n + 1)) (n + 1) (q := PREC_ASSIGNMENT) true n
    (s := emitBytes (Byte.op OP_GET_LOCAL) (Byte.raw (j % 256))
      (error ownInitializerMessage (s.shift t sc)))
    (by
      rw [emitBytes_current, error_current, shift_current, hp]
      decide)
  have hcheck2 : check TOKEN_EQUAL (emitBytes (Byte.op OP_GET_LOCAL) (Byte.raw (j % 256))
      (error ownInitializerMessage (s.shift t sc))) = false := by
    simp [check, ht']
  rw [parsePrecedence]
  dsimp only
  rw [advance_shift h ht, hrule]
  dsimp only
  rw [applyRule, variable_, shift_previous]
  simp only [show decide (PREC_ASSIGNMENT ≤ PREC_ASSIGNMENT) = true from rfl, hget, bind,
    Except.bind, hexit, hcheck2]
  rfl

theorem markInitialized_frame (s : State) :
    (markInitialized s).parser = s.parser ∧ (markInitialized s).scanner = s.scanner ∧
      (markInitialized s).stderr = s.stderr ∧
      (markInitialized s).currentModuleName = s.currentModuleName ∧
      (markInitialized s).cur.scopeDepth = s.cur.scopeDepth ∧
      (markInitialized s).compilers.length = s.compilers.length := by
  unfold markInitialized
  dsimp only
  split
  · exact ⟨rfl, rfl, rfl, rfl, rfl, rfl⟩
  · refine ⟨rfl, rfl, rfl, rfl, ?_, by simp [State.setCur]⟩
    by_cases hne : s.compilers = []
    · simp [State.setCur, State.setCompilerAt, State.cur, State.compilerAt, hne]
    · rw [setCur_cur hne]

@[simp] theorem error_currentModuleName (m : String) (s : State) :
    (error m s).currentModuleName = s.currentModuleName := by
  unfold error errorAt
  split <;> rfl

/-- The declaration `var x = x` of a local `x` that is new in its scope, when
no error is pending and the token after it continues no expression:
`varDeclaration` reports "Can't read local variable in its own initializer." at
that token. -/
theorem varDeclaration_own_initializer (n : Nat) (s : State) (eq x2 t3 : Token)
    (sc1 sc2 sc3 : Scanner) (hne : s.compilers ≠ []) (hpanic : s.parser.panicMode = false)
    (hdepth : s.cur.scopeDepth > 0) (hroom : s.cur.localCount ≠ UINT8_COUNT)
    (hx1 : s.parser.current.type = TOKEN_IDENTIFIER)
    (hfresh : redeclares s.cur s.parser.current s.cur.localCount = false)
    (h1 : Scan.scanToken s.scanner = (eq, sc1)) (heq : eq.type = TOKEN_EQUAL)
    (h2 : Scan.scanToken sc1 = (x2, sc2)) (hx2 : x2.type = TOKEN_IDENTIFIER)
    (hsame : identifiersEqual x2 s.parser.current = true)
    (h3 : Scan.scanToken sc2 = (t3, sc3)) (ht3 : t3.type ≠ TOKEN_ERROR)
    (ht3' : t3.type ≠ TOKEN_EQUAL) (hprec : (getRule t3.type).precedence = PREC_NONE) :
    ∃ s', varDeclaration (n + 2) s = Except.ok s' ∧
      s'.parser = ⟨t3, x2, true, true⟩ ∧ s'.scanner = sc3 ∧
      s'.stderr = s.stderr ++
        [Diag.error t3.line (errorPlace t3) (cstr ownInitializerMessage) s.currentModuleName] ∧
      s'.currentModuleName = s.currentModuleName ∧
      s'.cur.scopeDepth = s.cur.scopeDepth ∧
      s'.compilers.length = s.compilers.length := by
  have heq' : eq.type ≠ TOKEN_ERROR := by rw [heq]; decide
  have hx2' : x2.type ≠ TOKEN_ERROR := by rw [hx2]; decide
  obtain ⟨hpv, hpd⟩ := parseVariable_local "Expect variable name." s eq sc1 hdepth hx1 hfresh h1
    heq'
  have hB : addLocal s.parser.current (s.shift eq sc1) =
      (s.shift eq sc1).setCur
        { s.cur with
          locals := store s.cur.locals s.cur.localCount
            { name := s.parser.current, depth := -1, isCaptured := false } Local.zero,
          localCount := s.cur.localCount + 1 } := by
    unfold addLocal
    dsimp only
    rw [shift_cur, if_neg hroom]
  have hneA : (s.shift eq sc1).compilers ≠ [] := hne
  have hBcur := setCur_cur hneA
    { s.cur with
      locals := store s.cur.locals s.cur.localCount
        { name := s.parser.current, depth := -1, isCaptured := false } Local.zero,
      localCount := s.cur.localCount + 1 }
  rw [← hB] at hBcur
  have hBparser : (addLocal s.parser.current (s.shift eq sc1)).parser =
      (s.shift eq sc1).parser := by rw [hB]; rfl
  have hBscanner : (addLocal s.parser.current (s.shift eq sc1)).scanner = sc1 := by
    rw [hB]; rfl
  have hm : match_ TOKEN_EQUAL (addLocal s.parser.current (s.shift eq sc1)) =
      (true, (addLocal s.parser.current (s.shift eq sc1)).shift x2 sc2) := by
    unfold match_ check
    rw [hBparser, shift_current, heq]
    simp only [decide_True, Bool.not_true, Bool.false_eq_true, if_false]
    rw [advance_shift (by rw [hBscanner]; exact h2) hx2']
  have hcell : ((addLocal s.parser.current (s.shift eq sc1)).cur.localAt s.cur.localCount) =
      { name := s.parser.current, depth := -1, isCaptured := false } := by
    rw [hBcur]
    unfold Compiler.localAt
    exact getD_store_same _ _ _ _ _
  have hpp := parsePrecedence_own_initializer n
    ((addLocal s.parser.current (s.shift eq sc1)).shift x2 sc2) t3 sc3 s.cur.localCount
    (by rw [shift_current]; exact hx2) (by rw [shift_scanner]; exact h3) ht3 ht3' hprec
    (by
      rw [shift_cur, shift_current]
      have hc : (addLocal s.parser.current (s.shift eq sc1)).cur.localCount =
          s.cur.localCount + 1 := by rw [hBcur]
      rw [hc]
      exact findLocal_top (by rw [hcell]; exact hsame))
    (by rw [shift_cur, hcell])
  obtain ⟨m1, m2, m3, m4, m5, m6⟩ := markInitialized_frame
    (emitBytes (Byte.op OP_GET_LOCAL) (Byte.raw (s.cur.localCount % 256))
      (error ownInitializerMessage
        (((addLocal s.parser.current (s.shift eq sc1)).shift x2 sc2).shift t3 sc3)))
  have hpanicD : (((addLocal s.parser.current (s.shift eq sc1)).shift x2 sc2).shift t3
      sc3).parser.panicMode = false := by
    rw [shift_panicMode, shift_panicMode, hBparser, shift_panicMode]; exact hpanic
  obtain ⟨e1, e2, e3⟩ := error_reports ownInitializerMessage _ hpanicD
  refine ⟨markInitialized (emitBytes (Byte.op OP_GET_LOCAL) (Byte.raw (s.cur.localCount % 256))
      (error ownInitializerMessage
        (((addLocal s.parser.current (s.shift eq sc1)).shift x2 sc2).shift t3 sc3))),
    ?_, ?_, ?_, ?_, ?_, ?_, ?_⟩
  · unfold varDeclaration
    dsimp only
    rw [hpv]
    dsimp only
    rw [hm]
    dsimp only
    simp only [if_true, expression, hpp, bind, Except.bind]
    unfold defineVariable
    rw [if_pos]
    · rfl
    · show (emitBytes _ _ (error _ _)).cur.scopeDepth > 0
      unfold emitBytes
      rw [emitByte_cur, emitByte_cur, error_cur, shift_cur, shift_cur, hpd]
      exact hdepth
  · rw [m1, emitBytes_current]
    have hc : (error ownInitializerMessage
        (((addLocal s.parser.current (s.shift eq sc1)).shift x2 sc2).shift t3 sc3)).parser.current =
        t3 := by rw [error_current]; rfl
    have hp : (error ownInitializerMessage
        (((addLocal s.parser.current (s.shift eq sc1)).shift x2 sc2).shift t3 sc3)).parser.previous =
        x2 := by rw [error_previous]; rfl
    cases hq : (error ownInitializerMessage
        (((addLocal s.parser.current (s.shift eq sc1)).shift x2 sc2).shift t3 sc3)).parser with
    | mk a b c d =>
      rw [hq] at hc hp e2 e3
      simp only at hc hp e2 e3
      rw [hc, hp, e2, e3]
  · rw [m2]
    show (error _ _).scanner = sc3
    rw [error_scanner]; rfl
  · rw [m3]
    show (error _ _).stderr = _
    rw [e1]
    unfold errorDiag
    rw [shift_stderr, shift_stderr, shift_current, shift_currentModuleName,
      shift_currentModuleName]
    rw [hB]
    rfl
  · rw [m4]
    show (error _ _).currentModuleName = _
    rw [error_currentModuleName, shift_currentModuleName, shift_currentModuleName, hB]
    rfl
  · rw [m5]
    unfold emitBytes
    rw [emitByte_cur, emitByte_cur, error_cur, shift_cur, shift_cur, hpd]
  · rw [m6]
    unfold emitBytes
    rw [emitByte_compilers, emitByte_compilers, error_compilers, shift_compilers,
      shift_compilers, hB]
    simp [State.setCur]

/-! ### Steps of the parser on a known token -/

theorem match_miss {t : TokenType} {s : State} (h : s.parser.current.type ≠ t) :
    match_ t s = (false, s) := by
  unfold match_ check
  simp [h]

theorem match_hit {t : TokenType} {s : State} {u : Token} {sc : Scanner}
    (h : s.parser.current.type = t) (hs : Scan.scanToken s.scanner = (u, sc))
    (hu : u.type ≠ TOKEN_ERROR) : match_ t s = (true, s.shift u sc) := by
  unfold match_ check
  simp [h, advance_shift hs hu]

/-- A statement that starts with `{`: the block is compiled in a new scope. -/
theorem statementBody_block (decl stmt : State → Res State) (k : Nat) (s : State) (u : Token)
    (sc : Scanner) (h : s.parser.current.type = TOKEN_LEFT_BRACE)
    (hs : Scan.scanToken s.scanner = (u, sc)) (hu : u.type ≠ TOKEN_ERROR) :
    statementBody decl stmt k s =
      block decl k (beginScope (s.shift u sc)) >>= fun a => pure (endScope a) := by
  unfold statementBody
  simp only [match_miss (t := TOKEN_SEMICOLON) (s := s) (by rw [h]; decide),
    match_miss (t := TOKEN_PRINT) (s := s) (by rw [h]; decide),
    match_miss (t := TOKEN_PRINTLN) (s := s) (by rw [h]; decide),
    match_miss (t := TOKEN_IF) (s := s) (by rw [h]; decide),
    match_miss (t := TOKEN_RETURN) (s := s) (by rw [h]; decide),
    match_miss (t := TOKEN_WHILE) (s := s) (by rw [h]; decide),
    match_miss (t := TOKEN_FOR) (s := s) (by rw [h]; decide),
    match_hit h hs hu, Bool.false_eq_true, if_false, if_true]

/-- A declaration that starts with none of `;`, `import`, `struct`, `def` and
`var` is a statement. -/
theorem declarationBody_statement (fs : List Nat → Option (List Nat))
    (decl stmt : State → Res State) (k : Nat) (s : State)
    (h1 : s.parser.current.type ≠ TOKEN_SEMICOLON) (h2 : s.parser.current.type ≠ TOKEN_IMPORT)
    (h3 : s.parser.current.type ≠ TOKEN_STRUCT) (h4 : s.parser.current.type ≠ TOKEN_FUN)
    (h5 : s.parser.current.type ≠ TOKEN_VAR) :
    declarationBody fs decl stmt k s =
      stmt s >>= fun a => pure (if a.parser.panicMode then synchronize a else a) := by
  unfold declarationBody
  simp only [match_miss h1, match_miss h2, match_miss h3, match_miss h4, match_miss h5,
    Bool.false_eq_true, if_false]

/-- A declaration that starts with `var`. -/
theorem declarationBody_var (fs : List Nat → Option (List Nat))
    (decl stmt : State → Res State) (k : Nat) (s : State) (u : Token) (sc : Scanner)
    (h : s.parser.current.type = TOKEN_VAR) (hs : Scan.scanToken s.scanner = (u, sc))
    (hu : u.type ≠ TOKEN_ERROR) :
    declarationBody fs decl stmt k s =
      varDeclaration k (s.shift u sc) >>= fun a =>
        pure (if a.parser.panicMode then synchronize a else a) := by
  unfold declarationBody
  simp only [match_miss (t := TOKEN_SEMICOLON) (s := s) (by rw [h]; decide),
    match_miss (t := TOKEN_IMPORT) (s := s) (by rw [h]; decide),
    match_miss (t := TOKEN_STRUCT) (s := s) (by rw [h]; decide),
    match_miss (t := TOKEN_FUN) (s := s) (by rw [h]; decide),
    match_hit h hs hu, Bool.false_eq_true, if_false, if_true]

theorem block_step (decl : State → Res State) (k : Nat) (s : State)
    (h1 : s.parser.current.type ≠ TOKEN_RIGHT_BRACE) (h2 : s.parser.current.type ≠ TOKEN_EOF) :
    block decl (k + 1) s = decl s >>= fun a => block decl k a := by
  rw [block]
  simp [check, h1, h2]

theorem block_end (decl : State → Res State) (k : Nat) (s : State)
    (h : s.parser.current.type = TOKEN_RIGHT_BRACE ∨ s.parser.current.type = TOKEN_EOF) :
    block decl (k + 1) s =
      Except.ok (consume TOKEN_RIGHT_BRACE "Expect '\x7d' after block." s) := by
  rw [block]
  rcases h with h | h
  · simp [check, h]; rfl
  · simp [check, h]; rfl

theorem declarationLoop_step (decl : State → Res State) (k : Nat) (s : State)
    (h : s.parser.current.type ≠ TOKEN_EOF) :
    declarationLoop decl (k + 1) s = decl s >>= fun a => declarationLoop decl k a := by
  rw [declarationLoop]
  simp [match_miss h]

theorem declarationLoop_end (decl : State → Res State) (k : Nat) (s : State) (u : Token)
    (sc : Scanner) (h : s.parser.current.type = TOKEN_EOF)
    (hs : Scan.scanToken s.scanner = (u, sc)) (hu : u.type ≠ TOKEN_ERROR) :
    declarationLoop decl (k + 1) s = Except.ok (s.shift u sc) := by
  rw [declarationLoop]
  simp [match_hit h hs hu]
  rfl

/-- At the end of the text `synchronize` only leaves panic mode. -/
theorem synchronize_at_eof (s : State) (h : s.parser.current.type = TOKEN_EOF) :
    synchronize s = { s with parser := { s.parser with panicMode := false } } := by
  unfold synchronize
  rw [synchronizeLoop]
  simp [h]

/-- One token is skipped by `synchronize` when it starts no statement, does
not follow a `;`, and the end of the text comes after it. -/
theorem synchronize_skip_one (s : State) (u : Token) (sc : Scanner)
    (h1 : s.parser.current.type ≠ TOKEN_EOF) (h2 : s.parser.previous.type ≠ TOKEN_SEMICOLON)
    (h3 : startsStatement s.parser.current.type = false)
    (hs : Scan.scanToken s.scanner = (u, sc)) (hu : u.type = TOKEN_EOF) :
    synchronize s =
      State.shift { s with parser := { s.parser with panicMode := false } } u sc := by
  have hu' : u.type ≠ TOKEN_ERROR := by rw [hu]; decide
  unfold synchronize
  rw [synchronizeLoop]
  simp only [h1, h2, h3, ne_eq, not_false_eq_true, if_true, if_false, Bool.false_eq_true]
  rw [advance_shift (s := { s with parser := { s.parser with panicMode := false } }) hs hu']
  rw [synchronizeLoop]
  simp [hu]

theorem scanToken_scanAfter (sc : Scanner) (i : Nat) :
    Scan.scanToken (scanAfter sc i) = (nthToken sc i, scanAfter sc (i + 1)) := rfl

theorem compile_eq (fs : List Nat → Option (List Nat)) (n : Nat) (filename source : List Nat) :
    compile fs n filename source State.initial =
      declarationLoop (declaration fs n) n (advance (scriptStart filename source)) >>= fun s =>
        pure (if (endCompiler s).2.parser.hadError then none else some (endCompiler s).1,
          (endCompiler s).2) := rfl

theorem scriptStart_cur (filename source : List Nat) :
    (scriptStart filename source).cur =
      { function := 0, type := TYPE_SCRIPT,
        locals := [{ name := { Token.zero with start := cstr "self", length := 4 }, depth := 0,
                     isCaptured := false }],
        localCount := 1, upvalues := [], scopeDepth := 0 } := rfl

theorem scriptStart_frame (filename source : List Nat) :
    (scriptStart filename source).parser = ⟨Token.zero, Token.zero, false, false⟩ ∧
      (scriptStart filename source).scanner = Scan.initScanner source ∧
      (scriptStart filename source).stderr = [] ∧
      (scriptStart filename source).currentModuleName = filename ∧
      (scriptStart filename source).compilers ≠ [] :=
  ⟨rfl, rfl, rfl, rfl, by simp [scriptStart, initCompiler_compilers]⟩

theorem endScopeLoop_frame (fuel : Nat) (s : State) :
    (endScopeLoop fuel s).parser = s.parser ∧ (endScopeLoop fuel s).scanner = s.scanner ∧
      (endScopeLoop fuel s).stderr = s.stderr ∧
      (endScopeLoop fuel s).currentModuleName = s.currentModuleName := by
  induction fuel generalizing s with
  | zero => exact ⟨rfl, rfl, rfl, rfl⟩
  | succ k ih =>
    unfold endScopeLoop
    dsimp only
    split
    · obtain ⟨h1, h2, h3, h4⟩ := ih
        ((if ((emitByte (Byte.op OP_POP) s).cur.localAt
              ((emitByte (Byte.op OP_POP) s).cur.localCount - 1)).isCaptured then
            emitByte (Byte.op OP_CLOSE_UPVALUE) (emitByte (Byte.op OP_POP) s)
          else emitByte (Byte.op OP_POP) (emitByte (Byte.op OP_POP) s)).setCur
          { (if ((emitByte (Byte.op OP_POP) s).cur.localAt
                ((emitByte (Byte.op OP_POP) s).cur.localCount - 1)).isCaptured then
              emitByte (Byte.op OP_CLOSE_UPVALUE) (emitByte (Byte.op OP_POP) s)
            else emitByte (Byte.op OP_POP) (emitByte (Byte.op OP_POP) s)).cur with
            localCount :=
              (if ((emitByte (Byte.op OP_POP) s).cur.localAt
                  ((emitByte (Byte.op OP_POP) s).cur.localCount - 1)).isCaptured then
                emitByte (Byte.op OP_CLOSE_UPVALUE) (emitByte (Byte.op OP_POP) s)
              else emitByte (Byte.op OP_POP) (emitByte (Byte.op OP_POP) s)).cur.localCount - 1 })
      rw [h1, h2, h3, h4]
      split <;> exact ⟨rfl, rfl, rfl, rfl⟩
    · exact ⟨rfl, rfl, rfl, rfl⟩

theorem endScope_frame (s : State) :
    (endScope s).parser = s.parser ∧ (endScope s).scanner = s.scanner ∧
      (endScope s).stderr = s.stderr ∧
      (endScope s).currentModuleName = s.currentModuleName := by
  unfold endScope
  obtain ⟨h1, h2, h3, h4⟩ := endScopeLoop_frame
    (s.setCur { s.cur with scopeDepth := s.cur.scopeDepth - 1 }).cur.localCount
    (s.setCur { s.cur with scopeDepth := s.cur.scopeDepth - 1 })
  exact ⟨h1, h2, h3, h4⟩

theorem endCompiler_frame (s : State) :
    (endCompiler s).2.parser = s.parser ∧ (endCompiler s).2.stderr = s.stderr := by
  unfold endCompiler emitReturn
  dsimp only
  split <;> exact ⟨rfl, rfl⟩

theorem compile_own_initializer_tokens (fs : List Nat → Option (List Nat)) (n : Nat)
    (filename source : List Nat) (a0 a1 a2 a3 a4 a5 a6 a7 : Token)
    (c1 c2 c3 c4 c5 c6 c7 c8 : Scanner)
    (k0 : Scan.scanToken (Scan.initScanner source) = (a0, c1))
    (k1 : Scan.scanToken c1 = (a1, c2)) (k2 : Scan.scanToken c2 = (a2, c3))
    (k3 : Scan.scanToken c3 = (a3, c4)) (k4 : Scan.scanToken c4 = (a4, c5))
    (k5 : Scan.scanToken c5 = (a5, c6)) (k6 : Scan.scanToken c6 = (a6, c7))
    (k7 : Scan.scanToken c7 = (a7, c8))
    (t0 : a0.type = TOKEN_LEFT_BRACE) (t1 : a1.type = TOKEN_VAR)
    (t2 : a2.type = TOKEN_IDENTIFIER) (t3 : a3.type = TOKEN_EQUAL)
    (t4 : a4.type = TOKEN_IDENTIFIER) (tsame : identifiersEqual a4 a2 = true)
    (t5 : a5.type = TOKEN_RIGHT_BRACE) (t6 : a6.type = TOKEN_EOF)
    (t7 : a7.type ≠ TOKEN_ERROR) :
    ∃ s', compile fs (n + 5) filename source State.initial = Except.ok (none, s') ∧
      s'.stderr =
        [Diag.error a5.line (ErrorPlace.atLexeme a5.lexeme) (cstr ownInitializerMessage)
            filename,
          Diag.error a6.line ErrorPlace.atEnd (cstr "Expect '\x7d' after block.") filename] := by
  obtain ⟨p0, q0, e0, m0, hc0⟩ := scriptStart_frame filename source
  have hcur0 := scriptStart_cur filename source
  have ne : ∀ {t : Token} {a : TokenType}, t.type = a → a ≠ TOKEN_ERROR → t.type ≠ TOKEN_ERROR :=
    fun h1 h2 => by rw [h1]; exact h2
  rw [compile_eq]
  generalize scriptStart filename source = s2 at *
  -- the first token
  have hA : advance s2 = s2.shift a0 c1 :=
    advance_shift (by rw [q0]; exact k0) (ne t0 (by decide))
  -- the statement `{ ... }`
  have hD := statementBody_block (declaration fs (n + 3)) (statement fs (n + 3)) (n + 3)
    (s2.shift a0 c1) a1 c2
    t0 (k1) (ne t1 (by decide))
  -- the declaration `var x = x`
  have hF := declarationBody_var fs (declaration fs (n + 2)) (statement fs (n + 2)) (n + 2)
    (beginScope ((s2.shift a0 c1).shift a1
      c2))
    a2 c3 t1 (k2) (ne t2 (by decide))
  generalize hs5 : beginScope ((s2.shift a0 c1).shift a1
      c2) = s5 at *
  have hs5cur : s5.cur = { s2.cur with scopeDepth := 1 } := by
    rw [← hs5]
    unfold beginScope
    rw [setCur_cur (by exact hc0), shift_cur, shift_cur, hcur0]
    rfl
  have hs5ne : s5.compilers ≠ [] := by
    rw [← hs5]
    exact setCur_compilers_ne (by exact hc0) _
  have hs5p : s5.parser = ⟨a1, a0, false, false⟩ ∧
      s5.scanner = c2 ∧ s5.stderr = [] ∧ s5.currentModuleName = filename := by
    rw [← hs5]
    refine ⟨?_, rfl, e0, m0⟩
    show (⟨a1, a0, s2.parser.hadError, s2.parser.panicMode⟩ : Parser) = _
    rw [p0]
  obtain ⟨p5, q5, e5, m5⟩ := hs5p
  obtain ⟨s7, hG, p7, q7, e7, m7, d7, l7⟩ := varDeclaration_own_initializer n
    (s5.shift a2 c3) a3 a4 a5
    c4 c5 c6 hs5ne
    (by rw [shift_panicMode, p5]) (by rw [shift_cur, hs5cur]; exact Int.one_pos)
    (by rw [shift_cur, hs5cur, hcur0]; exact (by decide : (1 : Nat) ≠ UINT8_COUNT))
    (by rw [shift_current]; exact t2)
    (by rw [shift_cur, hs5cur, hcur0]; rfl)
    (k3) t3 (k4) t4 (by rw [shift_current]; exact tsame)
    (k5) (ne t5 (by decide)) (by rw [t5]; decide) (by rw [t5]; rfl)
  -- after the declaration `synchronize` skips the `}`
  have hH : synchronize s7 =
      State.shift { s7 with parser := { s7.parser with panicMode := false } } a6
        c7 :=
    synchronize_skip_one s7 a6 c7 (by rw [p7]; simp [t5])
      (by rw [p7]; simp [t4]) (by rw [p7]; simp [t5]; rfl)
      (by rw [q7]; exact k6) t6
  generalize hs8 : State.shift { s7 with parser := { s7.parser with panicMode := false } }
    a6 c7 = s8 at *
  have p8 : s8.parser = ⟨a6, a5, true, false⟩ := by
    rw [← hs8]
    show (⟨a6, s7.parser.current, s7.parser.hadError, false⟩ : Parser) = _
    rw [p7]
  have q8 : s8.scanner = c7 := by rw [← hs8]; rfl
  have e8 : s8.stderr = s7.stderr := by rw [← hs8]; rfl
  have m8 : s8.currentModuleName = filename := by
    rw [← hs8]
    show s7.currentModuleName = filename
    rw [m7]; exact m5
  have hdecl5 : declaration fs (n + 3) s5 = Except.ok s8 := by
    rw [declaration_succ, hF, hG]
    show Except.ok (if s7.parser.panicMode then synchronize s7 else s7) = _
    rw [p7, if_pos rfl, hH]
  have hblock : block (declaration fs (n + 3)) (n + 3) s5 =
      Except.ok (consume TOKEN_RIGHT_BRACE "Expect '\x7d' after block." s8) := by
    rw [block_step _ _ _ (by rw [p5]; simp [t1]) (by rw [p5]; simp [t1]), hdecl5]
    show block (declaration fs (n + 3)) (n + 1 + 1) s8 = _
    exact block_end _ _ _ (Or.inr (by rw [p8]; exact t6))
  have hs9 : consume TOKEN_RIGHT_BRACE "Expect '\x7d' after block." s8 =
      { s8 with
        parser := { s8.parser with panicMode := true, hadError := true },
        stderr := s8.stderr ++
          [Diag.error a6.line ErrorPlace.atEnd (cstr "Expect '\x7d' after block.")
            filename] } := by
    unfold consume errorAtCurrent errorAt
    rw [if_neg (by rw [p8]; simp [t6])]
    simp only [p8, Bool.false_eq_true, if_false, m8]
    have : errorPlace a6 = ErrorPlace.atEnd := by
      unfold errorPlace; rw [if_pos t6]
    rw [this]
  generalize hs9' : consume TOKEN_RIGHT_BRACE "Expect '\x7d' after block." s8 = s9 at *
  have p9 : s9.parser = ⟨a6, a5, true, true⟩ := by rw [hs9, p8]
  have q9 : s9.scanner = c7 := by rw [hs9]; exact q8
  have e9 : s9.stderr = s8.stderr ++
      [Diag.error a6.line ErrorPlace.atEnd (cstr "Expect '\x7d' after block.") filename] := by
    rw [hs9]
  have hstmt : statement fs (n + 4) (s2.shift a0 c1) = Except.ok (endScope s9) := by
    rw [statement_succ, hD, hblock]
    rfl
  obtain ⟨p10, q10, e10, -⟩ := endScope_frame s9
  rw [p9] at p10
  rw [q9] at q10
  have hK : synchronize (endScope s9) =
      { endScope s9 with parser := { (endScope s9).parser with panicMode := false } } :=
    synchronize_at_eof _ (by rw [p10]; exact t6)
  generalize endScope s9 = s10 at *
  have hdecl3 : declaration fs (n + 5) (s2.shift a0 c1) =
      Except.ok { s10 with parser := { s10.parser with panicMode := false } } := by
    rw [declaration_succ, declarationBody_statement fs _ _ _ _ (by simp [t0]) (by simp [t0])
      (by simp [t0]) (by simp [t0]) (by simp [t0]), hstmt]
    show Except.ok (if s10.parser.panicMode then synchronize s10 else s10) = _
    rw [if_pos (by rw [p10]), hK]
  generalize hs11 : ({ s10 with parser := { s10.parser with panicMode := false } } : State) =
    s11 at *
  have p11 : s11.parser = ⟨a6, a5, true, false⟩ := by rw [← hs11, p10]
  have q11 : s11.scanner = c7 := by rw [← hs11]; exact q10
  have e11 : s11.stderr = s10.stderr := by rw [← hs11]
  have hloop : declarationLoop (declaration fs (n + 5)) (n + 5) (s2.shift a0 c1) =
      Except.ok (s11.shift a7 c8) := by
    rw [declarationLoop_step _ _ _ (by simp [t0]), hdecl3]
    show declarationLoop (declaration fs (n + 5)) (n + 3 + 1) _ = _
    exact declarationLoop_end _ _ _ a7 c8 (by rw [p11]; exact t6) (by rw [q11]; exact k7) t7
  obtain ⟨pE, eE⟩ := endCompiler_frame (s11.shift a7 c8)
  refine ⟨(endCompiler (s11.shift a7 c8)).2, ?_, ?_⟩
  · rw [hA, hloop]
    show Except.ok (if (endCompiler (s11.shift a7 c8)).2.parser.hadError then none
      else some (endCompiler (s11.shift a7 c8)).1, (endCompiler (s11.shift a7 c8)).2) = _
    rw [pE, shift_hadError, p11, if_pos rfl]
  · rw [eE, shift_stderr, e11, e10, e9, e8, e7, shift_stderr, e5, shift_currentModuleName, m5]
    have : errorPlace a5 = ErrorPlace.atLexeme a5.lexeme := by
      unfold errorPlace
      rw [if_neg (by rw [t5]; decide), if_neg (by rw [t5]; decide)]
    rw [this]
    rfl

/-! ### Calls with many arguments -/

theorem getRule_lit (l : Lit) : getRule l.type = ⟨some ParseFn.literal, none, PREC_NONE⟩ := by
  cases l <;> rfl

theorem literal_lit (l : Lit) (c : Bool) (s : State) (h : s.parser.previous.type = l.type) :
    literal c s = emitByte (Byte.op l.opcode) s := by
  unfold literal
  rw [h]
  cases l <;> rfl

/-- A keyword literal followed by a token that continues no expression. -/
theorem parse_lit (l : Lit) {s : State} {t : TokenType} {ts : List TokenType} (m : Nat)
    (hok : s.funOK) (hup : upcoming s (l.type :: t :: ts) = true)
    (hp : (getRule t).precedence = PREC_NONE) (ht : t ≠ TOKEN_EQUAL) :
    ∃ s', parsePrecedence (m + 2) PREC_ASSIGNMENT s = Except.ok s' ∧
      Appended s s' [Byte.op l.opcode] 0 ∧ upcoming s' (t :: ts) = true ∧
      s'.stderr = s.stderr ∧ s'.parser.hadError = s.parser.hadError ∧
      s'.parser.panicMode = s.parser.panicMode ∧
      s'.currentModuleName = s.currentModuleName := by
  obtain ⟨hup1, hprev, hE, hP, hS⟩ := advance_upcoming hup
  have hty : (advance s).parser.previous.type = l.type := by
    rw [hprev]; exact upcoming_head hup
  have hok1 : (advance s).funOK := (advance_funOK s).2 hok
  have hup2 : upcoming (emitByte (Byte.op l.opcode) (advance s)) (t :: ts) = true := by
    rw [upcoming_emitByte]; exact hup1
  have hcur : (emitByte (Byte.op l.opcode) (advance s)).parser.current.type = t :=
    upcoming_head hup2
  have hexit := infixLoop_exit (parsePrecedence (m + 1)) (m + 1) (q := PREC_ASSIGNMENT) true m
    (s := emitByte (Byte.op l.opcode) (advance s)) (by rw [hcur, hp]; decide)
  have hcheck : check TOKEN_EQUAL (emitByte (Byte.op l.opcode) (advance s)) = false := by
    have : (advance s).parser.current.type = t := hcur
    simp [check, this, ht]
  have hmod : (advance s).currentModuleName = s.currentModuleName := by
    simp only [upcoming, scansTypes, Bool.and_eq_true, decide_eq_true_eq] at hup
    rw [advance_of_scan s (by rw [hup.2.1.1]; exact hup.2.1.2)]
  refine ⟨emitByte (Byte.op l.opcode) (advance s), ?_,
    (appended_advance hok).trans (appended_emitByte hok1 _), hup2, hS, hE, hP, hmod⟩
  rw [parsePrecedence]
  dsimp only
  rw [hty, getRule_lit]
  dsimp only
  rw [applyRule, literal_lit l _ _ hty]
  simp only [show decide (PREC_ASSIGNMENT ≤ PREC_ASSIGNMENT) = true from rfl, bind, Except.bind,
    pure, Except.pure, hexit, hcheck]
  rfl
theorem error_of_panic (m : String) (s : State) (h : s.parser.panicMode = true) :
    error m s = s := by
  unfold error errorAt
  rw [if_pos h]

@[simp] theorem upcoming_error (m : String) (s : State) (ts : List TokenType) :
    upcoming (error m s) ts = upcoming s ts :=
  upcoming_congr (error_scanner m s) (error_current m s) ts

theorem argumentTokens_head (l : Lit) (ls : List Lit) :
    ∃ u, argumentTokens l ls = l.type :: u := by
  cases ls with
  | nil => exact ⟨[], rfl⟩
  | cons a b => exact ⟨_, rfl⟩

/-- The step of `argumentList` after one argument, the count before it being
`c`: the error is reported at the 256th argument. -/
theorem argument_report (c : Nat) (a : State) (hok : a.funOK) :
    Appended a (if c = 255 then error "Can't have more than 255 arguments." a else a) [] 0 ∧
      (∀ ts, upcoming (if c = 255 then error "Can't have more than 255 arguments." a else a) ts =
        upcoming a ts) ∧
      (if c = 255 then error "Can't have more than 255 arguments." a else a).currentModuleName =
        a.currentModuleName ∧
      ((a.parser.panicMode = true ∨ c ≠ 255) →
        (if c = 255 then error "Can't have more than 255 arguments." a else a) = a) ∧
      (a.parser.panicMode = false → c = 255 →
        (if c = 255 then error "Can't have more than 255 arguments." a
          else a).parser.hadError = true ∧
        (if c = 255 then error "Can't have more than 255 arguments." a
          else a).parser.panicMode = true ∧
        (if c = 255 then error "Can't have more than 255 arguments." a else a).stderr =
          a.stderr ++ [Diag.error a.parser.current.line (errorPlace a.parser.current)
            (cstr tooManyArgumentsMessage) a.currentModuleName]) := by
  by_cases hc : c = 255
  · simp only [if_pos hc]
    refine ⟨appended_error hok _, fun ts => upcoming_error _ _ ts, error_currentModuleName _ _,
      fun h => ?_, fun hp _ => ?_⟩
    · rcases h with h | h
      · exact error_of_panic _ _ h
      · exact absurd hc h
    · obtain ⟨e1, e2, e3⟩ := error_reports "Can't have more than 255 arguments." a hp
      exact ⟨e2, e3, e1⟩
  · simp only [if_neg hc]
    exact ⟨appended_refl hok, fun _ => trivial, trivial, fun _ => trivial, fun _ h => absurd h hc⟩

theorem match_upcoming {t b : TokenType} {ts : List TokenType} {s : State}
    (h : upcoming s (t :: b :: ts) = true) : match_ t s = (true, advance s) := by
  unfold match_ check
  simp [upcoming_head h]

/-- The arguments of a call when each is a keyword literal: the count modulo
256 is returned, nothing is reported while the count stays below 256 (or in
panic mode), and the one diagnostic is reported when the 256th argument is
met. -/
theorem argumentLoop_lits (m : Nat) :
    ∀ (ls : List Lit) (l : Lit) (c : Nat) (s : State) (rest : List TokenType) (fuel : Nat),
      ls.length + 1 ≤ fuel → c ≤ 255 → s.funOK →
      upcoming s (argumentTokens l ls ++ TOKEN_RIGHT_PAREN :: rest) = true →
      ∃ s', argumentLoop (parsePrecedence (m + 2)) fuel c s =
          Except.ok ((c + ls.length + 1) % 256, s') ∧
        Appended s s' (argumentCode (l :: ls)) 0 ∧
        upcoming s' (TOKEN_RIGHT_PAREN :: rest) = true ∧
        s'.currentModuleName = s.currentModuleName ∧
        ((s.parser.panicMode = true ∨ c + ls.length + 1 ≤ 255) →
          s'.stderr = s.stderr ∧ s'.parser.hadError = s.parser.hadError ∧
            s'.parser.panicMode = s.parser.panicMode) ∧
        (s.parser.panicMode = false → 256 ≤ c + ls.length + 1 →
          s'.parser.hadError = true ∧ s'.parser.panicMode = true ∧
            ∃ line place, s'.stderr =
              s.stderr ++
                [Diag.error line place (cstr tooManyArgumentsMessage) s.currentModuleName]) := by
  intro ls
  induction ls with
  | nil =>
    intro l c s rest fuel hf hc hok hup
    obtain ⟨k, rfl⟩ : ∃ k, fuel = k + 1 := ⟨fuel - 1, by simp at hf; omega⟩
    have hup0 : upcoming s (l.type :: TOKEN_RIGHT_PAREN :: rest) = true := hup
    obtain ⟨a, ha, hA, hU, hS, hE, hP, hM⟩ := parse_lit l m hok hup0 rfl (by decide)
    obtain ⟨r1, r2, r3, r4, r5⟩ := argument_report c a hA.funOK
    have hne : (if c = 255 then error "Can't have more than 255 arguments." a
        else a).parser.current.type ≠ TOKEN_COMMA := by
      have := upcoming_head ((r2 _).trans hU)
      rw [this]; decide
    refine ⟨if c = 255 then error "Can't have more than 255 arguments." a else a, ?_, ?_,
      (r2 _).trans hU, r3.trans hM, fun h => ?_, fun hp h256 => ?_⟩
    · rw [argumentLoop]
      simp only [expression, ha, bind, Except.bind, match_miss hne, Bool.false_eq_true, if_false]
      rfl
    · simpa [argumentCode] using hA.trans r1
    · rw [r4 (by
        rcases h with h | h
        · exact Or.inl (by rw [hP]; exact h)
        · exact Or.inr (by simp at h; omega))]
      exact ⟨hS, hE, hP⟩
    · obtain ⟨e2, e3, e1⟩ := r5 (by rw [hP]; exact hp) (by simp at h256; omega)
      exact ⟨e2, e3, _, _, by rw [e1, hS, hM]⟩
  | cons l' ls ih =>
    intro l c s rest fuel hf hc hok hup
    obtain ⟨k, rfl⟩ : ∃ k, fuel = k + 1 := ⟨fuel - 1, by simp at hf; omega⟩
    obtain ⟨u, hu⟩ := argumentTokens_head l' ls
    have hup' : upcoming s (l.type :: TOKEN_COMMA ::
        (argumentTokens l' ls ++ TOKEN_RIGHT_PAREN :: rest)) = true := hup
    obtain ⟨a, ha, hA, hU, hS, hE, hP, hM⟩ := parse_lit l m hok hup' rfl (by decide)
    obtain ⟨r1, r2, r3, r4, r5⟩ := argument_report c a hA.funOK
    have hU' := (r2 _).trans hU
    have hU2 : upcoming (if c = 255 then error "Can't have more than 255 arguments." a else a)
        (TOKEN_COMMA :: l'.type :: (u ++ TOKEN_RIGHT_PAREN :: rest)) = true := by
      rw [hu] at hU'
      exact hU'
    obtain ⟨hV, -, vE, vP, vS⟩ := advance_upcoming hU2
    have hmatch := match_upcoming hU2
    have hVm : (advance (if c = 255 then error "Can't have more than 255 arguments." a
        else a)).currentModuleName =
        (if c = 255 then error "Can't have more than 255 arguments." a
          else a).currentModuleName := by
      simp only [upcoming, scansTypes, Bool.and_eq_true, decide_eq_true_eq] at hU2
      rw [advance_of_scan _ (by rw [hU2.2.1.1]; exact hU2.2.1.2)]
    obtain ⟨s', h1, h2, h3, h4, h5, h6⟩ := ih l' ((c + 1) % 256)
      (advance (if c = 255 then error "Can't have more than 255 arguments." a else a)) rest k
      (by simp at hf; omega) (by omega) ((advance_funOK _).2 r1.funOK)
      (by rw [hu]; exact hV)
    have hcount : ((c + 1) % 256 + ls.length + 1) % 256 = (c + (l' :: ls).length + 1) % 256 := by
      simp only [List.length_cons]
      omega
    refine ⟨s', ?_, ?_, h3, ?_, fun h => ?_, fun hp h256 => ?_⟩
    · rw [argumentLoop]
      simp only [expression, ha, bind, Except.bind, hmatch, if_true]
      rw [h1, hcount]
    · have := (hA.trans r1).trans ((appended_advance r1.funOK).trans h2)
      simpa [argumentCode] using this
    · rw [h4, hVm, r3, hM]
    · have hsame := r4 (by
        rcases h with h | h
        · exact Or.inl (by rw [hP]; exact h)
        · exact Or.inr (by simp at h; omega))
      rw [hsame] at vE vP vS h5
      obtain ⟨q1, q2, q3⟩ := h5 (by
        rcases h with h | h
        · exact Or.inl (by rw [vP, hP]; exact h)
        · right
          simp only [List.length_cons] at h
          have : (c + 1) % 256 = c + 1 := Nat.mod_eq_of_lt (by omega)
          omega)
      exact ⟨by rw [q1, vS, hS], by rw [q2, vE, hE], by rw [q3, vP, hP]⟩
    · by_cases hc255 : c = 255
      · obtain ⟨e2, e3, e1⟩ := r5 (by rw [hP]; exact hp) hc255
        obtain ⟨q1, q2, q3⟩ := h5 (Or.inl (by rw [vP, e3]))
        exact ⟨by rw [q2, vE, e2], by rw [q3, vP, e3], _, _, by rw [q1, vS, e1, hS, hM]⟩
      · have hsame := r4 (Or.inr hc255)
        rw [hsame] at vE vP vS h6 hVm
        have hmod : (c + 1) % 256 = c + 1 := Nat.mod_eq_of_lt (by omega)
        obtain ⟨q1, q2, line, place, q3⟩ := h6 (by rw [vP, hP]; exact hp) (by
          simp only [List.length_cons] at h256
          omega)
        exact ⟨q1, q2, line, place, by rw [q3, vS, hS, hVm, hM]⟩
theorem consume_upcoming {t b : TokenType} {ts : List TokenType} {s : State} (m : String)
    (h : upcoming s (t :: b :: ts) = true) : consume t m s = advance s := by
  unfold consume
  rw [if_pos (upcoming_head h)]

/-- The argument list of a call whose arguments are keyword literals. -/
theorem argumentList_lits (m : Nat) (args : List Lit) (t : TokenType) (ts : List TokenType)
    (s : State) (fuel : Nat) (hf : args.length ≤ fuel) (hok : s.funOK)
    (hup : upcoming s (callTokens args ++ TOKEN_RIGHT_PAREN :: t :: ts) = true) :
    ∃ r, argumentList (parsePrecedence (m + 2)) fuel s = Except.ok (args.length % 256, r) ∧
      Appended s r (argumentCode args) 0 ∧
      upcoming r (t :: ts) = true ∧
      ((s.parser.panicMode = true ∨ args.length ≤ 255) →
        r.stderr = s.stderr ∧ r.parser.hadError = s.parser.hadError ∧
          r.parser.panicMode = s.parser.panicMode) ∧
      (s.parser.panicMode = false → 256 ≤ args.length →
        r.parser.hadError = true ∧ r.parser.panicMode = true ∧
          ∃ line place, r.stderr =
            s.stderr ++
              [Diag.error line place (cstr tooManyArgumentsMessage) s.currentModuleName]) := by
  cases args with
  | nil =>
    have hup' : upcoming s (TOKEN_RIGHT_PAREN :: t :: ts) = true := hup
    obtain ⟨hV, -, vE, vP, vS⟩ := advance_upcoming hup'
    refine ⟨advance s, ?_, appended_advance hok, hV, fun _ => ⟨vS, vE, vP⟩, fun _ h => ?_⟩
    · unfold argumentList
      simp only [check, upcoming_head hup', decide_True, Bool.not_true, Bool.false_eq_true,
        if_false, bind, Except.bind, pure, Except.pure, consume_upcoming _ hup']
      rfl
    · simp at h
  | cons l ls =>
    have hup' : upcoming s (argumentTokens l ls ++ TOKEN_RIGHT_PAREN :: t :: ts) = true := hup
    obtain ⟨u, hu⟩ := argumentTokens_head l ls
    have hne : s.parser.current.type ≠ TOKEN_RIGHT_PAREN := by
      rw [hu] at hup'
      rw [upcoming_head hup']
      cases l <;> decide
    obtain ⟨a, h1, h2, h3, h4, h5, h6⟩ := argumentLoop_lits m ls l 0 s (t :: ts) fuel
      (by simpa using hf) (by omega) hok hup'
    obtain ⟨hV, -, vE, vP, vS⟩ := advance_upcoming h3
    refine ⟨advance a, ?_, ?_, hV, fun h => ?_, fun hp h256 => ?_⟩
    · unfold argumentList
      simp only [check, hne, decide_False, Bool.not_false, if_true, bind, Except.bind, h1,
        pure, Except.pure, consume_upcoming _ h3]
      simp [Nat.add_comm]
    · simpa using h2.trans (appended_advance h2.funOK)
    · obtain ⟨q1, q2, q3⟩ := h5 (by simpa [Nat.add_comm] using h)
      exact ⟨by rw [vS, q1], by rw [vE, q2], by rw [vP, q3]⟩
    · obtain ⟨q1, q2, line, place, q3⟩ := h6 hp (by simpa [Nat.add_comm] using h256)
      exact ⟨by rw [vE, q1], by rw [vP, q2], line, place, by rw [vS, q3]⟩

theorem emitJump_funOK {s : State} (h : s.funOK) (i : OpCode) : (emitJump i s).2.funOK :=
  emitByte_funOK (emitByte_funOK (emitByte_funOK h _) _) _

theorem emitJump_code {s : State} (h : s.funOK) (i : OpCode) :
    (currentChunk (emitJump i s).2).code =
      (currentChunk s).code ++ [Byte.op i, Byte.raw 255, Byte.raw 255] := by
  unfold emitJump
  simp only
  rw [emitByte_code (emitByte_funOK (emitByte_funOK h _) _), emitByte_code (emitByte_funOK h _),
    emitByte_code h]
  simp

theorem emitJump_offset {s : State} (h : s.funOK) (i : OpCode) :
    (emitJump i s).1 = (currentChunk s).code.length + 1 := by
  have := emitJump_code h i
  unfold emitJump at this ⊢
  simp only at this ⊢
  rw [this]
  simp

/-- The chunk `patchJump` leaves: the two operand bytes are overwritten, also
when the error is reported. -/
theorem patchJump_chunk {s : State} (h : s.funOK) (o : Nat) :
    currentChunk (patchJump o s) =
      { currentChunk s with
        code := ((currentChunk s).code.set o
          (Byte.raw ((((currentChunk s).code.length - o - 2) / 256) % 256))).set (o + 1)
          (Byte.raw (((currentChunk s).code.length - o - 2) % 256)) } := by
  unfold patchJump
  simp only
  split
  · rw [currentChunk_setCurrentChunk ((error_funOK _ _).2 h), error_currentChunk]
  · rw [currentChunk_setCurrentChunk h]

/-! ### The registry of modules and the enclosing compilers -/

@[simp] theorem errorAt_importedModules (t : Token) (m : List Nat) (s : State) :
    (errorAt t m s).importedModules = s.importedModules := by
  unfold errorAt; split <;> rfl

@[simp] theorem error_importedModules (m : String) (s : State) :
    (error m s).importedModules = s.importedModules := errorAt_importedModules _ _ _

@[simp] theorem importError_importedModules (t : Token) (m : List Nat) (s : State) :
    (importError t m s).importedModules = s.importedModules := by
  unfold importError; split <;> rfl

@[simp] theorem importError_compilers (t : Token) (m : List Nat) (s : State) :
    (importError t m s).compilers = s.compilers := by
  unfold importError; split <;> rfl

theorem advanceLoop_importedModules (fuel : Nat) (s : State) :
    (advanceLoop fuel s).importedModules = s.importedModules := by
  induction fuel generalizing s with
  | zero => rfl
  | succ k ih =>
    unfold advanceLoop
    dsimp only
    split
    · rfl
    · rw [ih, errorAtCurrent, errorAt_importedModules]

@[simp] theorem advance_importedModules (s : State) :
    (advance s).importedModules = s.importedModules := by
  unfold advance; rw [advanceLoop_importedModules]

@[simp] theorem makeConstant_importedModules (v : Value) (s : State) :
    (makeConstant v s).2.importedModules = s.importedModules := by
  unfold makeConstant
  dsimp only
  split
  · rw [error_importedModules]; rfl
  · rfl

@[simp] theorem patchJump_importedModules (o : Nat) (s : State) :
    (patchJump o s).importedModules = s.importedModules := by
  unfold patchJump
  dsimp only
  split
  · show (error _ s).importedModules = _
    rw [error_importedModules]
  · rfl

@[simp] theorem patchJump_compilers (o : Nat) (s : State) :
    (patchJump o s).compilers = s.compilers := by
  unfold patchJump
  dsimp only
  split
  · show (error _ s).compilers = _
    rw [error_compilers]
  · rfl

theorem outer_refl (s : State) : Outer s s := ⟨rfl, fun _ => rfl, fun _ h => h⟩

theorem Outer.step {a b c : State} (h : Outer a b) (h' : Outer b c) : Outer a c :=
  ⟨h'.length.trans h.length, fun k => (h'.scopeDepth k).trans (h.scopeDepth k),
    fun x hx => h'.registry x (h.registry x hx)⟩

theorem outer_of_eq {s s' : State} (hc : s'.compilers = s.compilers)
    (hi : s'.importedModules = s.importedModules) : Outer s s' :=
  ⟨by rw [hc], fun k => by unfold State.compilerAt; rw [hc], fun x hx => by rw [hi]; exact hx⟩

theorem outer_setCur (s : State) (c : Compiler) : Outer s (s.setCur c) :=
  ⟨by simp [State.setCur], fun k => by rw [compilerAt_setCur_succ], fun _ h => h⟩

theorem outer_emitByte (b : Byte) (s : State) : Outer s (emitByte b s) := outer_of_eq rfl rfl

theorem outer_endScopeLoop (fuel : Nat) (s : State) : Outer s (endScopeLoop fuel s) := by
  induction fuel generalizing s with
  | zero => exact outer_refl s
  | succ k ih =>
    unfold endScopeLoop
    dsimp only
    split
    · refine Outer.step ?_ (ih _)
      refine Outer.step ?_ (outer_setCur _ _)
      refine Outer.step (outer_emitByte (Byte.op OP_POP) s) ?_
      split
      · exact outer_emitByte _ _
      · exact outer_emitByte _ _
    · exact outer_refl s

theorem outer_endScope (s : State) : Outer s (endScope s) := by
  unfold endScope
  exact Outer.step (outer_setCur s _) (outer_endScopeLoop _ _)

theorem outer_addLocal (t : Token) (s : State) : Outer s (addLocal t s) := by
  unfold addLocal
  dsimp only
  split
  · exact outer_of_eq (error_compilers _ _) (error_importedModules _ _)
  · exact outer_setCur s _

theorem outer_markInitialized (s : State) : Outer s (markInitialized s) := by
  unfold markInitialized
  dsimp only
  split
  · exact outer_refl s
  · exact outer_setCur s _

theorem addUpvalue_importedModules (k index : Nat) (isLocal : Bool) (s : State) :
    (addUpvalue k index isLocal s).2.importedModules = s.importedModules := by
  unfold addUpvalue
  dsimp only
  split
  · rfl
  · split
    · exact error_importedModules _ _
    · rfl

theorem resolveLocal_importedModules (c : Compiler) (name : Token) (s : State) :
    (resolveLocal c name s).2.importedModules = s.importedModules := by
  rw [resolveLocal_eq]
  cases findLocal c name c.localCount with
  | none => rfl
  | some i =>
    dsimp only
    split
    · exact error_importedModules _ _
    · rfl

theorem resolveUpvalueFrom_importedModules (name : Token) (d : Nat) :
    ∀ (k : Nat) (s : State),
      (resolveUpvalueFrom name d k s).2.importedModules = s.importedModules := by
  induction d with
  | zero => intro k s; rfl
  | succ d ih =>
    intro k s
    unfold resolveUpvalueFrom
    dsimp only
    have h1 := resolveLocal_importedModules (s.compilerAt (k + 1)) name s
    split
    · rw [addUpvalue_importedModules]
      exact h1
    · have h2 := (ih (k + 1) (resolveLocal (s.compilerAt (k + 1)) name s).2).trans h1
      split
      · rw [addUpvalue_importedModules]
        exact h2
      · exact h2

theorem outer_resolveUpvalue (k : Nat) (name : Token) (s : State) :
    Outer s (resolveUpvalue k name s).2 := by
  have h := sameFrames_resolveUpvalue k name s
  exact ⟨h.length, fun j => h.scopeDepth (j + 1), fun x hx => by
    rw [resolveUpvalue, resolveUpvalueFrom_importedModules]; exact hx⟩

theorem initCompiler_importedModules (type : FunctionType) (s : State) :
    (initCompiler type s).importedModules = s.importedModules := by
  unfold initCompiler
  by_cases h1 : type = TYPE_IMPORT <;> by_cases h2 : type = TYPE_SCRIPT <;>
    simp [h1, h2, State.setCur, State.setCompilerAt, newFunction, allocateObject,
      State.setFunctionAt]

theorem emitReturn_compilers (s : State) : (emitReturn s).compilers = s.compilers := by
  unfold emitReturn; split <;> rfl

theorem emitReturn_importedModules (s : State) :
    (emitReturn s).importedModules = s.importedModules := by
  unfold emitReturn; split <;> rfl

/-- The relation `Outer` across a compiler that is pushed on the chain at the
start and popped at the end: also the scope depth of the compiler that was
current is kept. -/
theorem outer_bracket {s a b d : State} {c : Compiler} (ha : a.compilers = c :: s.compilers)
    (hai : ∀ x, x ∈ s.importedModules → x ∈ a.importedModules) (h : Outer a b)
    (hd : d.compilers = b.compilers.drop 1) (hdi : d.importedModules = b.importedModules) :
    d.compilers.length = s.compilers.length ∧
      (∀ k, (d.compilerAt k).scopeDepth = (s.compilerAt k).scopeDepth) ∧
      ∀ x, x ∈ s.importedModules → x ∈ d.importedModules := by
  have hk : ∀ k, d.compilerAt k = b.compilerAt (k + 1) := compilerAt_of_drop_one hd
  have hk' : ∀ k, a.compilerAt (k + 1) = s.compilerAt k := compilerAt_succ_of_cons ha
  refine ⟨?_, fun k => ?_, fun x hx => ?_⟩
  · have := h.length
    rw [ha] at this
    simp [hd, this]
  · rw [hk, h.scopeDepth, hk']
  · rw [hdi]
    exact h.registry x (hai x hx)

theorem outer_of_bracket {s d : State}
    (h : d.compilers.length = s.compilers.length ∧
      (∀ k, (d.compilerAt k).scopeDepth = (s.compilerAt k).scopeDepth) ∧
      ∀ x, x ∈ s.importedModules → x ∈ d.importedModules) : Outer s d :=
  ⟨h.1, fun k => h.2.1 (k + 1), h.2.2⟩

theorem importEnter_compilers (f src : List Nat) (s : State) :
    (importEnter f src s).compilers = (importEnter f src s).cur :: s.compilers := by
  unfold importEnter
  rw [initCompiler_compilers]
  rfl

theorem importEnter_registry (f src : List Nat) (s : State) :
    (importEnter f src s).importedModules = f :: s.importedModules := by
  unfold importEnter
  rw [initCompiler_importedModules]
  rfl

/-- What an imported module leaves of the importing state, when `Outer` holds
inside the module. -/
theorem outer_importLeave (f src : List Nat) (s s1 : State)
    (h : Outer (importEnter f src s) s1) :
    (importLeave s s1).compilers.length = s.compilers.length ∧
      (∀ k, ((importLeave s s1).compilerAt k).scopeDepth = (s.compilerAt k).scopeDepth) ∧
      ∀ x, x ∈ f :: s.importedModules → x ∈ (importLeave s s1).importedModules := by
  have hlen : s1.compilers.length = s.compilers.length + 1 := by
    have := h.length
    rw [importEnter_compilers] at this
    simpa using this
  have hb := outer_bracket (d := importLeave s s1) (importEnter_compilers f src s)
    (fun x hx => by rw [importEnter_registry]; exact List.mem_cons_of_mem _ hx) h
    (by
      show s1.compilers.drop (s1.compilers.length - s.compilers.length) = s1.compilers.drop 1
      rw [hlen]; simp) rfl
  refine ⟨hb.1, hb.2.1, fun x hx => ?_⟩
  show x ∈ s1.importedModules
  exact h.registry x (by rw [importEnter_registry]; exact hx)

/-- Every step of the compiler keeps the scope depth of the enclosing
compilers and the registered modules. -/
theorem outer_passes : Passes Outer where
  refl := outer_refl
  trans := Outer.step
  advance := fun s => outer_of_eq (advance_compilers s) (advance_importedModules s)
  errorAt := fun t m s => outer_of_eq (errorAt_compilers t m s) (errorAt_importedModules t m s)
  importError := fun t m s =>
    outer_of_eq (importError_compilers t m s) (importError_importedModules t m s)
  emitByte := outer_emitByte
  makeConstant := fun v s =>
    outer_of_eq (makeConstant_compilers v s) (makeConstant_importedModules v s)
  patchJump := fun o s => outer_of_eq (patchJump_compilers o s) (patchJump_importedModules o s)
  beginScope := fun s => outer_setCur s _
  endScope := outer_endScope
  addLocal := outer_addLocal
  markInitialized := outer_markInitialized
  resolveUpvalue := outer_resolveUpvalue
  newList := fun _ => outer_of_eq rfl rfl
  bumpArity := fun _ => outer_of_eq rfl rfl
  clearPanic := fun _ => outer_of_eq rfl rfl
  pushStruct := fun _ => outer_of_eq rfl rfl
  setHasSuperstruct := fun _ _ => outer_of_eq rfl rfl
  popStruct := fun _ => outer_of_eq rfl rfl
  functionBracket := fun type s s1 h =>
    outer_of_bracket (outer_bracket (initCompiler_compilers type s)
      (fun x hx => by rw [initCompiler_importedModules]; exact hx) h
      (by show (emitReturn s1).compilers.drop 1 = _; rw [emitReturn_compilers])
      (emitReturn_importedModules s1))
  importBracket := fun f src s s1 h =>
    have hb := outer_importLeave f src s s1 h
    outer_of_bracket ⟨hb.1, hb.2.1, fun x hx => hb.2.2 x (List.mem_cons_of_mem _ hx)⟩
/-- What `importModule` does at the top level, for the string token `t`. -/
theorem importModule_top (fs : List Nat → Option (List Nat)) (decl : State → Res State)
    (n : Nat) (t : Token) (s : State) (h : s.cur.scopeDepth ≤ 0) :
    importModule fs decl n t (t.start.drop 1) (t.length - 2) s =
      if isModuleImported (moduleFile t) s then pure (importError t (moduleFile t) s)
      else
        match readFile fs (moduleFile t) with
        | none => Except.error Fault.nullPointer
        | some source =>
          declarationLoop decl n (advance (importEnter (moduleFile t) source s)) >>= fun s1 =>
            pure (importLeave s s1) := by
  unfold importModule
  rw [if_neg (by omega)]
  rfl

/-- A declaration that starts with `import`. -/
theorem declarationBody_import (fs : List Nat → Option (List Nat))
    (decl stmt : State → Res State) (k : Nat) (s : State) (u : Token) (sc : Scanner)
    (h : s.parser.current.type = TOKEN_IMPORT) (hs : Scan.scanToken s.scanner = (u, sc))
    (hu : u.type ≠ TOKEN_ERROR) :
    declarationBody fs decl stmt k s =
      importDeclaration fs decl k (s.shift u sc) >>= fun a =>
        pure (if a.parser.panicMode then synchronize a else a) := by
  unfold declarationBody
  simp only [match_miss (t := TOKEN_SEMICOLON) (s := s) (by rw [h]; decide),
    match_hit h hs hu, Bool.false_eq_true, if_false, if_true]

theorem consume_shift {s : State} {t : TokenType} {u : Token} {sc : Scanner} (m : String)
    (h : s.parser.current.type = t) (hs : Scan.scanToken s.scanner = (u, sc))
    (hu : u.type ≠ TOKEN_ERROR) : consume t m s = s.shift u sc := by
  unfold consume
  rw [if_pos h, advance_shift hs hu]

/-- The first import of a module at the top level: the file name is registered
and the declarations of the module are compiled by a compiler that shares the
function of the importing compiler. -/
theorem importDeclaration_fresh (fs : List Nat → Option (List Nat)) (decl : State → Res State)
    (n : Nat) (s : State) (u : Token) (sc : Scanner) (src : List Nat) (s1 : State)
    (h : s.parser.current.type = TOKEN_STRING) (hs : Scan.scanToken s.scanner = (u, sc))
    (hu : u.type ≠ TOKEN_ERROR) (hd : s.cur.scopeDepth ≤ 0)
    (hnew : moduleFile s.parser.current ∉ s.importedModules)
    (hfile : readFile fs (moduleFile s.parser.current) = some src)
    (hmod : declarationLoop decl n
      (advance (importEnter (moduleFile s.parser.current) src (s.shift u sc))) =
        Except.ok s1) :
    importDeclaration fs decl n s = Except.ok (importLeave (s.shift u sc) s1) := by
  unfold importDeclaration
  simp only [consume_shift _ h hs hu]
  have hprev : (s.shift u sc).parser.previous = s.parser.current := rfl
  rw [hprev, importModule_top fs decl n _ _ (by exact hd)]
  have hno : isModuleImported (moduleFile s.parser.current) (s.shift u sc) = false := by
    unfold isModuleImported
    simpa [State.shift] using hnew
  rw [hno]
  simp only [Bool.false_eq_true, if_false, hfile, hmod]
  rfl

/-- An import of a module that is registered already: only the error is
reported, whatever the files are. -/
theorem importDeclaration_again (fs : List Nat → Option (List Nat)) (decl : State → Res State)
    (n : Nat) (s : State) (u : Token) (sc : Scanner)
    (h : s.parser.current.type = TOKEN_STRING) (hs : Scan.scanToken s.scanner = (u, sc))
    (hu : u.type ≠ TOKEN_ERROR) (hd : s.cur.scopeDepth ≤ 0)
    (hold : moduleFile s.parser.current ∈ s.importedModules) :
    importDeclaration fs decl n s =
      Except.ok (importError s.parser.current (moduleFile s.parser.current) (s.shift u sc)) := by
  unfold importDeclaration
  simp only [consume_shift _ h hs hu]
  have hprev : (s.shift u sc).parser.previous = s.parser.current := rfl
  rw [hprev, importModule_top fs decl n _ _ (by exact hd)]
  have hyes : isModuleImported (moduleFile s.parser.current) (s.shift u sc) = true := by
    unfold isModuleImported
    simpa [State.shift] using hold
  rw [hyes]
  rfl
theorem scriptStart_registry (filename source : List Nat) :
    (scriptStart filename source).importedModules = [] ∧
      (scriptStart filename source).heap = [Obj.function ObjFunction.zero] := ⟨rfl, rfl⟩

/-- The end of a compiler that is no initializer: Null and Return are appended
to its chunk. -/
theorem endCompiler_chunk {s : State} (hok : s.funOK) (ht : s.cur.type ≠ TYPE_INITIALIZER) :
    ((endCompiler s).2.functionAt s.cur.function).chunk.code =
        (currentChunk s).code ++ [Byte.op OP_NULL, Byte.op OP_RETURN] ∧
      ((endCompiler s).2.functionAt s.cur.function).chunk.constants =
        (currentChunk s).constants ∧
      (endCompiler s).2.importedModules = s.importedModules := by
  have e : emitReturn s = emitByte (Byte.op OP_RETURN) (emitByte (Byte.op OP_NULL) s) := by
    unfold emitReturn
    rw [if_neg ht]
  have h1 := (appended_emitByte hok (Byte.op OP_NULL)).trans
    (appended_emitByte (emitByte_funOK hok _) (Byte.op OP_RETURN))
  have hf : (endCompiler s).2.functionAt s.cur.function =
      (emitByte (Byte.op OP_RETURN) (emitByte (Byte.op OP_NULL) s)).curFunction := by
    unfold endCompiler
    rw [e]
    rfl
  rw [hf]
  refine ⟨h1.code, ?_, ?_⟩
  · show (currentChunk _).constants = _
    rw [emitByte_constants (emitByte_funOK hok _), emitByte_constants hok]
  · unfold endCompiler
    rw [e]
    rfl

theorem importEnter_function (f src : List Nat) (s : State) :
    (importEnter f src s).cur.function = s.cur.function := by
  simp [importEnter, initCompiler, State.setCur, State.setCompilerAt, State.cur,
    State.compilerAt, State.setFunctionAt, addImportedModule]

/-- The run of `compile` on the tokens `import STRING import STRING` when the
two strings name the same file and the module compiles. -/
theorem compile_import_twice_tokens (fs : List Nat → Option (List Nat)) (n : Nat)
    (filename source src : List Nat) (a0 a1 a2 a3 a4 a5 : Token) (c1 c2 c3 c4 c5 c6 : Scanner)
    (s1 : State)
    (k0 : Scan.scanToken (Scan.initScanner source) = (a0, c1))
    (k1 : Scan.scanToken c1 = (a1, c2)) (k2 : Scan.scanToken c2 = (a2, c3))
    (k3 : Scan.scanToken c3 = (a3, c4)) (k4 : Scan.scanToken c4 = (a4, c5))
    (k5 : Scan.scanToken c5 = (a5, c6))
    (t0 : a0.type = TOKEN_IMPORT) (t1 : a1.type = TOKEN_STRING)
    (t2 : a2.type = TOKEN_IMPORT) (t3 : a3.type = TOKEN_STRING)
    (t4 : a4.type = TOKEN_EOF) (t5 : a5.type ≠ TOKEN_ERROR)
    (hsame : moduleFile a3 = moduleFile a1)
    (hfile : readFile fs (moduleFile a1) = some src)
    (hmod : declarationLoop (declaration fs (n + 2)) (n + 2)
      (advance (importEnter (moduleFile a1) src
        ((((scriptStart filename source).shift a0 c1).shift a1 c2).shift a2 c3))) =
        Except.ok s1) :
    ∃ s', compile fs (n + 3) filename source State.initial = Except.ok (none, s') ∧
      moduleFile a1 ∈ s1.importedModules ∧
      s'.importedModules = s1.importedModules ∧
      s'.stderr = s1.stderr ++ [Diag.alreadyImported a3.line filename (moduleFile a1)] ∧
      (s'.functionAt 0).chunk.code =
        (s1.functionAt 0).chunk.code ++ [Byte.op OP_NULL, Byte.op OP_RETURN] ∧
      (s'.functionAt 0).chunk.constants = (s1.functionAt 0).chunk.constants ∧
      ∀ (fs' : List Nat → Option (List Nat)) (decl' : State → Res State) (k : Nat),
        importModule fs' decl' k a3 (a3.start.drop 1) (a3.length - 2)
            (((importLeave ((((scriptStart filename source).shift a0 c1).shift a1 c2).shift a2 c3)
              s1).shift a3 c4).shift a4 c5) =
          Except.ok (importError a3 (moduleFile a1)
            (((importLeave ((((scriptStart filename source).shift a0 c1).shift a1 c2).shift a2 c3)
              s1).shift a3 c4).shift a4 c5)) := by
  obtain ⟨p0, q0, e0, m0, hc0⟩ := scriptStart_frame filename source
  obtain ⟨r0, h0⟩ := scriptStart_registry filename source
  have hcur0 := scriptStart_cur filename source
  have ne : ∀ {t : Token} {a : TokenType}, t.type = a → a ≠ TOKEN_ERROR → t.type ≠ TOKEN_ERROR :=
    fun h1 h2 => by rw [h1]; exact h2
  rw [compile_eq]
  generalize scriptStart filename source = S0 at *
  -- the module
  have hK : Keeps (importEnter (moduleFile a1) src (((S0.shift a0 c1).shift a1 c2).shift a2 c3))
      s1 :=
    (keeps_advance _).next
      (lands_declarationLoop keeps_passes (lands_declaration keeps_passes fs _) _ _ s1 hmod)
  have hO : Outer (importEnter (moduleFile a1) src (((S0.shift a0 c1).shift a1 c2).shift a2 c3))
      s1 :=
    (outer_passes.advance _).step
      (lands_declarationLoop outer_passes (lands_declaration outer_passes fs _) _ _ s1 hmod)
  obtain ⟨o1, o2, o3⟩ := outer_importLeave _ _ _ _ hO
  have hK2 := keeps_importBracket _ _ _ _ hK
  generalize hS : ((S0.shift a0 c1).shift a1 c2).shift a2 c3 = S at *
  have eS : S.parser = ⟨a2, a1, false, false⟩ ∧ S.scanner = c3 ∧ S.currentModuleName = filename ∧
      S.cur = S0.cur ∧ S.heap = S0.heap ∧ S.importedModules = [] := by
    subst hS
    refine ⟨?_, rfl, m0, rfl, rfl, r0⟩
    simp [State.shift, p0]
  obtain ⟨eS1, eS2, eS3, eS4, eS5, eS6⟩ := eS
  generalize hS2 : importLeave S s1 = S2 at *
  have eS2' : S2.parser = ⟨a2, a1, false, false⟩ ∧ S2.scanner = c3 ∧
      S2.currentModuleName = filename ∧ S2.heap = s1.heap ∧ S2.stderr = s1.stderr ∧
      S2.importedModules = s1.importedModules := by
    subst hS2
    exact ⟨eS1, eS2, eS3, rfl, rfl, rfl⟩
  obtain ⟨p2, q2, m2, h2, e2, r2⟩ := eS2'
  have hreg : moduleFile a1 ∈ S2.importedModules := o3 _ (List.mem_cons_self _ _)
  have hdepth : S2.cur.scopeDepth = 0 := by
    have := o2 0
    rw [show S.compilerAt 0 = S.cur from rfl, eS4, hcur0] at this
    exact this
  have hfun : S2.cur.function = 0 ∧ S2.cur.type = TYPE_SCRIPT := by
    have hf := hK2.function 0
    have ht := hK2.type 0
    rw [show S.compilerAt 0 = S.cur from rfl, eS4, hcur0] at hf ht
    exact ⟨hf, ht⟩
  have hok2 : ∃ f, S2.heap[0]? = some (Obj.function f) :=
    hK2.isFunction 0 ⟨ObjFunction.zero, by rw [eS5, h0]; rfl⟩
  -- first declaration
  have hI1 := declarationBody_import fs (declaration fs (n + 2)) (statement fs (n + 2)) (n + 2)
    (S0.shift a0 c1) a1 c2 t0 k1 (ne t1 (by decide))
  have hI2 := importDeclaration_fresh fs (declaration fs (n + 2)) (n + 2)
    ((S0.shift a0 c1).shift a1 c2) a2 c3 src s1 t1 k2 (ne t2 (by decide))
    (by rw [shift_cur, shift_cur, hcur0]) (by
      show moduleFile a1 ∉ S0.importedModules
      rw [r0]; simp) hfile (by rw [hS]; exact hmod)
  rw [hS, hS2] at hI2
  have step1 : declaration fs (n + 3) (S0.shift a0 c1) = Except.ok S2 := by
    rw [declaration_succ, hI1, hI2]
    show Except.ok (if S2.parser.panicMode then synchronize S2 else S2) = _
    rw [p2]
    rfl
  -- second declaration
  have hJ1 := declarationBody_import fs (declaration fs (n + 2)) (statement fs (n + 2)) (n + 2)
    S2 a3 c4 (by rw [p2]; exact t2) (by rw [q2]; exact k3) (ne t3 (by decide))
  have hJ2 := importDeclaration_again fs (declaration fs (n + 2)) (n + 2)
    (S2.shift a3 c4) a4 c5 t3 k4 (ne t4 (by decide))
    (by rw [shift_cur, hdepth]) (by
      show moduleFile a3 ∈ S2.importedModules
      rw [hsame]; exact hreg)
  have hcur3 : (S2.shift a3 c4).parser.current = a3 := rfl
  rw [hcur3, hsame] at hJ2
  generalize hS3 : (S2.shift a3 c4).shift a4 c5 = S3 at *
  have eS3' : S3.parser = ⟨a4, a3, false, false⟩ ∧ S3.scanner = c5 ∧
      S3.currentModuleName = filename ∧ S3.heap = S2.heap ∧ S3.stderr = S2.stderr ∧
      S3.importedModules = S2.importedModules ∧ S3.compilers = S2.compilers := by
    subst hS3
    refine ⟨?_, rfl, m2, rfl, rfl, rfl, rfl⟩
    simp [State.shift, p2]
  obtain ⟨p3, q3, m3, h3, e3, r3, u3⟩ := eS3'
  have hS4 : importError a3 (moduleFile a1) S3 =
      { S3 with
        parser := ⟨a4, a3, true, true⟩,
        stderr := S3.stderr ++ [Diag.alreadyImported a3.line filename (moduleFile a1)] } := by
    unfold importError
    rw [p3, m3]
    rfl
  generalize hS4' : importError a3 (moduleFile a1) S3 = S4 at *
  have hsync : synchronize S4 = { S4 with parser := { S4.parser with panicMode := false } } :=
    synchronize_at_eof _ (by rw [hS4]; exact t4)
  have step2 : declaration fs (n + 3) S2 =
      Except.ok { S4 with parser := { S4.parser with panicMode := false } } := by
    rw [declaration_succ, hJ1, hJ2]
    show Except.ok (if S4.parser.panicMode then synchronize S4 else S4) = _
    rw [if_pos (by rw [hS4]), hsync]
  generalize hS5 : ({ S4 with parser := { S4.parser with panicMode := false } } : State) =
    S5 at *
  have eS5' : S5.parser = ⟨a4, a3, true, false⟩ ∧ S5.scanner = c5 ∧ S5.heap = S2.heap ∧
      S5.stderr = S2.stderr ++ [Diag.alreadyImported a3.line filename (moduleFile a1)] ∧
      S5.importedModules = S2.importedModules ∧ S5.compilers = S2.compilers := by
    subst hS5
    rw [hS4]
    exact ⟨rfl, q3, h3, by rw [← e3], r3, u3⟩
  obtain ⟨p5, q5, h5, e5, r5, u5⟩ := eS5'
  have hA : advance S0 = S0.shift a0 c1 :=
    advance_shift (by rw [q0]; exact k0) (ne t0 (by decide))
  have hloop : declarationLoop (declaration fs (n + 3)) (n + 3) (S0.shift a0 c1) =
      Except.ok (S5.shift a5 c6) := by
    rw [declarationLoop_step _ _ _ (by simp [t0]), step1]
    show declarationLoop (declaration fs (n + 3)) (n + 1 + 1) S2 = _
    rw [declarationLoop_step _ _ _ (by rw [p2]; simp [t2]), step2]
    show declarationLoop (declaration fs (n + 3)) (n + 1) S5 = _
    exact declarationLoop_end _ _ _ a5 c6 (by rw [p5]; exact t4) (by rw [q5]; exact k5) t5
  obtain ⟨pE, eE⟩ := endCompiler_frame (S5.shift a5 c6)
  refine ⟨(endCompiler (S5.shift a5 c6)).2, ?_, ?_, ?_, ?_, ?_, ?_, fun fs' decl' k => ?_⟩
  · rw [hA, hloop]
    show Except.ok (if (endCompiler (S5.shift a5 c6)).2.parser.hadError then none
      else some (endCompiler (S5.shift a5 c6)).1, (endCompiler (S5.shift a5 c6)).2) = _
    rw [pE, shift_hadError, p5, if_pos rfl]
  · rw [← r2]; exact hreg
  all_goals
    have hT : (S5.shift a5 c6).cur = S2.cur := by
      unfold State.cur State.compilerAt
      rw [show (S5.shift a5 c6).compilers = S5.compilers from rfl, u5]
    have hTok : (S5.shift a5 c6).funOK := by
      unfold State.funOK
      rw [hT, hfun.1, show (S5.shift a5 c6).heap = S5.heap from rfl, h5]
      exact hok2
    have hchunk : currentChunk (S5.shift a5 c6) = (s1.functionAt 0).chunk := by
      unfold currentChunk State.curFunction State.functionAt
      rw [hT, hfun.1, show (S5.shift a5 c6).heap = S5.heap from rfl, h5, h2]
    obtain ⟨g1, g2, g3⟩ := endCompiler_chunk hTok (by rw [hT, hfun.2]; decide)
    rw [hT, hfun.1, hchunk] at g1 g2
  · rw [g3]
    show S5.importedModules = _
    rw [r5, r2]
  · rw [eE]
    show S5.stderr = _
    rw [e5, e2]
  · exact g1
  · exact g2
  · rw [importModule_top fs' decl' k a3 S3 (by
      rw [show S3.cur = S2.cur from by unfold State.cur State.compilerAt; rw [u3], hdepth])]
    have hyes : isModuleImported (moduleFile a3) S3 = true := by
      unfold isModuleImported
      rw [hsame, r3]
      simpa using hreg
    rw [hyes, hsame, hS4']
    rfl

/-! ## The collector -/

namespace Mem

open GCPhase

theorem marks_refl (s : VM) : Marks s s :=
  ⟨fun _ => rfl, fun h => h, rfl, rfl, rfl, rfl, rfl, rfl, rfl, rfl⟩

theorem Marks.then {a b c : VM} (h : Marks a b) (h' : Marks b c) : Marks a c :=
  ⟨fun hb => (h'.skeleton (h.bits hb)).trans (h.skeleton hb), fun hb => h'.bits (h.bits hb),
    h'.fresh.trans h.fresh, h'.strings.trans h.strings, h'.stack.trans h.stack,
    h'.frames.trans h.frames, h'.openUpvalues.trans h.openUpvalues,
    h'.globals.trans h.globals, h'.compilerRoots.trans h.compilerRoots,
    h'.initString.trans h.initString⟩

theorem setMarked_skeleton (a : Nat) (l : List Obj) :
    (setMarked a l).map (fun o => (o.addr, o.payload)) = l.map fun o => (o.addr, o.payload) := by
  unfold setMarked
  rw [List.map_map]
  apply List.map_congr_left
  intro o _
  simp only [Function.comp]
  split <;> rfl

theorem setMarked_bits (a : Nat) (l : List Obj) (h : ∀ o ∈ l, o.isOnCurrentGC = o.isMarked) :
    ∀ o ∈ setMarked a l, o.isOnCurrentGC = o.isMarked := by
  intro o ho
  unfold setMarked at ho
  obtain ⟨x, hx, rfl⟩ := List.mem_map.1 ho
  split
  · rfl
  · exact h x hx

theorem marks_markObject (object : Option Nat) (s : VM) : Marks s (markObject object s) := by
  unfold markObject
  split
  · exact marks_refl s
  · split
    · exact marks_refl s
    · split
      · exact marks_refl s
      · exact ⟨fun _ => setMarked_skeleton _ _, fun h => setMarked_bits _ _ h, rfl, rfl, rfl, rfl,
          rfl, rfl, rfl, rfl⟩

theorem marks_markValue (value : Value) (s : VM) : Marks s (markValue value s) := by
  unfold markValue
  split
  · exact marks_markObject _ _
  · exact marks_refl s

theorem marks_foldl {α : Type} (f : VM → α → VM) (hf : ∀ s x, Marks s (f s x)) (l : List α)
    (s : VM) : Marks s (l.foldl f s) := by
  induction l generalizing s with
  | nil => exact marks_refl s
  | cons x l ih => exact (hf s x).then (ih _)

theorem marks_markTable (table : Table) (s : VM) : Marks s (markTable table s) :=
  marks_foldl _ (fun s _ => (marks_markObject _ s).then (marks_markValue _ _)) _ _

theorem marks_markArray (array : List Value) (s : VM) : Marks s (markArray array s) :=
  marks_foldl _ (fun s _ => marks_markValue _ s) _ _

theorem marks_markCompilerRoots (s : VM) : Marks s (markCompilerRoots s) :=
  marks_foldl _ (fun s _ => marks_markObject _ s) _ _

theorem marks_cursor (s : VM) (i : Nat) : Marks s { s with currentMarkIndex := i } :=
  ⟨fun _ => rfl, fun h => h, rfl, rfl, rfl, rfl, rfl, rfl, rfl, rfl⟩

theorem marks_phase (s : VM) (p : GCPhase) : Marks s { s with gcPhase := p } :=
  ⟨fun _ => rfl, fun h => h, rfl, rfl, rfl, rfl, rfl, rfl, rfl, rfl⟩

theorem marks_control (s : VM) (p : GCPhase) (i : Nat) :
    Marks s { s with gcPhase := p, currentMarkIndex := i } :=
  ⟨fun _ => rfl, fun h => h, rfl, rfl, rfl, rfl, rfl, rfl, rfl, rfl⟩

theorem marks_markStackLoop (fuel : Nat) (s : VM) : Marks s (markStackLoop fuel s).2 := by
  induction fuel generalizing s with
  | zero => exact marks_refl s
  | succ k ih =>
    unfold markStackLoop
    split
    · dsimp only
      split
      · exact (marks_markValue _ s).then (marks_cursor _ _)
      · exact ((marks_markValue _ s).then (marks_cursor _ _)).then (ih _)
    · exact marks_refl s

theorem marks_markFrameLoop (fuel : Nat) (s : VM) : Marks s (markFrameLoop fuel s).2 := by
  induction fuel generalizing s with
  | zero => exact marks_refl s
  | succ k ih =>
    unfold markFrameLoop
    split
    · dsimp only
      split
      · exact (marks_markObject _ s).then (marks_cursor _ _)
      · exact ((marks_markObject _ s).then (marks_cursor _ _)).then (ih _)
    · exact marks_refl s

theorem marks_markUpvalueLoop (l : List Nat) (s : VM) : Marks s (markUpvalueLoop l s).2 := by
  induction l generalizing s with
  | nil => exact marks_refl s
  | cons u l ih =>
    unfold markUpvalueLoop
    dsimp only
    split
    · exact (marks_markObject _ s).then (marks_cursor _ _)
    · exact ((marks_markObject _ s).then (marks_cursor _ _)).then (ih _)

theorem marks_markRoots (s : VM) : Marks s (markRoots s) := by
  unfold markRoots
  dsimp only
  have h1 := marks_markStackLoop (s.stack.length + 1) s
  have h2 := h1.then (marks_cursor _ 0)
  split
  · exact h1
  · split
    · exact Marks.then h2 (marks_markFrameLoop _ _)
    · split
      · refine Marks.then ?_ (marks_markUpvalueLoop _ _)
        exact Marks.then h2 (marks_markFrameLoop _ _)
      · refine Marks.then ?_ (marks_control _ GC_SWEEP_PHASE 0)
        refine Marks.then ?_ (marks_markObject _ _)
        refine Marks.then ?_ (marks_markCompilerRoots _)
        refine Marks.then ?_ (marks_markTable _ _)
        refine Marks.then ?_ (marks_markUpvalueLoop _ _)
        exact Marks.then h2 (marks_markFrameLoop _ _)

/-- With agreeing bits `sweep` frees nothing: it only clears the bits. -/
theorem sweepList_of_bitsEqual (l : List Obj) (h : ∀ o ∈ l, o.isOnCurrentGC = o.isMarked) :
    sweepList l = l.map fun o => { o with isMarked := false, isOnCurrentGC := false } := by
  induction l with
  | nil => rfl
  | cons o l ih =>
    have ho := h o (List.mem_cons_self _ _)
    have ih' := ih (fun x hx => h x (List.mem_cons_of_mem _ hx))
    unfold sweepList
    by_cases hm : o.isMarked = true
    · rw [if_pos hm, ih']
      rfl
    · have hm' : o.isMarked = false := by simpa using hm
      have hg : o.isOnCurrentGC = false := by rw [ho, hm']
      rw [if_neg hm, if_neg (by rw [hg]; simp), ih']
      simp only [List.map_cons]
      congr 1
      cases o
      simp_all

theorem marks_sweep (s : VM) : Marks s (sweep s) := by
  refine ⟨fun h => ?_, fun h => ?_, rfl, rfl, rfl, rfl, rfl, rfl, rfl, rfl⟩
  · unfold VM.skeleton sweep
    simp only
    rw [sweepList_of_bitsEqual _ h, List.map_map]
    rfl
  · unfold BitsEqual sweep
    simp only
    rw [sweepList_of_bitsEqual _ h]
    intro o ho
    obtain ⟨x, _, rfl⟩ := List.mem_map.1 ho
    rfl

theorem marks_collectGarbage (s : VM) : Marks s (collectGarbage s) := by
  unfold collectGarbage
  split
  · exact marks_control _ _ _
  · dsimp only
    split
    · exact (marks_markRoots s).then (marks_phase _ _)
    · exact marks_markRoots s
  · exact (marks_sweep s).then (marks_phase _ _)

theorem marks_reallocate (over : Bool) (s : VM) : Marks s (reallocate over s) := by
  unfold reallocate
  split
  · exact marks_collectGarbage s
  · exact marks_refl s


theorem bitsEqual_of_bits {s s' : VM} (h : s'.bits = s.bits) (hb : BitsEqual s) :
    BitsEqual s' := by
  intro o ho
  have hm : (o.addr, o.isMarked, o.isOnCurrentGC) ∈ s'.bits :=
    List.mem_map.2 ⟨o, ho, rfl⟩
  rw [h] at hm
  obtain ⟨x, hx, e⟩ := List.mem_map.1 hm
  have := hb x hx
  simp only [Prod.mk.injEq] at e
  rw [← e.2.1, ← e.2.2]
  exact this

theorem bitsEqual_allocateObject (over : Bool) (payload : Payload) (s : VM) (h : BitsEqual s) :
    BitsEqual (allocateObject over payload s).2 := by
  intro o ho
  have hr := (marks_reallocate over s).bits h
  unfold allocateObject at ho
  simp only [List.mem_cons] at ho
  rcases ho with rfl | ho
  · rfl
  · exact hr o ho

/-- In every state of a run the two header bits of every object agree. -/
theorem bitsEqual_of_run {s : VM} (h : Run s) : BitsEqual s := by
  induction h with
  | init => intro o ho; cases ho
  | allocate over payload _ ih => exact bitsEqual_allocateObject over payload _ ih
  | mark object _ ih => exact (marks_markObject object _).bits ih
  | collect _ ih => exact (marks_collectGarbage _).bits ih
  | mutate _ hm ih => exact bitsEqual_of_bits hm.bits ih

theorem payloadAt_eq_skeleton (s : VM) (a : Nat) :
    s.payloadAt a = (s.skeleton.find? fun p => p.1 = a).map fun p => p.2 := by
  unfold VM.payloadAt VM.objectAt VM.skeleton
  rw [List.find?_map, Option.map_map]
  rfl

theorem payloadAt_congr {s s' : VM} (h : s'.skeleton = s.skeleton) (a : Nat) :
    s'.payloadAt a = s.payloadAt a := by
  rw [payloadAt_eq_skeleton, payloadAt_eq_skeleton, h]

theorem addrs_eq_skeleton (s : VM) : s.addrs = s.skeleton.map fun p => p.1 := by
  unfold VM.addrs VM.skeleton
  rw [List.map_map]
  rfl

theorem roots_congr {s s' : VM} (h : Marks s s') : roots s' = roots s := by
  unfold roots
  rw [h.stack, h.frames, h.openUpvalues, h.globals, h.compilerRoots, h.initString]

theorem reach_congr {s s' : VM} (hr : roots s' = roots s)
    (hp : ∀ a, s'.payloadAt a = s.payloadAt a) {a : Nat} (h : Reach s a) : Reach s' a := by
  induction h with
  | root h => exact Reach.root (by rw [hr]; exact h)
  | edge _ h1 h2 ih => exact Reach.edge ih (by rw [hp]; exact h1) h2

theorem not_reach_of_no_roots {s : VM} (h : roots s = []) (a : Nat) : ¬ Reach s a := by
  intro hr
  induction hr with
  | root h' => rw [h] at h'; cases h'
  | edge _ _ _ ih => exact ih


/-! ### The string table -/

theorem stringAt_congr {s s' : VM} (h : s'.skeleton = s.skeleton) (a : Nat) :
    s'.stringAt a = s.stringAt a := by
  unfold VM.stringAt
  rw [payloadAt_congr h]

theorem addr_lt_of_payloadAt {s : VM} (hf : ∀ o ∈ s.objects, o.addr < s.fresh) {a : Nat}
    {p : Payload} (h : s.payloadAt a = some p) : a < s.fresh := by
  unfold VM.payloadAt VM.objectAt at h
  cases hfind : s.objects.find? (fun o => o.addr = a) with
  | none => rw [hfind] at h; cases h
  | some o =>
    have hm := List.mem_of_find?_eq_some hfind
    have ha := List.find?_some hfind
    simp only [decide_eq_true_eq] at ha
    rw [← ha]
    exact hf o hm

theorem addr_lt_of_stringAt {s : VM} (hf : ∀ o ∈ s.objects, o.addr < s.fresh) {a : Nat}
    {c : List Nat × Nat} (h : s.stringAt a = some c) : a < s.fresh := by
  unfold VM.stringAt at h
  cases hp : s.payloadAt a with
  | none => rw [hp] at h; cases h
  | some p => exact addr_lt_of_payloadAt hf hp

theorem Interned.marks {s s' : VM} (h : Interned s) (hm : Marks s s') : Interned s' := by
  have hs := hm.skeleton h.bits
  refine ⟨hm.bits h.bits, fun o ho => ?_, fun k hk => ?_, fun k hk k' hk' c a b h1 h2 => ?_⟩
  · have : o.addr ∈ s'.addrs := List.mem_map.2 ⟨o, ho, rfl⟩
    rw [addrs_eq_skeleton, hs, ← addrs_eq_skeleton] at this
    obtain ⟨x, hx, e⟩ := List.mem_map.1 this
    rw [hm.fresh, ← e]
    exact h.fresh x hx
  · rw [hm.strings] at hk
    rw [stringAt_congr hs]
    exact h.keys k hk
  · rw [hm.strings] at hk hk'
    rw [stringAt_congr hs] at h1 h2
    exact h.unique k hk k' hk' c a b h1 h2

theorem hashString_take (chars : List Nat) (length : Nat) :
    hashString (chars.take length) (chars.take length).length = hashString chars length := by
  unfold hashString
  rw [List.take_length]

/-- The key of the table that holds given bytes is the one `tableFindString`
returns. -/
theorem tableFindString_hit {s : VM} (h : Interned s) {k : Nat} (hk : k ∈ s.strings)
    {b : List Nat} {hb : Nat} (hs : s.stringAt k = some (b, hb)) (chars : List Nat) (length : Nat)
    (hl : length ≤ chars.length) (hc : chars.take length = b) :
    tableFindString s chars length (hashString chars length) = some k := by
  obtain ⟨c0, hc0⟩ := h.keys k hk
  have hb' : b = c0 ∧ hb = hashString c0 c0.length := by
    rw [hs] at hc0
    simpa using hc0
  have hlen : b.length = length := by
    rw [← hc, List.length_take]
    omega
  have hhash : hb = hashString chars length := by
    rw [hb'.2, ← hb'.1, ← hc, hashString_take]
  have hpk : (match s.payloadAt k with
      | some (Payload.string chars' h') =>
        decide (chars'.length = length ∧ h' = hashString chars length ∧
          chars' = chars.take length)
      | _ => false) = true := by
    unfold VM.stringAt at hs
    cases hp : s.payloadAt k with
    | none => rw [hp] at hs; cases hs
    | some p =>
      rw [hp] at hs
      cases p <;> simp at hs
      obtain ⟨rfl, rfl⟩ := hs
      simp [hlen, hhash, hc]
  unfold tableFindString
  cases hf : s.strings.find? (fun k =>
      match s.payloadAt k with
      | some (Payload.string chars' h') =>
        decide (chars'.length = length ∧ h' = hashString chars length ∧
          chars' = chars.take length)
      | _ => false) with
  | none =>
    have := List.find?_eq_none.1 hf k hk
    rw [hpk] at this
    exact absurd rfl this
  | some k' =>
    have hm := List.mem_of_find?_eq_some hf
    have hp' := List.find?_some hf
    have hs' : s.stringAt k' = some (b, hashString chars length) := by
      unfold VM.stringAt
      cases hp : s.payloadAt k' with
      | none => rw [hp] at hp'; simp at hp'
      | some p =>
        rw [hp] at hp'
        cases p <;> simp at hp'
        obtain ⟨_, rfl, rfl⟩ := hp'
        rw [hc]
    rw [h.unique k' hm k hk b _ _ hs' hs]

/-- When `tableFindString` finds nothing, no key of the table holds the bytes. -/
theorem tableFindString_miss {s : VM} (h : Interned s) (chars : List Nat) (length : Nat)
    (hl : length ≤ chars.length)
    (hn : tableFindString s chars length (hashString chars length) = none) :
    ∀ k ∈ s.strings, ∀ hb, s.stringAt k ≠ some (chars.take length, hb) := by
  intro k hk hb hs
  have := tableFindString_hit h hk hs chars length hl rfl
  rw [hn] at this
  cases this


theorem payloadAt_of_objects {s t : VM} (ho : t.objects = s.objects) (a : Nat) :
    t.payloadAt a = s.payloadAt a := by
  unfold VM.payloadAt VM.objectAt
  rw [ho]

theorem stringAt_of_objects {s t : VM} (ho : t.objects = s.objects) (a : Nat) :
    t.stringAt a = s.stringAt a := by
  unfold VM.stringAt
  rw [payloadAt_of_objects ho]

theorem Interned.congr {s t : VM} (h : Interned s) (ho : t.objects = s.objects)
    (hf : t.fresh = s.fresh) (hs : t.strings = s.strings) : Interned t := by
  refine ⟨fun o hm => h.bits o (by rw [← ho]; exact hm), fun o hm => ?_, fun k hk => ?_,
    fun k hk k' hk' c a b h1 h2 => ?_⟩
  · rw [hf]
    exact h.fresh o (by rw [← ho]; exact hm)
  · rw [stringAt_of_objects ho]
    exact h.keys k (by rw [← hs]; exact hk)
  · rw [stringAt_of_objects ho] at h1 h2
    exact h.unique k (by rw [← hs]; exact hk) k' (by rw [← hs]; exact hk') c a b h1 h2

/-- The fields at an address after a new object became the head of the list. -/
theorem payloadAt_cons (s : VM) (p : Payload) (a : Nat) :
    VM.payloadAt
        { s with
          objects := { addr := s.fresh, isMarked := false, isOnCurrentGC := false,
                       payload := p } :: s.objects,
          fresh := s.fresh + 1 } a =
      if s.fresh = a then some p else s.payloadAt a := by
  unfold VM.payloadAt VM.objectAt
  simp only [List.find?_cons]
  by_cases h : s.fresh = a
  · simp [h]
  · simp [h]

theorem stringAt_cons_old (s : VM) (hf : ∀ o ∈ s.objects, o.addr < s.fresh) (p : Payload)
    (a : Nat) (c : List Nat × Nat) (h : s.stringAt a = some c) :
    VM.stringAt
        { s with
          objects := { addr := s.fresh, isMarked := false, isOnCurrentGC := false,
                       payload := p } :: s.objects,
          fresh := s.fresh + 1 } a = some c := by
  have hlt := addr_lt_of_stringAt hf h
  unfold VM.stringAt at h ⊢
  rw [payloadAt_cons, if_neg (by omega)]
  exact h

/-- A new object keeps the string table sound. -/
theorem interned_cons {s : VM} (h : Interned s) (p : Payload) :
    Interned
      { s with
        objects := { addr := s.fresh, isMarked := false, isOnCurrentGC := false,
                     payload := p } :: s.objects,
        fresh := s.fresh + 1 } := by
  refine ⟨fun o ho => ?_, fun o ho => ?_, fun k hk => ?_, fun k hk k' hk' c a b h1 h2 => ?_⟩
  · simp only [List.mem_cons] at ho
    rcases ho with rfl | ho
    · rfl
    · exact h.bits o ho
  · simp only [List.mem_cons] at ho
    rcases ho with rfl | ho
    · exact Nat.lt_succ_self _
    · exact Nat.lt_succ_of_lt (h.fresh o ho)
  · obtain ⟨c, hc⟩ := h.keys k hk
    exact ⟨c, stringAt_cons_old s h.fresh p k _ hc⟩
  · obtain ⟨c1, hc1⟩ := h.keys k hk
    obtain ⟨c2, hc2⟩ := h.keys k' hk'
    have e1 := stringAt_cons_old s h.fresh p k _ hc1
    have e2 := stringAt_cons_old s h.fresh p k' _ hc2
    rw [e1] at h1
    rw [e2] at h2
    simp only [Option.some.injEq, Prod.mk.injEq] at h1 h2
    refine h.unique k hk k' hk' c _ _ (by rw [hc1, h1.1]) (by rw [hc2, h2.1])

/-- A key that is added to a sound table keeps it sound when it is a string
object with the hash of its bytes and no key had these bytes. -/
theorem interned_add_key {s : VM} (h : Interned s) (key : Nat) (b : List Nat)
    (hs : s.stringAt key = some (b, hashString b b.length))
    (hnew : ∀ k ∈ s.strings, ∀ hb, s.stringAt k ≠ some (b, hb)) :
    Interned { s with strings := s.strings ++ [key] } := by
  refine ⟨h.bits, h.fresh, fun k hk => ?_, fun k hk k' hk' c x y h1 h2 => ?_⟩
  · simp only [List.mem_append, List.mem_singleton] at hk
    rcases hk with hk | rfl
    · exact h.keys k hk
    · exact ⟨b, hs⟩
  · simp only [List.mem_append, List.mem_singleton] at hk hk'
    have h1' : s.stringAt k = some (c, x) := h1
    have h2' : s.stringAt k' = some (c, y) := h2
    rcases hk with hk | rfl <;> rcases hk' with hk' | rfl
    · exact h.unique k hk k' hk' c x y h1' h2'
    · rw [hs] at h2'
      simp only [Option.some.injEq, Prod.mk.injEq] at h2'
      exact absurd (by rw [h1', h2'.1]) (hnew k hk x)
    · rw [hs] at h1'
      simp only [Option.some.injEq, Prod.mk.injEq] at h1'
      exact absurd (by rw [h2', h1'.1]) (hnew k' hk' y)
    · rfl

/-- The function `allocateObject` on a sound table. -/
theorem allocateObject_spec {s : VM} (h : Interned s) (over : Bool) (p : Payload) :
    (allocateObject over p s).1 = s.fresh ∧ Interned (allocateObject over p s).2 ∧
      (allocateObject over p s).2.payloadAt s.fresh = some p ∧
      (allocateObject over p s).2.strings = s.strings ∧
      (allocateObject over p s).2.stack = s.stack ∧
      ∀ k c, s.stringAt k = some c → (allocateObject over p s).2.stringAt k = some c := by
  have m1 := marks_reallocate over s
  have i1 := h.marks m1
  have sk1 := m1.skeleton h.bits
  unfold allocateObject
  dsimp only
  generalize reallocate over s = s1 at *
  refine ⟨m1.fresh, interned_cons i1 p, ?_, m1.strings, m1.stack, fun k c hc => ?_⟩
  · rw [← m1.fresh, payloadAt_cons, if_pos rfl]
  · exact stringAt_cons_old s1 i1.fresh p k c (by rw [stringAt_congr sk1]; exact hc)

/-- The function `tableSet` on a sound string table, for a key that is a
string object with bytes no other key has. -/
theorem tableSet_spec {s : VM} (h : Interned s) (grow : Option Bool) (key : Nat) (b : List Nat)
    (hs : s.stringAt key = some (b, hashString b b.length))
    (hnew : ∀ k ∈ s.strings, k ≠ key → ∀ hb, s.stringAt k ≠ some (b, hb)) :
    Interned (tableSet grow key s) ∧ key ∈ (tableSet grow key s).strings ∧
      (tableSet grow key s).stringAt key = some (b, hashString b b.length) ∧
      (tableSet grow key s).stack = s.stack := by
  have m1 : Marks s (match grow with
      | some over => reallocate over s
      | none => s) := by
    cases grow with
    | none => exact marks_refl s
    | some over => exact marks_reallocate over s
  have i1 := h.marks m1
  have sk1 := m1.skeleton h.bits
  unfold tableSet
  dsimp only
  generalize (match grow with
      | some over => reallocate over s
      | none => s) = s1 at *
  have hs1 : s1.stringAt key = some (b, hashString b b.length) := by
    rw [stringAt_congr sk1]; exact hs
  split
  · rename_i hin
    exact ⟨i1, hin, hs1, m1.stack⟩
  · rename_i hin
    refine ⟨interned_add_key i1 key b hs1 (fun k hk hb => ?_), by simp, ?_, m1.stack⟩
    · rw [stringAt_congr sk1]
      refine hnew k (by rw [← m1.strings]; exact hk) (fun e => hin (by rw [← e]; exact hk)) hb
    · exact hs1

/-- The function `allocateString` on a sound table that has no key with the
bytes: the new object is a key of the table, the table is sound, and the stack
is as before. -/
theorem allocateString_spec {s : VM} (h : Interned s) (over : Bool) (grow : Option Bool)
    (chars : List Nat) (length : Nat)
    (hnew : ∀ k ∈ s.strings, ∀ hb, s.stringAt k ≠ some (chars.take length, hb)) :
    Interned (allocateString over grow chars length (hashString chars length) s).2 ∧
      (allocateString over grow chars length (hashString chars length) s).1 ∈
        (allocateString over grow chars length (hashString chars length) s).2.strings ∧
      (allocateString over grow chars length (hashString chars length) s).2.stringAt
          (allocateString over grow chars length (hashString chars length) s).1 =
        some (chars.take length, hashString chars length) ∧
      (allocateString over grow chars length (hashString chars length) s).1 = s.fresh ∧
      (allocateString over grow chars length (hashString chars length) s).2.stack = s.stack := by
  obtain ⟨a1, a2, a3, a4, a5, a6⟩ := allocateObject_spec h over
    (Payload.string (chars.take length) (hashString chars length))
  unfold allocateString
  dsimp only
  generalize allocateObject over (Payload.string (chars.take length) (hashString chars length))
    s = r at *
  obtain ⟨p, t⟩ := r
  dsimp only at a1 a2 a3 a4 a5 a6 ⊢
  subst a1
  have hst : VM.stringAt { t with stack := t.stack ++ [Value.obj s.fresh] } s.fresh =
      some (chars.take length,
        hashString (chars.take length) (chars.take length).length) := by
    rw [hashString_take]
    unfold VM.stringAt
    rw [show VM.payloadAt { t with stack := t.stack ++ [Value.obj s.fresh] } s.fresh =
      t.payloadAt s.fresh from rfl, a3]
  obtain ⟨b1, b2, b3, b4⟩ := tableSet_spec
    (a2.congr (t := { t with stack := t.stack ++ [Value.obj s.fresh] }) rfl rfl rfl) grow
    s.fresh (chars.take length) hst (fun k hk hne hb hh => by
      have hk' : k ∈ s.strings := by rw [← a4]; exact hk
      obtain ⟨c, hc⟩ := h.keys k hk'
      have := a6 k _ hc
      rw [show VM.stringAt { t with stack := t.stack ++ [Value.obj s.fresh] } k =
        t.stringAt k from rfl, this] at hh
      simp only [Option.some.injEq, Prod.mk.injEq] at hh
      exact hnew k hk' _ (by rw [hc, hh.1]))
  generalize tableSet grow s.fresh { t with stack := t.stack ++ [Value.obj s.fresh] } = u at *
  refine ⟨b1.congr rfl rfl rfl, b2, ?_, rfl, ?_⟩
  · rw [← hashString_take]
    exact b3
  · show u.stack.dropLast = s.stack
    rw [b4]
    show (t.stack ++ [Value.obj s.fresh]).dropLast = s.stack
    rw [List.dropLast_concat, a5]


theorem tableFindString_some {s : VM} {chars : List Nat} {length hash k : Nat}
    (h : tableFindString s chars length hash = some k) :
    k ∈ s.strings ∧ s.stringAt k = some (chars.take length, hash) := by
  unfold tableFindString at h
  have hm := List.mem_of_find?_eq_some h
  have hp := List.find?_some h
  refine ⟨hm, ?_⟩
  unfold VM.stringAt
  cases hq : s.payloadAt k with
  | none => rw [hq] at hp; simp at hp
  | some p =>
    rw [hq] at hp
    cases p <;> simp at hp
    obtain ⟨_, rfl, rfl⟩ := hp
    rfl

theorem hashString_take_self (chars : List Nat) (length : Nat) :
    hashString (chars.take length) length = hashString chars length := by
  unfold hashString
  rw [List.take_take, Nat.min_self]

/-- What `takeString` returns on a sound table. -/
theorem takeString_spec {s : VM} (h : Interned s) (over : Bool) (grow : Option Bool)
    (chars : List Nat) (length : Nat) (hl : length ≤ chars.length) :
    Interned (takeString over grow chars length s).2 ∧
      (takeString over grow chars length s).1 ∈ (takeString over grow chars length s).2.strings ∧
      (takeString over grow chars length s).2.stringAt (takeString over grow chars length s).1 =
        some (chars.take length, hashString chars length) := by
  unfold takeString
  dsimp only
  cases hf : tableFindString s chars length (hashString chars length) with
  | some k => exact ⟨h, (tableFindString_some hf).1, (tableFindString_some hf).2⟩
  | none =>
    obtain ⟨a1, a2, a3, -, -⟩ := allocateString_spec h over grow chars length
      (tableFindString_miss h chars length hl hf)
    exact ⟨a1, a2, a3⟩

/-- What `copyString` returns on a sound table. -/
theorem copyString_spec {s : VM} (h : Interned s) (overChars over : Bool) (grow : Option Bool)
    (chars : List Nat) (length : Nat) (hl : length ≤ chars.length) :
    Interned (copyString overChars over grow chars length s).2 ∧
      (copyString overChars over grow chars length s).1 ∈
        (copyString overChars over grow chars length s).2.strings ∧
      (copyString overChars over grow chars length s).2.stringAt
          (copyString overChars over grow chars length s).1 =
        some (chars.take length, hashString chars length) := by
  unfold copyString
  dsimp only
  cases hf : tableFindString s chars length (hashString chars length) with
  | some k => exact ⟨h, (tableFindString_some hf).1, (tableFindString_some hf).2⟩
  | none =>
    have m1 := marks_reallocate overChars s
    have i1 := h.marks m1
    have sk1 := m1.skeleton h.bits
    have hnew := tableFindString_miss h chars length hl hf
    generalize reallocate overChars s = s1 at *
    have hnew1 : ∀ k ∈ s1.strings, ∀ hb,
        s1.stringAt k ≠ some ((chars.take length).take length, hb) := by
      intro k hk hb
      rw [stringAt_congr sk1, List.take_take, Nat.min_self]
      exact hnew k (by rw [← m1.strings]; exact hk) hb
    obtain ⟨a1, a2, a3, -, -⟩ := allocateString_spec i1 over grow (chars.take length) length
      hnew1
    rw [hashString_take_self] at a1 a2 a3
    rw [List.take_take, Nat.min_self] at a3
    exact ⟨a1, a2, a3⟩

/-- On a sound table both functions return the key that holds the bytes and
leave the state as it is. -/
theorem intern_again {s : VM} (h : Interned s) {k : Nat} (hk : k ∈ s.strings) {b : List Nat}
    {hb : Nat} (hs : s.stringAt k = some (b, hb)) (overChars over : Bool) (grow : Option Bool)
    (chars : List Nat) (length : Nat) (hl : length ≤ chars.length)
    (hc : chars.take length = b) :
    copyString overChars over grow chars length s = (k, s) ∧
      takeString over grow chars length s = (k, s) := by
  have hf := tableFindString_hit h hk hs chars length hl hc
  unfold copyString takeString
  dsimp only
  rw [hf]
  exact ⟨rfl, rfl⟩

theorem interned_init : Interned VM.init :=
  ⟨fun _ h => (by cases h), fun _ h => (by cases h), fun _ h => (by cases h),
    fun _ h => (by cases h)⟩

end Mem

namespace Mem

open GCPhase

/-! ### The phase and the cursor -/

theorem markObject_gcPhase (object : Option Nat) (s : VM) :
    (markObject object s).gcPhase = s.gcPhase ∧
      (markObject object s).currentMarkIndex = s.currentMarkIndex := by
  unfold markObject
  split
  · exact ⟨rfl, rfl⟩
  · split
    · exact ⟨rfl, rfl⟩
    · split <;> exact ⟨rfl, rfl⟩

theorem markValue_gcPhase (value : Value) (s : VM) :
    (markValue value s).gcPhase = s.gcPhase ∧
      (markValue value s).currentMarkIndex = s.currentMarkIndex := by
  unfold markValue
  split
  · exact markObject_gcPhase _ _
  · exact ⟨rfl, rfl⟩

theorem foldl_gcPhase {α : Type} (f : VM → α → VM)
    (hf : ∀ s x, (f s x).gcPhase = s.gcPhase ∧ (f s x).currentMarkIndex = s.currentMarkIndex)
    (l : List α) (s : VM) :
    (l.foldl f s).gcPhase = s.gcPhase ∧ (l.foldl f s).currentMarkIndex = s.currentMarkIndex := by
  induction l generalizing s with
  | nil => exact ⟨rfl, rfl⟩
  | cons x l ih =>
    exact ⟨(ih _).1.trans (hf s x).1, (ih _).2.trans (hf s x).2⟩

theorem markStackLoop_gcPhase (fuel : Nat) (s : VM) :
    (markStackLoop fuel s).2.gcPhase = s.gcPhase := by
  induction fuel generalizing s with
  | zero => rfl
  | succ k ih =>
    unfold markStackLoop
    split
    · dsimp only
      split
      · exact (markValue_gcPhase _ s).1
      · rw [ih]
        exact (markValue_gcPhase _ s).1
    · rfl

theorem markFrameLoop_gcPhase (fuel : Nat) (s : VM) :
    (markFrameLoop fuel s).2.gcPhase = s.gcPhase := by
  induction fuel generalizing s with
  | zero => rfl
  | succ k ih =>
    unfold markFrameLoop
    split
    · dsimp only
      split
      · exact (markObject_gcPhase _ s).1
      · rw [ih]
        exact (markObject_gcPhase _ s).1
    · rfl

theorem markUpvalueLoop_gcPhase (l : List Nat) (s : VM) :
    (markUpvalueLoop l s).2.gcPhase = s.gcPhase := by
  induction l generalizing s with
  | nil => rfl
  | cons u l ih =>
    unfold markUpvalueLoop
    dsimp only
    split
    · exact (markObject_gcPhase _ s).1
    · rw [ih]
      exact (markObject_gcPhase _ s).1

/-- The function `markRoots` leaves the phase as it is or sets it to Sweep. -/
theorem markRoots_gcPhase (s : VM) :
    (markRoots s).gcPhase = s.gcPhase ∨ (markRoots s).gcPhase = GC_SWEEP_PHASE := by
  unfold markRoots
  dsimp only
  split
  · exact Or.inl (markStackLoop_gcPhase _ _)
  · split
    · left
      rw [markFrameLoop_gcPhase]
      exact markStackLoop_gcPhase _ _
    · split
      · left
        rw [markUpvalueLoop_gcPhase, markFrameLoop_gcPhase]
        exact markStackLoop_gcPhase _ _
      · exact Or.inr rfl

end Mem
namespace Mem

open GCPhase

/-- Every object that `sweep` leaves has both bits cleared. -/
theorem sweepList_bits (l : List Obj) :
    ∀ o ∈ sweepList l, o.isMarked = false ∧ o.isOnCurrentGC = false := by
  induction l with
  | nil => intro o ho; cases ho
  | cons x l ih =>
    intro o ho
    unfold sweepList at ho
    by_cases hm : x.isMarked = true
    · rw [if_pos hm] at ho
      rcases List.mem_cons.1 ho with rfl | ho
      · exact ⟨rfl, rfl⟩
      · exact ih o ho
    · rw [if_neg hm] at ho
      by_cases hg : x.isOnCurrentGC = true
      · rw [if_pos hg] at ho
        exact ih o ho
      · rw [if_neg hg] at ho
        rcases List.mem_cons.1 ho with rfl | ho
        · exact ⟨by simpa using hm, by simpa using hg⟩
        · exact ih o ho

theorem collectGarbage_sweep (s : VM) (h : s.gcPhase = GC_SWEEP_PHASE) :
    collectGarbage s = { sweep s with gcPhase := GC_IDLE_PHASE } := by
  unfold collectGarbage
  rw [h]

theorem collectGarbage_idle (s : VM) (h : s.gcPhase = GC_IDLE_PHASE) :
    collectGarbage s = { s with gcPhase := GC_MARK_PHASE, currentMarkIndex := 0 } := by
  unfold collectGarbage
  rw [h]

theorem collectGarbage_mark (s : VM) (h : s.gcPhase = GC_MARK_PHASE) :
    collectGarbage s =
      if (markRoots s).gcPhase ≠ GC_MARK_PHASE then
        { markRoots s with gcPhase := GC_SWEEP_PHASE }
      else markRoots s := by
  unfold collectGarbage
  rw [h]

/-- With eight call frames or more, the second loop of `markRoots` returns from
inside the loop whenever it starts below 8. -/
theorem markFrameLoop_returns (fuel : Nat) :
    ∀ s : VM, s.currentMarkIndex < 8 → 8 ≤ s.frames.length →
      8 - s.currentMarkIndex ≤ fuel → (markFrameLoop fuel s).1 = true := by
  induction fuel with
  | zero => intro s h1 _ h3; omega
  | succ k ih =>
    intro s h1 h2 h3
    unfold markFrameLoop
    rw [if_pos (by omega)]
    dsimp only
    have hc := (markObject_gcPhase (s.frames.getD s.currentMarkIndex none) s).2
    have hf := (marks_markObject (s.frames.getD s.currentMarkIndex none) s).frames
    split
    · rfl
    · rename_i hmod
      rw [hc] at hmod
      refine ih _ ?_ ?_ ?_
      · show (markObject _ s).currentMarkIndex + 1 < 8
        rw [hc]
        omega
      · show 8 ≤ (markObject _ s).frames.length
        rw [hf]
        exact h2
      · show 8 - ((markObject _ s).currentMarkIndex + 1) ≤ k
        rw [hc]
        omega

/-- With eight call frames or more `markRoots` never reaches its end. -/
theorem markRoots_stays (s : VM) (h : 8 ≤ s.frames.length) :
    (markRoots s).gcPhase = s.gcPhase := by
  unfold markRoots
  dsimp only
  have hf := (marks_markStackLoop (s.stack.length + 1) s).frames
  split
  · exact markStackLoop_gcPhase _ _
  · have h8 : 8 ≤ (markStackLoop (s.stack.length + 1) s).2.frames.length := by
      rw [hf]; exact h
    have hret := markFrameLoop_returns ((markStackLoop (s.stack.length + 1) s).2.frames.length + 1)
      { (markStackLoop (s.stack.length + 1) s).2 with currentMarkIndex := 0 }
      (Nat.succ_pos 7) h8 (Nat.le_succ_of_le h8)
    rw [if_pos hret, markFrameLoop_gcPhase]
    exact markStackLoop_gcPhase _ _

theorem collectGarbage_stays (s : VM) (hp : s.gcPhase = GC_MARK_PHASE)
    (h : 8 ≤ s.frames.length) :
    (collectGarbage s).gcPhase = GC_MARK_PHASE ∧ (collectGarbage s).frames = s.frames := by
  have hm := markRoots_stays s h
  rw [hp] at hm
  rw [collectGarbage_mark s hp, if_neg (by rw [hm]; simp)]
  exact ⟨hm, (marks_markRoots s).frames⟩

end Mem

/-! ### Keywords -/

namespace Scan

theorem width_lexeme (l rest : List Nat) (line : Nat) :
    width { start := l ++ rest, current := rest, line := line } = l.length := by
  simp [width]

/-- The comparison `memcmp` on a lexeme that is long enough. -/
theorem memcmpStart_lexeme (l rest : List Nat) (line start length : Nat) (kw : String)
    (h : start + length ≤ l.length) :
    memcmpStart { start := l ++ rest, current := rest, line := line } start length kw =
      ((l.drop start).take length == (cstr kw).take length) := by
  unfold memcmpStart
  simp only
  rw [List.drop_append_of_le_length (by omega), List.take_append_of_le_length (by
    rw [List.length_drop]; omega)]

theorem startAt_zero_lexeme (a : Nat) (t rest : List Nat) (line : Nat) :
    startAt { start := (a :: t) ++ rest, current := rest, line := line } 0 = a := rfl

theorem startAt_one_lexeme (a b : Nat) (t rest : List Nat) (line : Nat) :
    startAt { start := (a :: b :: t) ++ rest, current := rest, line := line } 1 = b := rfl

/-- The function `checkKeyword` on a lexeme: the keyword is recognised exactly
when the lexeme from `start` on is the rest of the keyword. -/
theorem checkKeyword_lexeme (l rest : List Nat) (line start length : Nat) (kw : String)
    (type : TokenType) (hk : (cstr kw).length = length) (hs : start ≤ l.length) :
    checkKeyword { start := l ++ rest, current := rest, line := line } start length kw type =
      if l.drop start = cstr kw then type else TOKEN_IDENTIFIER := by
  unfold checkKeyword
  rw [width_lexeme]
  by_cases hw : l.length = start + length
  · rw [memcmpStart_lexeme l rest line start length kw (by omega)]
    have h1 : (l.drop start).take length = l.drop start := by
      apply List.take_of_length_le
      rw [List.length_drop]; omega
    have h2 : (cstr kw).take length = cstr kw := by
      apply List.take_of_length_le
      omega
    rw [h1, h2]
    by_cases he : l.drop start = cstr kw
    · simp [hw, he]
    · simp [hw, he]
  · have hne : l.drop start ≠ cstr kw := by
      intro he
      have := congrArg List.length he
      rw [List.length_drop, hk] at this
      omega
    simp [hw, hne]

end Scan
namespace Scan

theorem cstr_keywords :
    cstr "and" = [97, 110, 100] ∧ cstr "or" = [111, 114] ∧ cstr "if" = [105, 102] ∧
    cstr "else" = [101, 108, 115, 101] ∧ cstr "while" = [119, 104, 105, 108, 101] ∧
    cstr "for" = [102, 111, 114] ∧ cstr "return" = [114, 101, 116, 117, 114, 110] ∧
    cstr "var" = [118, 97, 114] ∧ cstr "def" = [100, 101, 102] ∧
    cstr "struct" = [115, 116, 114, 117, 99, 116] ∧ cstr "super" = [115, 117, 112, 101, 114] ∧
    cstr "self" = [115, 101, 108, 102] ∧ cstr "true" = [116, 114, 117, 101] ∧
    cstr "false" = [102, 97, 108, 115, 101] ∧ cstr "null" = [110, 117, 108, 108] ∧
    cstr "print" = [112, 114, 105, 110, 116] ∧
    cstr "println" = [112, 114, 105, 110, 116, 108, 110] ∧
    cstr "import" = [105, 109, 112, 111, 114, 116] := by
  decide

theorem cstr_rests :
    cstr "nd" = [110, 100] ∧ cstr "ef" = [101, 102] ∧ cstr "lse" = [108, 115, 101] ∧
    cstr "r" = [114] ∧ cstr "" = [] ∧ cstr "port" = [112, 111, 114, 116] ∧
    cstr "ull" = [117, 108, 108] ∧ cstr "rint" = [114, 105, 110, 116] ∧ cstr "ln" = [108, 110] ∧
    cstr "eturn" = [101, 116, 117, 114, 110] ∧ cstr "per" = [112, 101, 114] ∧
    cstr "lf" = [108, 102] ∧ cstr "ruct" = [114, 117, 99, 116] ∧ cstr "ue" = [117, 101] ∧
    cstr "ar" = [97, 114] ∧ cstr "hile" = [104, 105, 108, 101] := by
  decide

/-- On a lexeme of one byte `identifierType` returns Identifier. -/
theorem identifierType_one (a : Nat) (rest : List Nat) (line : Nat) :
    identifierType { start := [a] ++ rest, current := rest, line := line } = TOKEN_IDENTIFIER := by
  obtain ⟨r1, r2, r3, r4, r5, r6, r7, r8, r9, r10, r11, r12, r13, r14, r15, r16⟩ := cstr_rests
  have ck : ∀ (length : Nat) (kw : String) (type : TokenType), (cstr kw).length = length →
      0 < length →
      checkKeyword { start := [a] ++ rest, current := rest, line := line } 1 length kw type =
        TOKEN_IDENTIFIER := by
    intro length kw type hk hpos
    rw [checkKeyword_lexeme [a] rest line 1 length kw type hk (by simp)]
    rw [if_neg]
    intro he
    have := congrArg List.length he
    simp at this
    omega
  have hw : width { start := [a] ++ rest, current := rest, line := line } = 1 :=
    width_lexeme [a] rest line
  unfold identifierType
  simp only [hw, ck 2 "nd" _ rfl (by decide), ck 2 "ef" _ rfl (by decide),
    ck 3 "lse" _ rfl (by decide), ck 3 "ull" _ rfl (by decide), ck 1 "r" _ rfl (by decide),
    ck 5 "eturn" _ rfl (by decide), ck 2 "ar" _ rfl (by decide), ck 4 "hile" _ rfl (by decide)]
  simp

end Scan
namespace Scan

set_option maxHeartbeats 4000000 in
/-- On a lexeme of two bytes or more `identifierType` is the keyword table. -/
theorem identifierType_two (a b : Nat) (t rest : List Nat) (line : Nat) :
    identifierType { start := (a :: b :: t) ++ rest, current := rest, line := line } =
      keywordKind (a :: b :: t) := by
  obtain ⟨r1, r2, r3, r4, r5, r6, r7, r8, r9, r10, r11, r12, r13, r14, r15, r16⟩ := cstr_rests
  obtain ⟨k1, k2, k3, k4, k5, k6, k7, k8, k9, k10, k11, k12, k13, k14, k15, k16, k17, k18⟩ :=
    cstr_keywords
  have c1 : ∀ (length : Nat) (kw : String) (type : TokenType), (cstr kw).length = length →
      checkKeyword { start := (a :: b :: t) ++ rest, current := rest, line := line } 1 length kw
          type =
        if b :: t = cstr kw then type else TOKEN_IDENTIFIER := by
    intro length kw type hk
    rw [checkKeyword_lexeme (a :: b :: t) rest line 1 length kw type hk (by simp)]
    rfl
  have c2 : ∀ (length : Nat) (kw : String) (type : TokenType), (cstr kw).length = length →
      checkKeyword { start := (a :: b :: t) ++ rest, current := rest, line := line } 2 length kw
          type =
        if t = cstr kw then type else TOKEN_IDENTIFIER := by
    intro length kw type hk
    rw [checkKeyword_lexeme (a :: b :: t) rest line 2 length kw type hk (by simp)]
    rfl
  have hw : width { start := (a :: b :: t) ++ rest, current := rest, line := line } =
      t.length + 2 := by
    rw [width_lexeme]; rfl
  unfold identifierType keywordKind
  simp only [startAt_zero_lexeme, startAt_one_lexeme, hw, c1 2 "nd" _ rfl, c1 2 "ef" _ rfl,
    c1 3 "lse" _ rfl, c1 3 "ull" _ rfl, c1 1 "r" _ rfl, c1 5 "eturn" _ rfl, c1 2 "ar" _ rfl,
    c1 4 "hile" _ rfl, c2 3 "lse" _ rfl, c2 1 "r" _ rfl, c2 0 "" _ rfl, c2 4 "port" _ rfl,
    c2 3 "per" _ rfl, c2 2 "lf" _ rfl, c2 4 "ruct" _ rfl, c2 2 "ue" _ rfl,
    r1, r2, r3, r4, r5, r6, r7, r8, r9, r10, r11, r12, r13, r14, r15, r16,
    k1, k2, k3, k4, k5, k6, k7, k8, k9, k10, k11, k12, k13, k14, k15, k16, k17, k18]
  simp only [beq_iff_eq, List.cons.injEq, gt_iff_lt, ge_iff_le, Bool.and_eq_true, decide_eq_true_eq]
  by_cases h1 : a = 97
  · subst h1; simp
  by_cases h2 : a = 100
  · subst h2; simp
  by_cases h3 : a = 101
  · subst h3; simp
  by_cases h4 : a = 102
  · subst h4
    simp
    split_ifs <;> simp_all
  by_cases h5 : a = 105
  · subst h5
    simp
    split_ifs <;> simp_all
  by_cases h6 : a = 110
  · subst h6; simp
  by_cases h7 : a = 111
  · subst h7; simp
  by_cases h8 : a = 112
  · subst h8
    rcases t with _ | ⟨c, _ | ⟨d, _ | ⟨e, _ | ⟨f, _ | ⟨g, _ | ⟨h, t⟩⟩⟩⟩⟩⟩
    · simp
    · simp
    · simp
    · simp [memcmpStart, r8]
    · simp [memcmpStart, r8]
    · simp [memcmpStart, r8, r9]
      split_ifs <;> simp_all
    · simp [memcmpStart, r8]
  by_cases h9 : a = 114
  · subst h9; simp
  by_cases h10 : a = 115
  · subst h10
    simp
    split_ifs <;> simp_all
  by_cases h11 : a = 116
  · subst h11
    simp
    split_ifs <;> simp_all
  by_cases h12 : a = 118
  · subst h12; simp
  by_cases h13 : a = 119
  · subst h13; simp
  simp [h1, h2, h3, h4, h5, h6, h7, h8, h9, h10, h11, h12, h13]

theorem keywordKind_one (a : Nat) : keywordKind [a] = TOKEN_IDENTIFIER := by
  obtain ⟨k1, k2, k3, k4, k5, k6, k7, k8, k9, k10, k11, k12, k13, k14, k15, k16, k17, k18⟩ :=
    cstr_keywords
  unfold keywordKind
  simp only [k1, k2, k3, k4, k5, k6, k7, k8, k9, k10, k11, k12, k13, k14, k15, k16, k17, k18]
  simp

/-- On the lexeme of an identifier `identifierType` is the keyword table. -/
theorem identifierType_lexeme (a : Nat) (t rest : List Nat) (line : Nat) :
    identifierType { start := (a :: t) ++ rest, current := rest, line := line } =
      keywordKind (a :: t) := by
  cases t with
  | nil => rw [keywordKind_one]; exact identifierType_one a rest line
  | cons b t => exact identifierType_two a b t rest line

theorem identifierLoop_word (t rest : List Nat) (ht : ∀ c ∈ t, isWordByte c = true)
    (hr : isWordByte (rest.headD 0) = false) : identifierLoop (t ++ rest) = rest := by
  induction t with
  | nil =>
    cases rest with
    | nil => rfl
    | cons c r =>
      have : (isAlpha c || isDigit c) = false := hr
      simp only [List.nil_append, identifierLoop, this, Bool.false_eq_true, if_false]
  | cons c t ih =>
    have hc : (isAlpha c || isDigit c) = true := ht c (List.mem_cons_self _ _)
    simp only [List.cons_append, identifierLoop, hc, if_true]
    exact ih (fun x hx => ht x (List.mem_cons_of_mem _ hx))

theorem skipWhitespace_alpha (sc : Scanner) (h : isAlpha (peek sc) = true) :
    skipWhitespace sc = sc := by
  unfold skipWhitespace
  rw [skipWhitespaceLoop]
  have ha : (peek sc ≥ 97 ∧ peek sc ≤ 122) ∨ (peek sc ≥ 65 ∧ peek sc ≤ 90) ∨ peek sc = 95 := by
    simpa [isAlpha, or_assoc] using h
  have h1 : ¬ (peek sc = 32 ∨ peek sc = 13 ∨ peek sc = 9) := by omega
  have h2 : peek sc ≠ 10 := by omega
  have h3 : peek sc ≠ 35 := by omega
  simp [h2, h3]
  intro h
  omega

/-- The token `scanToken` returns at a word: its kind is that of the keyword
table, its lexeme is the word. -/
theorem scanToken_word (a : Nat) (t rest : List Nat) (sc : Scanner) (ha : isAlpha a = true)
    (ht : ∀ c ∈ t, isWordByte c = true) (hr : isWordByte (rest.headD 0) = false)
    (hc : sc.current = (a :: t) ++ rest) :
    scanToken sc =
      ({ type := keywordKind (a :: t), start := (a :: t) ++ rest, length := t.length + 1,
         line := sc.line },
        { start := (a :: t) ++ rest, current := rest, line := sc.line }) := by
  have hp : peek sc = a := by unfold peek; rw [hc]; rfl
  have hne : a ≠ 0 := by
    intro h0
    rw [h0] at ha
    exact absurd ha (by decide)
  unfold scanToken
  rw [skipWhitespace_alpha sc (by rw [hp]; exact ha)]
  simp only [isAtEnd, peek, hc, List.cons_append, List.headD_cons, beq_iff_eq, hne, if_false, ha,
    if_true, advance, List.drop_succ_cons, List.drop_zero, identifier,
    identifierLoop_word t rest ht hr]
  have hi := identifierType_lexeme a t rest sc.line
  have hw := width_lexeme (a :: t) rest sc.line
  simp only [List.cons_append] at hi hw
  simp only [makeToken, hi, hw, List.length_cons]

end Scan

/-! ### The end of a method -/

theorem keeps_funOK {s s' : State} (h : Keeps s s') (hok : s.funOK) : s'.funOK := by
  obtain ⟨f, hf⟩ := hok
  have := h.isFunction _ ⟨f, hf⟩
  unfold State.funOK State.cur
  rw [h.function 0]
  exact this

theorem functionAt_setCurrentChunk_ne (s : State) (c : Chunk) (p : Nat)
    (h : p ≠ s.cur.function) : (setCurrentChunk s c).functionAt p = s.functionAt p := by
  unfold setCurrentChunk
  rw [functionAt_setFunctionAt]
  simp [h]

theorem emitByte_functionAt_ne (b : Byte) (s : State) (p : Nat) (h : p ≠ s.cur.function) :
    (emitByte b s).functionAt p = s.functionAt p :=
  functionAt_setCurrentChunk_ne _ _ _ h

theorem emitBytes_functionAt_ne (a b : Byte) (s : State) (p : Nat) (h : p ≠ s.cur.function) :
    (emitBytes a b s).functionAt p = s.functionAt p := by
  unfold emitBytes
  rw [emitByte_functionAt_ne _ _ _ (by simpa using h), emitByte_functionAt_ne _ _ _ h]

theorem error_functionAt (m : String) (s : State) (p : Nat) :
    (error m s).functionAt p = s.functionAt p := by
  have h : (error m s).heap = s.heap := by
    unfold error errorAt
    split <;> rfl
  unfold State.functionAt
  rw [h]

theorem makeConstant_functionAt_ne (v : Value) (s : State) (p : Nat) (h : p ≠ s.cur.function) :
    (makeConstant v s).2.functionAt p = s.functionAt p := by
  unfold makeConstant
  dsimp only
  split
  · rw [error_functionAt, functionAt_setCurrentChunk_ne _ _ _ h]
  · exact functionAt_setCurrentChunk_ne _ _ _ h

theorem emitUpvalues_cur (c : Compiler) (n i : Nat) (s : State) :
    (emitUpvalues c n i s).cur = s.cur := by
  induction n generalizing i s with
  | zero => rfl
  | succ n ih =>
    unfold emitUpvalues
    rw [ih]
    rfl

theorem emitUpvalues_functionAt_ne (c : Compiler) (n i : Nat) (s : State) (p : Nat)
    (h : p ≠ s.cur.function) : (emitUpvalues c n i s).functionAt p = s.functionAt p := by
  induction n generalizing i s with
  | zero => rfl
  | succ n ih =>
    unfold emitUpvalues
    rw [ih _ _ (by simpa using h), emitByte_functionAt_ne _ _ _ (by simpa using h),
      emitByte_functionAt_ne _ _ _ h]

/-- The bytes `emitReturn` appends to the current chunk. -/
theorem emitReturn_code {s : State} (hok : s.funOK) :
    (currentChunk (emitReturn s)).code = (currentChunk s).code ++ implicitReturn s.cur.type ∧
      (emitReturn s).funOK ∧ (emitReturn s).cur = s.cur := by
  unfold emitReturn implicitReturn
  dsimp only
  split
  · refine ⟨?_, emitByte_funOK (emitBytes_funOK hok _ _) _, rfl⟩
    rw [emitByte_code (emitBytes_funOK hok _ _), emitBytes_code hok]
    simp
  · refine ⟨?_, emitByte_funOK (emitByte_funOK hok _) _, rfl⟩
    rw [emitByte_code (emitByte_funOK hok _), emitByte_code hok]
    simp

/-- The compilers inside a function body: what `Keeps` holds from
`initCompiler` to the end of the body. -/
theorem functionBody_inside (fs : List Nat → Option (List Nat)) (m n : Nat)
    (type : FunctionType) (s s1 : State)
    (h : functionBody (declaration fs m) n type s = Except.ok s1) :
    Keeps (initCompiler type s) s1 := by
  have hR := keeps_passes
  have hl : Lands Keeps id (initCompiler type s)
      (functionBody (declaration fs m) n type s) := by
    unfold functionBody
    dsimp only
    have h0 : Keeps (initCompiler type s)
        (consume TOKEN_LEFT_PAREN "Expect '(' after function name."
          (beginScope (initCompiler type s))) :=
      hR.trans (hR.beginScope _) (hR.consume _ _ _)
    refine lands_bind hR (p := id) ?_ (fun b => ?_)
    · exact lands_ite (lands_after hR h0 (lands_parameterLoop hR n _)) (lands_pure h0)
    · refine lands_after hR ?_ (lands_block hR (lands_declaration hR fs m) n _)
      exact hR.trans (hR.consume _ _ _) (hR.consume _ _ _)
  exact hl s1 h

/-- The function object `initCompiler` makes for a type other than Import is
new: it is the next cell of the heap. -/
theorem initCompiler_fresh (type : FunctionType) (s : State) (h : type ≠ TYPE_IMPORT) :
    (initCompiler type s).cur.function = s.heap.length ∧ (initCompiler type s).funOK := by
  have e : (initCompiler type s).cur.function = s.heap.length := by
    unfold initCompiler
    by_cases h2 : type = TYPE_SCRIPT <;>
      simp [h, h2, State.setCur, State.setCompilerAt, State.cur, State.compilerAt, newFunction,
        allocateObject, State.setFunctionAt]
  refine ⟨e, ?_⟩
  unfold State.funOK
  rw [e]
  unfold initCompiler
  by_cases h2 : type = TYPE_SCRIPT <;>
    simp [h, h2, State.setCur, State.setCompilerAt, State.cur, State.compilerAt, newFunction,
      allocateObject, State.setFunctionAt, State.curFunction, State.functionAt]

theorem namedInit_iff_lexeme (name : Token) (h : name.length ≤ name.start.length) :
    namedInit name = true ↔ name.lexeme = cstr "init" := by
  unfold namedInit Token.lexeme
  rw [decide_eq_true_iff]
  constructor
  · rintro ⟨h4, ht⟩
    rw [h4]; exact ht
  · intro ht
    have hl := congrArg List.length ht
    rw [List.length_take, Nat.min_eq_left h] at hl
    have h4 : name.length = 4 := by rw [hl]; rfl
    exact ⟨h4, by rw [← h4]; exact ht⟩

/-- The chunk of a function or method, from the end of its body to the state
`function` returns: `endCompiler` appends the implicit return, and what
`function` emits afterwards goes to the enclosing chunk. -/
theorem function_chunk_end (fs : List Nat → Option (List Nat)) (m n : Nat)
    (type : FunctionType) (s s1 : State) (hok : s.funOK) (ht : type ≠ TYPE_IMPORT)
    (hbody : functionBody (declaration fs m) n type s = Except.ok s1) :
    ∃ s', function (declaration fs m) n type s = Except.ok s' ∧
      s1.cur.type = type ∧ s1.cur.function ≠ s'.cur.function ∧
      (s'.functionAt s1.cur.function).chunk.code =
        (currentChunk s1).code ++ implicitReturn type := by
  have hin := functionBody_inside fs m n type s s1 hbody
  have hout := functionBody_enclosing fs m n type s s1 hbody
  have hfresh := initCompiler_fresh type s ht
  have hty : s1.cur.type = type := by
    unfold State.cur
    rw [hin.type 0]
    exact initCompiler_type type s
  have hp : s1.cur.function = s.heap.length := by
    unfold State.cur
    rw [hin.function 0]
    exact hfresh.1
  have hok1 : s1.funOK := keeps_funOK hin hfresh.2
  have hne : s1.cur.function ≠ s.cur.function := by
    rw [hp]
    obtain ⟨f, hf⟩ := hok
    intro e
    rw [← e, List.getElem?_eq_none (Nat.le_refl _)] at hf
    cases hf
  have hcur : (endCompiler s1).2.cur.function = s.cur.function := hout.function 0
  have hret := emitReturn_code hok1
  have hend : ((endCompiler s1).2.functionAt s1.cur.function).chunk.code =
      (currentChunk s1).code ++ implicitReturn type := by
    rw [← hty, ← hret.1]
    show ((emitReturn s1).functionAt s1.cur.function).chunk.code = _
    rw [← hret.2.2]
    rfl
  rw [function_eq_body, hbody]
  refine ⟨_, rfl, hty, ?_, ?_⟩
  · rw [emitUpvalues_cur, emitBytes_cur, makeConstant_cur, hcur]
    exact hne
  · rw [emitUpvalues_functionAt_ne _ _ _ _ _ (by
        rw [emitBytes_cur, makeConstant_cur, hcur]; exact hne),
      emitBytes_functionAt_ne _ _ _ _ (by rw [makeConstant_cur, hcur]; exact hne),
      makeConstant_functionAt_ne _ _ _ (by rw [hcur]; exact hne)]
    exact hend
theorem method_eq_function (decl : State → Res State) (n : Nat) (s : State) :
    method decl n s =
      function decl n (methodType s) (methodStart s) >>= fun s1 =>
        pure (emitBytes (Byte.op OP_METHOD)
          (Byte.raw (identifierConstant
            (consume TOKEN_IDENTIFIER "Expect function name."
              (consume TOKEN_FUN "Expect 'def' keyword to declare method." s)).parser.previous
            (consume TOKEN_IDENTIFIER "Expect function name."
              (consume TOKEN_FUN "Expect 'def' keyword to declare method." s))).1) s1) := by
  unfold method methodType methodStart namedInit
  simp only [decide_eq_true_eq]

/-- The statement `return;`: the semicolon is read and `emitReturn` emits the
implicit value of the current compiler and `Return`. -/
theorem returnStatement_bare (n : Nat) (s : State) (hok : s.funOK)
    (h : s.parser.current.type = TOKEN_SEMICOLON) :
    ∃ s', returnStatement n s = Except.ok s' ∧ s'.cur = s.cur ∧
      (currentChunk s').code = (currentChunk s).code ++ implicitReturn s.cur.type := by
  have key : ∀ t : State, t.funOK → t.parser.current.type = TOKEN_SEMICOLON →
      (match_ TOKEN_SEMICOLON t).1 = true ∧
      ((emitReturn (match_ TOKEN_SEMICOLON t).2).cur = t.cur ∧
        (currentChunk (emitReturn (match_ TOKEN_SEMICOLON t).2)).code =
          (currentChunk t).code ++ implicitReturn t.cur.type) := by
    intro t ht hc
    have hm : match_ TOKEN_SEMICOLON t = (true, advance t) := by
      unfold match_ check
      simp [hc]
    rw [hm]
    have ha := appended_advance ht
    have hr := emitReturn_code ha.funOK
    have hcur : (advance t).cur = t.cur := by
      unfold State.cur State.compilerAt
      rw [ha.compilers]
    refine ⟨rfl, by rw [hr.2.2, hcur], ?_⟩
    rw [hr.1, ha.code, hcur]
    simp
  unfold returnStatement
  dsimp only
  split
  · have hk := key (error "Can't return from top level code." s) ((error_funOK _ _).2 hok)
      (by rw [error_current]; exact h)
    rw [if_pos hk.1]
    refine ⟨_, rfl, ?_, ?_⟩
    · rw [hk.2.1, error_cur]
    · rw [hk.2.2, error_currentChunk, error_cur]
  · have hk := key s hok h
    rw [if_pos hk.1]
    exact ⟨_, rfl, hk.2.1, hk.2.2⟩

/-! ### Every token but the last steps over a byte -/

namespace Scan

theorem skipComment_le (l : List Nat) : (skipComment l).length ≤ l.length := by
  induction l with
  | nil => simp [skipComment]
  | cons c cs ih =>
    unfold skipComment
    split
    · exact Nat.le_succ_of_le ih
    · exact Nat.le_refl _

end Scan

namespace Scan

theorem blankFrom_skipComment (cs : List Nat) (h : blankFrom true cs = true) :
    blankFrom false (skipComment cs) = true := by
  induction cs with
  | nil => rfl
  | cons c cs ih =>
    unfold skipComment
    unfold blankFrom at h
    by_cases h0 : c = 0
    · subst h0
      simp [blankFrom]
    · by_cases h10 : c = 10
      · subst h10
        simp only [if_neg h0, if_true] at h
        simpa [blankFrom] using h
      · simp only [if_neg h0, if_neg h10] at h
        have hc : (c != 10 && c != 0) = true := by simp [h0, h10]
        rw [if_pos hc]
        exact ih h

theorem skipWhitespaceLoop_blank (fuel : Nat) (sc : Scanner)
    (h : blankFrom false sc.current = true) (hf : sc.current.length < fuel) :
    isAtEnd (skipWhitespaceLoop fuel sc) = true := by
  induction fuel generalizing sc with
  | zero => omega
  | succ fuel ih =>
    obtain ⟨st, cur, line⟩ := sc
    cases cur with
    | nil => simp [skipWhitespaceLoop, isAtEnd, peek]
    | cons c cs =>
      simp only [List.length_cons] at hf
      unfold blankFrom at h
      unfold skipWhitespaceLoop
      simp only [peek, List.headD_cons]
      by_cases h0 : c = 0
      · subst h0
        simp [isAtEnd, peek]
      · rw [if_neg h0] at h
        by_cases hw : c = 32 ∨ c = 13 ∨ c = 9
        · have hc : (c == 32 || c == 13 || c == 9) = true := by
            rcases hw with rfl | rfl | rfl <;> rfl
          rw [if_pos hc]
          rw [if_pos (by rcases hw with rfl | rfl | rfl <;> simp)] at h
          exact ih _ h (by simp [advance]; omega)
        · have hc : ¬ ((c == 32 || c == 13 || c == 9) = true) := by
            simpa [or_assoc] using hw
          rw [if_neg hc]
          by_cases h10 : c = 10
          · subst h10
            rw [if_pos (by simp)] at h
            rw [if_pos (show ((10 : Nat) == 10) = true from rfl)]
            exact ih _ h (by simp [advance]; omega)
          · have hc10 : ¬ ((c == 10) = true) := by simpa using h10
            rw [if_neg hc10]
            rw [if_neg (by
              intro hx
              rcases hx with hx | hx | hx | hx
              · exact hw (Or.inl hx)
              · exact hw (Or.inr (Or.inl hx))
              · exact hw (Or.inr (Or.inr hx))
              · exact h10 hx)] at h
            by_cases h35 : c = 35
            · subst h35
              rw [if_pos rfl] at h
              rw [if_pos (show ((35 : Nat) == 35) = true from rfl)]
              have hs : skipComment (35 :: cs) = skipComment cs := by
                simp [skipComment]
              refine ih _ ?_ ?_
              · show blankFrom false (skipComment (35 :: cs)) = true
                rw [hs]
                exact blankFrom_skipComment cs h
              · show (skipComment (35 :: cs)).length < fuel
                rw [hs]
                exact Nat.lt_of_le_of_lt (skipComment_le cs) (by omega)
            · rw [if_neg h35] at h
              cases h

/-- On a text without a token `scanToken` returns the end-of-file token, and
what is left is again without a token. -/
theorem scanToken_blank (sc : Scanner) (h : blankFrom false sc.current = true) :
    (scanToken sc).1.type = TOKEN_EOF ∧ blankFrom false (scanToken sc).2.current = true := by
  have hend := skipWhitespaceLoop_blank (sc.current.length + 1) sc h (Nat.lt_succ_self _)
  have hend2 : isAtEnd (Scanner.mk (skipWhitespace sc).current (skipWhitespace sc).current
      (skipWhitespace sc).line) = true := hend
  unfold scanToken
  dsimp only
  rw [if_pos hend2]
  refine ⟨rfl, ?_⟩
  show blankFrom false (skipWhitespace sc).current = true
  have : (skipWhitespace sc).current.headD 0 = 0 := by
    simpa [isAtEnd, peek, skipWhitespace] using hend
  cases hc : (skipWhitespace sc).current with
  | nil => rfl
  | cons c cs =>
    rw [hc] at this
    simp only [List.headD_cons] at this
    subst this
    simp [blankFrom]

end Scan

/-! ### Binary operators -/

theorem binary_eq (pp : Precedence → State → Res State) (canAssign : Bool) (s : State) :
    binary pp canAssign s =
      pp ((getRule s.parser.previous.type).precedence + 1) s >>= fun s1 =>
        pure (binaryOperator s.parser.previous.type s1) := by
  unfold binary
  dsimp only
  generalize pp ((getRule s.parser.previous.type).precedence + 1) s = r
  generalize s.parser.previous.type = t
  cases r with
  | error e => rfl
  | ok s1 => cases t <;> rfl

theorem appended_binaryOperator (t : TokenType) {s : State} (hok : s.funOK) :
    Appended s (binaryOperator t s) (binaryCode t) 0 := by
  have h2 : ∀ a b : Byte, Appended s (emitBytes a b s) [a, b] 0 := fun a b =>
    (appended_emitByte hok a).trans (appended_emitByte (emitByte_funOK hok a) b)
  cases t
  case TOKEN_BANG_EQUAL => exact h2 _ _
  case TOKEN_GREATER_EQUAL => exact h2 _ _
  case TOKEN_LESS_EQUAL => exact h2 _ _
  case TOKEN_EQUAL_EQUAL => exact appended_emitByte hok _
  case TOKEN_GREATER => exact appended_emitByte hok _
  case TOKEN_LESS => exact appended_emitByte hok _
  case TOKEN_PLUS => exact appended_emitByte hok _
  case TOKEN_MINUS => exact appended_emitByte hok _
  case TOKEN_SLASH => exact appended_emitByte hok _
  case TOKEN_STAR => exact appended_emitByte hok _
  case TOKEN_MOD => exact appended_emitByte hok _
  all_goals exact appended_refl hok

theorem binaryOperator_frame (t : TokenType) (s : State) :
    (binaryOperator t s).stderr = s.stderr ∧ (binaryOperator t s).parser = s.parser := by
  cases t <;> exact ⟨rfl, rfl⟩

namespace Mem

theorem foldl_eq_fnv1aFrom (l : List Nat) (h : Nat) (hb : ∀ c ∈ l, c < 256) :
    l.foldl (fun hash c => ((hash ^^^ (c % 256)) * 16777619) % 2 ^ 32) h = fnv1aFrom h l := by
  induction l generalizing h with
  | nil => rfl
  | cons c cs ih =>
    have hc : c % 256 = c := Nat.mod_eq_of_lt (hb c (List.mem_cons_self _ _))
    simp only [List.foldl_cons, fnv1aFrom, hc]
    exact ih _ (fun x hx => hb x (List.mem_cons_of_mem _ hx))

theorem fnv1aFrom_lt (l : List Nat) (h : Nat) (hh : h < 2 ^ 32) : fnv1aFrom h l < 2 ^ 32 := by
  induction l generalizing h with
  | nil => exact hh
  | cons c cs ih => exact ih _ (Nat.mod_lt _ (by decide))

end Mem

/-! ### The cursor of the scanner -/

namespace Scan

theorem forward_refl (l : List Nat) : Forward l l := ⟨[], rfl, by simp⟩

theorem Forward.andThen {a b c : List Nat} (h : Forward a b) (h' : Forward b c) : Forward a c := by
  obtain ⟨p, hp, h0⟩ := h
  obtain ⟨q, hq, h1⟩ := h'
  refine ⟨p ++ q, by rw [hp, hq, List.append_assoc], ?_⟩
  simp only [List.mem_append, not_or]
  exact ⟨h0, h1⟩

theorem forward_cons (c : Nat) (cs : List Nat) (h : c ≠ 0) : Forward (c :: cs) cs :=
  ⟨[c], rfl, by simpa using h.symm⟩

theorem Forward.length_le {a b : List Nat} (h : Forward a b) : b.length ≤ a.length := by
  obtain ⟨p, hp, -⟩ := h
  rw [hp, List.length_append]
  omega

/-- A step of the cursor over a byte that was read with `peek` and is not NUL. -/
theorem forward_advance (sc : Scanner) (h : peek sc ≠ 0) :
    Forward sc.current (advance sc).current := by
  obtain ⟨st, cur, line⟩ := sc
  cases cur with
  | nil => exact absurd rfl h
  | cons c cs => exact forward_cons c cs h

theorem skipComment_forward (l : List Nat) : Forward l (skipComment l) := by
  induction l with
  | nil => exact forward_refl _
  | cons c cs ih =>
    unfold skipComment
    split
    · rename_i h
      have hc : c ≠ 0 := by
        simp only [Bool.and_eq_true, bne_iff_ne, ne_eq] at h
        exact h.2
      exact (forward_cons c cs hc).andThen ih
    · exact forward_refl _

theorem skipWhitespaceLoop_forward (fuel : Nat) (sc : Scanner) :
    Forward sc.current (skipWhitespaceLoop fuel sc).current := by
  induction fuel generalizing sc with
  | zero => exact forward_refl _
  | succ fuel ih =>
    unfold skipWhitespaceLoop
    dsimp only
    split
    · rename_i h
      have hp : peek sc ≠ 0 := by
        intro h0
        rw [h0] at h
        simp at h
      exact (forward_advance sc hp).andThen (ih _)
    · split
      · rename_i h
        have hp : peek sc ≠ 0 := by
          intro h0
          rw [h0] at h
          simp at h
        exact (forward_advance { sc with line := sc.line + 1 } hp).andThen (ih _)
      · split
        · exact (skipComment_forward sc.current).andThen
            (ih { sc with current := skipComment sc.current })
        · exact forward_refl _

theorem isAlpha_ne_zero {c : Nat} (h : (isAlpha c || isDigit c) = true) : c ≠ 0 := by
  rintro rfl
  simp [isAlpha, isDigit] at h

theorem identifierLoop_forward (l : List Nat) : Forward l (identifierLoop l) := by
  induction l with
  | nil => exact forward_refl _
  | cons c cs ih =>
    unfold identifierLoop
    split
    · rename_i h
      exact (forward_cons c cs (isAlpha_ne_zero h)).andThen ih
    · exact forward_refl _

theorem digitLoop_forward (l : List Nat) : Forward l (digitLoop l) := by
  induction l with
  | nil => exact forward_refl _
  | cons c cs ih =>
    unfold digitLoop
    split
    · rename_i h
      exact (forward_cons c cs (isAlpha_ne_zero (by rw [h]; simp))).andThen ih
    · exact forward_refl _

theorem stringLoop_forward (l : List Nat) (line : Nat) : Forward l (stringLoop l line).1 := by
  induction l generalizing line with
  | nil => exact forward_refl _
  | cons c cs ih =>
    unfold stringLoop
    split
    · rename_i h
      have hc : c ≠ 0 := by
        simp only [Bool.and_eq_true, bne_iff_ne, ne_eq] at h
        exact h.2
      exact (forward_cons c cs hc).andThen (ih _)
    · exact forward_refl _

theorem identifier_forward (sc : Scanner) : Forward sc.current (identifier sc).2.current :=
  identifierLoop_forward _

theorem number_forward (sc : Scanner) : Forward sc.current (number sc).2.current := by
  unfold number
  dsimp only
  split
  · rename_i h
    have hp : peek { sc with current := digitLoop sc.current } ≠ 0 := by
      intro h0
      rw [h0] at h
      simp at h
    exact ((digitLoop_forward sc.current).andThen
      (forward_advance { sc with current := digitLoop sc.current } hp)).andThen (digitLoop_forward _)
  · exact digitLoop_forward _

theorem string_forward (sc : Scanner) : Forward sc.current (string sc).2.current := by
  unfold string
  dsimp only
  split
  · exact stringLoop_forward _ _
  · rename_i h
    have hp : peek { sc with current := (stringLoop sc.current sc.line).1,
                             line := (stringLoop sc.current sc.line).2 } ≠ 0 := by
      intro h0
      apply h
      simp [isAtEnd, h0]
    exact (stringLoop_forward sc.current sc.line).andThen (forward_advance _ hp)

theorem twoChar_forward (sc : Scanner) (yes no : TokenType) :
    Forward sc.current (twoChar sc yes no).2.current := by
  unfold twoChar match_
  dsimp only
  split
  · exact forward_refl _
  · rename_i h
    split
    · exact forward_refl _
    · exact forward_advance sc (by
        intro h0
        apply h
        simp [isAtEnd, h0])

theorem checkKeyword_kind (sc : Scanner) (start length : Nat) (rest : String) (type : TokenType)
    (h : (type != TOKEN_EOF && type != TOKEN_NEWLINE) = true) :
    checkKeyword sc start length rest type ≠ TOKEN_EOF ∧
      checkKeyword sc start length rest type ≠ TOKEN_NEWLINE := by
  unfold checkKeyword
  split
  · simpa using h
  · exact ⟨by decide, by decide⟩

theorem kind_ite (p : Prop) [Decidable p] (a b : TokenType)
    (ha : a ≠ TOKEN_EOF ∧ a ≠ TOKEN_NEWLINE) (hb : b ≠ TOKEN_EOF ∧ b ≠ TOKEN_NEWLINE) :
    (if p then a else b) ≠ TOKEN_EOF ∧ (if p then a else b) ≠ TOKEN_NEWLINE := by
  split
  · exact ha
  · exact hb

/-- The kind of a word is never end-of-file or Newline. -/
theorem identifierType_kind (sc : Scanner) :
    identifierType sc ≠ TOKEN_EOF ∧ identifierType sc ≠ TOKEN_NEWLINE := by
  unfold identifierType
  dsimp only
  repeat' first
    | apply kind_ite
    | exact checkKeyword_kind _ _ _ _ _ rfl
    | exact ⟨by decide, by decide⟩

theorem some_ite (p : Prop) [Decidable p] (a b : Option TokenType)
    (ha : ∀ t, a = some t → t ≠ TOKEN_EOF ∧ t ≠ TOKEN_NEWLINE)
    (hb : ∀ t, b = some t → t ≠ TOKEN_EOF ∧ t ≠ TOKEN_NEWLINE) :
    ∀ t, (if p then a else b) = some t → t ≠ TOKEN_EOF ∧ t ≠ TOKEN_NEWLINE := by
  split
  · exact ha
  · exact hb

theorem punctuator_kind (c : Nat) :
    ∀ t, punctuator c = some t → t ≠ TOKEN_EOF ∧ t ≠ TOKEN_NEWLINE := by
  unfold punctuator
  repeat' first
    | apply some_ite
    | (intro t h; cases h; exact ⟨by decide, by decide⟩)
    | (intro t h; cases h)

/-- What one call of `scanToken` does to the cursor and which kinds it
returns. -/
theorem scanToken_cursor (sc : Scanner) :
    Forward sc.current (scanToken sc).2.current ∧
    (scanToken sc).1.type ≠ TOKEN_NEWLINE ∧
    ((scanToken sc).1.type = TOKEN_EOF →
      isAtEnd (scanToken sc).2 = true ∧ (scanToken sc).2.start = (scanToken sc).2.current) ∧
    ((scanToken sc).1.type ≠ TOKEN_EOF →
      (scanToken sc).2.current.length < sc.current.length) := by
  have hw : Forward sc.current (skipWhitespace sc).current := skipWhitespaceLoop_forward _ _
  unfold scanToken
  dsimp only
  split
  · rename_i hend
    exact ⟨hw, (by intro h; cases h), fun _ => ⟨hend, rfl⟩, fun h => absurd rfl h⟩
  · rename_i hend
    have hp : peek (Scanner.mk (skipWhitespace sc).current (skipWhitespace sc).current
        (skipWhitespace sc).line) ≠ 0 := by
      intro h0
      apply hend
      simp [isAtEnd, h0]
    have hadv : Forward sc.current (advance (Scanner.mk (skipWhitespace sc).current
        (skipWhitespace sc).current (skipWhitespace sc).line)).current :=
      hw.andThen (forward_advance _ hp)
    have hlt : (advance (Scanner.mk (skipWhitespace sc).current (skipWhitespace sc).current
        (skipWhitespace sc).line)).current.length < sc.current.length := by
      have h1 := hw.length_le
      have h2 : 0 < (skipWhitespace sc).current.length := by
        cases hc : (skipWhitespace sc).current with
        | nil => simp [isAtEnd, peek, hc] at hend
        | cons c cs => simp
      simp only [advance, List.length_drop]
      omega
    have key : ∀ r : Token × Scanner,
        Forward (advance (Scanner.mk (skipWhitespace sc).current (skipWhitespace sc).current
          (skipWhitespace sc).line)).current r.2.current →
        r.1.type ≠ TOKEN_EOF → r.1.type ≠ TOKEN_NEWLINE →
        Forward sc.current r.2.current ∧ r.1.type ≠ TOKEN_NEWLINE ∧
          (r.1.type = TOKEN_EOF → isAtEnd r.2 = true ∧ r.2.start = r.2.current) ∧
          (r.1.type ≠ TOKEN_EOF → r.2.current.length < sc.current.length) := by
      intro r hf h1 h2
      exact ⟨hadv.andThen hf, h2, fun h => absurd h h1,
        fun _ => Nat.lt_of_le_of_lt hf.length_le hlt⟩
    split
    · exact key _ (identifier_forward _) (identifierType_kind _).1 (identifierType_kind _).2
    · split
      · exact key _ (number_forward _) (by intro h; cases h) (by intro h; cases h)
      · split
        · rename_i t ht
          exact key _ (forward_refl _) (punctuator_kind _ t ht).1 (punctuator_kind _ t ht).2
        · have two : ∀ (x : Scanner) (yes no : TokenType), yes ≠ TOKEN_EOF → no ≠ TOKEN_EOF →
              yes ≠ TOKEN_NEWLINE → no ≠ TOKEN_NEWLINE →
              (twoChar x yes no).1.type ≠ TOKEN_EOF ∧
                (twoChar x yes no).1.type ≠ TOKEN_NEWLINE := by
            intro x yes no a b c d
            unfold twoChar
            dsimp only [makeToken]
            split
            · exact ⟨a, c⟩
            · exact ⟨b, d⟩
          split
          · exact key _ (twoChar_forward _ _ _)
              (two _ _ _ (by decide) (by decide) (by decide) (by decide)).1
              (two _ _ _ (by decide) (by decide) (by decide) (by decide)).2
          · split
            · exact key _ (twoChar_forward _ _ _)
                (two _ _ _ (by decide) (by decide) (by decide) (by decide)).1
                (two _ _ _ (by decide) (by decide) (by decide) (by decide)).2
            · split
              · exact key _ (twoChar_forward _ _ _)
                  (two _ _ _ (by decide) (by decide) (by decide) (by decide)).1
                  (two _ _ _ (by decide) (by decide) (by decide) (by decide)).2
              · split
                · exact key _ (twoChar_forward _ _ _)
                    (two _ _ _ (by decide) (by decide) (by decide) (by decide)).1
                    (two _ _ _ (by decide) (by decide) (by decide) (by decide)).2
                · split
                  · have hs : ∀ x : Scanner, (string x).1.type ≠ TOKEN_EOF ∧
                        (string x).1.type ≠ TOKEN_NEWLINE := by
                      intro x
                      unfold string
                      dsimp only
                      split <;> exact ⟨(by intro h; cases h), (by intro h; cases h)⟩
                    exact key _ (string_forward _) (hs _).1 (hs _).2
                  · exact key _ (forward_refl _) (by intro h; cases h) (by intro h; cases h)

/-- At the terminator `scanToken` returns end-of-file and leaves the scanner as
it is. -/
theorem scanToken_at_end (sc : Scanner) (h : isAtEnd sc = true) (hs : sc.start = sc.current) :
    scanToken sc = (makeToken TOKEN_EOF sc, sc) := by
  have hw : skipWhitespace sc = sc := by
    unfold skipWhitespace skipWhitespaceLoop
    have hp : peek sc = 0 := by simpa [isAtEnd] using h
    simp [hp]
  unfold scanToken
  rw [hw]
  have e : (Scanner.mk sc.current sc.current sc.line) = sc := by
    obtain ⟨st, cur, line⟩ := sc
    simp only at hs
    subst hs
    rfl
  simp only [e, h, if_true]

end Scan

theorem scanAfter_succ (sc : Scanner) (i : Nat) :
    scanAfter sc (i + 1) = scanAfter (Scan.scanToken sc).2 i := by
  induction i with
  | zero => rfl
  | succ i ih =>
    show (Scan.scanToken (scanAfter sc (i + 1))).2 = (Scan.scanToken (scanAfter _ i)).2
    rw [ih]

theorem nthToken_succ (sc : Scanner) (i : Nat) :
    nthToken sc (i + 1) = nthToken (Scan.scanToken sc).2 i := by
  unfold nthToken
  rw [scanAfter_succ]

/-- The token stream reaches end-of-file within `length + 1` calls. -/
theorem nthToken_reaches_eof (n : Nat) :
    ∀ sc : Scanner, sc.current.length ≤ n →
      ∃ k, k ≤ sc.current.length ∧ (nthToken sc k).type = TOKEN_EOF := by
  induction n with
  | zero =>
    intro sc h
    refine ⟨0, Nat.zero_le _, ?_⟩
    by_contra hne
    have := (Scan.scanToken_cursor sc).2.2.2 hne
    omega
  | succ n ih =>
    intro sc h
    by_cases he : (Scan.scanToken sc).1.type = TOKEN_EOF
    · exact ⟨0, Nat.zero_le _, he⟩
    · have hlt := (Scan.scanToken_cursor sc).2.2.2 he
      obtain ⟨k, hk, hk'⟩ := ih (Scan.scanToken sc).2 (by omega)
      exact ⟨k + 1, by omega, by rw [nthToken_succ]; exact hk'⟩

/-- After end-of-file every call returns end-of-file. -/
theorem nthToken_stays_eof (sc : Scanner) (k : Nat) (h : (nthToken sc k).type = TOKEN_EOF) :
    ∀ j, k ≤ j → (nthToken sc j).type = TOKEN_EOF ∧ scanAfter sc (j + 1) = scanAfter sc (k + 1) := by
  have h0 := (Scan.scanToken_cursor (scanAfter sc k)).2.2.1 h
  have hfix := Scan.scanToken_at_end (scanAfter sc (k + 1)) h0.1 h0.2
  intro j hj
  induction j with
  | zero =>
    have : k = 0 := by omega
    subst this
    exact ⟨h, rfl⟩
  | succ j ih =>
    by_cases hk : k = j + 1
    · subst hk
      exact ⟨h, rfl⟩
    · obtain ⟨-, i2⟩ := ih (by omega)
      have e1 : nthToken sc (j + 1) = (Scan.scanToken (scanAfter sc (j + 1))).1 := rfl
      have e2 : scanAfter sc (j + 1 + 1) = (Scan.scanToken (scanAfter sc (j + 1))).2 := rfl
      rw [e1, e2, i2, hfix]
      exact ⟨rfl, rfl⟩

/-! ### List literals -/

theorem cur_of_compilers {s s' : State} (h : s'.compilers = s.compilers) : s'.cur = s.cur := by
  unfold State.cur State.compilerAt
  rw [h]

theorem emits_refl {s : State} (h : s.funOK) : Emits s s [] :=
  ⟨rfl, h, by simp, rfl, fun _ _ => rfl⟩

theorem emits_then {s s' s'' : State} {c c' : List Byte} (h : Emits s s' c)
    (h' : Emits s' s'' c') : Emits s s'' (c ++ c') :=
  ⟨h'.compilers.trans h.compilers, h'.funOK, by rw [h'.code, h.code, List.append_assoc],
    h'.constants.trans h.constants,
    fun p hp => (h'.cells p (by rw [cur_of_compilers h.compilers]; exact hp)).trans (h.cells p hp)⟩

theorem emits_advance {s : State} (h : s.funOK) : Emits s (advance s) [] :=
  ⟨advance_compilers s, (advance_funOK s).2 h, by simp, by simp,
    fun _ _ => by
      unfold advance
      rw [advanceLoop_heap]⟩

theorem emits_error {s : State} (h : s.funOK) (m : String) : Emits s (error m s) [] :=
  ⟨error_compilers m s, (error_funOK m s).2 h, by simp, by simp, fun _ _ => by rw [error_heap]⟩

theorem emits_errorAtCurrent {s : State} (h : s.funOK) (m : List Nat) :
    Emits s (errorAtCurrent m s) [] := by
  have hh : (errorAtCurrent m s).heap = s.heap := errorAtCurrent_heap m s
  have hc : (errorAtCurrent m s).compilers = s.compilers := errorAtCurrent_compilers m s
  have hch : currentChunk (errorAtCurrent m s) = currentChunk s := by
    unfold currentChunk State.curFunction State.functionAt
    rw [hh, cur_of_compilers hc]
  refine ⟨hc, ?_, by rw [hch]; simp, by rw [hch], fun _ _ => by rw [hh]⟩
  obtain ⟨f, hf⟩ := h
  exact ⟨f, by rw [hh, cur_of_compilers hc]; exact hf⟩

theorem setCurrentChunk_cell (s : State) (c : Chunk) (p : Nat) (hp : p ≠ s.cur.function) :
    (setCurrentChunk s c).heap[p]? = s.heap[p]? := by
  unfold setCurrentChunk State.setFunctionAt
  simp only [List.getElem?_set]
  rw [if_neg (fun h => hp h.symm)]

theorem emits_emitByte {s : State} (h : s.funOK) (b : Byte) : Emits s (emitByte b s) [b] :=
  ⟨rfl, emitByte_funOK h b, emitByte_code h b, emitByte_constants h b,
    fun p hp => setCurrentChunk_cell _ _ p hp⟩

/-- A keyword literal followed by a token that continues no expression: the
state `parsePrecedence` returns. -/
theorem parse_lit_emits (l : Lit) {s : State} {t : TokenType} {ts : List TokenType} (m : Nat)
    (hok : s.funOK) (hup : upcoming s (l.type :: t :: ts) = true)
    (hp : (getRule t).precedence = PREC_NONE) (ht : t ≠ TOKEN_EQUAL) :
    ∃ s', parsePrecedence (m + 2) PREC_ASSIGNMENT s = Except.ok s' ∧
      Emits s s' [Byte.op l.opcode] ∧ upcoming s' (t :: ts) = true ∧
      s'.stderr = s.stderr ∧ s'.parser.hadError = s.parser.hadError ∧
      s'.parser.panicMode = s.parser.panicMode ∧
      s'.currentModuleName = s.currentModuleName := by
  obtain ⟨hup1, hprev, hE, hP, hS⟩ := advance_upcoming hup
  have hty : (advance s).parser.previous.type = l.type := by
    rw [hprev]; exact upcoming_head hup
  have hok1 : (advance s).funOK := (advance_funOK s).2 hok
  have hup2 : upcoming (emitByte (Byte.op l.opcode) (advance s)) (t :: ts) = true := by
    rw [upcoming_emitByte]; exact hup1
  have hcur : (emitByte (Byte.op l.opcode) (advance s)).parser.current.type = t :=
    upcoming_head hup2
  have hexit := infixLoop_exit (parsePrecedence (m + 1)) (m + 1) (q := PREC_ASSIGNMENT) true m
    (s := emitByte (Byte.op l.opcode) (advance s)) (by rw [hcur, hp]; decide)
  have hcheck : check TOKEN_EQUAL (emitByte (Byte.op l.opcode) (advance s)) = false := by
    have : (advance s).parser.current.type = t := hcur
    simp [check, this, ht]
  have hmod : (advance s).currentModuleName = s.currentModuleName := by
    simp only [upcoming, scansTypes, Bool.and_eq_true, decide_eq_true_eq] at hup
    rw [advance_of_scan s (by rw [hup.2.1.1]; exact hup.2.1.2)]
  refine ⟨emitByte (Byte.op l.opcode) (advance s), ?_,
    emits_then (emits_advance hok) (emits_emitByte hok1 _), hup2, hS, hE, hP, hmod⟩
  rw [parsePrecedence]
  dsimp only
  rw [hty, getRule_lit]
  dsimp only
  rw [applyRule, literal_lit l _ _ hty]
  simp only [show decide (PREC_ASSIGNMENT ≤ PREC_ASSIGNMENT) = true from rfl, bind, Except.bind,
    pure, Except.pure, hexit, hcheck]
  rfl

/-- The elements of a list literal when each is a keyword literal and `c`
elements came before: while the count stays at 255 or less each element emits
its opcode and `AddList` and nothing is reported; the element that would be the
256th is not compiled and the diagnostic is reported there. -/
theorem listLoop_lits (m : Nat) :
    ∀ (ls : List Lit) (l : Lit) (c : Nat) (s : State) (r : TokenType) (rest : List TokenType)
      (fuel : Nat),
      ls.length + 1 ≤ fuel → c ≤ 255 → s.funOK →
      (getRule r).precedence = PREC_NONE → r ≠ TOKEN_EQUAL → r ≠ TOKEN_COMMA →
      upcoming s (argumentTokens l ls ++ r :: rest) = true →
      ∃ s', listLoop (parsePrecedence (m + 2)) fuel c s = Except.ok s' ∧
        s'.funOK ∧ s'.compilers = s.compilers ∧
        (s'.currentModuleName = s.currentModuleName ∧
          (currentChunk s').constants = (currentChunk s).constants) ∧
        (c + ls.length + 1 ≤ 255 →
          Emits s s' (listCode (l :: ls)) ∧ upcoming s' (r :: rest) = true ∧
            s'.stderr = s.stderr ∧ s'.parser.hadError = s.parser.hadError ∧
            s'.parser.panicMode = s.parser.panicMode) ∧
        (s.parser.panicMode = false → 256 ≤ c + ls.length + 1 →
          s'.parser.hadError = true ∧ s'.parser.panicMode = true ∧
            s'.parser.current.type ≠ TOKEN_RIGHT_BRACKET ∧
            (∀ p, p ≠ s.cur.function → s'.heap[p]? = s.heap[p]?) ∧
            ∃ line place, s'.stderr =
              s.stderr ++
                [Diag.error line place (cstr tooManyValuesMessage) s.currentModuleName]) := by
  intro ls
  induction ls with
  | nil =>
    intro l c s r rest fuel hf hc hok hr1 hr2 hr3 hup
    obtain ⟨k, rfl⟩ : ∃ k, fuel = k + 1 := ⟨fuel - 1, by simp at hf; omega⟩
    by_cases h255 : c < 255
    · have hup0 : upcoming s (l.type :: r :: rest) = true := hup
      obtain ⟨a, ha, hA, hU, hS, hE, hP, hM⟩ := parse_lit_emits l m hok hup0 hr1 hr2
      have hne : (emitByte (Byte.op OP_ADD_LIST) a).parser.current.type ≠ TOKEN_COMMA := by
        have := upcoming_head hU
        show a.parser.current.type ≠ TOKEN_COMMA
        rw [this]; exact hr3
      refine ⟨emitByte (Byte.op OP_ADD_LIST) a, ?_, emitByte_funOK hA.funOK _, hA.compilers,
        ⟨hM, (emitByte_constants hA.funOK _).trans hA.constants⟩,
        fun _ => ⟨?_, by rw [upcoming_emitByte]; exact hU, hS, hE, hP⟩, fun _ h256 => ?_⟩
      · rw [listLoop]
        simp only [if_pos h255, expression, ha, bind, Except.bind, pure, Except.pure,
          match_miss hne, Bool.false_eq_true, if_false]
      · have := emits_then hA (emits_emitByte hA.funOK (Byte.op OP_ADD_LIST))
        simpa [listCode] using this
      · simp at h256
        omega
    · have hl : s.parser.current.type = l.type :=
        upcoming_head (show upcoming s (l.type :: r :: rest) = true from hup)
      have hcur : (error "Can't have more than 255 values in one list." s).parser.current.type ≠
          TOKEN_COMMA := by
        rw [error_current, hl]
        cases l <;> decide
      have hrb : (error tooManyValuesMessage s).parser.current.type ≠ TOKEN_RIGHT_BRACKET := by
        rw [error_current, hl]
        cases l <;> decide
      refine ⟨error tooManyValuesMessage s, ?_, (error_funOK _ _).2 hok, error_compilers _ _,
        ⟨error_currentModuleName _ _, by rw [error_currentChunk]⟩, fun h => ?_, fun hp _ => ?_⟩
      · rw [listLoop]
        simp only [if_neg h255, bind, Except.bind, pure, Except.pure, match_miss hcur,
          Bool.false_eq_true, if_false]
        rfl
      · simp at h
        omega
      · obtain ⟨e1, e2, e3⟩ := error_reports tooManyValuesMessage s hp
        exact ⟨e2, e3, hrb, fun p _ => by rw [error_heap], _, _, e1⟩
  | cons l' ls ih =>
    intro l c s r rest fuel hf hc hok hr1 hr2 hr3 hup
    obtain ⟨k, rfl⟩ : ∃ k, fuel = k + 1 := ⟨fuel - 1, by simp at hf; omega⟩
    by_cases h255 : c < 255
    · obtain ⟨u, hu⟩ := argumentTokens_head l' ls
      have hup' : upcoming s (l.type :: TOKEN_COMMA ::
          (argumentTokens l' ls ++ r :: rest)) = true := hup
      obtain ⟨a, ha, hA, hU, hS, hE, hP, hM⟩ := parse_lit_emits l m hok hup' rfl (by decide)
      have hA2 := emits_then hA (emits_emitByte hA.funOK (Byte.op OP_ADD_LIST))
      have hU2 : upcoming (emitByte (Byte.op OP_ADD_LIST) a)
          (TOKEN_COMMA :: l'.type :: (u ++ r :: rest)) = true := by
        rw [upcoming_emitByte]
        rw [hu] at hU
        exact hU
      obtain ⟨hV, -, vE, vP, vS⟩ := advance_upcoming hU2
      have hmatch := match_upcoming hU2
      have hVm : (advance (emitByte (Byte.op OP_ADD_LIST) a)).currentModuleName =
          a.currentModuleName := by
        simp only [upcoming, scansTypes, Bool.and_eq_true, decide_eq_true_eq] at hU2
        rw [advance_of_scan _ (by rw [hU2.2.1.1]; exact hU2.2.1.2)]
        rfl
      have hA3 := emits_then hA2 (emits_advance hA2.funOK)
      obtain ⟨s', h1, h2, h3, h4, h5, h6⟩ := ih l' (c + 1)
        (advance (emitByte (Byte.op OP_ADD_LIST) a)) r rest k
        (by simp at hf; omega) (by omega) hA3.funOK hr1 hr2 hr3 (by rw [hu]; exact hV)
      refine ⟨s', ?_, h2, h3.trans hA3.compilers,
        ⟨by rw [h4.1, hVm, hM], h4.2.trans hA3.constants⟩, fun h => ?_, fun hp h256 => ?_⟩
      · rw [listLoop]
        simp only [if_pos h255, expression, ha, bind, Except.bind, pure, Except.pure, hmatch,
          if_true]
        exact h1
      · obtain ⟨q1, q2, q3, q4, q5⟩ := h5 (by simp at h; omega)
        refine ⟨?_, q2, ?_, ?_, ?_⟩
        · have := emits_then hA3 q1
          simpa [listCode] using this
        · rw [q3, vS]; exact hS
        · rw [q4, vE]; exact hE
        · rw [q5, vP]; exact hP
      · obtain ⟨q1, q2, qb, q3, line, place, q4⟩ := h6 (by rw [vP]; exact hP.trans hp)
          (by simp at h256; omega)
        refine ⟨q1, q2, qb, fun p hp' => ?_, line, place, ?_⟩
        · rw [q3 p (by rw [cur_of_compilers hA3.compilers]; exact hp'), hA3.cells p hp']
        · rw [q4, vS, hVm, hM]
          show a.stderr ++ _ = _
          rw [hS]
    · have hl : s.parser.current.type = l.type := by
        obtain ⟨u, hu⟩ := argumentTokens_head l (l' :: ls)
        have hup' : upcoming s (l.type :: (u ++ r :: rest)) = true := by
          rw [hu] at hup
          exact hup
        exact upcoming_head hup'
      have hcur : (error "Can't have more than 255 values in one list." s).parser.current.type ≠
          TOKEN_COMMA := by
        rw [error_current, hl]
        cases l <;> decide
      have hrb : (error tooManyValuesMessage s).parser.current.type ≠ TOKEN_RIGHT_BRACKET := by
        rw [error_current, hl]
        cases l <;> decide
      refine ⟨error tooManyValuesMessage s, ?_, (error_funOK _ _).2 hok, error_compilers _ _,
        ⟨error_currentModuleName _ _, by rw [error_currentChunk]⟩, fun h => ?_, fun hp _ => ?_⟩
      · rw [listLoop]
        simp only [if_neg h255, bind, Except.bind, pure, Except.pure, match_miss hcur,
          Bool.false_eq_true, if_false]
        rfl
      · simp at h
        omega
      · obtain ⟨e1, e2, e3⟩ := error_reports tooManyValuesMessage s hp
        exact ⟨e2, e3, hrb, fun p _ => by rw [error_heap], _, _, e1⟩

/-- What `emitConstant` does: the constant is added to the pool and Constant
with an operand is emitted; with room in the pool (255 constants or less) the
operand is the index of the constant and nothing is reported, and in panic mode
nothing is reported either. -/
theorem emitConstant_emits {s : State} (hok : s.funOK) (v : Value) :
    (emitConstant v s).funOK ∧ (emitConstant v s).compilers = s.compilers ∧
    (currentChunk (emitConstant v s)).code =
      (currentChunk s).code ++ [Byte.op OP_CONSTANT, Byte.raw (makeConstant v s).1] ∧
    (currentChunk (emitConstant v s)).constants = (currentChunk s).constants ++ [v] ∧
    (∀ p, p ≠ s.cur.function → (emitConstant v s).heap[p]? = s.heap[p]?) ∧
    (∀ ts, upcoming (emitConstant v s) ts = upcoming s ts) ∧
    ((currentChunk s).constants.length ≤ 255 →
      (makeConstant v s).1 = (currentChunk s).constants.length ∧
        (emitConstant v s).stderr = s.stderr ∧ (emitConstant v s).parser = s.parser) ∧
    (s.parser.panicMode = true →
      (emitConstant v s).stderr = s.stderr ∧ (emitConstant v s).parser = s.parser) := by
  have hok2 := makeConstant_funOK hok v
  have hcells : ∀ p, p ≠ s.cur.function → (makeConstant v s).2.heap[p]? = s.heap[p]? := by
    intro p hp
    unfold makeConstant
    dsimp only
    split
    · rw [error_heap]; exact setCurrentChunk_cell _ _ p hp
    · exact setCurrentChunk_cell _ _ p hp
  have hfr : (emitConstant v s).stderr = (makeConstant v s).2.stderr ∧
      (emitConstant v s).parser = (makeConstant v s).2.parser := ⟨rfl, rfl⟩
  refine ⟨emitBytes_funOK hok2 _ _, by simp [emitConstant], ?_, ?_, fun p hp => ?_, fun ts => ?_,
    fun hroom => ?_, fun hp => ?_⟩
  · unfold emitConstant
    rw [emitBytes_code hok2, makeConstant_code hok]
  · unfold emitConstant
    rw [emitBytes_constants hok2, makeConstant_constants hok]
  · have h1 := (emits_emitByte hok2 (Byte.op OP_CONSTANT)).cells p
      (by rw [makeConstant_cur]; exact hp)
    have h2 := (emits_emitByte (emitByte_funOK hok2 (Byte.op OP_CONSTANT))
      (Byte.raw (makeConstant v s).1)).cells p (by rw [emitByte_cur, makeConstant_cur]; exact hp)
    exact (h2.trans h1).trans (hcells p hp)
  · exact upcoming_congr (by simp [emitConstant]) (by simp [emitConstant]) ts
  · have hno : ¬ (currentChunk s).constants.length > UINT8_MAX := by
      show ¬ (currentChunk s).constants.length > 255
      omega
    refine ⟨by rw [makeConstant_fst, if_neg hno], ?_⟩
    rw [hfr.1, hfr.2]
    unfold makeConstant addConstant
    dsimp only
    rw [if_neg hno]
    exact ⟨rfl, rfl⟩
  · rw [hfr.1, hfr.2]
    unfold makeConstant
    dsimp only
    split
    · have hp' : (setCurrentChunk s (addConstant (currentChunk s) v).2).parser.panicMode = true :=
        hp
      rw [error_of_panic _ _ hp']
      exact ⟨rfl, rfl⟩
    · exact ⟨rfl, rfl⟩

/-! ### Short-circuit operators -/

theorem set_operand (A : List Byte) (x a b p q : Byte) (rest : List Byte) :
    ((A ++ x :: a :: b :: rest).set (A.length + 1) p).set (A.length + 2) q =
      A ++ x :: p :: q :: rest := by
  induction A with
  | nil => rfl
  | cons y A ih =>
    simp only [List.cons_append, List.length_cons]
    rw [show A.length + 1 + 1 = (A.length + 1) + 1 from rfl,
      show A.length + 1 + 2 = (A.length + 2) + 1 from rfl, List.set_cons_succ, List.set_cons_succ,
      ih]

/-- The operand `patchJump` writes into a placeholder that `m` bytes follow,
and what it reports. -/
theorem patchJump_placeholder {s : State} (hok : s.funOK) (A : List Byte) (x a b : Byte)
    (rest : List Byte) (hcode : (currentChunk s).code = A ++ x :: a :: b :: rest) :
    (patchJump (A.length + 1) s).funOK ∧
    (patchJump (A.length + 1) s).compilers = s.compilers ∧
    (currentChunk (patchJump (A.length + 1) s)).code =
      A ++ x :: Byte.raw ((rest.length / 256) % 256) :: Byte.raw (rest.length % 256) :: rest ∧
    (currentChunk (patchJump (A.length + 1) s)).constants = (currentChunk s).constants ∧
    (rest.length ≤ 65535 →
      (patchJump (A.length + 1) s).stderr = s.stderr ∧
        (patchJump (A.length + 1) s).parser = s.parser) := by
  have hlen : (currentChunk s).code.length - (A.length + 1) - 2 = rest.length := by
    rw [hcode]
    simp only [List.length_append, List.length_cons]
    omega
  have hch := patchJump_chunk hok (A.length + 1)
  rw [hlen, hcode] at hch
  have hfun : (patchJump (A.length + 1) s).funOK := by
    unfold patchJump
    dsimp only
    split
    · exact funOK_setCurrentChunk ((error_funOK _ _).2 hok) _
    · exact funOK_setCurrentChunk hok _
  refine ⟨hfun, ?_, ?_, ?_, fun hsmall => ?_⟩
  · unfold patchJump
    dsimp only
    split <;> simp
  · rw [hch]
    exact set_operand A x a b _ _ rest
  · rw [hch]
  · have hno : ¬ ((currentChunk s).code.length - (A.length + 1) - 2 > UINT16_MAX) := by
      rw [hlen]
      show ¬ rest.length > 65535
      omega
    unfold patchJump
    dsimp only
    rw [if_neg hno]
    exact ⟨rfl, rfl⟩

theorem compilerAt_of_compilers {s s' : State} (h : s'.compilers = s.compilers) (k : Nat) :
    s'.compilerAt k = s.compilerAt k := by
  unfold State.compilerAt
  rw [h]

/-! ### What an expression keeps -/

theorem exprKeeps_of_compilers {s s' : State} (hc : s'.compilers = s.compilers)
    (hs : s'.structs = s.structs)
    (hk : ∀ p, (s.functionAt p).chunk.constants <+: (s'.functionAt p).chunk.constants)
    (hcells : ∀ p o, (∀ k, (s.compilerAt k).function ≠ p) → s.heap[p]? = some o →
      s'.heap[p]? = some o) :
    ExprKeeps s s' :=
  ⟨by rw [hc], fun k => by rw [compilerAt_of_compilers hc],
    fun k => by rw [compilerAt_of_compilers hc], fun k i => by rw [compilerAt_of_compilers hc],
    fun k i => by rw [compilerAt_of_compilers hc], hs, hk, hcells⟩

theorem exprKeeps_of_heap {s s' : State} (hc : s'.compilers = s.compilers)
    (hs : s'.structs = s.structs) (hh : s'.heap = s.heap) : ExprKeeps s s' :=
  exprKeeps_of_compilers hc hs
    (fun p => by
      unfold State.functionAt
      rw [hh])
    (fun p o _ h => by rw [hh]; exact h)

theorem exprKeeps_setCurrentChunk (s : State) (c : Chunk)
    (h : (currentChunk s).constants <+: c.constants) : ExprKeeps s (setCurrentChunk s c) := by
  refine exprKeeps_of_compilers rfl rfl (fun p => ?_) (fun p o hp ho => ?_)
  · unfold setCurrentChunk
    rw [functionAt_setFunctionAt]
    split
    · rename_i hp
      rw [hp.1]
      exact h
    · exact List.prefix_refl _
  · rw [setCurrentChunk_cell s c p (fun e => hp 0 e.symm)]
    exact ho

theorem exprKeeps_chain {a b c : State} (h : ExprKeeps a b) (h' : ExprKeeps b c) :
    ExprKeeps a c :=
  ⟨h'.length.trans h.length, fun k => (h'.function k).trans (h.function k),
    fun k => (h'.localCount k).trans (h.localCount k),
    fun k i => (h'.name k i).trans (h.name k i), fun k i => (h'.depth k i).trans (h.depth k i),
    h'.structs.trans h.structs, fun p => (h.constants p).trans (h'.constants p),
    fun p o hp ho => h'.cells p o (fun k => by rw [h.function k]; exact hp k) (h.cells p o hp ho)⟩

theorem exprKeeps_errorAt (t : Token) (m : List Nat) (s : State) : ExprKeeps s (errorAt t m s) :=
  exprKeeps_of_heap (errorAt_compilers t m s) (errorAt_structs t m s) (errorAt_heap t m s)

theorem exprKeeps_makeConstant (v : Value) (s : State) : ExprKeeps s (makeConstant v s).2 := by
  have h : ExprKeeps s (setCurrentChunk s (addConstant (currentChunk s) v).2) :=
    exprKeeps_setCurrentChunk s _ (List.prefix_append _ _)
  unfold makeConstant
  dsimp only
  split
  · exact exprKeeps_chain h (exprKeeps_errorAt _ _ _)
  · exact h

theorem exprKeeps_patchJump (o : Nat) (s : State) : ExprKeeps s (patchJump o s) := by
  unfold patchJump
  dsimp only
  refine exprKeeps_chain (b := if (currentChunk s).code.length - o - 2 > UINT16_MAX then
    error "Too much code to jump over." s else s) ?_
    (exprKeeps_setCurrentChunk _ _ (List.prefix_refl _))
  split
  · exact exprKeeps_errorAt _ _ _
  · exact exprKeeps_of_heap rfl rfl rfl

theorem exprKeeps_newList (s : State) : ExprKeeps s (newList s).2 := by
  refine exprKeeps_of_compilers rfl rfl (fun p => ?_) (fun p o _ ho => ?_)
  · have : (newList s).2.functionAt p = s.functionAt p := by
      unfold newList allocateObject State.functionAt
      simp only [List.getD_eq_getElem?_getD]
      by_cases hp : p < s.heap.length
      · rw [List.getElem?_append_left hp]
      · rw [List.getElem?_eq_none (Nat.le_of_not_lt hp)]
        by_cases hq : p = s.heap.length
        · subst hq
          simp
        · rw [List.getElem?_eq_none (by simp; omega)]
    rw [this]
  · have hp : p < s.heap.length := (List.getElem?_eq_some_iff.1 ho).1
    show (s.heap ++ [Obj.list []])[p]? = some o
    rw [List.getElem?_append_left hp]
    exact ho

theorem cells_resolveLocal (c : Compiler) (name : Token) (s : State) :
    (resolveLocal c name s).2.heap = s.heap := by
  rw [resolveLocal_eq]
  cases findLocal c name c.localCount with
  | none => rfl
  | some i =>
    dsimp only
    split
    · exact error_heap _ _
    · rfl

theorem cells_addUpvalue (k index : Nat) (isLocal : Bool) (s : State) :
    ∀ p o, (∀ j, (s.compilerAt j).function ≠ p) → s.heap[p]? = some o →
      (addUpvalue k index isLocal s).2.heap[p]? = some o := by
  intro p o hp ho
  unfold addUpvalue
  dsimp only
  split
  · exact ho
  · split
    · rw [error_heap]
      exact ho
    · show (s.heap.set (s.compilerAt k).function _)[p]? = some o
      rw [List.getElem?_set_ne (hp k)]
      exact ho

theorem cells_resolveUpvalueFrom (name : Token) (d : Nat) :
    ∀ (k : Nat) (s : State) (p : Nat) (o : Obj), (∀ j, (s.compilerAt j).function ≠ p) →
      s.heap[p]? = some o → (resolveUpvalueFrom name d k s).2.heap[p]? = some o := by
  induction d with
  | zero => intro k s p o _ ho; exact ho
  | succ d ih =>
    intro k s p o hp ho
    have hl := sameFrames_resolveLocal (s.compilerAt (k + 1)) name s
    have hlh := cells_resolveLocal (s.compilerAt (k + 1)) name s
    have hp1 : ∀ j, ((resolveLocal (s.compilerAt (k + 1)) name s).2.compilerAt j).function ≠ p :=
      fun j => by rw [hl.function j]; exact hp j
    have ho1 : (resolveLocal (s.compilerAt (k + 1)) name s).2.heap[p]? = some o := by
      rw [hlh]; exact ho
    rw [resolveUpvalueFrom]
    dsimp only
    split
    · have hc := sameFrames_capture (resolveLocal (s.compilerAt (k + 1)) name s).2 (k + 1)
        (resolveLocal (s.compilerAt (k + 1)) name s).1.toNat
      exact cells_addUpvalue _ _ _ _ p o (fun j => by rw [hc.function j]; exact hp1 j) ho1
    · have hu := sameFrames_resolveUpvalueFrom name d (k + 1)
        (resolveLocal (s.compilerAt (k + 1)) name s).2
      have ho2 := ih (k + 1) _ p o hp1 ho1
      split
      · exact cells_addUpvalue _ _ _ _ p o (fun j => by rw [hu.function j]; exact hp1 j) ho2
      · exact ho2

/-- The steps of an expression, for a relation that holds across `patchJump`
at every offset. -/
theorem exprSteps_of_patchJump {R : State → State → Prop} (hrefl : ∀ s, R s s)
    (htrans : ∀ {a b c}, R a b → R b c → R a c) (hadvance : ∀ s, R s (advance s))
    (herrorAt : ∀ t m s, R s (errorAt t m s)) (hemitByte : ∀ b s, R s (emitByte b s))
    (hmakeConstant : ∀ v s, R s (makeConstant v s).2) (hpatchJump : ∀ o s, R s (patchJump o s))
    (hresolveUpvalue : ∀ k name s, R s (resolveUpvalue k name s).2)
    (hnewList : ∀ s, R s (newList s).2) : ExprSteps R :=
  have hjump : ∀ i s, R s (emitJump i s).2 := fun _ s =>
    htrans (htrans (hemitByte _ s) (hemitByte _ _)) (hemitByte _ _)
  { refl := hrefl
    trans := htrans
    advance := hadvance
    errorAt := herrorAt
    emitByte := hemitByte
    makeConstant := hmakeConstant
    patchAnd := fun s a h =>
      htrans (htrans (htrans (hjump _ s) (hemitByte _ _)) h) (hpatchJump _ a)
    patchOr := fun s a h =>
      htrans (htrans (htrans (htrans (htrans (hjump _ s) (hjump _ _)) (hpatchJump _ _))
        (hemitByte _ _)) h) (hpatchJump _ a)
    resolveUpvalue := hresolveUpvalue
    newList := hnewList }

theorem exprKeeps_steps : ExprSteps ExprKeeps :=
  exprSteps_of_patchJump (fun s => exprKeeps_of_heap rfl rfl rfl) exprKeeps_chain
    (fun s => exprKeeps_of_heap (advance_compilers s) (advance_structs s) (advance_heap s))
    exprKeeps_errorAt (fun b s => exprKeeps_setCurrentChunk s _ (List.prefix_refl _))
    exprKeeps_makeConstant exprKeeps_patchJump
    (fun k name s =>
      have h := sameFrames_resolveUpvalue k name s
      ⟨h.length, h.function, h.localCount, h.name, h.depth, h.structs,
        fun p => by rw [h.chunk p], cells_resolveUpvalueFrom name _ k s⟩)
    exprKeeps_newList

/-- Every relation that all steps of the compiler respect is respected by the
steps of an expression. -/
theorem Passes.steps {R : State → State → Prop} (hR : Passes R) : ExprSteps R :=
  exprSteps_of_patchJump hR.refl hR.trans hR.advance hR.errorAt hR.emitByte hR.makeConstant
    hR.patchJump hR.resolveUpvalue hR.newList

/-! ### Relations that every step of an expression respects -/

section ExprStepsLemmas

variable {R : State → State → Prop}

theorem reads_bind (hR : ExprSteps R) {α β : Type} {p : α → State} {q : β → State} {s : State}
    {x : Res α} {f : α → Res β} (hx : Lands R p s x) (hf : ∀ a, Lands R q (p a) (f a)) :
    Lands R q s (x >>= f) := by
  intro b hb
  cases x with
  | error e => cases hb
  | ok a => exact hR.trans (hx a rfl) (hf a b hb)

theorem reads_after (hR : ExprSteps R) {α : Type} {p : α → State} {s a : State} {x : Res α}
    (h : R s a) (hx : Lands R p a x) : Lands R p s x :=
  fun b hb => hR.trans h (hx b hb)

theorem ExprSteps.stepError (hR : ExprSteps R) (m : String) (s : State) : R s (Luna.error m s) :=
  hR.errorAt _ _ _

theorem ExprSteps.stepErrorAtCurrent (hR : ExprSteps R) (m : List Nat) (s : State) :
    R s (Luna.errorAtCurrent m s) :=
  hR.errorAt _ _ _

theorem ExprSteps.stepConsume (hR : ExprSteps R) (t : TokenType) (m : String) (s : State) :
    R s (Luna.consume t m s) := by
  unfold Luna.consume
  split
  · exact hR.advance s
  · exact hR.stepErrorAtCurrent _ s

theorem ExprSteps.stepMatch (hR : ExprSteps R) (t : TokenType) (s : State) :
    R s (Luna.match_ t s).2 := by
  unfold Luna.match_
  split
  · exact hR.refl s
  · exact hR.advance s

theorem ExprSteps.stepEmitBytes (hR : ExprSteps R) (a b : Byte) (s : State) :
    R s (Luna.emitBytes a b s) :=
  hR.trans (hR.emitByte a s) (hR.emitByte b _)

theorem ExprSteps.stepIte (hR : ExprSteps R) {c : Prop} [Decidable c] {s : State} {f : State → State}
    (h : R s (f s)) : R s (if c then f s else s) := by
  split
  · exact h
  · exact hR.refl s

theorem ExprSteps.stepEmitJump (hR : ExprSteps R) (i : OpCode) (s : State) :
    R s (Luna.emitJump i s).2 :=
  hR.trans (hR.trans (hR.emitByte _ s) (hR.emitByte _ _)) (hR.emitByte _ _)

theorem ExprSteps.stepEmitConstant (hR : ExprSteps R) (v : Value) (s : State) :
    R s (Luna.emitConstant v s) :=
  hR.trans (hR.makeConstant v s) (hR.stepEmitBytes _ _ _)

theorem ExprSteps.stepIdentifierConstant (hR : ExprSteps R) (t : Token) (s : State) :
    R s (Luna.identifierConstant t s).2 :=
  hR.makeConstant _ s

theorem ExprSteps.stepResolveLocal (hR : ExprSteps R) (c : Compiler) (t : Token) (s : State) :
    R s (Luna.resolveLocal c t s).2 := by
  rw [resolveLocal_eq]
  cases findLocal c t c.localCount with
  | none => exact hR.refl s
  | some i => exact hR.stepIte (hR.stepError _ _)

theorem ExprSteps.stepResolveVariable (hR : ExprSteps R) (t : Token) (s : State) :
    R s (Luna.resolveVariable t s).2 := by
  unfold Luna.resolveVariable
  dsimp only
  have h1 := hR.stepResolveLocal s.cur t s
  split
  · exact h1
  · have h2 := hR.trans h1 (hR.resolveUpvalue 0 t _)
    split
    · exact h2
    · exact hR.trans h2 (hR.stepIdentifierConstant _ _)

theorem ExprSteps.stepLiteral (hR : ExprSteps R) (c : Bool) (s : State) : R s (Luna.literal c s) := by
  unfold Luna.literal
  split
  · exact hR.emitByte _ s
  · exact hR.emitByte _ s
  · exact hR.emitByte _ s
  · exact hR.refl s

theorem ExprSteps.stepNumber (hR : ExprSteps R) (c : Bool) (s : State) : R s (Luna.number c s) :=
  hR.stepEmitConstant _ s

theorem ExprSteps.stepString (hR : ExprSteps R) (c : Bool) (s : State) : R s (Luna.string c s) :=
  hR.stepEmitConstant _ s

theorem reads_expression {pp : Precedence → State → Res State}
    (h : ∀ p s, Lands R id s (pp p s)) (s : State) : Lands R id s (expression pp s) :=
  h _ s

theorem reads_argumentLoop (hR : ExprSteps R) {pp : Precedence → State → Res State}
    (h : ∀ p s, Lands R id s (pp p s)) (fuel c : Nat) (s : State) :
    Lands R Prod.snd s (argumentLoop pp fuel c s) := by
  induction fuel generalizing c s with
  | zero => exact lands_error _
  | succ k ih =>
    unfold argumentLoop
    refine reads_bind hR (reads_expression h s) (fun a => ?_)
    dsimp only
    have hstep : R a (match_ TOKEN_COMMA
        (if c = 255 then error "Can't have more than 255 arguments." a else a)).2 :=
      hR.trans (hR.stepIte (hR.stepError _ _)) (hR.stepMatch _ _)
    exact lands_ite (reads_after hR hstep (ih _ _)) (lands_pure hstep)

theorem reads_argumentList (hR : ExprSteps R) {pp : Precedence → State → Res State}
    (h : ∀ p s, Lands R id s (pp p s)) (n : Nat) (s : State) :
    Lands R Prod.snd s (argumentList pp n s) := by
  unfold argumentList
  refine reads_bind hR (p := Prod.snd) ?_ (fun a => lands_pure (hR.stepConsume _ _ _))
  exact lands_ite (reads_argumentLoop hR h _ _ _) (lands_pure (hR.refl _))

theorem reads_and (hR : ExprSteps R) {pp : Precedence → State → Res State}
    (h : ∀ p s, Lands R id s (pp p s)) (c : Bool) (s : State) :
    Lands R id s (and_ pp c s) := by
  intro b hb
  unfold and_ at hb
  dsimp only at hb
  cases hpp : pp PREC_AND (emitByte (Byte.op OP_POP) (emitJump OP_JUMP_IF_FALSE s).2) with
  | error e => rw [hpp] at hb; cases hb
  | ok a =>
    rw [hpp] at hb
    cases hb
    exact hR.patchAnd s a (h _ _ a hpp)

theorem reads_or (hR : ExprSteps R) {pp : Precedence → State → Res State}
    (h : ∀ p s, Lands R id s (pp p s)) (c : Bool) (s : State) :
    Lands R id s (or_ pp c s) := by
  intro b hb
  unfold or_ at hb
  dsimp only at hb
  cases hpp : pp PREC_OR (emitByte (Byte.op OP_POP)
      (patchJump (emitJump OP_JUMP_IF_FALSE s).1
        (emitJump OP_JUMP (emitJump OP_JUMP_IF_FALSE s).2).2)) with
  | error e => rw [hpp] at hb; cases hb
  | ok a =>
    rw [hpp] at hb
    cases hb
    exact hR.patchOr s a (h _ _ a hpp)

theorem reads_binary (hR : ExprSteps R) {pp : Precedence → State → Res State}
    (h : ∀ p s, Lands R id s (pp p s)) (c : Bool) (s : State) :
    Lands R id s (binary pp c s) := by
  unfold binary
  dsimp only
  refine reads_bind hR (h _ _) (fun a => ?_)
  split <;>
    first
    | exact lands_pure (hR.stepEmitBytes _ _ _)
    | exact lands_pure (hR.emitByte _ _)
    | exact lands_pure (hR.refl _)

theorem reads_unary (hR : ExprSteps R) {pp : Precedence → State → Res State}
    (h : ∀ p s, Lands R id s (pp p s)) (c : Bool) (s : State) :
    Lands R id s (unary pp c s) := by
  unfold unary
  dsimp only
  refine reads_bind hR (h _ _) (fun a => ?_)
  split <;>
    first
    | exact lands_pure (hR.emitByte _ _)
    | exact lands_pure (hR.refl _)

theorem reads_grouping (hR : ExprSteps R) {pp : Precedence → State → Res State}
    (h : ∀ p s, Lands R id s (pp p s)) (c : Bool) (s : State) :
    Lands R id s (grouping pp c s) := by
  unfold grouping
  exact reads_bind hR (reads_expression h s) (fun a => lands_pure (hR.stepConsume _ _ _))

theorem reads_call (hR : ExprSteps R) {pp : Precedence → State → Res State}
    (h : ∀ p s, Lands R id s (pp p s)) (n : Nat) (c : Bool) (s : State) :
    Lands R id s (call pp n c s) := by
  unfold call
  exact reads_bind hR (reads_argumentList hR h n s) (fun a => lands_pure (hR.stepEmitBytes _ _ _))

theorem reads_namedVariable (hR : ExprSteps R) {pp : Precedence → State → Res State}
    (h : ∀ p s, Lands R id s (pp p s)) (name : Token) (c : Bool) (s : State) :
    Lands R id s (namedVariable pp name c s) := by
  unfold namedVariable
  dsimp only
  refine lands_ite ?_ (lands_pure ?_)
  · refine reads_bind hR (reads_after hR ?_ (reads_expression h _))
      (fun a => lands_pure (hR.stepEmitBytes _ _ _))
    exact hR.trans (hR.stepResolveVariable name s) (hR.stepMatch _ _)
  · exact hR.trans (hR.stepResolveVariable name s) (hR.stepEmitBytes _ _ _)

theorem reads_variable (hR : ExprSteps R) {pp : Precedence → State → Res State}
    (h : ∀ p s, Lands R id s (pp p s)) (c : Bool) (s : State) :
    Lands R id s (variable_ pp c s) :=
  reads_namedVariable hR h _ _ _

theorem reads_super (hR : ExprSteps R) {pp : Precedence → State → Res State}
    (h : ∀ p s, Lands R id s (pp p s)) (n : Nat) (c : Bool) (s : State) :
    Lands R id s (super_ pp n c s) := by
  unfold super_
  dsimp only
  have h0 : R s (match s.structs with
      | [] => error "Can't use 'super' outside of struct." s
      | currentStruct :: _ =>
        if !currentStruct.hasSuperstruct then error "Can't use 'super' in leaf struct." s
        else s) := by
    split
    · exact hR.stepError _ _
    · exact hR.stepIte (hR.stepError _ _)
  refine reads_bind hR (reads_after hR ?_ (reads_namedVariable hR h _ _ _)) (fun a => ?_)
  · exact hR.trans (hR.trans (hR.trans h0 (hR.stepConsume _ _ _)) (hR.stepConsume _ _ _))
      (hR.stepIdentifierConstant _ _)
  · refine lands_ite ?_ ?_
    · refine reads_bind hR (reads_after hR ?_ (reads_argumentList hR h n _)) (fun b => ?_)
      · exact hR.stepMatch _ _
      · refine reads_bind hR (reads_namedVariable hR h _ _ _) (fun d => ?_)
        exact lands_pure (hR.trans (hR.stepEmitBytes _ _ _) (hR.emitByte _ _))
    · refine reads_bind hR (reads_after hR ?_ (reads_namedVariable hR h _ _ _))
        (fun d => lands_pure (hR.stepEmitBytes _ _ _))
      exact hR.stepMatch _ _

theorem reads_dot (hR : ExprSteps R) {pp : Precedence → State → Res State}
    (h : ∀ p s, Lands R id s (pp p s)) (n : Nat) (c : Bool) (s : State) :
    Lands R id s (dot pp n c s) := by
  unfold dot
  dsimp only
  have h0 := hR.trans (hR.stepConsume TOKEN_IDENTIFIER "Expect properti name after '.'." s)
    (hR.stepIdentifierConstant
      (consume TOKEN_IDENTIFIER "Expect properti name after '.'." s).parser.previous _)
  refine lands_ite ?_ (lands_ite ?_ (lands_pure ?_))
  · refine reads_bind hR (reads_after hR ?_ (reads_expression h _))
      (fun a => lands_pure (hR.stepEmitBytes _ _ _))
    exact hR.trans h0 (hR.stepMatch _ _)
  · refine reads_bind hR (reads_after hR ?_ (reads_argumentList hR h n _)) (fun b => ?_)
    · exact hR.trans h0 (hR.stepMatch _ _)
    · exact lands_pure (hR.trans (hR.stepEmitBytes _ _ _) (hR.emitByte _ _))
  · exact hR.trans (hR.trans h0 (hR.stepMatch _ _)) (hR.stepEmitBytes _ _ _)

theorem reads_self (hR : ExprSteps R) {pp : Precedence → State → Res State}
    (h : ∀ p s, Lands R id s (pp p s)) (c : Bool) (s : State) :
    Lands R id s (self pp c s) := by
  unfold self
  split
  · exact lands_pure (hR.stepError _ _)
  · exact reads_variable hR h _ _

theorem reads_listLoop (hR : ExprSteps R) {pp : Precedence → State → Res State}
    (h : ∀ p s, Lands R id s (pp p s)) (fuel c : Nat) (s : State) :
    Lands R id s (listLoop pp fuel c s) := by
  induction fuel generalizing c s with
  | zero => exact lands_error _
  | succ k ih =>
    unfold listLoop
    refine reads_bind hR (p := Prod.snd) ?_ (fun a => ?_)
    · refine lands_ite ?_ (lands_pure (hR.stepError _ _))
      exact reads_bind hR (reads_expression h s) (fun a => lands_pure (hR.emitByte _ _))
    · dsimp only
      exact lands_ite (reads_after hR (hR.stepMatch _ _) (ih _ _)) (lands_pure (hR.stepMatch _ _))

theorem reads_list (hR : ExprSteps R) {pp : Precedence → State → Res State}
    (h : ∀ p s, Lands R id s (pp p s)) (n : Nat) (c : Bool) (s : State) :
    Lands R id s (list pp n c s) := by
  unfold list
  dsimp only
  refine reads_bind hR (p := id) ?_ (fun a => lands_pure (hR.stepEmitConstant _ _))
  refine lands_ite ?_ (lands_pure (hR.newList s))
  exact reads_bind hR (reads_after hR (hR.newList s) (reads_listLoop hR h _ _ _))
    (fun a => lands_pure (hR.stepConsume _ _ _))

theorem reads_applyRule (hR : ExprSteps R) {pp : Precedence → State → Res State}
    (h : ∀ p s, Lands R id s (pp p s)) (n : Nat) (fn : ParseFn) (c : Bool) (s : State) :
    Lands R id s (applyRule pp n fn c s) := by
  cases fn <;> simp only [applyRule]
  · exact reads_grouping hR h _ _
  · exact reads_call hR h _ _ _
  · exact reads_dot hR h _ _ _
  · exact reads_unary hR h _ _
  · exact reads_binary hR h _ _
  · exact reads_variable hR h _ _
  · exact lands_pure (hR.stepString _ _)
  · exact lands_pure (hR.stepNumber _ _)
  · exact reads_and hR h _ _
  · exact lands_pure (hR.stepLiteral _ _)
  · exact reads_or hR h _ _
  · exact reads_super hR h _ _ _
  · exact reads_self hR h _ _
  · exact reads_list hR h _ _ _

theorem reads_infixLoop (hR : ExprSteps R) {pp : Precedence → State → Res State}
    (h : ∀ p s, Lands R id s (pp p s)) (n : Nat) (p : Precedence) (c : Bool) (fuel : Nat)
    (s : State) : Lands R id s (infixLoop pp n p c fuel s) := by
  induction fuel generalizing s with
  | zero => exact lands_error _
  | succ k ih =>
    unfold infixLoop
    refine lands_ite ?_ (lands_pure (hR.refl _))
    dsimp only
    split
    · exact lands_error _
    · exact reads_bind hR (reads_after hR (hR.advance s) (reads_applyRule hR h _ _ _ _))
        (fun a => ih a)

theorem reads_parsePrecedence (hR : ExprSteps R) (n : Nat) :
    ∀ p s, Lands R id s (parsePrecedence n p s) := by
  induction n with
  | zero => intro p s; exact lands_error _
  | succ k ih =>
    intro p s
    unfold parsePrecedence
    dsimp only
    split
    · exact lands_pure (hR.trans (hR.advance s) (hR.stepError _ _))
    · refine reads_bind hR (reads_after hR (hR.advance s) (reads_applyRule hR ih _ _ _ _))
        (fun a => ?_)
      refine reads_bind hR (reads_infixLoop hR ih _ _ _ _ _) (fun b => ?_)
      exact lands_ite (lands_pure (hR.trans (hR.stepMatch _ _) (hR.stepError _ _)))
        (lands_pure (hR.refl _))

end ExprStepsLemmas

/-! ### Expressions add code after the code that is there -/

theorem currentChunk_newList {s : State} (hok : s.funOK) :
    (newList s).2.funOK ∧ currentChunk (newList s).2 = currentChunk s := by
  obtain ⟨f, hf⟩ := hok
  have hp : s.cur.function < s.heap.length := (List.getElem?_eq_some_iff.1 hf).1
  have hcell : (s.heap ++ [Obj.list []])[s.cur.function]? = some (Obj.function f) := by
    rw [List.getElem?_append_left hp]
    exact hf
  refine ⟨⟨f, hcell⟩, ?_⟩
  have hfun : (newList s).2.functionAt s.cur.function = s.functionAt s.cur.function := by
    unfold newList allocateObject State.functionAt
    simp only [List.getD_eq_getElem?_getD]
    rw [hcell, hf]
  exact congrArg ObjFunction.chunk hfun

theorem patchJump_funOK {s : State} (h : s.funOK) (o : Nat) : (patchJump o s).funOK := by
  unfold patchJump
  dsimp only
  split
  · exact funOK_setCurrentChunk ((error_funOK _ _).2 h) _
  · exact funOK_setCurrentChunk h _

theorem grows_refl (s : State) : Grows s s := fun h => ⟨h, List.prefix_refl _⟩

theorem grows_chain {a b c : State} (h1 : Grows a b) (h2 : Grows b c) : Grows a c := fun h =>
  ⟨(h2 (h1 h).1).1, (h1 h).2.trans (h2 (h1 h).1).2⟩

theorem grows_of_code {s s' : State} (hok : s.funOK → s'.funOK)
    (h : s.funOK → ∃ cb, (currentChunk s').code = (currentChunk s).code ++ cb) : Grows s s' :=
  fun h0 => ⟨hok h0, by
    obtain ⟨cb, hcb⟩ := h h0
    rw [hcb]
    exact List.prefix_append _ _⟩

theorem grows_patch {s a : State} (x : Byte) (tail : List Byte)
    (hpre : (currentChunk s).code ++ x :: Byte.raw 255 :: Byte.raw 255 :: tail <+:
      (currentChunk a).code) (ha : a.funOK) :
    (patchJump ((currentChunk s).code.length + 1) a).funOK ∧
      (currentChunk s).code <+:
        (currentChunk (patchJump ((currentChunk s).code.length + 1) a)).code := by
  obtain ⟨cb, hcb⟩ := hpre
  have hcode : (currentChunk a).code =
      (currentChunk s).code ++ x :: Byte.raw 255 :: Byte.raw 255 :: (tail ++ cb) := by
    rw [← hcb]
    simp
  obtain ⟨p1, -, p3, -⟩ := patchJump_placeholder ha _ _ _ _ _ hcode
  exact ⟨p1, by rw [p3]; exact List.prefix_append _ _⟩

theorem grows_steps : ExprSteps Grows where
  refl := grows_refl
  trans := grows_chain
  advance := fun s h => ⟨(advance_funOK s).2 h, by rw [advance_currentChunk]⟩
  errorAt := fun t m s h => ⟨(errorAt_funOK t m s).2 h, by rw [errorAt_currentChunk]⟩
  emitByte := fun b s h => ⟨emitByte_funOK h b, by
    rw [emitByte_code h]
    exact List.prefix_append _ _⟩
  makeConstant := fun v s h => ⟨makeConstant_funOK h v, by rw [makeConstant_code h]⟩
  patchAnd := fun s a hR h => by
    have hj := emitJump_code h OP_JUMP_IF_FALSE
    have h0 : (currentChunk (andOperandState s)).code =
        (currentChunk s).code ++
          Byte.op OP_JUMP_IF_FALSE :: Byte.raw 255 :: Byte.raw 255 :: [Byte.op OP_POP] := by
      unfold andOperandState
      rw [emitByte_code (emitJump_funOK h _), hj]
      simp
    obtain ⟨ha, hpre⟩ := hR (emitByte_funOK (emitJump_funOK h _) _)
    rw [h0] at hpre
    rw [emitJump_offset h]
    exact grows_patch _ _ hpre ha
  patchOr := fun s a hR h => by
    have hok1 := emitJump_funOK h OP_JUMP_IF_FALSE
    have hok2 := emitJump_funOK hok1 OP_JUMP
    have hc1 := emitJump_code h OP_JUMP_IF_FALSE
    have hc2 : (currentChunk (emitJump OP_JUMP (emitJump OP_JUMP_IF_FALSE s).2).2).code =
        (currentChunk s).code ++ Byte.op OP_JUMP_IF_FALSE :: Byte.raw 255 :: Byte.raw 255 ::
          [Byte.op OP_JUMP, Byte.raw 255, Byte.raw 255] := by
      rw [emitJump_code hok1, hc1]
      simp
    have ho1 := emitJump_offset h OP_JUMP_IF_FALSE
    have ho2 : (emitJump OP_JUMP (emitJump OP_JUMP_IF_FALSE s).2).1 =
        ((currentChunk s).code ++ [Byte.op OP_JUMP_IF_FALSE, Byte.raw 255, Byte.raw 255]).length
          + 1 := by
      rw [emitJump_offset hok1, hc1]
    obtain ⟨q1, -, q3, -⟩ := patchJump_placeholder hok2 _ _ _ _ _ hc2
    rw [← ho1] at q1 q3
    have h0 : (currentChunk (orOperandState s)).code =
        ((currentChunk s).code ++ [Byte.op OP_JUMP_IF_FALSE, Byte.raw 0, Byte.raw 3]) ++
          Byte.op OP_JUMP :: Byte.raw 255 :: Byte.raw 255 :: [Byte.op OP_POP] := by
      unfold orOperandState
      rw [emitByte_code q1, q3]
      simp
    obtain ⟨ha, hpre⟩ := hR (emitByte_funOK q1 _)
    rw [h0] at hpre
    obtain ⟨cb, hcb⟩ := hpre
    have hcode : (currentChunk a).code =
        ((currentChunk s).code ++ [Byte.op OP_JUMP_IF_FALSE, Byte.raw 0, Byte.raw 3]) ++
          Byte.op OP_JUMP :: Byte.raw 255 :: Byte.raw 255 :: (Byte.op OP_POP :: cb) := by
      rw [← hcb]
      simp
    have hlen : ((currentChunk s).code ++
        [Byte.op OP_JUMP_IF_FALSE, Byte.raw 0, Byte.raw 3]).length =
        ((currentChunk s).code ++
          [Byte.op OP_JUMP_IF_FALSE, Byte.raw 255, Byte.raw 255]).length := by
      simp
    obtain ⟨p1, -, p3, -⟩ := patchJump_placeholder ha _ _ _ _ _ hcode
    rw [hlen, ← ho2] at p1 p3
    exact ⟨p1, by rw [p3, List.append_assoc]; exact List.prefix_append _ _⟩
  resolveUpvalue := fun k name s h =>
    ⟨(sameFrames_resolveUpvalue k name s).funOK h,
      by rw [(sameFrames_resolveUpvalue k name s).currentChunk]⟩
  newList := fun s h => ⟨(currentChunk_newList h).1, by rw [(currentChunk_newList h).2]⟩

/-- Whatever `parsePrecedence` compiles in a state with a current function, the
code of the current function afterwards is the code before it followed by the
bytes the expression added, and the current function still is one. -/
theorem parsePrecedence_grows (k : Nat) (p : Precedence) (s s1 : State) (hok : s.funOK)
    (h : parsePrecedence k p s = Except.ok s1) :
    s1.funOK ∧ ∃ cb, (currentChunk s1).code = (currentChunk s).code ++ cb := by
  obtain ⟨h1, cb, h2⟩ := reads_parsePrecedence grows_steps k p s s1 h hok
  exact ⟨h1, cb, h2.symm⟩

/-! ### The arguments of a call, whatever they are -/

theorem argumentCheck_of_ne {c : Nat} (h : c ≠ 255) (a : State) : argumentCheck c a = a := by
  unfold argumentCheck
  rw [if_neg h]

theorem argumentLoop_succ (pp : Precedence → State → Res State) (fuel c : Nat) (s : State) :
    argumentLoop pp (fuel + 1) c s =
      expression pp s >>= fun a =>
        if (argumentCheck c a).parser.current.type = TOKEN_COMMA then
          argumentLoop pp fuel ((c + 1) % 256) (advance (argumentCheck c a))
        else pure ((c + 1) % 256, argumentCheck c a) := by
  rw [argumentLoop]
  cases expression pp s with
  | error e => rfl
  | ok a =>
    simp only [bind, Except.bind, argumentCheck, match_, check]
    by_cases h : (if c = 255 then error "Can't have more than 255 arguments." a
        else a).parser.current.type = TOKEN_COMMA
    · simp [h]
    · simp [h]

/-- When the arguments compile, the loop of `argumentList` returns their number
modulo 256 and the state after the test that follows the last one. -/
theorem argumentLoop_of_compile (pp : Precedence → State → Res State) :
    ∀ (args : List State) (c : Nat) (s : State) (fuel : Nat), c < 256 →
      argumentsCompile pp c s args → args.length ≤ fuel →
      ∃ a, args.getLast? = some a ∧
        argumentLoop pp fuel c s =
          Except.ok ((c + args.length) % 256,
            argumentCheck ((c + (args.length - 1)) % 256) a) := by
  intro args
  induction args with
  | nil => intro c s fuel _ h; exact absurd h (by simp [argumentsCompile])
  | cons a rest ih =>
    intro c s fuel hc h hf
    obtain ⟨k, rfl⟩ : ∃ k, fuel = k + 1 := ⟨fuel - 1, by simp at hf; omega⟩
    cases rest with
    | nil =>
      obtain ⟨h1, h2⟩ := h
      refine ⟨a, rfl, ?_⟩
      rw [argumentLoop_succ, h1]
      simp only [bind, Except.bind, if_neg h2, List.length_singleton, Nat.sub_self, Nat.add_zero,
        Nat.mod_eq_of_lt hc]
      rfl
    | cons b rest =>
      obtain ⟨h1, h2, h3⟩ := h
      obtain ⟨z, hz, hl⟩ := ih ((c + 1) % 256) (advance (argumentCheck c a)) k
        (Nat.mod_lt _ (by decide)) h3 (by simpa using hf)
      refine ⟨z, by simpa using hz, ?_⟩
      rw [argumentLoop_succ, h1]
      simp only [bind, Except.bind, if_pos h2]
      rw [hl]
      simp only [List.length_cons]
      congr 2
      · omega
      · congr 1
        omega

/-- Every run of the loop of `argumentList` that returns is the compilation of
a list of arguments. -/
theorem argumentLoop_compiles (pp : Precedence → State → Res State) :
    ∀ (fuel c : Nat) (s : State) (r : Nat × State), argumentLoop pp fuel c s = Except.ok r →
      ∃ args, argumentsCompile pp c s args ∧ args.length ≤ fuel := by
  intro fuel
  induction fuel with
  | zero => intro c s r h; cases h
  | succ k ih =>
    intro c s r h
    rw [argumentLoop_succ] at h
    cases he : expression pp s with
    | error e => rw [he] at h; cases h
    | ok a =>
      rw [he] at h
      simp only [bind, Except.bind] at h
      by_cases hcomma : (argumentCheck c a).parser.current.type = TOKEN_COMMA
      · rw [if_pos hcomma] at h
        obtain ⟨args, h1, h2⟩ := ih _ _ _ h
        cases args with
        | nil => exact absurd h1 (by simp [argumentsCompile])
        | cons b rest =>
          exact ⟨a :: b :: rest, ⟨he, hcomma, h1⟩, by simpa using h2⟩
      · exact ⟨[a], ⟨he, hcomma⟩, by simp⟩

/-- How the arguments follow one another: the first is compiled from `s`, and
each later one from the state after the test of the count and the comma. -/
theorem argumentsCompile_next (pp : Precedence → State → Res State) :
    ∀ (args : List State) (c : Nat) (s : State), c < 256 → argumentsCompile pp c s args →
      (∃ a, args[0]? = some a ∧ expression pp s = Except.ok a) ∧
      ∀ i a b, args[i]? = some a → args[i + 1]? = some b →
        (argumentCheck ((c + i) % 256) a).parser.current.type = TOKEN_COMMA ∧
          expression pp (advance (argumentCheck ((c + i) % 256) a)) = Except.ok b := by
  intro args
  induction args with
  | nil => intro c s _ h; exact absurd h (by simp [argumentsCompile])
  | cons a rest ih =>
    intro c s hc h
    cases rest with
    | nil =>
      refine ⟨⟨a, rfl, h.1⟩, fun i x y hx hy => ?_⟩
      simp at hy
    | cons b rest =>
      obtain ⟨h1, h2, h3⟩ := h
      obtain ⟨⟨b', hb', hbe⟩, hnext⟩ := ih ((c + 1) % 256) (advance (argumentCheck c a))
        (Nat.mod_lt _ (by decide)) h3
      have hbb : b' = b := by simpa using hb'.symm
      subst hbb
      refine ⟨⟨a, rfl, h1⟩, fun i x y hx hy => ?_⟩
      cases i with
      | zero =>
        have hxa : x = a := by simpa using hx.symm
        have hyb : y = b' := by simpa using hy.symm
        subst hxa; subst hyb
        rw [Nat.add_zero, Nat.mod_eq_of_lt hc]
        exact ⟨h2, hbe⟩
      | succ j =>
        have := hnext j x y (by simpa using hx) (by simpa using hy)
        have hidx : ((c + 1) % 256 + j) % 256 = (c + (j + 1)) % 256 := by omega
        rw [hidx] at this
        exact this

theorem ExprSteps.stepArgumentCheck {R : State → State → Prop} (hR : ExprSteps R) (c : Nat)
    (a : State) : R a (argumentCheck c a) := by
  unfold argumentCheck
  exact hR.stepIte (hR.stepError _ _)

/-- A relation that every step of an expression respects holds from the state
before the arguments to the state after each, and from there to the state in
which the loop ends. -/
theorem argumentsCompile_lands {R : State → State → Prop} (hR : ExprSteps R)
    {pp : Precedence → State → Res State} (hpp : ∀ p s, Lands R id s (pp p s)) :
    ∀ (args : List State) (c : Nat) (s : State), c < 256 → argumentsCompile pp c s args →
      ∀ i a, args[i]? = some a →
        R s a ∧ ∃ z, args.getLast? = some z ∧
          R (argumentCheck ((c + i) % 256) a)
            (argumentCheck ((c + (args.length - 1)) % 256) z) := by
  intro args
  induction args with
  | nil => intro c s _ h; exact absurd h (by simp [argumentsCompile])
  | cons a rest ih =>
    intro c s hc h i x hx
    cases rest with
    | nil =>
      have hi : i = 0 := by
        cases i with
        | zero => rfl
        | succ j => simp at hx
      subst hi
      have hxa : x = a := by simpa using hx.symm
      subst hxa
      exact ⟨hpp _ s x h.1, x, rfl, by simpa using hR.refl _⟩
    | cons b rest =>
      obtain ⟨h1, h2, h3⟩ := h
      have hsa : R s a := hpp _ s a h1
      have hstep : R a (advance (argumentCheck c a)) :=
        hR.trans (hR.stepArgumentCheck c a) (hR.advance _)
      have hidx : ∀ j, ((c + 1) % 256 + j) % 256 = (c + (j + 1)) % 256 := fun j => by omega
      cases i with
      | zero =>
        have hxa : x = a := by simpa using hx.symm
        subst hxa
        obtain ⟨hb, z, hz, hzR⟩ := ih ((c + 1) % 256) (advance (argumentCheck c x))
          (Nat.mod_lt _ (by decide)) h3 0 b (by simp)
        refine ⟨hsa, z, by simpa using hz, ?_⟩
        rw [Nat.add_zero, Nat.mod_eq_of_lt hc]
        have hlen : (x :: b :: rest).length - 1 = (b :: rest).length - 1 + 1 := by simp
        rw [hidx ((b :: rest).length - 1)] at hzR
        rw [hlen]
        exact hR.trans (hR.advance _) (hR.trans hb (hR.trans (hR.stepArgumentCheck _ b) hzR))
      | succ j =>
        obtain ⟨hb, z, hz, hzR⟩ := ih ((c + 1) % 256) (advance (argumentCheck c a))
          (Nat.mod_lt _ (by decide)) h3 j x (by simpa using hx)
        refine ⟨hR.trans hsa (hR.trans hstep hb), z, by simpa using hz, ?_⟩
        have hlen : (a :: b :: rest).length - 1 = (b :: rest).length - 1 + 1 := by simp
        rw [hidx j, hidx ((b :: rest).length - 1)] at hzR
        rw [hlen]
        exact hzR

/-- When the arguments compile, `argumentList` returns their number modulo 256
and the state after the closing parenthesis is consumed. -/
theorem argumentList_of_arguments (pp : Precedence → State → Res State) (s : State)
    (args : List State) (fuel : Nat) (h : callArguments pp s args) (hf : args.length ≤ fuel) :
    argumentList pp fuel s =
      Except.ok (args.length % 256,
        consume TOKEN_RIGHT_PAREN "Expect ')' after arguments." (argumentsEnd s args)) := by
  unfold callArguments at h
  unfold argumentList
  by_cases hnil : args = []
  · subst hnil
    rw [if_pos rfl] at h
    simp only [h, Bool.not_true, Bool.false_eq_true, if_false, bind, Except.bind, pure,
      Except.pure]
    rfl
  · rw [if_neg hnil] at h
    obtain ⟨a, ha, hl⟩ := argumentLoop_of_compile pp args 0 s fuel (by decide) h.2 hf
    simp only [h.1, Bool.not_false, if_true, hl, bind, Except.bind, pure, Except.pure,
      Nat.zero_add, argumentsEnd, ha]

/-- Every run of `argumentList` that returns is the compilation of a list of
arguments. -/
theorem argumentList_arguments (pp : Precedence → State → Res State) (s : State) (fuel : Nat)
    (r : Nat × State) (h : argumentList pp fuel s = Except.ok r) :
    ∃ args, callArguments pp s args ∧ args.length ≤ fuel := by
  unfold argumentList at h
  by_cases hc : check TOKEN_RIGHT_PAREN s = true
  · exact ⟨[], by simp [callArguments, hc], Nat.zero_le _⟩
  · have hc' : check TOKEN_RIGHT_PAREN s = false := by simpa using hc
    simp only [hc', Bool.not_false, if_true] at h
    cases hl : argumentLoop pp fuel 0 s with
    | error e => rw [hl] at h; cases h
    | ok x =>
      obtain ⟨args, h1, h2⟩ := argumentLoop_compiles pp fuel 0 s x hl
      have hne : args ≠ [] := by
        rintro rfl
        exact absurd h1 (by simp [argumentsCompile])
      exact ⟨args, by simp [callArguments, hne, hc', h1], h2⟩

/-! ### The elements of a list literal, whatever they are -/

theorem listLoop_succ (pp : Precedence → State → Res State) (fuel l : Nat) (s : State)
    (h : l < 255) :
    listLoop pp (fuel + 1) l s =
      expression pp s >>= fun a =>
        if a.parser.current.type = TOKEN_COMMA then
          listLoop pp fuel (l + 1) (advance (emitByte (Byte.op OP_ADD_LIST) a))
        else pure (emitByte (Byte.op OP_ADD_LIST) a) := by
  rw [listLoop]
  simp only [if_pos h]
  cases expression pp s with
  | error e => rfl
  | ok a =>
    simp only [bind, Except.bind, pure, Except.pure, match_, check]
    have hc : (emitByte (Byte.op OP_ADD_LIST) a).parser.current.type = a.parser.current.type :=
      rfl
    by_cases hcomma : a.parser.current.type = TOKEN_COMMA
    · simp [hc, hcomma]
    · simp [hc, hcomma]

theorem listLoop_full (pp : Precedence → State → Res State) (fuel : Nat) (s : State)
    (h : s.parser.current.type ≠ TOKEN_COMMA) :
    listLoop pp (fuel + 1) 255 s =
      Except.ok (error "Can't have more than 255 values in one list." s) := by
  have hc : (error "Can't have more than 255 values in one list." s).parser.current.type ≠
      TOKEN_COMMA := by
    rw [error_current]; exact h
  rw [listLoop]
  simp only [show ¬ (255 < 255) by decide, if_false, bind, Except.bind, pure, Except.pure,
    match_miss hc, Bool.false_eq_true]

/-- When at most 255 elements compile and no comma follows the last, the loop of
`list` returns the state after the AddList of the last. -/
theorem listLoop_of_compile (pp : Precedence → State → Res State) :
    ∀ (elems : List State) (l : Nat) (s : State) (fuel : Nat),
      elementsCompile pp false s elems → l + elems.length ≤ 255 → elems.length ≤ fuel →
      ∃ z, elems.getLast? = some z ∧
        listLoop pp fuel l s = Except.ok (emitByte (Byte.op OP_ADD_LIST) z) := by
  intro elems
  induction elems with
  | nil => intro l s fuel h; exact absurd h (by simp [elementsCompile])
  | cons a rest ih =>
    intro l s fuel h hl hf
    obtain ⟨k, rfl⟩ : ∃ k, fuel = k + 1 := ⟨fuel - 1, by simp at hf; omega⟩
    have hlt : l < 255 := by simp at hl; omega
    cases rest with
    | nil =>
      obtain ⟨h1, h2⟩ := h
      refine ⟨a, rfl, ?_⟩
      rw [listLoop_succ pp k l s hlt, h1]
      simp only [bind, Except.bind, if_neg (of_decide_eq_false h2)]
      rfl
    | cons b rest =>
      obtain ⟨h1, h2, h3⟩ := h
      obtain ⟨z, hz, hloop⟩ := ih (l + 1) _ k h3 (by simp at hl ⊢; omega) (by simpa using hf)
      refine ⟨z, by simpa using hz, ?_⟩
      rw [listLoop_succ pp k l s hlt, h1]
      simp only [bind, Except.bind, if_pos h2]
      exact hloop

/-- When 255 elements compile and a comma follows the last, the element after it
is not compiled: the loop of `list` reports the error in the state after the
comma. -/
theorem listLoop_of_compile_more (pp : Precedence → State → Res State) :
    ∀ (elems : List State) (l : Nat) (s : State) (fuel : Nat),
      elementsCompile pp true s elems → l + elems.length = 255 → elems.length + 1 ≤ fuel →
      ∃ z, elems.getLast? = some z ∧
        ((advance (emitByte (Byte.op OP_ADD_LIST) z)).parser.current.type ≠ TOKEN_COMMA →
          listLoop pp fuel l s =
            Except.ok (error "Can't have more than 255 values in one list."
              (advance (emitByte (Byte.op OP_ADD_LIST) z)))) := by
  intro elems
  induction elems with
  | nil => intro l s fuel h; exact absurd h (by simp [elementsCompile])
  | cons a rest ih =>
    intro l s fuel h hl hf
    obtain ⟨k, rfl⟩ : ∃ k, fuel = k + 1 := ⟨fuel - 1, by omega⟩
    have hlt : l < 255 := by simp at hl; omega
    cases rest with
    | nil =>
      obtain ⟨h1, h2⟩ := h
      refine ⟨a, rfl, fun hne => ?_⟩
      obtain ⟨j, rfl⟩ : ∃ j, k = j + 1 := ⟨k - 1, by simp at hf; omega⟩
      have hl' : l + 1 = 255 := by simpa using hl
      rw [listLoop_succ pp (j + 1) l s hlt, h1]
      simp only [bind, Except.bind, if_pos (of_decide_eq_true h2), hl']
      exact listLoop_full pp j _ hne
    | cons b rest =>
      obtain ⟨h1, h2, h3⟩ := h
      obtain ⟨z, hz, hloop⟩ := ih (l + 1) _ k h3 (by simp at hl ⊢; omega) (by simpa using hf)
      refine ⟨z, by simpa using hz, fun hne => ?_⟩
      rw [listLoop_succ pp k l s hlt, h1]
      simp only [bind, Except.bind, if_pos h2]
      exact hloop hne

/-- How the elements follow one another: the first is compiled from `s`, and
each later one from the state after the AddList of the one before and the
comma. -/
theorem elementsCompile_next (pp : Precedence → State → Res State) (more : Bool) :
    ∀ (elems : List State) (s : State), elementsCompile pp more s elems →
      (∃ a, elems[0]? = some a ∧ expression pp s = Except.ok a) ∧
      ∀ i a b, elems[i]? = some a → elems[i + 1]? = some b →
        a.parser.current.type = TOKEN_COMMA ∧
          expression pp (advance (emitByte (Byte.op OP_ADD_LIST) a)) = Except.ok b := by
  intro elems
  induction elems with
  | nil => intro s h; exact absurd h (by simp [elementsCompile])
  | cons a rest ih =>
    intro s h
    cases rest with
    | nil =>
      refine ⟨⟨a, rfl, h.1⟩, fun i x y hx hy => ?_⟩
      simp at hy
    | cons b rest =>
      obtain ⟨h1, h2, h3⟩ := h
      obtain ⟨⟨b', hb', hbe⟩, hnext⟩ := ih _ h3
      have hbb : b' = b := by simpa using hb'.symm
      subst hbb
      refine ⟨⟨a, rfl, h1⟩, fun i x y hx hy => ?_⟩
      cases i with
      | zero =>
        have hxa : x = a := by simpa using hx.symm
        have hyb : y = b' := by simpa using hy.symm
        subst hxa; subst hyb
        exact ⟨h2, hbe⟩
      | succ j => exact hnext j x y (by simpa using hx) (by simpa using hy)

/-- A relation that every step of an expression respects holds from the state
before the elements to the state after each, and from there to the state after
the last. -/
theorem elementsCompile_lands {R : State → State → Prop} (hR : ExprSteps R)
    {pp : Precedence → State → Res State} (hpp : ∀ p s, Lands R id s (pp p s))
    (more : Bool) :
    ∀ (elems : List State) (s : State), elementsCompile pp more s elems →
      ∀ a ∈ elems, R s a ∧ ∃ z, elems.getLast? = some z ∧ R a z := by
  intro elems
  induction elems with
  | nil => intro s h; exact absurd h (by simp [elementsCompile])
  | cons a rest ih =>
    intro s h x hx
    cases rest with
    | nil =>
      have hxa : x = a := by simpa using hx
      subst hxa
      exact ⟨hpp _ s x h.1, x, rfl, hR.refl x⟩
    | cons b rest =>
      obtain ⟨h1, h2, h3⟩ := h
      have hsa : R s a := hpp _ s a h1
      have hstep : R a (advance (emitByte (Byte.op OP_ADD_LIST) a)) :=
        hR.trans (hR.emitByte _ a) (hR.advance _)
      rcases List.mem_cons.1 hx with rfl | hx'
      · obtain ⟨hb, z, hz, hzR⟩ := ih _ h3 b (List.mem_cons_self _ _)
        exact ⟨hsa, z, by simpa using hz, hR.trans hstep (hR.trans hb hzR)⟩
      · obtain ⟨hb, z, hz, hzR⟩ := ih _ h3 x hx'
        exact ⟨hR.trans hsa (hR.trans hstep hb), z, by simpa using hz, hzR⟩

/-- Every run of the loop of `list` that returns, started below 255 elements, is
the compilation of a list of elements that reaches at most 255. -/
theorem listLoop_compiles (pp : Precedence → State → Res State) :
    ∀ (fuel l : Nat) (s r : State), l < 255 → listLoop pp fuel l s = Except.ok r →
      ∃ elems more, elementsCompile pp more s elems ∧ l + elems.length ≤ 255 ∧
        (more = true → l + elems.length = 255) := by
  intro fuel
  induction fuel with
  | zero => intro l s r _ h; cases h
  | succ k ih =>
    intro l s r hl h
    rw [listLoop_succ pp k l s hl] at h
    cases he : expression pp s with
    | error e => rw [he] at h; cases h
    | ok a =>
      rw [he] at h
      simp only [bind, Except.bind] at h
      by_cases hcomma : a.parser.current.type = TOKEN_COMMA
      · rw [if_pos hcomma] at h
        by_cases hl' : l + 1 < 255
        · obtain ⟨elems, more, h1, h2, h3⟩ := ih _ _ _ hl' h
          cases elems with
          | nil => exact absurd h1 (by simp [elementsCompile])
          | cons b rest =>
            refine ⟨a :: b :: rest, more, ⟨he, hcomma, h1⟩, ?_, fun hm => ?_⟩
            · simp only [List.length_cons] at h2 ⊢
              omega
            · have := h3 hm
              simp only [List.length_cons] at this ⊢
              omega
        · exact ⟨[a], true, ⟨he, by simp [hcomma]⟩, by simp; omega, fun _ => by simp; omega⟩
      · exact ⟨[a], false, ⟨he, by simp [hcomma]⟩, by simp; omega, fun h => by cases h⟩

/-- The constant that does not fit: with 256 constants or more in the pool
`makeConstant` returns 0 and, when no error is pending, reports "Too many
constant in one chunk.". -/
theorem makeConstant_full {s : State} (v : Value) (h : 255 < (currentChunk s).constants.length) :
    (makeConstant v s).1 = 0 ∧
      (s.parser.panicMode = false →
        (makeConstant v s).2.stderr =
            s.stderr ++ [errorDiag "Too many constant in one chunk." s] ∧
          (makeConstant v s).2.parser.hadError = true) := by
  have hgt : (addConstant (currentChunk s) v).1 > UINT8_MAX := by
    show (currentChunk s).constants.length > 255
    exact h
  unfold makeConstant
  dsimp only
  rw [if_pos hgt]
  refine ⟨rfl, fun hp => ?_⟩
  have hp' : (setCurrentChunk s (addConstant (currentChunk s) v).2).parser.panicMode = false :=
    hp
  obtain ⟨e1, e2, -⟩ := error_reports "Too many constant in one chunk."
    (setCurrentChunk s (addConstant (currentChunk s) v).2) hp'
  exact ⟨e1, e2⟩

theorem consume_heap (t : TokenType) (m : String) (s : State) : (consume t m s).heap = s.heap := by
  unfold consume
  split
  · exact advance_heap s
  · exact errorAtCurrent_heap _ s

theorem consume_cur (t : TokenType) (m : String) (s : State) : (consume t m s).cur = s.cur := by
  unfold consume
  split
  · exact advance_cur s
  · exact cur_of_compilers (errorAtCurrent_compilers _ s)

theorem compilerAt_function_lt {s : State} (hok : s.funOK)
    (hall : ∀ c ∈ s.compilers, c.function < s.heap.length) (k : Nat) :
    (s.compilerAt k).function < s.heap.length := by
  unfold State.compilerAt
  rw [List.getD_eq_getElem?_getD]
  cases hk : s.compilers[k]? with
  | some c => exact hall c (List.getElem?_mem hk)
  | none =>
    obtain ⟨f, hf⟩ := hok
    have := (List.getElem?_eq_some_iff.1 hf).1
    show (0 : Nat) < s.heap.length
    omega

theorem check_newList (t : TokenType) (s : State) : check t (newList s).2 = check t s := rfl

/-- When at most 255 elements compile, `list` returns the state after the
closing bracket is consumed and the constant of the list is emitted. -/
theorem list_of_elements (pp : Precedence → State → Res State) (s : State)
    (elems : List State) (fuel : Nat) (canAssign : Bool)
    (hopen : s.parser.current.type ≠ TOKEN_RIGHT_BRACKET)
    (h : elementsCompile pp false (newList s).2 elems) (hn : elems.length ≤ 255)
    (hf : elems.length ≤ fuel) :
    ∃ z, elems.getLast? = some z ∧
      list pp fuel canAssign s =
        Except.ok (emitConstant (Value.obj s.heap.length)
          (consume TOKEN_RIGHT_BRACKET "Expect ']' at list values."
            (emitByte (Byte.op OP_ADD_LIST) z))) := by
  obtain ⟨z, hz, hloop⟩ := listLoop_of_compile pp elems 0 (newList s).2 fuel h
    (by omega) hf
  have hc : check TOKEN_RIGHT_BRACKET (newList s).2 = false := by
    rw [check_newList]
    simp [check, hopen]
  refine ⟨z, hz, ?_⟩
  unfold list
  simp only [hc, Bool.not_false, if_true, hloop, bind, Except.bind, pure, Except.pure]
  rfl

/-- When 255 elements compile and a comma follows the last, `list` reports the
error in the state after the comma. -/
theorem list_of_elements_more (pp : Precedence → State → Res State) (s : State)
    (elems : List State) (fuel : Nat) (canAssign : Bool)
    (hopen : s.parser.current.type ≠ TOKEN_RIGHT_BRACKET)
    (h : elementsCompile pp true (newList s).2 elems) (hn : elems.length = 255)
    (hf : 256 ≤ fuel) :
    ∃ z, elems.getLast? = some z ∧
      ((advance (emitByte (Byte.op OP_ADD_LIST) z)).parser.current.type ≠ TOKEN_COMMA →
        list pp fuel canAssign s =
          Except.ok (emitConstant (Value.obj s.heap.length)
            (consume TOKEN_RIGHT_BRACKET "Expect ']' at list values."
              (error "Can't have more than 255 values in one list."
                (advance (emitByte (Byte.op OP_ADD_LIST) z)))))) := by
  obtain ⟨z, hz, hloop⟩ := listLoop_of_compile_more pp elems 0 (newList s).2 fuel h
    (by omega) (by omega)
  have hc : check TOKEN_RIGHT_BRACKET (newList s).2 = false := by
    rw [check_newList]
    simp [check, hopen]
  refine ⟨z, hz, fun hne => ?_⟩
  unfold list
  simp only [hc, Bool.not_false, if_true, hloop hne, bind, Except.bind, pure, Except.pure]
  rfl

/-! ### The code of the arguments of a call and of the elements of a list -/

theorem consume_currentChunk (t : TokenType) (m : String) (s : State) :
    currentChunk (consume t m s) = currentChunk s := by
  unfold currentChunk State.curFunction State.functionAt
  rw [consume_heap, consume_cur]

theorem consume_funOK (t : TokenType) (m : String) {s : State} (h : s.funOK) :
    (consume t m s).funOK := by
  unfold State.funOK
  rw [consume_heap, consume_cur]
  exact h

/-- The code of the arguments of a call with at most 255 arguments, in a state
with a current function: the first argument adds its code to the code that is
there, each further argument adds its code to what the one before it left, and
the closing parenthesis adds nothing. -/
theorem arguments_code (k : Nat) (s : State) (args : List State) (hok : s.funOK)
    (h : callArguments (parsePrecedence k) s args) (hn : args.length ≤ 255) :
    (∀ a, args[0]? = some a →
      ∃ cb, (currentChunk a).code = (currentChunk s).code ++ cb) ∧
    (∀ i a b, args[i]? = some a → args[i + 1]? = some b →
      ∃ cb, (currentChunk b).code = (currentChunk a).code ++ cb) ∧
    (consume TOKEN_RIGHT_PAREN "Expect ')' after arguments." (argumentsEnd s args)).funOK ∧
    (currentChunk
        (consume TOKEN_RIGHT_PAREN "Expect ')' after arguments." (argumentsEnd s args))).code =
      (currentChunk (args.getLast?.getD s)).code := by
  by_cases hnil : args = []
  · subst hnil
    refine ⟨fun a ha => by simp at ha, fun i a b ha => by simp at ha, consume_funOK _ _ hok, ?_⟩
    rw [consume_currentChunk]
    rfl
  · unfold callArguments at h
    rw [if_neg hnil] at h
    have hG := argumentsCompile_lands grows_steps (reads_parsePrecedence grows_steps k) args 0 s
      (by decide) h.2
    obtain ⟨-, hnext⟩ := argumentsCompile_next (parsePrecedence k) args 0 s (by decide) h.2
    obtain ⟨z, hz⟩ : ∃ z, args.getLast? = some z := by
      cases hl : args.getLast? with
      | none => exact absurd (List.getLast?_eq_none_iff.1 hl) hnil
      | some z => exact ⟨z, rfl⟩
    have hpos : 0 < args.length := List.length_pos.2 hnil
    have hzi : args[args.length - 1]? = some z := by
      rw [← List.getLast?_eq_getElem?]
      exact hz
    have hend : argumentsEnd s args = z := by
      unfold argumentsEnd
      rw [hz]
      exact argumentCheck_of_ne (by omega) z
    refine ⟨fun a ha => ?_, fun i a b ha hb => ?_, ?_, ?_⟩
    · obtain ⟨-, cb, hcb⟩ := (hG 0 a ha).1 hok
      exact ⟨cb, hcb.symm⟩
    · have hi : i + 1 < args.length := (List.getElem?_eq_some_iff.1 hb).1
      have hfa : a.funOK := ((hG i a ha).1 hok).1
      have hexp := (hnext i a b ha hb).2
      rw [Nat.zero_add, argumentCheck_of_ne (by omega) a] at hexp
      obtain ⟨-, cb, hcb⟩ := parsePrecedence_grows k _ _ b ((advance_funOK a).2 hfa) hexp
      rw [advance_currentChunk] at hcb
      exact ⟨cb, hcb⟩
    · rw [hend]
      exact consume_funOK _ _ ((hG _ z hzi).1 hok).1
    · rw [consume_currentChunk, hend, hz]
      rfl

/-- The code of the elements of a list literal, compiled from a state `s` with a
current function: the first element adds its code to the code that is there,
each further element adds its code after the AddList of the one before it, and
after the last element AddList is appended and the closing bracket adds
nothing. -/
theorem elements_code (k : Nat) (more : Bool) (s : State) (elems : List State) (hok : s.funOK)
    (h : elementsCompile (parsePrecedence k) more s elems) :
    (∀ a, elems[0]? = some a →
      ∃ cb, (currentChunk a).code = (currentChunk s).code ++ cb) ∧
    (∀ i a b, elems[i]? = some a → elems[i + 1]? = some b →
      ∃ cb, (currentChunk b).code = (currentChunk a).code ++ Byte.op OP_ADD_LIST :: cb) ∧
    (∀ z, elems.getLast? = some z →
      (currentChunk (consume TOKEN_RIGHT_BRACKET "Expect ']' at list values."
          (emitByte (Byte.op OP_ADD_LIST) z))).code =
        (currentChunk z).code ++ [Byte.op OP_ADD_LIST]) := by
  have hG := elementsCompile_lands grows_steps (reads_parsePrecedence grows_steps k) more elems s h
  obtain ⟨-, hnext⟩ := elementsCompile_next (parsePrecedence k) more elems s h
  refine ⟨fun a ha => ?_, fun i a b ha hb => ?_, fun z hz => ?_⟩
  · obtain ⟨-, cb, hcb⟩ := (hG a (List.getElem?_mem ha)).1 hok
    exact ⟨cb, hcb.symm⟩
  · have hfa : a.funOK := ((hG a (List.getElem?_mem ha)).1 hok).1
    have hexp := (hnext i a b ha hb).2
    obtain ⟨-, cb, hcb⟩ := parsePrecedence_grows k _ _ b
      ((advance_funOK _).2 (emitByte_funOK hfa (Byte.op OP_ADD_LIST))) hexp
    rw [advance_currentChunk, emitByte_code hfa] at hcb
    exact ⟨cb, by rw [hcb]; simp⟩
  · have hfz : z.funOK := ((hG z (List.mem_of_mem_getLast? hz)).1 hok).1
    rw [consume_currentChunk, emitByte_code hfz]

theorem code_getLast_advance (args : List State) (x : State) :
    (currentChunk (args.getLast?.getD (advance x))).code =
      (currentChunk (args.getLast?.getD x)).code := by
  cases args.getLast? with
  | none => exact congrArg Chunk.code (advance_currentChunk x)
  | some z => rfl

/-! ### `super` -/

/-- The arguments of a call that are keyword literals add no constant. -/
theorem argumentLoop_constants (m : Nat) :
    ∀ (ls : List Lit) (l : Lit) (c : Nat) (s : State) (rest : List TokenType) (fuel : Nat),
      ls.length + 1 ≤ fuel → s.funOK →
      upcoming s (argumentTokens l ls ++ TOKEN_RIGHT_PAREN :: rest) = true →
      ∀ r, argumentLoop (parsePrecedence (m + 2)) fuel c s = Except.ok r →
        (currentChunk r.2).constants = (currentChunk s).constants := by
  intro ls
  induction ls with
  | nil =>
    intro l c s rest fuel hf hok hup r hr
    obtain ⟨k, rfl⟩ : ∃ k, fuel = k + 1 := ⟨fuel - 1, by simp at hf; omega⟩
    have hup0 : upcoming s (l.type :: TOKEN_RIGHT_PAREN :: rest) = true := hup
    obtain ⟨a, ha, hA, hU, -⟩ := parse_lit_emits l m hok hup0 rfl (by decide)
    obtain ⟨-, r2, -⟩ := argument_report c a hA.funOK
    have hE : Emits a (if c = 255 then error "Can't have more than 255 arguments." a
        else a) [] := by
      split
      · exact emits_error hA.funOK _
      · exact emits_refl hA.funOK
    have hne : (if c = 255 then error "Can't have more than 255 arguments." a
        else a).parser.current.type ≠ TOKEN_COMMA := by
      have := upcoming_head ((r2 _).trans hU)
      rw [this]; decide
    rw [argumentLoop] at hr
    simp only [expression, ha, bind, Except.bind, match_miss hne, Bool.false_eq_true,
      if_false] at hr
    cases hr
    exact hE.constants.trans hA.constants
  | cons l' ls ih =>
    intro l c s rest fuel hf hok hup r hr
    obtain ⟨k, rfl⟩ : ∃ k, fuel = k + 1 := ⟨fuel - 1, by simp at hf; omega⟩
    obtain ⟨u, hu⟩ := argumentTokens_head l' ls
    have hup' : upcoming s (l.type :: TOKEN_COMMA ::
        (argumentTokens l' ls ++ TOKEN_RIGHT_PAREN :: rest)) = true := hup
    obtain ⟨a, ha, hA, hU, -⟩ := parse_lit_emits l m hok hup' rfl (by decide)
    obtain ⟨-, r2, -⟩ := argument_report c a hA.funOK
    have hE : Emits a (if c = 255 then error "Can't have more than 255 arguments." a
        else a) [] := by
      split
      · exact emits_error hA.funOK _
      · exact emits_refl hA.funOK
    have hU' := (r2 _).trans hU
    have hU2 : upcoming (if c = 255 then error "Can't have more than 255 arguments." a else a)
        (TOKEN_COMMA :: l'.type :: (u ++ TOKEN_RIGHT_PAREN :: rest)) = true := by
      rw [hu] at hU'
      exact hU'
    obtain ⟨hV, -⟩ := advance_upcoming hU2
    have hmatch := match_upcoming hU2
    rw [argumentLoop] at hr
    simp only [expression, ha, bind, Except.bind, hmatch, if_true] at hr
    have := ih l' ((c + 1) % 256)
      (advance (if c = 255 then error "Can't have more than 255 arguments." a else a)) rest k
      (by simp at hf; omega) ((advance_funOK _).2 hE.funOK) (by rw [hu]; exact hV) r hr
    rw [this, (emits_advance hE.funOK).constants, hE.constants, hA.constants]

/-- The argument list of a call whose arguments are keyword literals adds no
constant. -/
theorem argumentList_constants (m : Nat) (args : List Lit) (t : TokenType)
    (ts : List TokenType) (s : State) (fuel : Nat) (hf : args.length ≤ fuel) (hok : s.funOK)
    (hup : upcoming s (callTokens args ++ TOKEN_RIGHT_PAREN :: t :: ts) = true)
    (r : Nat × State) (hr : argumentList (parsePrecedence (m + 2)) fuel s = Except.ok r) :
    (currentChunk r.2).constants = (currentChunk s).constants := by
  cases args with
  | nil =>
    have hup' : upcoming s (TOKEN_RIGHT_PAREN :: t :: ts) = true := hup
    unfold argumentList at hr
    simp only [check, upcoming_head hup', decide_True, Bool.not_true, Bool.false_eq_true,
      if_false, bind, Except.bind, pure, Except.pure, consume_upcoming _ hup'] at hr
    cases hr
    exact (emits_advance hok).constants
  | cons l ls =>
    have hup' : upcoming s (argumentTokens l ls ++ TOKEN_RIGHT_PAREN :: t :: ts) = true := hup
    obtain ⟨u, hu⟩ := argumentTokens_head l ls
    have hne : s.parser.current.type ≠ TOKEN_RIGHT_PAREN := by
      rw [hu] at hup'
      rw [upcoming_head hup']
      cases l <;> decide
    obtain ⟨a, h1, h2, h3, -⟩ := argumentLoop_lits m ls l 0 s (t :: ts) fuel
      (by simpa using hf) (by omega) hok hup'
    have hc := argumentLoop_constants m ls l 0 s (t :: ts) fuel (by simpa using hf) hok hup'
      _ h1
    unfold argumentList at hr
    simp only [check, hne, decide_False, Bool.not_false, if_true, bind, Except.bind, h1,
      pure, Except.pure, consume_upcoming _ h3] at hr
    cases hr
    exact ((emits_advance h2.funOK).constants).trans hc
theorem findLocal_congr {c d : Compiler} (name : Token)
    (h : ∀ i, (d.localAt i).name = (c.localAt i).name) (n : Nat) :
    findLocal d name n = findLocal c name n := by
  induction n with
  | zero => rfl
  | succ k ih => rw [findLocal, findLocal, h k, ih]

theorem hasLocal_congr {c d : Compiler} (name : Token) (hl : d.localCount = c.localCount)
    (h : ∀ i, (d.localAt i).name = (c.localAt i).name) : hasLocal d name = hasLocal c name := by
  unfold hasLocal
  rw [hl, findLocal_congr name h]

theorem ExprKeeps.findLocal {s r : State} (h : ExprKeeps s r) (k : Nat) (name : Token) :
    Luna.findLocal (r.compilerAt k) name (r.compilerAt k).localCount =
      Luna.findLocal (s.compilerAt k) name (s.compilerAt k).localCount := by
  rw [h.localCount k, findLocal_congr name (h.name k)]

theorem ExprKeeps.hasLocal {s r : State} (h : ExprKeeps s r) (k : Nat) (name : Token) :
    Luna.hasLocal (r.compilerAt k) name = Luna.hasLocal (s.compilerAt k) name :=
  hasLocal_congr name (h.localCount k) (h.name k)

/-- The constants of the current function after an expression: the old ones,
then the new ones. -/
theorem ExprKeeps.currentConstants {s r : State} (h : ExprKeeps s r) :
    (currentChunk s).constants <+: (currentChunk r).constants := by
  have := h.constants s.cur.function
  unfold currentChunk State.curFunction State.cur
  rw [h.function 0]
  exact this

/-- The name is no local of the current function but `resolveUpvalue` finds it:
the operand is the index `resolveUpvalue` returns, in the state it leaves. -/
theorem resolveVariable_upvalue_eq {name : Token} {s : State}
    (h : hasLocal s.cur name = false) (hu : (resolveUpvalue 0 name s).1 ≠ -1) :
    resolveVariable name s =
      ((OP_GET_UPVALUE, OP_SET_UPVALUE, (resolveUpvalue 0 name s).1.toNat),
        (resolveUpvalue 0 name s).2) := by
  have hr := resolveLocal_miss ((resolveLocal_fst_eq_neg_one _ name s).2 h)
  have hne : ¬ ((-1 : Int), s).1 ≠ -1 := by simp
  unfold resolveVariable
  rw [hr]
  simp only [if_neg hne, if_pos hu]

/-- The start of `super_` in a struct with a superstruct, with `.` and a name
next: both are consumed, the name becomes a constant, and `self` is read from
slot 0. -/
theorem super_enter (pp : Precedence → State → Res State) {s : State} {b : TokenType}
    {ts : List TokenType} (hok : s.funOK)
    (hself : findLocal s.cur (syntheticToken "self") s.cur.localCount = some 0)
    (hdepth : (s.cur.localAt 0).depth ≠ -1)
    (hroom : (currentChunk s).constants.length ≤ 255)
    (hup : upcoming s (TOKEN_DOT :: TOKEN_IDENTIFIER :: b :: ts) = true) :
    namedVariable pp (syntheticToken "self") false
          (identifierConstant (advance (advance s)).parser.previous (advance (advance s))).2 =
        Except.ok (superSelfState s) ∧
      (identifierConstant (advance (advance s)).parser.previous (advance (advance s))).1 =
        (currentChunk s).constants.length ∧
      (superSelfState s).compilers = s.compilers ∧ (superSelfState s).funOK ∧
      (superSelfState s).structs = s.structs ∧
      (currentChunk (superSelfState s)).code =
        (currentChunk s).code ++ [Byte.op OP_GET_LOCAL, Byte.raw 0] ∧
      (currentChunk (superSelfState s)).constants = (currentChunk s).constants ++
        [Value.string (copyString (advance (advance s)).parser.previous.start
          (advance (advance s)).parser.previous.length)] ∧
      upcoming (superSelfState s) (b :: ts) = true := by
  obtain ⟨hU1, -⟩ := advance_upcoming hup
  obtain ⟨hU2, -⟩ := advance_upcoming hU1
  have hA1 := appended_advance hok
  have hA2 := appended_advance hA1.funOK
  have hc2 : (advance (advance s)).compilers = s.compilers := hA2.compilers.trans hA1.compilers
  have hch : (currentChunk (advance (advance s))).constants.length =
      (currentChunk s).constants.length := by
    rw [hA2.constants, hA1.constants]; rfl
  have hcode : (currentChunk (advance (advance s))).code = (currentChunk s).code := by
    rw [hA2.code, hA1.code]; simp
  unfold superSelfState
  generalize hv : Value.string (copyString (advance (advance s)).parser.previous.start
    (advance (advance s)).parser.previous.length) = v
  have hid : identifierConstant (advance (advance s)).parser.previous (advance (advance s)) =
      makeConstant v (advance (advance s)) := by
    rw [identifierConstant, hv]
  rw [hid]
  have hcur3 : (makeConstant v (advance (advance s))).2.cur = s.cur := by
    rw [makeConstant_cur, cur_of_compilers hc2]
  have hres : resolveVariable (syntheticToken "self") (makeConstant v (advance (advance s))).2 =
      ((OP_GET_LOCAL, OP_SET_LOCAL, 0), (makeConstant v (advance (advance s))).2) := by
    have h := @resolveVariable_local_eq (syntheticToken "self")
      (makeConstant v (advance (advance s))).2 0 (by rw [hcur3]; exact hself)
    rw [h, hcur3, if_neg hdepth]
  have hok3 := makeConstant_funOK hA2.funOK v
  refine ⟨?_, ?_, ?_, emitBytes_funOK hok3 _ _, ?_, ?_, ?_, ?_⟩
  · rw [namedVariable_get _ _ false _ (Bool.false_and _), hres]
    simp only [Nat.zero_mod]
  · rw [makeConstant_fst, hch, if_neg]
    simp only [UINT8_MAX]
    omega
  · rw [emitBytes_compilers, makeConstant_compilers, hc2]
  · rw [emitBytes_structs, makeConstant_structs, advance_structs, advance_structs]
  · rw [emitBytes_code hok3, makeConstant_code hA2.funOK, hcode]
  · rw [emitBytes_constants hok3, makeConstant_constants hA2.funOK]
    rw [advance_currentChunk, advance_currentChunk]
  · have hs : (emitBytes (Byte.op OP_GET_LOCAL) (Byte.raw 0)
        (makeConstant v (advance (advance s))).2).scanner = (advance (advance s)).scanner := by
      rw [emitBytes_scanner, makeConstant_scanner]
    have hc : (emitBytes (Byte.op OP_GET_LOCAL) (Byte.raw 0)
        (makeConstant v (advance (advance s))).2).parser.current =
        (advance (advance s)).parser.current := by
      rw [emitBytes_current, makeConstant_current]
    rw [upcoming_congr hs hc]
    exact hU2

/-- The load of `super` in a function that does not declare it, under a
function that does: the name is resolved as an upvalue, and the operand of
GetUpvalue is the index `resolveUpvalue` returns. -/
theorem super_load (pp : Precedence → State → Res State) {r : State} (hok : r.funOK)
    (hsup : hasLocal r.cur (syntheticToken "super") = false)
    (henc : ∃ k, 0 < k ∧ k < r.compilers.length ∧
      hasLocal (r.compilerAt k) (syntheticToken "super") = true) :
    (resolveUpvalue 0 (syntheticToken "super") r).1 ≠ -1 ∧
    namedVariable pp (syntheticToken "super") false r =
      Except.ok (emitBytes (Byte.op OP_GET_UPVALUE)
        (Byte.raw ((resolveUpvalue 0 (syntheticToken "super") r).1.toNat % 256))
        (resolveUpvalue 0 (syntheticToken "super") r).2) ∧
    (resolveUpvalue 0 (syntheticToken "super") r).2.funOK ∧
    currentChunk (resolveUpvalue 0 (syntheticToken "super") r).2 = currentChunk r ∧
    ∀ ts, upcoming (resolveUpvalue 0 (syntheticToken "super") r).2 ts = upcoming r ts := by
  have hu : (resolveUpvalue 0 (syntheticToken "super") r).1 ≠ -1 :=
    (resolveUpvalue_ne_neg_one_iff _ r _ 0 (Nat.le_refl _)).2 henc
  have hsf := sameFrames_resolveUpvalue 0 (syntheticToken "super") r
  refine ⟨hu, ?_, hsf.funOK hok, hsf.currentChunk, fun ts => upcoming_congr hsf.scanner hsf.current ts⟩
  rw [namedVariable_get pp _ false r (Bool.false_and _), resolveVariable_upvalue_eq hsup hu]
theorem prefix_getElem? {α : Type} {x y : List α} (h : x <+: y) {i : Nat} {a : α}
    (ha : x[i]? = some a) : y[i]? = some a := by
  obtain ⟨t, rfl⟩ := h
  rw [List.getElem?_append_left (List.getElem?_eq_some_iff.1 ha).1]
  exact ha

/-- The form `super.name(args)`, whatever the arguments are: `argumentList`
compiles them from the state after the parenthesis to the state `r`. -/
theorem super_invoke (m : Nat) (c : Bool) (s r : State) (fuel argc : Nat) (hok : s.funOK)
    (hstruct : ∃ cs rest, s.structs = cs :: rest ∧ cs.hasSuperstruct = true)
    (hself : findLocal s.cur (syntheticToken "self") s.cur.localCount = some 0)
    (hdepth : (s.cur.localAt 0).depth ≠ -1)
    (hsup : hasLocal s.cur (syntheticToken "super") = false)
    (henc : ∃ k, 0 < k ∧ k < s.compilers.length ∧
      hasLocal (s.compilerAt k) (syntheticToken "super") = true)
    (hroom : (currentChunk s).constants.length ≤ 255)
    (hup : upcoming s [TOKEN_DOT, TOKEN_IDENTIFIER, TOKEN_LEFT_PAREN] = true)
    (hargs : argumentList (parsePrecedence m) fuel (advance (superSelfState s)) =
      Except.ok (argc, r)) :
    ExprKeeps s r ∧ r.funOK ∧
    (resolveUpvalue 0 (syntheticToken "super") r).1 ≠ -1 ∧
    super_ (parsePrecedence m) fuel c s =
      Except.ok (emitByte (Byte.raw argc)
        (emitBytes (Byte.op OP_SUPER_INVOKE) (Byte.raw (currentChunk s).constants.length)
          (emitBytes (Byte.op OP_GET_UPVALUE)
            (Byte.raw ((resolveUpvalue 0 (syntheticToken "super") r).1.toNat % 256))
            (resolveUpvalue 0 (syntheticToken "super") r).2))) ∧
    (currentChunk (emitByte (Byte.raw argc)
        (emitBytes (Byte.op OP_SUPER_INVOKE) (Byte.raw (currentChunk s).constants.length)
          (emitBytes (Byte.op OP_GET_UPVALUE)
            (Byte.raw ((resolveUpvalue 0 (syntheticToken "super") r).1.toNat % 256))
            (resolveUpvalue 0 (syntheticToken "super") r).2)))).code =
      (currentChunk r).code ++
        [Byte.op OP_GET_UPVALUE,
          Byte.raw ((resolveUpvalue 0 (syntheticToken "super") r).1.toNat % 256),
          Byte.op OP_SUPER_INVOKE, Byte.raw (currentChunk s).constants.length,
          Byte.raw argc] ∧
    (currentChunk (emitByte (Byte.raw argc)
        (emitBytes (Byte.op OP_SUPER_INVOKE) (Byte.raw (currentChunk s).constants.length)
          (emitBytes (Byte.op OP_GET_UPVALUE)
            (Byte.raw ((resolveUpvalue 0 (syntheticToken "super") r).1.toNat % 256))
            (resolveUpvalue 0 (syntheticToken "super") r).2)))).constants =
      (currentChunk r).constants ∧
    (currentChunk r).constants[(currentChunk s).constants.length]? =
      some (Value.string (copyString (advance (advance s)).parser.previous.start
        (advance (advance s)).parser.previous.length)) := by
  obtain ⟨cs, rest, hs, hcs⟩ := hstruct
  obtain ⟨hU1, -⟩ := advance_upcoming hup
  obtain ⟨h4, hk, hc4, hok4, -, hcode4, hconst4, hU4⟩ :=
    super_enter (parsePrecedence m) hok hself hdepth hroom hup
  have hcur4 : (superSelfState s).parser.current.type = TOKEN_LEFT_PAREN := upcoming_head hU4
  have hmatch : match_ TOKEN_LEFT_PAREN (superSelfState s) =
      (true, advance (superSelfState s)) := by
    unfold match_ check
    simp [hcur4]
  -- what the arguments keep
  have hE4 : ExprKeeps s (superSelfState s) := by
    unfold superSelfState identifierConstant
    exact exprKeeps_chain
      (exprKeeps_chain (exprKeeps_steps.advance s) (exprKeeps_steps.advance _))
      (exprKeeps_chain (exprKeeps_makeConstant _ _) (exprKeeps_steps.stepEmitBytes _ _ _))
  generalize superSelfState s = S4 at h4 hc4 hok4 hcode4 hconst4 hU4 hcur4 hmatch hE4 hargs
  have hEr : ExprKeeps S4 r :=
    exprKeeps_chain (exprKeeps_steps.advance _)
      (reads_argumentList exprKeeps_steps (reads_parsePrecedence exprKeeps_steps m) fuel _ _
        hargs)
  have hKr : Keeps S4 r :=
    (keeps_advance _).next
      (lands_argumentList keeps_passes (lands_parsePrecedence keeps_passes m) fuel _ _ hargs)
  have hokr : r.funOK := keeps_funOK hKr hok4
  have hE := exprKeeps_chain hE4 hEr
  have hsupr : hasLocal r.cur (syntheticToken "super") = false := by
    have := hE.hasLocal 0 (syntheticToken "super")
    exact this.trans hsup
  have hencr : ∃ k, 0 < k ∧ k < r.compilers.length ∧
      hasLocal (r.compilerAt k) (syntheticToken "super") = true := by
    obtain ⟨k, h0, hkl, hh⟩ := henc
    exact ⟨k, h0, by rw [hE.length]; exact hkl, by rw [hE.hasLocal]; exact hh⟩
  obtain ⟨hu, hload, hoku, hchu, -⟩ := super_load (parsePrecedence m) hokr hsupr hencr
  have hok5 := emitBytes_funOK hoku (Byte.op OP_GET_UPVALUE)
    (Byte.raw ((resolveUpvalue 0 (syntheticToken "super") r).1.toNat % 256))
  have hok6 := emitBytes_funOK hok5 (Byte.op OP_SUPER_INVOKE)
    (Byte.raw (currentChunk s).constants.length)
  refine ⟨hE, hokr, hu, ?_, ?_, ?_, ?_⟩
  · unfold super_
    simp only [hs, hcs, Bool.not_true, Bool.false_eq_true, if_false, consume_upcoming _ hup,
      consume_upcoming _ hU1, h4, bind, Except.bind, hmatch, if_true, hargs, hload, hk, pure,
      Except.pure]
  · rw [emitByte_code hok6, emitBytes_code hok5, emitBytes_code hoku, hchu]
    simp
  · rw [emitByte_constants hok6, emitBytes_constants hok5, emitBytes_constants hoku, hchu]
  · refine prefix_getElem? hEr.currentConstants ?_
    rw [hconst4]
    simp
/-- The form `super.name` that is not a call. -/
theorem super_get (pp : Precedence → State → Res State) (n : Nat) (c : Bool) (t : TokenType)
    (ts : List TokenType) (s : State) (ht : t ≠ TOKEN_LEFT_PAREN) (hok : s.funOK)
    (hstruct : ∃ cs rest, s.structs = cs :: rest ∧ cs.hasSuperstruct = true)
    (hself : findLocal s.cur (syntheticToken "self") s.cur.localCount = some 0)
    (hdepth : (s.cur.localAt 0).depth ≠ -1)
    (hsup : hasLocal s.cur (syntheticToken "super") = false)
    (henc : ∃ k, 0 < k ∧ k < s.compilers.length ∧
      hasLocal (s.compilerAt k) (syntheticToken "super") = true)
    (hroom : (currentChunk s).constants.length ≤ 255)
    (hup : upcoming s (TOKEN_DOT :: TOKEN_IDENTIFIER :: t :: ts) = true) :
    (resolveUpvalue 0 (syntheticToken "super") (superSelfState s)).1 ≠ -1 ∧
    ∃ s', super_ pp n c s = Except.ok s' ∧
      s'.cur = (resolveUpvalue 0 (syntheticToken "super") (superSelfState s)).2.cur ∧
      (currentChunk s').code = (currentChunk s).code ++
        [Byte.op OP_GET_LOCAL, Byte.raw 0, Byte.op OP_GET_UPVALUE,
          Byte.raw ((resolveUpvalue 0 (syntheticToken "super")
            (superSelfState s)).1.toNat % 256),
          Byte.op OP_GET_SUPER, Byte.raw (currentChunk s).constants.length] ∧
      (currentChunk s').constants = (currentChunk s).constants ++
        [Value.string (copyString (advance (advance s)).parser.previous.start
          (advance (advance s)).parser.previous.length)] ∧
      upcoming s' (t :: ts) = true := by
  obtain ⟨cs, rest, hs, hcs⟩ := hstruct
  obtain ⟨hU1, -⟩ := advance_upcoming hup
  obtain ⟨h4, hk, hc4, hok4, -, hcode4, hconst4, hU4⟩ :=
    super_enter pp hok hself hdepth hroom hup
  have hne : (superSelfState s).parser.current.type ≠ TOKEN_LEFT_PAREN := by
    rw [upcoming_head hU4]; exact ht
  have hsup4 : hasLocal (superSelfState s).cur (syntheticToken "super") = false := by
    rw [cur_of_compilers hc4]; exact hsup
  have henc4 : ∃ k, 0 < k ∧ k < (superSelfState s).compilers.length ∧
      hasLocal ((superSelfState s).compilerAt k) (syntheticToken "super") = true := by
    obtain ⟨k, h0, hkl, hh⟩ := henc
    exact ⟨k, h0, by rw [hc4]; exact hkl, by rw [compilerAt_of_compilers hc4]; exact hh⟩
  obtain ⟨hu, hload, hoku, hchu, hupu⟩ := super_load pp hok4 hsup4 henc4
  have hok5 := emitBytes_funOK hoku (Byte.op OP_GET_UPVALUE)
    (Byte.raw ((resolveUpvalue 0 (syntheticToken "super") (superSelfState s)).1.toNat % 256))
  refine ⟨hu, emitBytes (Byte.op OP_GET_SUPER) (Byte.raw (currentChunk s).constants.length)
    (emitBytes (Byte.op OP_GET_UPVALUE)
      (Byte.raw ((resolveUpvalue 0 (syntheticToken "super") (superSelfState s)).1.toNat % 256))
      (resolveUpvalue 0 (syntheticToken "super") (superSelfState s)).2), ?_,
    by rw [emitBytes_cur, emitBytes_cur], ?_, ?_, ?_⟩
  · generalize superSelfState s = S4 at h4 hne hload ⊢
    unfold super_
    simp only [hs, hcs, Bool.not_true, Bool.false_eq_true, if_false, consume_upcoming _ hup,
      consume_upcoming _ hU1, h4, bind, Except.bind, match_miss hne, hload, hk, pure,
      Except.pure]
  · rw [emitBytes_code hok5, emitBytes_code hoku, hchu, hcode4]
    simp
  · rw [emitBytes_constants hok5, emitBytes_constants hoku, hchu, hconst4]
  · unfold emitBytes
    rw [upcoming_emitByte, upcoming_emitByte, upcoming_emitByte, upcoming_emitByte, hupu]
    exact hU4

/-- Outside a struct, or in a struct without a superstruct, whatever `super_`
returns has the diagnostic on `stderr`. -/
theorem super_reports (k n : Nat) (c : Bool) (s s' : State)
    (hp : s.parser.panicMode = false)
    (h : super_ (parsePrecedence k) n c s = Except.ok s') :
    (s.structs = [] →
      (s.stderr ++ [errorDiag "Can't use 'super' outside of struct." s]) <+: s'.stderr) ∧
    ((∃ cs rest, s.structs = cs :: rest ∧ cs.hasSuperstruct = false) →
      (s.stderr ++ [errorDiag "Can't use 'super' in leaf struct." s]) <+: s'.stderr) := by
  constructor
  · intro hs
    have he := error_reports "Can't use 'super' outside of struct." s hp
    have heq : super_ (parsePrecedence k) n c
        (error "Can't use 'super' outside of struct." s) = super_ (parsePrecedence k) n c s := by
      unfold super_
      simp only [error_structs, hs, error_of_panic _ _ he.2.2]
    rw [← heq] at h
    have := (lands_super keeps_passes (lands_parsePrecedence keeps_passes k) n c _ _ h).stderr
    rw [he.1] at this
    exact this
  · rintro ⟨cs, rest, hs, hcs⟩
    have he := error_reports "Can't use 'super' in leaf struct." s hp
    have heq : super_ (parsePrecedence k) n c
        (error "Can't use 'super' in leaf struct." s) = super_ (parsePrecedence k) n c s := by
      unfold super_
      simp only [error_structs, hs, hcs, Bool.not_false, if_true, error_of_panic _ _ he.2.2]
    rw [← heq] at h
    have := (lands_super keeps_passes (lands_parsePrecedence keeps_passes k) n c _ _ h).stderr
    rw [he.1] at this
    exact this

/-- The descriptor behind the operand of GetUpvalue: when `super` is the local
of slot `j` of the function that directly encloses the current one, and the
current function has room for a descriptor, the index `resolveUpvalue` returns
is that of the descriptor `(index = j, isLocal = true)`. -/
theorem super_descriptor {s r : State} (h : ExprKeeps s r) (hokr : r.funOK) (j : Nat)
    (hlen : 1 < s.compilers.length)
    (hfind : findLocal (s.compilerAt 1) (syntheticToken "super") (s.compilerAt 1).localCount =
      some j)
    (hj : j < 256)
    (hroom : r.upvalueCountAt 0 ≠ UINT8_COUNT ∨
      ∃ i, i < r.upvalueCountAt 0 ∧ (r.compilerAt 0).upvalueAt i = ⟨j, true⟩) :
    ∃ i : Nat, (resolveUpvalue 0 (syntheticToken "super") r).1 = (i : Int) ∧
      i < (resolveUpvalue 0 (syntheticToken "super") r).2.upvalueCountAt 0 ∧
      ((resolveUpvalue 0 (syntheticToken "super") r).2.compilerAt 0).upvalueAt i = ⟨j, true⟩ := by
  have hfr : findLocal (r.compilerAt (0 + 1)) (syntheticToken "super")
      (r.compilerAt (0 + 1)).localCount = some j := by
    rw [h.findLocal]; exact hfind
  have hok0 : r.funOKAt 0 := ⟨by rw [h.length]; omega, hokr⟩
  exact (resolveUpvalue_local_hit 0 (syntheticToken "super") r j
    (by rw [h.length]; exact hlen) hok0 hfr hj hroom).2
theorem scansTypes_prefix (sc : Scanner) (ts us : List TokenType)
    (h : scansTypes sc (ts ++ us) = true) : scansTypes sc ts = true := by
  induction ts generalizing sc with
  | nil => rfl
  | cons t ts ih =>
    simp only [List.cons_append, scansTypes, Bool.and_eq_true] at h ⊢
    exact ⟨h.1, ih _ h.2⟩

theorem upcoming_prefix {s : State} (ts us : List TokenType)
    (h : upcoming s (ts ++ us) = true) : upcoming s ts = true := by
  cases ts with
  | nil => rfl
  | cons t ts =>
    simp only [List.cons_append, upcoming, Bool.and_eq_true] at h ⊢
    exact ⟨h.1, scansTypes_prefix _ _ _ h.2⟩

/-- The form `super.name(args)` with keyword literals as arguments. -/
theorem super_invoke_lits (m : Nat) (c : Bool) (lits : List Lit) (t : TokenType)
    (ts : List TokenType) (s : State) (hn : lits.length ≤ 255) (hok : s.funOK)
    (hstruct : ∃ cs rest, s.structs = cs :: rest ∧ cs.hasSuperstruct = true)
    (hself : findLocal s.cur (syntheticToken "self") s.cur.localCount = some 0)
    (hdepth : (s.cur.localAt 0).depth ≠ -1)
    (hsup : hasLocal s.cur (syntheticToken "super") = false)
    (henc : ∃ k, 0 < k ∧ k < s.compilers.length ∧
      hasLocal (s.compilerAt k) (syntheticToken "super") = true)
    (hroom : (currentChunk s).constants.length ≤ 255)
    (hup : upcoming s (TOKEN_DOT :: TOKEN_IDENTIFIER :: TOKEN_LEFT_PAREN ::
      (callTokens lits ++ TOKEN_RIGHT_PAREN :: t :: ts)) = true) :
    ∃ r s',
      argumentList (parsePrecedence (m + 2)) lits.length (advance (superSelfState s)) =
        Except.ok (lits.length, r) ∧
      super_ (parsePrecedence (m + 2)) lits.length c s = Except.ok s' ∧
      (currentChunk s').code = (currentChunk s).code ++
        ([Byte.op OP_GET_LOCAL, Byte.raw 0] ++ argumentCode lits ++
          [Byte.op OP_GET_UPVALUE,
            Byte.raw ((resolveUpvalue 0 (syntheticToken "super") r).1.toNat % 256),
            Byte.op OP_SUPER_INVOKE, Byte.raw (currentChunk s).constants.length,
            Byte.raw lits.length]) ∧
      (currentChunk s').constants = (currentChunk s).constants ++
        [Value.string (copyString (advance (advance s)).parser.previous.start
          (advance (advance s)).parser.previous.length)] := by
  have hup3 : upcoming s [TOKEN_DOT, TOKEN_IDENTIFIER, TOKEN_LEFT_PAREN] = true :=
    upcoming_prefix [TOKEN_DOT, TOKEN_IDENTIFIER, TOKEN_LEFT_PAREN] _ hup
  obtain ⟨-, -, -, hok4, -, hcode4, hconst4, hU4⟩ :=
    super_enter (parsePrecedence (m + 2)) hok hself hdepth hroom hup
  obtain ⟨b, tl, hb⟩ : ∃ b tl, callTokens lits ++ TOKEN_RIGHT_PAREN :: t :: ts = b :: tl := by
    cases lits with
    | nil => exact ⟨_, _, rfl⟩
    | cons l ls =>
      obtain ⟨u, hu⟩ := argumentTokens_head l ls
      exact ⟨_, _, by rw [callTokens, hu]; rfl⟩
  have hU4' : upcoming (superSelfState s) (TOKEN_LEFT_PAREN :: b :: tl) = true := by
    rw [← hb]; exact hU4
  obtain ⟨hU5, -⟩ := advance_upcoming hU4'
  rw [← hb] at hU5
  have hA5 := appended_advance hok4
  obtain ⟨r, hr, hA, -⟩ := argumentList_lits m lits t ts (advance (superSelfState s))
    lits.length (Nat.le_refl _) hA5.funOK hU5
  have hcr := argumentList_constants m lits t ts (advance (superSelfState s)) lits.length
    (Nat.le_refl _) hA5.funOK hU5 _ hr
  rw [Nat.mod_eq_of_lt (Nat.lt_succ_of_le hn)] at hr
  obtain ⟨-, -, -, h4, h5, h6, -⟩ := super_invoke (m + 2) c s r lits.length lits.length hok
    hstruct hself hdepth hsup henc hroom hup3 hr
  refine ⟨r, _, hr, h4, ?_, ?_⟩
  · rw [h5, hA.code, advance_currentChunk, hcode4]
    simp
  · rw [h6, hcr, advance_currentChunk, hconst4]

/-! ## The claims -/

/-- C1 (the code breaks the claim): an error reported while compiling an
imported module is forgotten when `importModule` restores the saved parser, so
`compile` returns the top-level function although a diagnostic was printed.
Here the main source is `import "m"`, the module `m.luna` is `print 1 +`;
"Expect expression." is reported and `compile` returns function 0. -/
theorem compile_forgets_module_error :
    (compile brokenModuleFiles 20 (cstr "main") (cstr "import \"m\"") State.initial).map
        (fun r => (r.1, r.2.stderr)) =
      Except.ok (some 0,
        [Diag.error 1 ErrorPlace.atEnd (cstr "Expect expression.") (cstr "m.luna")]) := by
  rfl

/-- C2: for an expression of number literals joined by `+ -` (Term) and
`* / %` (Factor), `expression()` appends to the chunk the postfix order of the
tree that has Factor operators above Term operators and every operator
left-associative; the literal at source position `i` emits `Constant` with the
pool index `c + i` (`c` constants were in the pool before).  And
`print 1 + 2 * 3` compiles to Constant 0, Constant 1, Constant 2, Multiply, Add,
Print, Null, Return with the three constants read at `1`, `2` and `3`. -/
theorem arithmetic_emits_postorder :
    (∀ (e : Sum) (stop : TokenType) (rest : List TokenType) (s : State),
      s.funOK → upcoming s (Sum.tokens e ++ stop :: rest) = true →
      (getRule stop).precedence = PREC_NONE →
      ∃ N, ∀ n, N ≤ n → ∃ s', expression (parsePrecedence n) s = Except.ok s' ∧
        (currentChunk s').code =
          (currentChunk s).code ++
            Arith.postorder (currentChunk s).constants.length (Sum.tree e)) ∧
    (compile noFiles 20 (cstr "main") (cstr "print 1 + 2 * 3") State.initial).map
        (fun r => (r.1, (r.2.functionAt 0).chunk.code, (r.2.functionAt 0).chunk.constants)) =
      Except.ok (some 0,
        [Byte.op OP_CONSTANT, Byte.raw 0, Byte.op OP_CONSTANT, Byte.raw 1,
          Byte.op OP_CONSTANT, Byte.raw 2, Byte.op OP_MULTIPLY, Byte.op OP_ADD,
          Byte.op OP_PRINT, Byte.op OP_NULL, Byte.op OP_RETURN],
        [Value.number (cstr "1 + 2 * 3"), Value.number (cstr "2 * 3"),
          Value.number (cstr "3")]) := by
  refine ⟨fun e stop rest s hok hup hstop => ?_, by rfl⟩
  obtain ⟨N, hN⟩ := expression_arithmetic e stop rest s hok hup hstop
  exact ⟨N, fun n hn => (hN n hn).imp fun s' h => ⟨h.1, h.2.code⟩⟩

/-- C2 at `1 + 2 * 3` inside `print 1 + 2 * 3`: the hypotheses hold there, and
`expression()` appends Constant 0, Constant 1, Constant 2, Multiply, Add. -/
theorem arithmetic_emits_postorder_witness :
    arithmeticState.funOK ∧
    upcoming arithmeticState (Sum.tokens arithmeticSum ++ [TOKEN_EOF]) = true ∧
    ∃ N, ∀ n, N ≤ n → ∃ s', expression (parsePrecedence n) arithmeticState = Except.ok s' ∧
      (currentChunk s').code =
        (currentChunk arithmeticState).code ++
          [Byte.op OP_CONSTANT, Byte.raw 0, Byte.op OP_CONSTANT, Byte.raw 1,
            Byte.op OP_CONSTANT, Byte.raw 2, Byte.op OP_MULTIPLY, Byte.op OP_ADD] :=
  ⟨⟨_, rfl⟩, rfl,
    arithmetic_emits_postorder.1 arithmeticSum TOKEN_EOF [] arithmeticState ⟨_, rfl⟩ rfl rfl⟩

/-- C4: `namedVariable` resolves a name as local, then upvalue, then global.
(1) When the current function has a local of that name, the instruction pair is
GetLocal/SetLocal with the slot `j` of the most recently declared matching
local.  (2) Otherwise, when a compiler further up the chain has such a local,
it is GetUpvalue/SetUpvalue with the index `resolveUpvalue` returns.
(3) Otherwise it is GetGlobal/SetGlobal and the operand is the index of a new
constant holding the name (for a pool that has not passed 256 constants).
(4) With code to emit into, the Get instruction and its operand are appended
when `canAssign` is false or no `=` follows; when `canAssign` is true and `=`
follows, the `=` is consumed, the right-hand side compiled, and the Set
instruction and the operand are appended after it. -/
theorem namedVariable_resolution_order :
    (∀ (name : Token) (s : State) (j : Nat),
      findLocal s.cur name s.cur.localCount = some j →
      (resolveVariable name s).1 = (OP_GET_LOCAL, OP_SET_LOCAL, j) ∧
        j < s.cur.localCount ∧ identifiersEqual name (s.cur.localAt j).name = true ∧
        ∀ i, j < i → i < s.cur.localCount →
          identifiersEqual name (s.cur.localAt i).name = false) ∧
    (∀ (name : Token) (s : State),
      hasLocal s.cur name = false →
      (∃ k, 0 < k ∧ k < s.compilers.length ∧ hasLocal (s.compilerAt k) name = true) →
      (resolveVariable name s).1 =
          (OP_GET_UPVALUE, OP_SET_UPVALUE, (resolveUpvalue 0 name s).1.toNat) ∧
        (resolveUpvalue 0 name s).1 ≠ -1) ∧
    (∀ (name : Token) (s : State),
      (∀ k, hasLocal (s.compilerAt k) name = false) → s.funOK →
      (currentChunk s).constants.length ≤ UINT8_MAX →
      (resolveVariable name s).1 =
          (OP_GET_GLOBAL, OP_SET_GLOBAL, (currentChunk s).constants.length) ∧
        (currentChunk (resolveVariable name s).2).constants =
          (currentChunk s).constants ++ [Value.string name.lexeme]) ∧
    (∀ (pp : Precedence → State → Res State) (name : Token) (canAssign : Bool) (s : State),
      s.funOK →
      ((canAssign && check TOKEN_EQUAL s) = false →
        ∃ s', namedVariable pp name canAssign s = Except.ok s' ∧
          (currentChunk s').code =
            (currentChunk s).code ++
              [Byte.op (resolveVariable name s).1.1,
                Byte.raw ((resolveVariable name s).1.2.2 % 256)]) ∧
      ((canAssign && check TOKEN_EQUAL s) = true →
        ∀ s1, expression pp (advance (resolveVariable name s).2) = Except.ok s1 → s1.funOK →
          ∃ s', namedVariable pp name canAssign s = Except.ok s' ∧
            (currentChunk s').code =
              (currentChunk s1).code ++
                [Byte.op (resolveVariable name s).1.2.1,
                  Byte.raw ((resolveVariable name s).1.2.2 % 256)])) := by
  refine ⟨fun name s j h => ?_, fun name s h hex => ?_, fun name s h hok hpool => ?_,
    fun pp name canAssign s hok => ⟨fun h => ?_, fun h s1 h1 hok1 => ?_⟩⟩
  · obtain ⟨h1, h2, h3⟩ := findLocal_some h
    exact ⟨(resolveVariable_local h).1, h1, h2, h3⟩
  · have hu : (resolveUpvalue 0 name s).1 ≠ -1 :=
      (resolveUpvalue_ne_neg_one_iff name s _ 0 (Nat.le_refl _)).2 hex
    exact ⟨(resolveVariable_upvalue h hu).1, hu⟩
  · have hu : (resolveUpvalue 0 name s).1 = -1 := by
      by_contra hne
      obtain ⟨k, -, -, hk⟩ := (resolveUpvalue_ne_neg_one_iff name s _ 0 (Nat.le_refl _)).1 hne
      rw [h k] at hk
      exact Bool.false_ne_true hk
    rw [resolveVariable_global (h 0) hu]
    refine ⟨?_, makeConstant_constants hok _⟩
    show (_, _, (makeConstant _ s).1) = _
    rw [makeConstant_fst, if_neg (Nat.not_lt.2 hpool)]
  · refine ⟨_, namedVariable_get pp name canAssign s h, ?_⟩
    rw [emitBytes_code (resolveVariable_frame name s hok).1, (resolveVariable_frame name s hok).2]
  · refine ⟨_, ?_, emitBytes_code hok1 _ _⟩
    rw [namedVariable_set pp name canAssign s h, h1]
    rfl

/-- C4 at concrete states.  In `localState` the name `x` is the local of slot 1:
a read appends GetLocal 1, and with `= 2` following (`assignState`) the constant
is compiled first and SetLocal 1 appended after it.  In `captureState` the name
is a local of the enclosing function: GetUpvalue/SetUpvalue 0.  In
`freshFunctionState` no compiler has it: GetGlobal/SetGlobal 0, and constant 0
holds the name. -/
theorem namedVariable_resolution_order_witness :
    (∃ s', namedVariable (parsePrecedence 5) tokenX false localState = Except.ok s' ∧
      (currentChunk s').code =
        (currentChunk localState).code ++ [Byte.op OP_GET_LOCAL, Byte.raw 1]) ∧
    (∃ s', namedVariable (parsePrecedence 5) tokenX true assignState = Except.ok s' ∧
      (currentChunk s').code =
        [Byte.op OP_CONSTANT, Byte.raw 0, Byte.op OP_SET_LOCAL, Byte.raw 1]) ∧
    (resolveVariable tokenX captureState).1 = (OP_GET_UPVALUE, OP_SET_UPVALUE, 0) ∧
    ((resolveVariable tokenX freshFunctionState).1 = (OP_GET_GLOBAL, OP_SET_GLOBAL, 0) ∧
      (currentChunk (resolveVariable tokenX freshFunctionState).2).constants =
        [Value.string (cstr "x")]) := by
  have hl := (namedVariable_resolution_order.1 tokenX localState 1 (by decide!)).1
  have hl' := (namedVariable_resolution_order.1 tokenX assignState 1 (by decide!)).1
  have hget := (namedVariable_resolution_order.2.2.2 (parsePrecedence 5) tokenX false
    localState ⟨_, rfl⟩).1 (by decide!)
  have hset := (namedVariable_resolution_order.2.2.2 (parsePrecedence 5) tokenX true
    assignState ⟨_, rfl⟩).2 (by decide!) assignValueState (by decide!) ⟨_, rfl⟩
  have hup := namedVariable_resolution_order.2.1 tokenX captureState (by decide!)
    ⟨1, by decide!, by decide!, by decide!⟩
  have hglobal := namedVariable_resolution_order.2.2.1 tokenX freshFunctionState
    (fun k => by
      by_cases hk : k < 2
      · interval_cases k <;> decide!
      · have : freshFunctionState.compilerAt k = Compiler.zero := by
          have hlen : freshFunctionState.compilers.length = 2 := by decide!
          unfold State.compilerAt
          rw [List.getD_eq_default _ _ (by omega)]
        rw [this]
        decide!)
    ⟨_, rfl⟩ (by decide!)
  rw [hl] at hget
  rw [hl'] at hset
  have hcode : (currentChunk assignValueState).code = [Byte.op OP_CONSTANT, Byte.raw 0] := by
    decide!
  rw [hcode] at hset
  exact ⟨hget, hset, hup.1, hglobal⟩

/-- C5: the cases of `resolveUpvalue` for compiler `k` of the chain, whose
directly enclosing compiler is `k + 1`.  (1) When `name` is a local of the
enclosing compiler, innermost at slot `j`, that local becomes `isCaptured` and
compiler `k` holds the descriptor `(index = j, isLocal = true)` at the returned
index.  (2) Otherwise, when the enclosing compiler resolves `name` to its
upvalue `j`, compiler `k` holds `(index = j, isLocal = false)` at the returned
index.  (3) Otherwise the result is `-1` and the state is unchanged, so no
descriptor is added.  (4) A descriptor that is registered already is reused:
`addUpvalue` returns the first index holding it and changes nothing.  Cases (1)
and (2) are for a function that has room for the descriptor (fewer than 256, or
the descriptor registered already).  (5) For
`def mk() { var x = 10 def get() { return x } return get }` the function `get`
has `upvalueCount` 1 and its `Closure` in `mk` is followed by the one pair
`(isLocal = 1, index = 1)`. -/
theorem resolveUpvalue_cases :
    (∀ (k : Nat) (name : Token) (s : State) (j : Nat),
      k + 1 < s.compilers.length → s.funOKAt k →
      findLocal (s.compilerAt (k + 1)) name (s.compilerAt (k + 1)).localCount = some j →
      (s.compilerAt (k + 1)).localCount ≤ UINT8_COUNT →
      (s.upvalueCountAt k ≠ UINT8_COUNT ∨
        ∃ i, i < s.upvalueCountAt k ∧ (s.compilerAt k).upvalueAt i = ⟨j, true⟩) →
      (((resolveUpvalue k name s).2.compilerAt (k + 1)).localAt j).isCaptured = true ∧
        ∃ i : Nat, (resolveUpvalue k name s).1 = (i : Int) ∧
          i < (resolveUpvalue k name s).2.upvalueCountAt k ∧
          ((resolveUpvalue k name s).2.compilerAt k).upvalueAt i = ⟨j, true⟩) ∧
    (∀ (k : Nat) (name : Token) (s : State) (j : Nat),
      k + 1 < s.compilers.length → s.funOKAt k →
      hasLocal (s.compilerAt (k + 1)) name = false →
      (resolveUpvalue (k + 1) name s).1 = (j : Int) → j < UINT8_COUNT →
      ((resolveUpvalue (k + 1) name s).2.upvalueCountAt k ≠ UINT8_COUNT ∨
        ∃ i, i < (resolveUpvalue (k + 1) name s).2.upvalueCountAt k ∧
          ((resolveUpvalue (k + 1) name s).2.compilerAt k).upvalueAt i = ⟨j, false⟩) →
      ∃ i : Nat, (resolveUpvalue k name s).1 = (i : Int) ∧
        i < (resolveUpvalue k name s).2.upvalueCountAt k ∧
        ((resolveUpvalue k name s).2.compilerAt k).upvalueAt i = ⟨j, false⟩) ∧
    (∀ (k : Nat) (name : Token) (s : State),
      hasLocal (s.compilerAt (k + 1)) name = false →
      (resolveUpvalue (k + 1) name s).1 = -1 →
      resolveUpvalue k name s = (-1, s)) ∧
    (∀ (k index : Nat) (isLocal : Bool) (s : State) (i0 : Nat),
      i0 < s.upvalueCountAt k → (s.compilerAt k).upvalueAt i0 = ⟨index, isLocal⟩ →
      ∃ i : Nat, i ≤ i0 ∧ addUpvalue k index isLocal s = ((i : Int), s) ∧
        (s.compilerAt k).upvalueAt i = ⟨index, isLocal⟩) ∧
    (compile noFiles 20 (cstr "main") closureSource State.initial).map
        (fun r => (r.1, (r.2.functionAt 1).name, (r.2.functionAt 2).name,
          (r.2.functionAt 2).upvalueCount, (r.2.functionAt 1).chunk.code)) =
      Except.ok (some 0, some (cstr "mk"), some (cstr "get"), 1,
        [Byte.op OP_CONSTANT, Byte.raw 0, Byte.op OP_CLOSURE, Byte.raw 1, Byte.raw 1,
          Byte.raw 1, Byte.op OP_GET_LOCAL, Byte.raw 2, Byte.op OP_RETURN, Byte.op OP_NULL,
          Byte.op OP_RETURN]) := by
  refine ⟨fun k name s j hk hok hfind hcount hroom => ?_,
    fun k name s j hk hok hmiss hup hj hroom =>
      resolveUpvalue_upvalue_hit k name s j hk hok hmiss hup hj hroom,
    resolveUpvalue_none, addUpvalue_reuses, by rfl⟩
  have hj : j < 256 := Nat.lt_of_lt_of_le (findLocal_some hfind).1 hcount
  exact resolveUpvalue_local_hit k name s j hk hok hfind hj hroom

/-- C5 at concrete compilers.  In `captureState` the name `x` is the local of
slot 1 of the enclosing function: it becomes captured, and the current function
gets the descriptor `(index = 1, isLocal = true)` at index 0.  In `relayState`
the enclosing function reaches `x` as its upvalue 0, and the current function
gets `(index = 0, isLocal = false)`. -/
theorem resolveUpvalue_cases_witness :
    ((((resolveUpvalue 0 tokenX captureState).2.compilerAt 1).localAt 1).isCaptured = true ∧
      ∃ i : Nat, (resolveUpvalue 0 tokenX captureState).1 = (i : Int) ∧
        i < (resolveUpvalue 0 tokenX captureState).2.upvalueCountAt 0 ∧
        ((resolveUpvalue 0 tokenX captureState).2.compilerAt 0).upvalueAt i = ⟨1, true⟩) ∧
    (hasLocal (relayState.compilerAt 1) tokenX = false ∧
      (resolveUpvalue 1 tokenX relayState).1 = 0 ∧
      ∃ i : Nat, (resolveUpvalue 0 tokenX relayState).1 = (i : Int) ∧
        i < (resolveUpvalue 0 tokenX relayState).2.upvalueCountAt 0 ∧
        ((resolveUpvalue 0 tokenX relayState).2.compilerAt 0).upvalueAt i = ⟨0, false⟩) :=
  ⟨resolveUpvalue_cases.1 0 tokenX captureState 1 (by decide!) ⟨by decide!, _, rfl⟩
      (by decide!) (by decide!) (Or.inl (by decide!)),
    by decide!, by decide!,
    resolveUpvalue_cases.2.1 0 tokenX relayState 0 (by decide!) ⟨by decide!, _, rfl⟩
      (by decide!) (by decide!) (by decide!) (Or.inl (by decide!))⟩

/-- C6: whenever the body of a function declaration or method compiles (to the
state `s1`, in which `s1.cur` is the compiler of the function and
`s1.cur.function` the function just compiled), `function` returns, and the chunk
of the enclosing function (the one that was current when `function` was called)
gets `Closure`, the index of the constant holding the function, and then exactly
`upvalueCount` pairs of bytes, where `upvalueCount` is the field of the function
just compiled: pair `j` is (`isLocal` as 1 or 0, `index`) of descriptor `j` of
its compiler. -/
theorem closure_upvalue_pairs (fs : List Nat → Option (List Nat)) (m n : Nat)
    (type : FunctionType) (s s1 : State) (hok : s.funOK)
    (hbody : functionBody (declaration fs m) n type s = Except.ok s1) :
    ∃ s', function (declaration fs m) n type s = Except.ok s' ∧
      s'.cur.function = s.cur.function ∧
      (s'.functionAt s1.cur.function).upvalueCount =
        (s1.functionAt s1.cur.function).upvalueCount ∧
      (currentChunk s').constants =
        (currentChunk (endCompiler s1).2).constants ++ [Value.obj s1.cur.function] ∧
      (currentChunk s').code =
        (currentChunk (endCompiler s1).2).code ++
          Byte.op OP_CLOSURE ::
            Byte.raw (makeConstant (Value.obj s1.cur.function) (endCompiler s1).2).1 ::
              closurePairs s1.cur (s'.functionAt s1.cur.function).upvalueCount 0 ∧
      (closurePairs s1.cur (s'.functionAt s1.cur.function).upvalueCount 0).length =
        2 * (s'.functionAt s1.cur.function).upvalueCount ∧
      ∀ j, j < (s'.functionAt s1.cur.function).upvalueCount →
        (closurePairs s1.cur (s'.functionAt s1.cur.function).upvalueCount 0)[2 * j]? =
            some (Byte.raw (if (s1.cur.upvalueAt j).isLocal then 1 else 0)) ∧
          (closurePairs s1.cur (s'.functionAt s1.cur.function).upvalueCount 0)[2 * j + 1]? =
            some (Byte.raw (s1.cur.upvalueAt j).index) := by
  have hkeep := functionBody_enclosing fs m n type s s1 hbody
  have hfn : (endCompiler s1).1 = s1.cur.function := by
    show (emitReturn s1).cur.function = s1.cur.function
    unfold emitReturn
    split <;> rfl
  have hok2 : (endCompiler s1).2.funOK := by
    obtain ⟨f, hf⟩ := hok
    have := hkeep.isFunction _ ⟨f, hf⟩
    unfold State.funOK State.cur
    rw [hkeep.function 0]
    exact this
  have hok3 := makeConstant_funOK hok2 (Value.obj s1.cur.function)
  have hok4 := emitBytes_funOK hok3 (Byte.op OP_CLOSURE)
    (Byte.raw (makeConstant (Value.obj s1.cur.function) (endCompiler s1).2).1)
  have hcount : ∀ c k i, ((emitUpvalues c k i
      (emitBytes (Byte.op OP_CLOSURE)
        (Byte.raw (makeConstant (Value.obj s1.cur.function) (endCompiler s1).2).1)
        (makeConstant (Value.obj s1.cur.function) (endCompiler s1).2).2)).functionAt
        s1.cur.function).upvalueCount = (s1.functionAt s1.cur.function).upvalueCount := by
    intro c k i
    rw [upvalueCount_emitUpvalues, upvalueCount_emitBytes, upvalueCount_makeConstant]
    show ((emitReturn s1).functionAt s1.cur.function).upvalueCount = _
    rw [upvalueCount_emitReturn]
  have hcount' : ((emitBytes (Byte.op OP_CLOSURE)
        (Byte.raw (makeConstant (Value.obj s1.cur.function) (endCompiler s1).2).1)
        (makeConstant (Value.obj s1.cur.function) (endCompiler s1).2).2).functionAt
        s1.cur.function).upvalueCount = (s1.functionAt s1.cur.function).upvalueCount :=
    hcount s1.cur 0 0
  refine ⟨emitUpvalues s1.cur
      ((emitBytes (Byte.op OP_CLOSURE)
        (Byte.raw (makeConstant (Value.obj s1.cur.function) (endCompiler s1).2).1)
        (makeConstant (Value.obj s1.cur.function) (endCompiler s1).2).2).functionAt
          s1.cur.function).upvalueCount 0
      (emitBytes (Byte.op OP_CLOSURE)
        (Byte.raw (makeConstant (Value.obj s1.cur.function) (endCompiler s1).2).1)
        (makeConstant (Value.obj s1.cur.function) (endCompiler s1).2).2),
    ?_, ?_, ?_, ?_, ?_, closurePairs_length _ _ _, fun j hj => ?_⟩
  · rw [function_eq_body, hbody]
    simp only [bind, Except.bind, hfn]
    rfl
  · have h1 : ∀ c k i (a : State), (emitUpvalues c k i a).cur = a.cur := by
      intro c k
      induction k with
      | zero => intro i a; rfl
      | succ k ih => intro i a; unfold emitUpvalues; rw [ih]; rfl
    rw [h1]
    unfold emitBytes
    rw [emitByte_cur, emitByte_cur, makeConstant_cur]
    exact hkeep.function 0
  · exact hcount _ _ _
  · have h1 : ∀ c k i {a : State}, a.funOK →
        (currentChunk (emitUpvalues c k i a)).constants = (currentChunk a).constants := by
      intro c k
      induction k with
      | zero => intro i a _; rfl
      | succ k ih =>
        intro i a ha
        unfold emitUpvalues
        rw [ih _ (emitByte_funOK (emitByte_funOK ha _) _),
          emitByte_constants (emitByte_funOK ha _), emitByte_constants ha]
    rw [h1 _ _ _ hok4, emitBytes_constants hok3, makeConstant_constants hok2]
  · rw [emitUpvalues_code _ _ _ hok4, emitBytes_code hok3, makeConstant_code hok2, hcount,
      hcount']
    simp
  · have := closurePairs_get s1.cur _ 0 j hj
    simpa using this

/-- C6 at the nested function of `closureState`, whose body `return x` reads
the local `x` of slot 1 of the enclosing function: the function just compiled
has `upvalueCount` 1, and the enclosing chunk gets Closure, the constant index
0 and the one pair (1, 1). -/
theorem closure_upvalue_pairs_witness :
    closureState.funOK ∧
      functionBody (declaration noFiles 10) 10 TYPE_FUNCTION closureState =
        Except.ok closureBodyState ∧
      closureBodyState.cur.upvalueAt 0 = ⟨1, true⟩ ∧
      ∃ s', function (declaration noFiles 10) 10 TYPE_FUNCTION closureState = Except.ok s' ∧
        (s'.functionAt closureBodyState.cur.function).upvalueCount = 1 ∧
        (currentChunk s').code =
          [Byte.op OP_CLOSURE, Byte.raw 0, Byte.raw 1, Byte.raw 1] := by
  have hok : closureState.funOK := ⟨_, rfl⟩
  have hbody : functionBody (declaration noFiles 10) 10 TYPE_FUNCTION closureState =
      Except.ok closureBodyState := by decide!
  obtain ⟨s', h1, -, h3, -, h5, -, -⟩ :=
    closure_upvalue_pairs noFiles 10 10 TYPE_FUNCTION closureState closureBodyState hok hbody
  have hcount : (closureBodyState.functionAt closureBodyState.cur.function).upvalueCount = 1 := by
    decide!
  rw [hcount] at h3
  rw [h3] at h5
  refine ⟨hok, hbody, by decide!, s', h1, h3, ?_⟩
  rw [h5]
  decide!

/-- For every source that scans as `{ var x = x }` (a left brace, `var`,
an identifier, `=`, an identifier of the same name, a right brace and the end
of the text), `compile` returns `NULL` for every fuel from 5 on, and its first
diagnostic is "Can't read local variable in its own initializer.", reported at
the token after the initializer.  And `resolveLocal` reports this error exactly
when the innermost local whose name matches (the one `findLocal` gives) has
depth -1: then the state it leaves is the one `error` gives, which outside panic
mode has one more diagnostic; otherwise the state is unchanged. -/
theorem own_initializer_reported :
    (∀ (fs : List Nat → Option (List Nat)) (n : Nat) (filename source : List Nat),
      ScansOwnInitializer source →
      ∃ s', compile fs (n + 5) filename source State.initial = Except.ok (none, s') ∧
        s'.stderr.head? =
          some (Diag.error (nthToken (Scan.initScanner source) 5).line
            (ErrorPlace.atLexeme (nthToken (Scan.initScanner source) 5).lexeme)
            (cstr "Can't read local variable in its own initializer.") filename)) ∧
    (∀ (c : Compiler) (name : Token) (s : State),
      ((∃ i, findLocal c name c.localCount = some i ∧ (c.localAt i).depth = -1) →
        (resolveLocal c name s).2 =
            error "Can't read local variable in its own initializer." s ∧
          (s.parser.panicMode = false →
            (resolveLocal c name s).2.stderr =
              s.stderr ++ [errorDiag "Can't read local variable in its own initializer." s])) ∧
      ((¬ ∃ i, findLocal c name c.localCount = some i ∧ (c.localAt i).depth = -1) →
        (resolveLocal c name s).2 = s) ∧
      (∀ i, findLocal c name c.localCount = some i →
        i < c.localCount ∧ identifiersEqual name (c.localAt i).name = true ∧
          ∀ j, i < j → j < c.localCount → identifiersEqual name (c.localAt j).name = false)) := by
  refine ⟨fun fs n filename source h => ?_, fun c name s => ⟨fun h => ?_, fun h => ?_,
    fun i h => findLocal_some h⟩⟩
  · obtain ⟨s', h1, h2⟩ := compile_own_initializer_tokens fs n filename source
      (nthToken (Scan.initScanner source) 0) (nthToken (Scan.initScanner source) 1)
      (nthToken (Scan.initScanner source) 2) (nthToken (Scan.initScanner source) 3)
      (nthToken (Scan.initScanner source) 4) (nthToken (Scan.initScanner source) 5)
      (nthToken (Scan.initScanner source) 6) (nthToken (Scan.initScanner source) 7)
      (scanAfter (Scan.initScanner source) 1) (scanAfter (Scan.initScanner source) 2)
      (scanAfter (Scan.initScanner source) 3) (scanAfter (Scan.initScanner source) 4)
      (scanAfter (Scan.initScanner source) 5) (scanAfter (Scan.initScanner source) 6)
      (scanAfter (Scan.initScanner source) 7) (scanAfter (Scan.initScanner source) 8)
      (scanToken_scanAfter _ 0) (scanToken_scanAfter _ 1) (scanToken_scanAfter _ 2)
      (scanToken_scanAfter _ 3) (scanToken_scanAfter _ 4) (scanToken_scanAfter _ 5)
      (scanToken_scanAfter _ 6) (scanToken_scanAfter _ 7)
      h.leftBrace h.var_ h.name h.equal h.read h.same h.rightBrace h.eof h.after
    exact ⟨s', h1, by rw [h2]; rfl⟩
  · obtain ⟨i, hi, hd⟩ := h
    have hr : (resolveLocal c name s).2 = error ownInitializerMessage s := by
      rw [resolveLocal_eq, hi]
      exact if_pos hd
    exact ⟨hr, fun hp => by rw [hr]; exact (error_reports ownInitializerMessage s hp).1⟩
  · rw [resolveLocal_eq]
    cases hf : findLocal c name c.localCount with
    | none => rfl
    | some i => exact if_neg (fun hd => h ⟨i, hf, hd⟩)

/-- At the text `{ var x = x }` and at `{ var total = total }`: both scan
as required, and `compile` returns `NULL` with the diagnostic first. -/
theorem own_initializer_reported_witness :
    ScansOwnInitializer (cstr "{ var x = x }") ∧
    ScansOwnInitializer (cstr "{ var total = total }") ∧
    (∃ s', compile noFiles 5 (cstr "main") (cstr "{ var x = x }") State.initial =
        Except.ok (none, s') ∧
      s'.stderr.head? =
        some (Diag.error 1 (ErrorPlace.atLexeme (cstr "\x7d"))
          (cstr "Can't read local variable in its own initializer.") (cstr "main"))) ∧
    (∃ s', compile noFiles 5 (cstr "main") (cstr "{ var total = total }") State.initial =
        Except.ok (none, s') ∧
      s'.stderr.head? =
        some (Diag.error 1 (ErrorPlace.atLexeme (cstr "\x7d"))
          (cstr "Can't read local variable in its own initializer.") (cstr "main"))) := by
  have h1 : ScansOwnInitializer (cstr "{ var x = x }") :=
    ⟨by decide!, by decide!, by decide!, by decide!, by decide!, by decide!, by decide!,
      by decide!, by decide!⟩
  have h2 : ScansOwnInitializer (cstr "{ var total = total }") :=
    ⟨by decide!, by decide!, by decide!, by decide!, by decide!, by decide!, by decide!,
      by decide!, by decide!⟩
  exact ⟨h1, h2, own_initializer_reported.1 noFiles 0 (cstr "main") _ h1,
    own_initializer_reported.1 noFiles 0 (cstr "main") _ h2⟩

/-- C7 (the code breaks the claim): the declaration `var x = x` of a local
reports "Can't read local variable in its own initializer." wherever it is
compiled, but when its text is in an imported module `compile` returns the
function: `importModule` restores the parser it saved, and with it `hadError`
(the defect of C1).  Here the main source is `import "m"` and `m.luna` is
`{ var x = x }`: the diagnostic is the first line of `stderr` and `compile`
returns function 0.  The same text as the main source makes `compile` return
`NULL`, for every source that scans as `{ var x = x }`; and `resolveLocal`
reports the error exactly when the innermost local whose name matches has depth
-1.  In any scope where `x` is new, with no error pending, `varDeclaration`
at `x = x` followed by a token that continues no expression prints the
diagnostic and sets `hadError`. -/
theorem own_initializer_forgotten_in_module :
    ((compile ownInitializerFiles 20 (cstr "main") (cstr "import \"m\"") State.initial).map
        (fun r => (r.1, r.2.stderr.head?)) =
      Except.ok (some 0,
        some (Diag.error 1 (ErrorPlace.atLexeme (cstr "\x7d"))
          (cstr "Can't read local variable in its own initializer.") (cstr "m.luna")))) ∧
    ((compile noFiles 20 (cstr "main") (cstr "\x7b var x = x \x7d") State.initial).map
        (fun r => (r.1, r.2.stderr.head?)) =
      Except.ok (none,
        some (Diag.error 1 (ErrorPlace.atLexeme (cstr "\x7d"))
          (cstr "Can't read local variable in its own initializer.") (cstr "main")))) ∧
    (∀ (fs : List Nat → Option (List Nat)) (n : Nat) (filename source : List Nat),
      ScansOwnInitializer source →
      ∃ s', compile fs (n + 5) filename source State.initial = Except.ok (none, s') ∧
        s'.stderr.head? =
          some (Diag.error (nthToken (Scan.initScanner source) 5).line
            (ErrorPlace.atLexeme (nthToken (Scan.initScanner source) 5).lexeme)
            (cstr "Can't read local variable in its own initializer.") filename)) ∧
    (∀ (c : Compiler) (name : Token) (s : State),
      ((∃ i, findLocal c name c.localCount = some i ∧ (c.localAt i).depth = -1) →
        (resolveLocal c name s).2 =
            error "Can't read local variable in its own initializer." s ∧
          (s.parser.panicMode = false →
            (resolveLocal c name s).2.stderr =
              s.stderr ++ [errorDiag "Can't read local variable in its own initializer." s])) ∧
      ((¬ ∃ i, findLocal c name c.localCount = some i ∧ (c.localAt i).depth = -1) →
        (resolveLocal c name s).2 = s)) ∧
    (∀ (n : Nat) (s : State) (eq x2 t3 : Token) (sc1 sc2 sc3 : Scanner),
      s.compilers ≠ [] → s.parser.panicMode = false → s.cur.scopeDepth > 0 →
      s.cur.localCount ≠ UINT8_COUNT → s.parser.current.type = TOKEN_IDENTIFIER →
      redeclares s.cur s.parser.current s.cur.localCount = false →
      Scan.scanToken s.scanner = (eq, sc1) → eq.type = TOKEN_EQUAL →
      Scan.scanToken sc1 = (x2, sc2) → x2.type = TOKEN_IDENTIFIER →
      identifiersEqual x2 s.parser.current = true →
      Scan.scanToken sc2 = (t3, sc3) → t3.type ≠ TOKEN_ERROR → t3.type ≠ TOKEN_EQUAL →
      (getRule t3.type).precedence = PREC_NONE →
      ∃ s', varDeclaration (n + 2) s = Except.ok s' ∧
        s'.parser.hadError = true ∧ s'.parser.panicMode = true ∧
        s'.stderr = s.stderr ++
          [Diag.error t3.line (errorPlace t3)
            (cstr "Can't read local variable in its own initializer.")
            s.currentModuleName]) :=
  ⟨by decide!, by decide!, own_initializer_reported.1,
    fun c name s => ⟨(own_initializer_reported.2 c name s).1,
      (own_initializer_reported.2 c name s).2.1⟩,
    fun n s eq x2 t3 sc1 sc2 sc3 hne hpanic hdepth hroom hx1 hfresh h1 heq h2 hx2 hsame h3
        ht3 ht3' hprec => by
      obtain ⟨s', hv, hp, -, herr, -⟩ := varDeclaration_own_initializer n s eq x2 t3 sc1 sc2
        sc3 hne hpanic hdepth hroom hx1 hfresh h1 heq h2 hx2 hsame h3 ht3 ht3' hprec
      exact ⟨s', hv, by rw [hp], by rw [hp], herr⟩⟩

/-- C9 as stated fails: `initCompiler` takes slot 0, so in the body of a
function `localCount` starts at 1, the 255 declarations `v0 .. v254` fill the
array without an error, and the 256th declaration (not the 257th) reports "Too
many local variables in function.". -/
theorem addLocal_256th_declaration_fails :
    functionBodyState.cur.localCount = 1 ∧
      (addLocals (localNames 255) functionBodyState).cur.localCount = 256 ∧
      (addLocals (localNames 255) functionBodyState).stderr = [] ∧
      (addLocals (localNames 255) functionBodyState).parser.hadError = false ∧
      (addLocal (localName 255) (addLocals (localNames 255) functionBodyState)).stderr =
        [Diag.error 0 (ErrorPlace.atLexeme []) (cstr "Too many local variables in function.")
          []] ∧
      (addLocal (localName 255)
        (addLocals (localNames 255) functionBodyState)).parser.hadError = true := by
  decide!

/-- C9 (amended): a compiler starts with `localCount` 1, because `initCompiler`
takes slot 0.  Declarations that fit into the 256 cells are added without an
error, so a function body or block can declare 255 locals; a declaration made
when `localCount` is 256 (the 256th of a function) reports "Too many local
variables in function." and leaves `localCount` at 256.  The bound
`localCount ≤ 256` on every compiler of the chain is kept by every expression,
declaration and statement and by `compile`. -/
theorem local_capacity :
    (∀ (type : FunctionType) (s : State), (initCompiler type s).cur.localCount = 1) ∧
    (∀ (ts : List Token) (s : State), s.compilers ≠ [] →
      s.cur.localCount + ts.length ≤ UINT8_COUNT →
      (addLocals ts s).cur.localCount = s.cur.localCount + ts.length ∧
        (addLocals ts s).parser = s.parser ∧ (addLocals ts s).stderr = s.stderr) ∧
    (∀ (t : Token) (s : State), s.cur.localCount = UINT8_COUNT →
      s.parser.panicMode = false →
      (addLocal t s).cur.localCount = 256 ∧
        (addLocal t s).parser.hadError = true ∧
        (addLocal t s).stderr =
          s.stderr ++ [errorDiag "Too many local variables in function." s]) ∧
    (∀ (s : State), (∀ k, (s.compilerAt k).localCount ≤ UINT8_COUNT) →
      (∀ (n : Nat) (p : Precedence) (s' : State), parsePrecedence n p s = Except.ok s' →
        ∀ k, (s'.compilerAt k).localCount ≤ 256) ∧
      (∀ (fs : List Nat → Option (List Nat)) (n : Nat) (s' : State),
        declaration fs n s = Except.ok s' → ∀ k, (s'.compilerAt k).localCount ≤ 256) ∧
      (∀ (fs : List Nat → Option (List Nat)) (n : Nat) (s' : State),
        statement fs n s = Except.ok s' → ∀ k, (s'.compilerAt k).localCount ≤ 256) ∧
      (∀ (fs : List Nat → Option (List Nat)) (n : Nat) (filename source : List Nat)
          (r : Option Nat × State),
        compile fs n filename source s = Except.ok r →
          ∀ k, (r.2.compilerAt k).localCount ≤ 256)) := by
  refine ⟨initCompiler_localCount, addLocals_room, fun t s h hp => ?_, fun s hs => ⟨?_, ?_, ?_, ?_⟩⟩
  · obtain ⟨h1, -, h3, h4⟩ := addLocal_full t s h hp
    exact ⟨h1, h3, h4⟩
  · intro n p s' h
    exact (lands_parsePrecedence keeps_passes n p s s' h).localCount hs
  · intro fs n s' h
    exact (lands_declaration keeps_passes fs n s s' h).localCount hs
  · intro fs n s' h
    exact (lands_statement keeps_passes fs n s s' h).localCount hs
  · intro fs n filename source r h
    exact (keeps_compile fs n filename source s r h).localCount hs

/-- C9 (amended) in the body of a function: the 255 declarations `v0 .. v254`
bring `localCount` from 1 to 256 without an error, and the next declaration
reports the error and leaves `localCount` at 256. -/
theorem local_capacity_witness :
    (addLocals (localNames 255) functionBodyState).cur.localCount = 1 + 255 ∧
      (addLocals (localNames 255) functionBodyState).stderr = functionBodyState.stderr ∧
      (addLocal (localName 255) (addLocals (localNames 255) functionBodyState)).cur.localCount =
        256 ∧
      (addLocal (localName 255) (addLocals (localNames 255) functionBodyState)).stderr =
        (addLocals (localNames 255) functionBodyState).stderr ++
          [errorDiag "Too many local variables in function."
            (addLocals (localNames 255) functionBodyState)] := by
  have h1 := local_capacity.2.1 (localNames 255) functionBodyState (by decide!) (by decide!)
  have h2 := local_capacity.2.2.1 (localName 255) (addLocals (localNames 255) functionBodyState)
    (by rw [h1.1]; decide!) (by rw [h1.2.1]; decide!)
  have e1 : functionBodyState.cur.localCount = 1 := by decide!
  have e2 : (localNames 255).length = 255 := by simp [localNames]
  have h3 := h1.1
  rw [e1, e2] at h3
  exact ⟨h3, h1.2.2, h2.1, h2.2.2⟩

/-- C10: a function with no upvalue yet that registers 256 distinct descriptors
(the captures of 256 distinct variables) gets `upvalueCount` 256 with the
descriptors in the order met, and no error is reported (parser flags and
`stderr` are as before).  A 257th distinct descriptor makes `addUpvalue` report
"Too many closure variables in function.", return 0 and leave `upvalueCount` at
256; so does `resolveUpvalue` for a local of the enclosing function that is
not captured yet. -/
theorem upvalue_capacity :
    (∀ (k : Nat) (s : State) (ds : List Upvalue),
      s.funOKAt k → s.upvalueCountAt k = 0 → ds.length = UINT8_COUNT → ds.Nodup →
      (addUpvalues k ds s).funOKAt k ∧
        (addUpvalues k ds s).upvalueCountAt k = 256 ∧
        (∀ i, i < 256 →
          ((addUpvalues k ds s).compilerAt k).upvalueAt i = ds.getD i Upvalue.zero) ∧
        (addUpvalues k ds s).parser = s.parser ∧ (addUpvalues k ds s).stderr = s.stderr) ∧
    (∀ (k : Nat) (d : Upvalue) (s : State),
      s.upvalueCountAt k = UINT8_COUNT →
      (∀ i, i < UINT8_COUNT → (s.compilerAt k).upvalueAt i ≠ d) →
      s.parser.panicMode = false →
      (addUpvalue k d.index d.isLocal s).1 = 0 ∧
        (addUpvalue k d.index d.isLocal s).2.upvalueCountAt k = 256 ∧
        (addUpvalue k d.index d.isLocal s).2.compilers = s.compilers ∧
        (addUpvalue k d.index d.isLocal s).2.parser.hadError = true ∧
        (addUpvalue k d.index d.isLocal s).2.stderr =
          s.stderr ++ [errorDiag "Too many closure variables in function." s]) ∧
    (∀ (k : Nat) (name : Token) (s : State) (j : Nat),
      k + 1 < s.compilers.length →
      findLocal (s.compilerAt (k + 1)) name (s.compilerAt (k + 1)).localCount = some j →
      (s.compilerAt (k + 1)).localCount ≤ UINT8_COUNT →
      ((s.compilerAt (k + 1)).localAt j).depth ≠ -1 →
      s.upvalueCountAt k = UINT8_COUNT →
      (∀ i, i < UINT8_COUNT → (s.compilerAt k).upvalueAt i ≠ ⟨j, true⟩) →
      s.parser.panicMode = false →
      (resolveUpvalue k name s).1 = 0 ∧
        (resolveUpvalue k name s).2.upvalueCountAt k = 256 ∧
        (resolveUpvalue k name s).2.parser.hadError = true ∧
        (resolveUpvalue k name s).2.stderr =
          s.stderr ++ [errorDiag "Too many closure variables in function." s]) := by
  refine ⟨fun k s ds hok h0 hlen hnodup => ?_, addUpvalue_overflow, resolveUpvalue_overflow⟩
  have h := addUpvalues_spec k ds [] s hok (by simpa using h0) (fun i hi => by simp at hi)
    (by simpa using hnodup) (by simp [hlen])
  simpa [hlen, UINT8_COUNT] using h

/-- C10 at a fresh function: after the descriptors of the captured locals of
slots 0 to 255 it has `upvalueCount` 256 and nothing was reported; the further
descriptor `(index = 0, isLocal = false)` is refused with the one diagnostic,
and `upvalueCount` stays 256. -/
theorem upvalue_capacity_witness :
    (addUpvalues 0 manyDescriptors freshFunctionState).upvalueCountAt 0 = 256 ∧
      (addUpvalues 0 manyDescriptors freshFunctionState).stderr = [] ∧
      (addUpvalues 0 manyDescriptors freshFunctionState).parser.hadError = false ∧
      (addUpvalue 0 0 false (addUpvalues 0 manyDescriptors freshFunctionState)).1 = 0 ∧
      (addUpvalue 0 0 false
        (addUpvalues 0 manyDescriptors freshFunctionState)).2.upvalueCountAt 0 = 256 ∧
      (addUpvalue 0 0 false (addUpvalues 0 manyDescriptors freshFunctionState)).2.stderr =
        [errorDiag "Too many closure variables in function."
          (addUpvalues 0 manyDescriptors freshFunctionState)] := by
  have h1 := upvalue_capacity.1 0 freshFunctionState manyDescriptors ⟨by decide!, _, rfl⟩
    (by decide!) (by decide!) (by decide!)
  have h2 := upvalue_capacity.2.1 0 ⟨0, false⟩ (addUpvalues 0 manyDescriptors freshFunctionState)
    h1.2.1
    (by
      intro i hi
      have hi' : i < 256 := hi
      rw [h1.2.2.1 i hi']
      have : manyDescriptors.getD i Upvalue.zero = ⟨i, true⟩ := by
        simp [manyDescriptors, List.getD_eq_getElem?_getD, hi']
      rw [this]
      simp)
    (by rw [h1.2.2.2.1]; rfl)
  refine ⟨h1.2.1, by rw [h1.2.2.2.2]; rfl, by rw [h1.2.2.2.1]; rfl, h2.1, h2.2.1, ?_⟩
  rw [h2.2.2.2.2, h1.2.2.2.2]
  rfl

/-- A call with `n` comma-separated arguments, each a keyword literal
(`true`, `false`, `null`), met with no error pending. `argumentList` returns;
when `n ≤ 255` it returns `n`, reports nothing and sets no error flag, and
`call` appends the code of the arguments followed by Call and the operand `n`;
when `n ≥ 256` it reports "Can't have more than 255 arguments." (and returns
the count modulo 256, `argCount` being a `uint8_t`). -/
theorem call_argument_limit (m : Nat) (args : List Lit) (t : TokenType) (ts : List TokenType)
    (s : State) (fuel : Nat) (hf : args.length ≤ fuel) (hok : s.funOK)
    (hp : s.parser.panicMode = false)
    (hup : upcoming s (callTokens args ++ TOKEN_RIGHT_PAREN :: t :: ts) = true) :
    (args.length ≤ 255 →
      ∃ r, argumentList (parsePrecedence (m + 2)) fuel s = Except.ok (args.length, r) ∧
        r.stderr = s.stderr ∧ r.parser.hadError = s.parser.hadError ∧
        r.parser.panicMode = false ∧
        call (parsePrecedence (m + 2)) fuel false s =
          Except.ok (emitBytes (Byte.op OP_CALL) (Byte.raw args.length) r) ∧
        (currentChunk (emitBytes (Byte.op OP_CALL) (Byte.raw args.length) r)).code =
          (currentChunk s).code ++
            (argumentCode args ++ [Byte.op OP_CALL, Byte.raw args.length])) ∧
    (256 ≤ args.length →
      ∃ r, argumentList (parsePrecedence (m + 2)) fuel s =
          Except.ok (args.length % 256, r) ∧
        r.parser.hadError = true ∧
        ∃ line place, r.stderr =
          s.stderr ++
            [Diag.error line place (cstr "Can't have more than 255 arguments.")
              s.currentModuleName]) := by
  obtain ⟨r, h1, h2, -, h4, h5⟩ := argumentList_lits m args t ts s fuel hf hok hup
  refine ⟨fun h => ?_, fun h => ?_⟩
  · obtain ⟨q1, q2, q3⟩ := h4 (Or.inr h)
    have hmod : args.length % 256 = args.length := Nat.mod_eq_of_lt (by omega)
    rw [hmod] at h1
    refine ⟨r, h1, q1, q2, q3.trans hp, ?_, ?_⟩
    · unfold call
      rw [h1]
      rfl
    · have := (h2.trans ((appended_emitByte h2.funOK (Byte.op OP_CALL)).trans
        (appended_emitByte (emitByte_funOK h2.funOK _) (Byte.raw args.length)))).code
      simpa [emitBytes] using this
  · obtain ⟨q1, -, q3⟩ := h5 hp h
    exact ⟨r, h1, q1, q3⟩

/-- At the call `f(true, null)`: the hypotheses hold in the state where
`call` runs, `argumentList` returns 2 and `call` appends True, Null, Call 2.
Through `compile`: the call with 255 arguments compiles without a diagnostic
and ends in Call 255; the call with 256 arguments makes `compile` return `NULL`
with the one diagnostic. -/
theorem call_argument_limit_witness :
    callState.funOK ∧ callState.parser.panicMode = false ∧
    upcoming callState (callTokens [Lit.true_, Lit.null_] ++
      TOKEN_RIGHT_PAREN :: TOKEN_EOF :: []) = true ∧
    (∃ r, argumentList (parsePrecedence 2) 2 callState = Except.ok (2, r) ∧
      r.stderr = callState.stderr ∧ r.parser.hadError = callState.parser.hadError ∧
      r.parser.panicMode = false ∧
      call (parsePrecedence 2) 2 false callState =
        Except.ok (emitBytes (Byte.op OP_CALL) (Byte.raw 2) r) ∧
      (currentChunk (emitBytes (Byte.op OP_CALL) (Byte.raw 2) r)).code =
        (currentChunk callState).code ++
          [Byte.op OP_TRUE, Byte.op OP_NULL, Byte.op OP_CALL, Byte.raw 2]) ∧
    (compile noFiles 300 (cstr "main") (argumentsSource 254) State.initial).map
        (fun r => (r.1, r.2.stderr, (r.2.functionAt 0).chunk.code)) =
      Except.ok (some 0, [],
        [Byte.op OP_GET_GLOBAL, Byte.raw 0] ++ List.replicate 255 (Byte.op OP_TRUE) ++
          [Byte.op OP_CALL, Byte.raw 255, Byte.op OP_POP, Byte.op OP_NULL, Byte.op OP_RETURN]) ∧
    (compile noFiles 300 (cstr "main") (argumentsSource 255) State.initial).map
        (fun r => (r.1, r.2.stderr)) =
      Except.ok (none,
        [Diag.error 1 (ErrorPlace.atLexeme (cstr ")"))
          (cstr "Can't have more than 255 arguments.") (cstr "main")]) :=
  ⟨⟨_, rfl⟩, rfl, rfl,
    (call_argument_limit 0 [Lit.true_, Lit.null_] TOKEN_EOF [] callState 2 (by decide)
      ⟨_, rfl⟩ rfl rfl).1 (by decide), by decide!, by decide!⟩

/-- C11 as stated fails: in `f(1,...,1)` with 256 number literals as arguments
the name `f` and the arguments need 257 constants, so the 256th argument
reports "Too many constant in one chunk." and leaves the parser in panic mode;
the test of the count that follows it prints nothing.  `compile` returns `NULL`
with this one diagnostic, and "Can't have more than 255 arguments." is not
reported. -/
theorem call_256_numbers_report_pool :
    (compile noFiles 300 (cstr "main") (numberArgumentsSource 255) State.initial).map
        (fun r => (r.1, r.2.stderr)) =
      Except.ok (none,
        [Diag.error 1 (ErrorPlace.atLexeme (cstr ")")) (cstr "Too many constant in one chunk.")
          (cstr "main")]) := by
  decide!

/-- C11 (amended): a call whose `n` comma-separated arguments compile, whatever
they are: `args` holds the state in which `expression()` returns for each.
`argumentList` returns `n` modulo 256 (`argCount` is a `uint8_t`) and the state
after the closing parenthesis, and `call` appends Call with this operand.  When
`n ≤ 255` the operand is `n` and `argumentList` adds nothing of its own: each
argument is compiled from the state the one before it left, after the comma.
When `n ≥ 256`, the test after the 256th argument reports "Can't have more than
255 arguments." if no error is pending there, and the diagnostic stays on
`stderr`; in panic mode the test changes nothing.  Every run of `argumentList`
that returns is of this kind.  For arguments that are keyword literals, which
need no constant, the diagnostic is reported for every `n ≥ 256`.  In a state
with a current function and with `n ≤ 255`, the first argument adds its code to
the code that is there, each further argument adds its code to what the one
before it left, and Call `n` follows the code of the last. -/
theorem call_argument_count (k : Nat) (s : State) (args : List State) (fuel : Nat)
    (canAssign : Bool) (hf : args.length ≤ fuel)
    (h : callArguments (parsePrecedence k) s args) :
    argumentList (parsePrecedence k) fuel s =
      Except.ok (args.length % 256,
        consume TOKEN_RIGHT_PAREN "Expect ')' after arguments." (argumentsEnd s args)) ∧
    call (parsePrecedence k) fuel canAssign s =
      Except.ok (emitBytes (Byte.op OP_CALL) (Byte.raw (args.length % 256))
        (consume TOKEN_RIGHT_PAREN "Expect ')' after arguments." (argumentsEnd s args))) ∧
    (args.length ≤ 255 →
      args.length % 256 = args.length ∧ argumentsEnd s args = args.getLast?.getD s ∧
      (∀ a, args[0]? = some a → expression (parsePrecedence k) s = Except.ok a) ∧
      ∀ i a b, args[i]? = some a → args[i + 1]? = some b →
        a.parser.current.type = TOKEN_COMMA ∧
          expression (parsePrecedence k) (advance a) = Except.ok b) ∧
    (∀ a, args[255]? = some a →
      (a.parser.panicMode = false →
        (argumentCheck 255 a).stderr =
            a.stderr ++ [errorDiag "Can't have more than 255 arguments." a] ∧
          (argumentCheck 255 a).parser.hadError = true ∧
          (a.stderr ++ [errorDiag "Can't have more than 255 arguments." a]) <+:
            (consume TOKEN_RIGHT_PAREN "Expect ')' after arguments."
              (argumentsEnd s args)).stderr) ∧
      (a.parser.panicMode = true → argumentCheck 255 a = a)) ∧
    (∀ (fuel' : Nat) (r : Nat × State), argumentList (parsePrecedence k) fuel' s = Except.ok r →
      ∃ args', callArguments (parsePrecedence k) s args' ∧ args'.length ≤ fuel' ∧
        r = (args'.length % 256,
          consume TOKEN_RIGHT_PAREN "Expect ')' after arguments." (argumentsEnd s args'))) ∧
    (∀ (m : Nat) (lits : List Lit) (t : TokenType) (ts : List TokenType) (x : State)
        (n : Nat), lits.length ≤ n → x.funOK → x.parser.panicMode = false →
      upcoming x (callTokens lits ++ TOKEN_RIGHT_PAREN :: t :: ts) = true →
      (lits.length ≤ 255 →
        ∃ r, argumentList (parsePrecedence (m + 2)) n x = Except.ok (lits.length, r) ∧
          r.stderr = x.stderr ∧ r.parser.hadError = x.parser.hadError) ∧
      (256 ≤ lits.length →
        ∃ r, argumentList (parsePrecedence (m + 2)) n x =
            Except.ok (lits.length % 256, r) ∧
          r.parser.hadError = true ∧
          ∃ line place, r.stderr =
            x.stderr ++
              [Diag.error line place (cstr "Can't have more than 255 arguments.")
                x.currentModuleName])) ∧
    (s.funOK → args.length ≤ 255 →
      (∀ a, args[0]? = some a →
        ∃ cb, (currentChunk a).code = (currentChunk s).code ++ cb) ∧
      (∀ i a b, args[i]? = some a → args[i + 1]? = some b →
        ∃ cb, (currentChunk b).code = (currentChunk a).code ++ cb) ∧
      (currentChunk (emitBytes (Byte.op OP_CALL) (Byte.raw args.length)
          (consume TOKEN_RIGHT_PAREN "Expect ')' after arguments."
            (argumentsEnd s args)))).code =
        (currentChunk (args.getLast?.getD s)).code ++
          [Byte.op OP_CALL, Byte.raw args.length]) := by
  have hlist := argumentList_of_arguments (parsePrecedence k) s args fuel h hf
  refine ⟨hlist, ?_, fun hn => ?_, fun a ha => ⟨fun hp => ?_, fun hp => ?_⟩,
    fun fuel' r hr => ?_, fun m lits t ts x n hn hok hp hup => ?_, fun hok hn => ?_⟩
  · unfold call
    rw [hlist]
    rfl
  · by_cases hnil : args = []
    · subst hnil
      exact ⟨rfl, rfl, fun a ha => by simp at ha, fun i a b ha => by simp at ha⟩
    · unfold callArguments at h
      rw [if_neg hnil] at h
      obtain ⟨⟨a0, ha0, he0⟩, hnext⟩ :=
        argumentsCompile_next (parsePrecedence k) args 0 s (by decide) h.2
      obtain ⟨z, hz⟩ : ∃ z, args.getLast? = some z := by
        cases hl : args.getLast? with
        | none => exact absurd (List.getLast?_eq_none_iff.1 hl) hnil
        | some z => exact ⟨z, rfl⟩
      have hpos : 0 < args.length := List.length_pos.2 hnil
      refine ⟨Nat.mod_eq_of_lt (by omega), ?_, fun a ha => ?_, fun i a b ha hb => ?_⟩
      · unfold argumentsEnd
        rw [hz]
        exact argumentCheck_of_ne (by omega) z
      · rw [ha0] at ha
        cases ha
        exact he0
      · have hi : i + 1 < args.length := (List.getElem?_eq_some_iff.1 hb).1
        have := hnext i a b ha hb
        rw [Nat.zero_add, argumentCheck_of_ne (by omega) a] at this
        exact this
  · obtain ⟨e1, e2, -⟩ := error_reports "Can't have more than 255 arguments." a hp
    have hne : args ≠ [] := by
      rintro rfl
      simp at ha
    unfold callArguments at h
    rw [if_neg hne] at h
    obtain ⟨-, z, hz, hzR⟩ := argumentsCompile_lands keeps_passes.steps
      (lands_parsePrecedence keeps_passes k) args 0 s (by decide) h.2 255 a ha
    have hend : argumentsEnd s args = argumentCheck ((0 + (args.length - 1)) % 256) z := by
      unfold argumentsEnd
      rw [hz, Nat.zero_add]
    refine ⟨e1, e2, ?_⟩
    rw [hend]
    have h1 : (argumentCheck 255 a).stderr <+:
        (argumentCheck ((0 + (args.length - 1)) % 256) z).stderr := hzR.stderr
    have h2 := (keeps_passes.consume TOKEN_RIGHT_PAREN "Expect ')' after arguments."
      (argumentCheck ((0 + (args.length - 1)) % 256) z)).stderr
    have h3 : (argumentCheck 255 a).stderr =
        a.stderr ++ [errorDiag "Can't have more than 255 arguments." a] := e1
    rw [← h3]
    exact h1.trans h2
  · exact error_of_panic _ _ hp
  · obtain ⟨args', h1, h2⟩ := argumentList_arguments (parsePrecedence k) s fuel' r hr
    refine ⟨args', h1, h2, ?_⟩
    have := argumentList_of_arguments (parsePrecedence k) s args' fuel' h1 h2
    rw [this] at hr
    cases hr
    rfl
  · obtain ⟨g1, g2⟩ := call_argument_limit m lits t ts x n hn hok hp hup
    refine ⟨fun h255 => ?_, g2⟩
    obtain ⟨r, r1, r2, r3, -⟩ := g1 h255
    exact ⟨r, r1, r2, r3⟩
  · obtain ⟨c1, c2, c3, c4⟩ := arguments_code k s args hok h hn
    exact ⟨c1, c2, by rw [emitBytes_code c3, c4]⟩

/-- C11 (amended) at the call `f(true, null)`: the two arguments compile to
`callStateArguments`, `argumentList` returns 2 and `call` appends True, Null,
Call 2 and reports nothing.  Through `compile`: the call with 255 arguments
`true` compiles without a diagnostic and ends in Call 255; with 256 arguments
`true` the one diagnostic is "Can't have more than 255 arguments."; with 255
arguments `1` nothing is reported. -/
theorem call_argument_count_witness :
    callArguments (parsePrecedence 2) callState callStateArguments ∧
    (∃ r, argumentList (parsePrecedence 2) 2 callState = Except.ok (2, r) ∧
      call (parsePrecedence 2) 2 false callState =
        Except.ok (emitBytes (Byte.op OP_CALL) (Byte.raw 2) r) ∧
      (currentChunk (emitBytes (Byte.op OP_CALL) (Byte.raw 2) r)).code =
        (currentChunk callState).code ++
          [Byte.op OP_TRUE, Byte.op OP_NULL, Byte.op OP_CALL, Byte.raw 2] ∧
      r.stderr = []) ∧
    (compile noFiles 300 (cstr "main") (argumentsSource 254) State.initial).map
        (fun r => (r.1, r.2.stderr, (r.2.functionAt 0).chunk.code)) =
      Except.ok (some 0, [],
        [Byte.op OP_GET_GLOBAL, Byte.raw 0] ++ List.replicate 255 (Byte.op OP_TRUE) ++
          [Byte.op OP_CALL, Byte.raw 255, Byte.op OP_POP, Byte.op OP_NULL, Byte.op OP_RETURN]) ∧
    (compile noFiles 300 (cstr "main") (argumentsSource 255) State.initial).map
        (fun r => (r.1, r.2.stderr)) =
      Except.ok (none,
        [Diag.error 1 (ErrorPlace.atLexeme (cstr ")"))
          (cstr "Can't have more than 255 arguments.") (cstr "main")]) ∧
    (compile noFiles 300 (cstr "main") (numberArgumentsSource 254) State.initial).map
        (fun r => (r.1, r.2.stderr)) = Except.ok (some 0, []) := by
  have h : callArguments (parsePrecedence 2) callState callStateArguments := by
    unfold callArguments
    rw [if_neg (by decide)]
    exact ⟨by decide!, by decide!, by decide!, by decide!, by decide!⟩
  obtain ⟨h1, h2, -⟩ := call_argument_count 2 callState callStateArguments 2 false
    (by decide) h
  exact ⟨h, ⟨_, h1, h2, by decide!, by decide!⟩, by decide!, by decide!, by decide!⟩

/-- C12 fails on the source `import "m"` when `m.luna` holds `print 1+1+...+1`
with 257 number literals: the module is compiled into the chunk of the
importing function, `makeConstant` appends the 257th constant before it reports
"Too many constant in one chunk.", and `importModule` restores the saved parser,
so `hadError` is false again and `compile` returns the top-level function, whose
chunk holds 257 constants. -/
theorem compile_returns_overfull_chunk :
    (compile manyConstantsFiles 300 (cstr "main") (cstr "import \"m\"") State.initial).map
        (fun r => (r.1, (r.2.functionAt 0).chunk.constants.length, r.2.parser.hadError,
          r.2.stderr)) =
      Except.ok (some 0, 257, false,
        [Diag.error 1 ErrorPlace.atEnd (cstr "Too many constant in one chunk.")
          (cstr "m.luna")]) := by
  decide!

/-- C13: `emitJump` appends the instruction and the placeholder `0xFF 0xFF` and
returns the offset `o` of the placeholder, so `o + 2 ≤ count`.  For such an
offset, with `d = count - o - 2`: when `d ≤ 65535`, `patchJump(o)` writes
`d / 256` to `code[o]` and `d mod 256` to `code[o + 1]`, so that `o + 2` plus the
operand is the write head, changes no other byte, no line, no constant and no
other object, and reports nothing; when `d > 65535` (no error pending) it
reports "Too much code to jump over.". -/
theorem patchJump_operand (s : State) (o : Nat) (hok : s.funOK)
    (ho : o + 2 ≤ (currentChunk s).code.length) :
    (∀ i, (currentChunk (emitJump i s).2).code =
          (currentChunk s).code ++ [Byte.op i, Byte.raw 255, Byte.raw 255] ∧
        (emitJump i s).1 = (currentChunk s).code.length + 1 ∧
        (emitJump i s).1 + 2 = (currentChunk (emitJump i s).2).code.length) ∧
    ((currentChunk s).code.length - o - 2 ≤ 65535 →
      (currentChunk (patchJump o s)).code[o]? =
          some (Byte.raw (((currentChunk s).code.length - o - 2) / 256)) ∧
        (currentChunk (patchJump o s)).code[o + 1]? =
          some (Byte.raw (((currentChunk s).code.length - o - 2) % 256)) ∧
        (∀ i, i ≠ o → i ≠ o + 1 →
          (currentChunk (patchJump o s)).code[i]? = (currentChunk s).code[i]?) ∧
        (currentChunk (patchJump o s)).code.length = (currentChunk s).code.length ∧
        o + 2 + (256 * (((currentChunk s).code.length - o - 2) / 256) +
          ((currentChunk s).code.length - o - 2) % 256) = (currentChunk s).code.length ∧
        (currentChunk (patchJump o s)).lines = (currentChunk s).lines ∧
        (currentChunk (patchJump o s)).constants = (currentChunk s).constants ∧
        (∀ p, p ≠ s.cur.function → (patchJump o s).heap[p]? = s.heap[p]?) ∧
        (patchJump o s).stderr = s.stderr ∧ (patchJump o s).parser = s.parser) ∧
    (65535 < (currentChunk s).code.length - o - 2 → s.parser.panicMode = false →
      (patchJump o s).stderr = s.stderr ++ [errorDiag "Too much code to jump over." s] ∧
        (patchJump o s).parser.hadError = true) := by
  refine ⟨fun i => ⟨emitJump_code hok i, emitJump_offset hok i, ?_⟩, fun hd => ?_, fun hd hp => ?_⟩
  · rw [emitJump_offset hok i, emitJump_code hok i]
    simp
  · have hc := patchJump_chunk hok o
    have hmod : ((currentChunk s).code.length - o - 2) / 256 % 256 =
        ((currentChunk s).code.length - o - 2) / 256 := Nat.mod_eq_of_lt (by omega)
    rw [hmod] at hc
    have hquiet : patchJump o s = setCurrentChunk s (currentChunk (patchJump o s)) := by
      rw [hc]
      unfold patchJump
      simp only
      rw [if_neg (by unfold UINT16_MAX; omega), hmod]
    refine ⟨?_, ?_, fun i h1 h2 => ?_, ?_, ?_, ?_, ?_, fun p hpne => ?_, ?_, ?_⟩
    · rw [hc]
      simp only
      rw [List.getElem?_set_ne (by omega), List.getElem?_set_self (by omega)]
    · rw [hc]
      simp only
      rw [List.getElem?_set_self (by simp; omega)]
    · rw [hc]
      simp only
      rw [List.getElem?_set_ne (Ne.symm h2), List.getElem?_set_ne (Ne.symm h1)]
    · rw [hc]
      simp
    · have := Nat.div_add_mod ((currentChunk s).code.length - o - 2) 256
      omega
    · rw [hc]
    · rw [hc]
    · rw [hquiet]
      unfold setCurrentChunk State.setFunctionAt
      simp only
      rw [List.getElem?_set_ne (Ne.symm hpne)]
    · rw [hquiet]
      rfl
    · rw [hquiet]
      rfl
  · have hrep := error_reports "Too much code to jump over." s hp
    unfold patchJump
    simp only
    rw [if_pos (by unfold UINT16_MAX; omega)]
    exact ⟨hrep.1, hrep.2.1⟩

/-- C13 at a Jump followed by one Pop: the operand at offset 1 becomes 0, 1. -/
theorem patchJump_operand_witness :
    jumpState.funOK ∧ 1 + 2 ≤ (currentChunk jumpState).code.length ∧
    (currentChunk (patchJump 1 jumpState)).code =
      [Byte.op OP_JUMP, Byte.raw 0, Byte.raw 1, Byte.op OP_POP] ∧
    (currentChunk (patchJump 1 jumpState)).code[1]? =
      some (Byte.raw (((currentChunk jumpState).code.length - 1 - 2) / 256)) ∧
    (currentChunk (patchJump 1 jumpState)).code[1 + 1]? =
      some (Byte.raw (((currentChunk jumpState).code.length - 1 - 2) % 256)) :=
  ⟨⟨_, rfl⟩, by decide, by rfl,
    ((patchJump_operand jumpState 1 ⟨_, rfl⟩ (by decide)).2.1 (by decide)).1,
    ((patchJump_operand jumpState 1 ⟨_, rfl⟩ (by decide)).2.1 (by decide)).2.1⟩

/-- A source that is `import "m"` twice, when the file of the module
exists and the module compiles (up to a state `s1`).  The first import
registers the file name and compiles the module with a compiler that shares the
function of the importing compiler.  The second import only reports: whatever
the files are, `importModule` returns the state with the one line
`module ... already imported` added (nothing else changes), so at the end
`stderr` is that of the module followed by this line, the chunk of the script is
the chunk the module left followed by Null and Return, the registry is the one
the module left, and `compile` returns `NULL`. -/
theorem second_import_rejected (fs : List Nat → Option (List Nat)) (n : Nat)
    (filename source src : List Nat) (s1 : State) (h : ScansImportTwice source)
    (hfile : readFile fs (moduleFile (nthToken (Scan.initScanner source) 1)) = some src)
    (hmod : declarationLoop (declaration fs (n + 2)) (n + 2)
      (advance (importEnter (moduleFile (nthToken (Scan.initScanner source) 1)) src
        (importState filename source))) = Except.ok s1) :
    (importEnter (moduleFile (nthToken (Scan.initScanner source) 1)) src
        (importState filename source)).importedModules =
      [moduleFile (nthToken (Scan.initScanner source) 1)] ∧
    (importEnter (moduleFile (nthToken (Scan.initScanner source) 1)) src
        (importState filename source)).cur.function =
      (importState filename source).cur.function ∧
    moduleFile (nthToken (Scan.initScanner source) 1) ∈ s1.importedModules ∧
    (∀ (fs' : List Nat → Option (List Nat)) (decl' : State → Res State) (k : Nat),
      importModule fs' decl' k (nthToken (Scan.initScanner source) 3)
          ((nthToken (Scan.initScanner source) 3).start.drop 1)
          ((nthToken (Scan.initScanner source) 3).length - 2)
          (secondImportState filename source s1) =
        Except.ok
          { secondImportState filename source s1 with
            parser :=
              { (secondImportState filename source s1).parser with
                panicMode := true, hadError := true },
            stderr := (secondImportState filename source s1).stderr ++
              [Diag.alreadyImported (nthToken (Scan.initScanner source) 3).line filename
                (moduleFile (nthToken (Scan.initScanner source) 1))] }) ∧
    ∃ s', compile fs (n + 3) filename source State.initial = Except.ok (none, s') ∧
      s'.importedModules = s1.importedModules ∧
      s'.stderr = s1.stderr ++
        [Diag.alreadyImported (nthToken (Scan.initScanner source) 3).line filename
          (moduleFile (nthToken (Scan.initScanner source) 1))] ∧
      (s'.functionAt 0).chunk.code =
        (s1.functionAt 0).chunk.code ++ [Byte.op OP_NULL, Byte.op OP_RETURN] ∧
      (s'.functionAt 0).chunk.constants = (s1.functionAt 0).chunk.constants := by
  obtain ⟨s', g1, g2, g3, g4, g5, g6, g7⟩ := compile_import_twice_tokens fs n filename source src
    (nthToken (Scan.initScanner source) 0) (nthToken (Scan.initScanner source) 1)
    (nthToken (Scan.initScanner source) 2) (nthToken (Scan.initScanner source) 3)
    (nthToken (Scan.initScanner source) 4) (nthToken (Scan.initScanner source) 5)
    (scanAfter (Scan.initScanner source) 1) (scanAfter (Scan.initScanner source) 2)
    (scanAfter (Scan.initScanner source) 3) (scanAfter (Scan.initScanner source) 4)
    (scanAfter (Scan.initScanner source) 5) (scanAfter (Scan.initScanner source) 6) s1
    (scanToken_scanAfter _ 0) (scanToken_scanAfter _ 1) (scanToken_scanAfter _ 2)
    (scanToken_scanAfter _ 3) (scanToken_scanAfter _ 4) (scanToken_scanAfter _ 5)
    h.first h.firstName h.second h.secondName h.eof h.after h.same hfile hmod
  refine ⟨?_, ?_, g2, fun fs' decl' k => ?_, s', g1, g3, g4, g5, g6⟩
  · rw [importEnter_registry]
    rfl
  · exact importEnter_function _ _ _
  · have hp : (secondImportState filename source s1).parser.panicMode = false := rfl
    have hm : (secondImportState filename source s1).currentModuleName = filename := rfl
    have := g7 fs' decl' k
    unfold importError at this
    rw [if_neg (by rw [show (((importLeave ((((scriptStart filename source).shift
      (nthToken (Scan.initScanner source) 0) (scanAfter (Scan.initScanner source) 1)).shift
      (nthToken (Scan.initScanner source) 1) (scanAfter (Scan.initScanner source) 2)).shift
      (nthToken (Scan.initScanner source) 2) (scanAfter (Scan.initScanner source) 3)) s1).shift
      (nthToken (Scan.initScanner source) 3) (scanAfter (Scan.initScanner source) 4)).shift
      (nthToken (Scan.initScanner source) 4) (scanAfter (Scan.initScanner source) 5)) =
      secondImportState filename source s1 from rfl, hp]; simp)] at this
    rw [← hm]
    exact this
/-- At `import "m"` twice when `m.luna` holds `print 1`: the hypotheses
hold, `compile` returns `NULL`, the one diagnostic is that of the second import
(line 2), and the chunk holds the code of the module, Null and Return. -/
theorem second_import_rejected_witness :
    ScansImportTwice importTwiceSource ∧
    moduleFile (nthToken (Scan.initScanner importTwiceSource) 1) = cstr "m.luna" ∧
    readFile printModuleFiles (cstr "m.luna") = some (cstr "print 1") ∧
    declarationLoop (declaration printModuleFiles 8) 8
      (advance (importEnter (cstr "m.luna") (cstr "print 1")
        (importState (cstr "main") importTwiceSource))) = Except.ok importedModuleState ∧
    ∃ s', compile printModuleFiles 9 (cstr "main") importTwiceSource State.initial =
        Except.ok (none, s') ∧
      s'.importedModules = [cstr "m.luna"] ∧
      s'.stderr = [Diag.alreadyImported 2 (cstr "main") (cstr "m.luna")] ∧
      (s'.functionAt 0).chunk.code =
        [Byte.op OP_CONSTANT, Byte.raw 0, Byte.op OP_PRINT, Byte.op OP_NULL,
          Byte.op OP_RETURN] := by
  have h1 : ScansImportTwice importTwiceSource :=
    ⟨by decide!, by decide!, by decide!, by decide!, by decide!, by decide!, by decide!⟩
  have h2 : moduleFile (nthToken (Scan.initScanner importTwiceSource) 1) = cstr "m.luna" := by
    decide!
  have h3 : readFile printModuleFiles (cstr "m.luna") = some (cstr "print 1") := by decide!
  have h4 : declarationLoop (declaration printModuleFiles 8) 8
      (advance (importEnter (cstr "m.luna") (cstr "print 1")
        (importState (cstr "main") importTwiceSource))) = Except.ok importedModuleState := by
    decide!
  obtain ⟨s', g1, g2, g3, g4, -⟩ := (second_import_rejected printModuleFiles 6 (cstr "main")
    importTwiceSource (cstr "print 1") importedModuleState h1 (by rw [h2]; exact h3)
    (by rw [h2]; exact h4)).2.2.2.2
  refine ⟨h1, h2, h3, h4, s', g1, ?_, ?_, ?_⟩
  · rw [g2]; decide!
  · rw [g3, h2]; decide!
  · rw [g4]; decide!

/-- C14 (the code breaks the claim): an import of a module that is registered
already, at scope depth 0 with no error pending, only reports: whatever the
files are, `importModule` returns the state with `hadError` and `panicMode` set
and the one line `module ... already imported` added; the heap (so every chunk),
the compilers and the registry are unchanged.  But when the two imports are in
an imported module, `compile` returns the function: `importModule` restores the
parser it saved, and with it `hadError` (the defect of C1).  Here the main
source is `import "a"`, `a.luna` imports `m` twice and `m.luna` is `print 1`:
the one line is on `stderr` and `compile` returns function 0.  With the two
imports in the main source `compile` returns `NULL`: so it is for `m.luna`
here, and for every source that scans as `import STRING import STRING` with
the same name twice, when the file exists and the module compiles (to `s1`),
where `stderr` is that of the module followed by the one line. -/
theorem second_import_forgotten_in_module :
    (∀ (fs : List Nat → Option (List Nat)) (decl : State → Res State) (n : Nat) (t : Token)
        (s : State), s.cur.scopeDepth ≤ 0 → moduleFile t ∈ s.importedModules →
      s.parser.panicMode = false →
      ∃ s', importModule fs decl n t (t.start.drop 1) (t.length - 2) s = Except.ok s' ∧
        s'.stderr =
          s.stderr ++ [Diag.alreadyImported t.line s.currentModuleName (moduleFile t)] ∧
        s'.parser.hadError = true ∧ s'.parser.panicMode = true ∧
        s'.heap = s.heap ∧ s'.compilers = s.compilers ∧
        s'.importedModules = s.importedModules ∧ s'.scanner = s.scanner) ∧
    ((compile twiceImportingFiles 20 (cstr "main") (cstr "import \"a\"") State.initial).map
        (fun r => (r.1, r.2.stderr, r.2.importedModules)) =
      Except.ok (some 0, [Diag.alreadyImported 1 (cstr "a.luna") (cstr "m.luna")],
        [cstr "m.luna", cstr "a.luna"])) ∧
    ((compile twiceImportingFiles 20 (cstr "main") (cstr "import \"m\" import \"m\"")
        State.initial).map (fun r => (r.1, r.2.stderr)) =
      Except.ok (none, [Diag.alreadyImported 1 (cstr "main") (cstr "m.luna")])) ∧
    (∀ (fs : List Nat → Option (List Nat)) (n : Nat) (filename source src : List Nat)
        (s1 : State), ScansImportTwice source →
      readFile fs (moduleFile (nthToken (Scan.initScanner source) 1)) = some src →
      declarationLoop (declaration fs (n + 2)) (n + 2)
        (advance (importEnter (moduleFile (nthToken (Scan.initScanner source) 1)) src
          (importState filename source))) = Except.ok s1 →
      ∃ s', compile fs (n + 3) filename source State.initial = Except.ok (none, s') ∧
        s'.stderr = s1.stderr ++
          [Diag.alreadyImported (nthToken (Scan.initScanner source) 3).line filename
            (moduleFile (nthToken (Scan.initScanner source) 1))]) := by
  refine ⟨fun fs decl n t s hd hreg hp => ?_, by decide!, by decide!,
    fun fs n filename source src s1 h hfile hmod => by
      obtain ⟨-, -, -, -, s', g1, -, g3, -⟩ :=
        second_import_rejected fs n filename source src s1 h hfile hmod
      exact ⟨s', g1, g3⟩⟩
  have hyes : isModuleImported (moduleFile t) s = true := by
    unfold isModuleImported
    simpa using hreg
  refine ⟨importError t (moduleFile t) s, ?_, ?_⟩
  · rw [importModule_top fs decl n t s hd, hyes]
    rfl
  · unfold importError
    rw [hp]
    exact ⟨rfl, rfl, rfl, rfl, rfl, rfl, rfl⟩

/-- C15: `importModule` called while `current->scopeDepth > 0` returns at once,
whatever the files are.  With no error pending it sets the error flags and
writes one diagnostic at the token of the module name, whose message is chosen
by the type of the current compiler (method, struct initializer, function, and
"statement" for a script or an imported module); the registry, the heap (so
every chunk), the scanner, the compilers, the tokens of the parser and everything
else are as before.  In panic mode the state is unchanged. -/
theorem import_in_scope_rejected (fs : List Nat → Option (List Nat))
    (decl : State → Res State) (n : Nat) (line : Token) (name : List Nat) (length : Nat)
    (s : State) (h : s.cur.scopeDepth > 0) :
    (s.parser.panicMode = false →
      importModule fs decl n line name length s =
        Except.ok
          { s with
            parser := { s.parser with panicMode := true, hadError := true },
            stderr := s.stderr ++
              [Diag.error line.line (errorPlace line) (cstr (importScopeMessage s.cur.type))
                s.currentModuleName] }) ∧
    (s.parser.panicMode = true → importModule fs decl n line name length s = Except.ok s) ∧
    importScopeMessage TYPE_METHOD = "Cannot import modules inside a method." ∧
    importScopeMessage TYPE_INITIALIZER = "Cannot import modules inside struct initializer." ∧
    importScopeMessage TYPE_FUNCTION = "Cannot import modules inside function." ∧
    importScopeMessage TYPE_IMPORT = "Cannot import modules inside statement." ∧
    importScopeMessage TYPE_SCRIPT = "Cannot import modules inside statement." := by
  have e : importModule fs decl n line name length s =
      Except.ok (errorAt line (cstr (importScopeMessage s.cur.type)) s) := by
    unfold importModule
    rw [if_pos h]
    rfl
  refine ⟨fun hp => ?_, fun hp => ?_, rfl, rfl, rfl, rfl, rfl⟩
  · rw [e]
    unfold errorAt
    rw [hp]
    rfl
  · rw [e]
    unfold errorAt
    rw [hp]
    rfl

/-- C15 at the import of `{ import "m" }`: the scope depth is 1 there, and
`importModule` only reports "Cannot import modules inside statement." at the
string. -/
theorem import_in_scope_rejected_witness :
    blockImportState.cur.scopeDepth > 0 ∧ blockImportState.parser.panicMode = false ∧
    importModule noFiles (declaration noFiles 3) 3 blockImportState.parser.previous
        (blockImportState.parser.previous.start.drop 1)
        (blockImportState.parser.previous.length - 2) blockImportState =
      Except.ok
        { blockImportState with
          parser := { blockImportState.parser with panicMode := true, hadError := true },
          stderr :=
            [Diag.error 1 (ErrorPlace.atLexeme (cstr "\"m\""))
              (cstr "Cannot import modules inside statement.") []] } :=
  ⟨by decide!, by decide!,
    ((import_in_scope_rejected noFiles (declaration noFiles 3) 3
      blockImportState.parser.previous (blockImportState.parser.previous.start.drop 1)
      (blockImportState.parser.previous.length - 2) blockImportState (by decide!)).1
        (by decide!)).trans (by decide!)⟩

namespace Mem

open GCPhase

/-- C16: in a state whose string table is sound (as it is before anything is
allocated), for bytes `characters[0..length)`: `copyString` and `takeString`
return a key of the table that is a string object with these bytes and their
hash, and leave the table sound, so no two keys ever have the same bytes; and a
second call of either function on equal bytes, whatever the allocator meets,
returns the same object and the state unchanged: it allocates nothing. -/
theorem copyString_returns_interned (s : VM) (h : Interned s) (overChars over : Bool)
    (grow : Option Bool) (characters : List Nat) (length : Nat)
    (hl : length ≤ characters.length) :
    (∀ r, (r = copyString overChars over grow characters length s ∨
          r = takeString over grow characters length s) →
      Interned r.2 ∧ r.1 ∈ r.2.strings ∧
      r.2.stringAt r.1 = some (characters.take length, hashString characters length) ∧
      ∀ (overChars' over' : Bool) (grow' : Option Bool) (characters' : List Nat)
        (length' : Nat), length' ≤ characters'.length →
        characters'.take length' = characters.take length →
        copyString overChars' over' grow' characters' length' r.2 = (r.1, r.2) ∧
          takeString over' grow' characters' length' r.2 = (r.1, r.2)) ∧
    Interned VM.init := by
  refine ⟨fun r hr => ?_, interned_init⟩
  have key : Interned r.2 ∧ r.1 ∈ r.2.strings ∧
      r.2.stringAt r.1 = some (characters.take length, hashString characters length) := by
    rcases hr with rfl | rfl
    · exact copyString_spec h overChars over grow characters length hl
    · exact takeString_spec h over grow characters length hl
  obtain ⟨k1, k2, k3⟩ := key
  exact ⟨k1, k2, k3, fun oc o g c l hl' hc => intern_again k1 k2 k3 oc o g c l hl' hc⟩

/-- C16 from the state before any allocation, for the bytes `ab` taken from
`abc`: the first `copyString` allocates the object at address 0 (a collector
step runs first), and `copyString` and `takeString` on `ab` then return address
0 and change nothing. -/
theorem copyString_returns_interned_witness :
    Interned VM.init ∧ 2 ≤ [97, 98, 99].length ∧
    (copyString true false none [97, 98, 99] 2 VM.init).1 = 0 ∧
    (copyString true false none [97, 98, 99] 2 VM.init).2.objects =
      [{ addr := 0, isMarked := false, isOnCurrentGC := false,
         payload := Payload.string [97, 98] (hashString [97, 98] 2) }] ∧
    copyString false true (some true) [97, 98] 2
        (copyString true false none [97, 98, 99] 2 VM.init).2 =
      (0, (copyString true false none [97, 98, 99] 2 VM.init).2) ∧
    takeString true (some false) [97, 98] 2
        (copyString true false none [97, 98, 99] 2 VM.init).2 =
      (0, (copyString true false none [97, 98, 99] 2 VM.init).2) := by
  have h := (copyString_returns_interned VM.init interned_init true false none [97, 98, 99] 2
    (by decide)).1 _ (Or.inl rfl)
  have h0 : (copyString true false none [97, 98, 99] 2 VM.init).1 = 0 := by decide
  refine ⟨interned_init, by decide, h0, by decide, ?_, ?_⟩
  · rw [← h0]
    exact (h.2.2.2 false true (some true) [97, 98] 2 (by decide) (by decide)).1
  · rw [← h0]
    exact (h.2.2.2 false true (some false) [97, 98] 2 (by decide) (by decide)).2


/-- C17 as stated fails for an object that is marked but not on-current-gc: it
survives, was not on-current-gc, and yet its mark bit is cleared. -/
theorem sweep_clears_marked_new_object :
    (sweep { VM.init with
        objects := [{ addr := 0, isMarked := true, isOnCurrentGC := false,
                      payload := Payload.native }] }).objects =
      [{ addr := 0, isMarked := false, isOnCurrentGC := false, payload := Payload.native }] := by
  decide

/-- C17 (amended): for every heap list with arbitrary bits, `sweep` leaves
exactly the objects that are marked or not on-current-gc, in their order (so it
removes exactly those on-current-gc and not marked); a survivor that was marked
has both bits cleared, whether it was on-current-gc or not, and a survivor that
was neither marked nor on-current-gc is unchanged; nothing else of the state
changes. -/
theorem sweep_survivors (s : VM) :
    sweep s =
      { s with
        objects :=
          (s.objects.filter fun o => o.isMarked || !o.isOnCurrentGC).map fun o =>
            if o.isMarked then { o with isMarked := false, isOnCurrentGC := false } else o } ∧
    (sweep s).addrs = (s.objects.filter fun o => o.isMarked || !o.isOnCurrentGC).map
      (fun o => o.addr) ∧
    (∀ o ∈ s.objects, o.isMarked = true →
      { o with isMarked := false, isOnCurrentGC := false } ∈ (sweep s).objects) ∧
    (∀ o ∈ s.objects, o.isMarked = false → o.isOnCurrentGC = false → o ∈ (sweep s).objects) ∧
    (∀ x ∈ (sweep s).objects, ∃ o ∈ s.objects, x.addr = o.addr ∧ x.payload = o.payload ∧
      (o.isMarked = true ∨ o.isOnCurrentGC = false) ∧
      (o.isMarked = true → x.isMarked = false ∧ x.isOnCurrentGC = false) ∧
      (o.isMarked = false → x = o)) := by
  have key : ∀ l : List Obj, sweepList l =
      (l.filter fun o => o.isMarked || !o.isOnCurrentGC).map fun o =>
        if o.isMarked then { o with isMarked := false, isOnCurrentGC := false } else o := by
    intro l
    induction l with
    | nil => rfl
    | cons o l ih =>
      unfold sweepList
      by_cases hm : o.isMarked = true
      · rw [if_pos hm, ih]
        simp [List.filter_cons, hm]
      · have hm' : o.isMarked = false := by simpa using hm
        by_cases hg : o.isOnCurrentGC = true
        · rw [if_neg hm, if_pos hg, ih]
          simp [List.filter_cons, hm', hg]
        · have hg' : o.isOnCurrentGC = false := by simpa using hg
          rw [if_neg hm, if_neg hg, ih]
          simp [List.filter_cons, hm', hg']
  have e : (sweep s).objects =
      (s.objects.filter fun o => o.isMarked || !o.isOnCurrentGC).map fun o =>
        if o.isMarked then { o with isMarked := false, isOnCurrentGC := false } else o :=
    key s.objects
  refine ⟨?_, ?_, fun o ho hm => ?_, fun o ho hm hg => ?_, fun x hx => ?_⟩
  · unfold sweep
    rw [key]
  · unfold VM.addrs
    rw [e, List.map_map]
    apply List.map_congr_left
    intro o _
    simp only [Function.comp]
    split <;> rfl
  · rw [e]
    refine List.mem_map.2 ⟨o, List.mem_filter.2 ⟨ho, by simp [hm]⟩, by rw [if_pos hm]⟩
  · rw [e]
    refine List.mem_map.2 ⟨o, List.mem_filter.2 ⟨ho, by simp [hg]⟩, by rw [if_neg (by simp [hm])]⟩
  · rw [e] at hx
    obtain ⟨o, ho, rfl⟩ := List.mem_map.1 hx
    obtain ⟨ho1, ho2⟩ := List.mem_filter.1 ho
    refine ⟨o, ho1, ?_, ?_, ?_, fun hm => ?_, fun hm => ?_⟩
    · split <;> rfl
    · split <;> rfl
    · simpa using ho2
    · rw [if_pos hm]
      exact ⟨rfl, rfl⟩
    · rw [if_neg (by simp [hm])]


/-- C18 fails: from a state with one call frame whose closure refers to a
function, the collector goes from Idle to Mark and, at the next step, from
Mark to Sweep; at that moment the closure is marked but the function, which is
reached from the frame through the edge from the closure to its function, is
not: `markRoots` marks the roots only and nothing calls `traceReferences`. -/
theorem mark_phase_skips_traced_objects :
    Run frameVM ∧ frameVM.gcPhase = GC_IDLE_PHASE ∧
    (collectGarbage frameVM).gcPhase = GC_MARK_PHASE ∧
    markedFrameVM.gcPhase = GC_SWEEP_PHASE ∧
    Reach markedFrameVM 0 ∧
    markedFrameVM.objects =
      [{ addr := 1, isMarked := true, isOnCurrentGC := true,
         payload := Payload.closure (some 0) [] },
       { addr := 0, isMarked := false, isOnCurrentGC := false,
         payload := Payload.function none [] }] ∧
    markedFrameVM.grayStack = [1] := by
  refine ⟨?_, by decide, by decide, by decide, ?_, by decide, by decide⟩
  · exact Run.mutate (Run.allocate false _ (Run.allocate false _ Run.init))
      ⟨rfl, rfl, rfl, rfl, rfl⟩
  · exact Reach.edge (a := 1) (p := Payload.closure (some 0) []) (Reach.root (by decide)) (by decide)
      (by decide)


/-- C19: in every state of a run (allocations, calls of `markObject`,
collector steps, and steps of the program that leave the header bits alone),
`sweep` unlinks no object that is reachable from the roots: such an object is
on the heap list after the sweep with the same fields, also when the sweep is
the collector step of the Sweep phase, and it is still reachable.  (The header
bits agree in every such state, so `sweep` in fact unlinks no object at all.) -/
theorem sweep_keeps_reachable (s : VM) (h : Run s) (a : Nat) (hr : Reach s a)
    (ha : a ∈ s.addrs) :
    a ∈ (sweep s).addrs ∧ (sweep s).payloadAt a = s.payloadAt a ∧ Reach (sweep s) a ∧
    (s.gcPhase = GC_SWEEP_PHASE →
      a ∈ (collectGarbage s).addrs ∧ (collectGarbage s).payloadAt a = s.payloadAt a ∧
        Reach (collectGarbage s) a) := by
  have hb := bitsEqual_of_run h
  have key : ∀ s' : VM, Marks s s' →
      a ∈ s'.addrs ∧ s'.payloadAt a = s.payloadAt a ∧ Reach s' a := by
    intro s' hm
    have hs := hm.skeleton hb
    refine ⟨?_, payloadAt_congr hs a, reach_congr (roots_congr hm) (payloadAt_congr hs) hr⟩
    rw [addrs_eq_skeleton, hs, ← addrs_eq_skeleton]
    exact ha
  exact ⟨(key _ (marks_sweep s)).1, (key _ (marks_sweep s)).2.1, (key _ (marks_sweep s)).2.2,
    fun _ => key _ (marks_collectGarbage s)⟩

/-- C19 at the state in which the collector is about to sweep after marking the
frame of `frameVM`: the function at address 0, reachable through the closure and
not marked, is still on the heap list after the sweep. -/
theorem sweep_keeps_reachable_witness :
    Run markedFrameVM ∧ Reach markedFrameVM 0 ∧ 0 ∈ markedFrameVM.addrs ∧
    markedFrameVM.gcPhase = GC_SWEEP_PHASE ∧
    0 ∈ (collectGarbage markedFrameVM).addrs ∧
    (collectGarbage markedFrameVM).payloadAt 0 = some (Payload.function none []) := by
  have hrun : Run markedFrameVM :=
    Run.collect (Run.collect (Run.mutate (Run.allocate false _ (Run.allocate false _ Run.init))
      ⟨rfl, rfl, rfl, rfl, rfl⟩))
  have hreach : Reach markedFrameVM 0 :=
    Reach.edge (a := 1) (p := Payload.closure (some 0) []) (Reach.root (by decide)) (by decide)
      (by decide)
  have h := (sweep_keeps_reachable markedFrameVM hrun 0 hreach (by decide)).2.2.2 (by decide)
  exact ⟨hrun, hreach, by decide, by decide, h.1, h.2.1.trans (by decide)⟩


/-- C20 fails: a string object that is on the heap list before a cycle begins
and that no root reaches is still on the heap list, unchanged, after the three
collector steps of the cycle (Idle to Mark, Mark to Sweep, Sweep to Idle):
`markObject` is the only place that sets `isOnCurrentGC`, and it sets
`isMarked` with it, so `sweep` finds no object to unlink. -/
theorem cycle_frees_nothing :
    Run garbageVM ∧ garbageVM.gcPhase = GC_IDLE_PHASE ∧
    garbageVM.objects =
      [{ addr := 0, isMarked := false, isOnCurrentGC := false,
         payload := Payload.string [120] (hashString [120] 1) }] ∧
    (∀ a, ¬ Reach garbageVM a) ∧
    (∀ a, ¬ Reach (collectGarbage garbageVM) a) ∧
    (∀ a, ¬ Reach (collectGarbage (collectGarbage garbageVM)) a) ∧
    (collectGarbage garbageVM).gcPhase = GC_MARK_PHASE ∧
    (collectGarbage (collectGarbage garbageVM)).gcPhase = GC_SWEEP_PHASE ∧
    (collectGarbage (collectGarbage (collectGarbage garbageVM))).gcPhase = GC_IDLE_PHASE ∧
    (collectGarbage (collectGarbage (collectGarbage garbageVM))).objects =
      garbageVM.objects := by
  refine ⟨Run.allocate false _ Run.init, by decide, by decide,
    not_reach_of_no_roots (by decide), not_reach_of_no_roots (by decide),
    not_reach_of_no_roots (by decide), by decide, by decide, by decide, by decide⟩

end Mem

namespace Mem

open GCPhase

/-- C21: a call of `collectGarbage` made in the Sweep phase performs the sweep
and returns the phase to Idle; after it every object on the heap list has
`isMarked = false` and `isOnCurrentGC = false`, whatever the bits were, and so
has every object on the list that is reachable from the roots. -/
theorem sweep_step_clears_bits (s : VM) (h : s.gcPhase = GC_SWEEP_PHASE) :
    (collectGarbage s).gcPhase = GC_IDLE_PHASE ∧
    (collectGarbage s).objects = (sweep s).objects ∧
    (∀ o ∈ (collectGarbage s).objects, o.isMarked = false ∧ o.isOnCurrentGC = false) ∧
    (∀ a o, Reach (collectGarbage s) a → (collectGarbage s).objectAt a = some o →
      o.isMarked = false ∧ o.isOnCurrentGC = false) := by
  rw [collectGarbage_sweep s h]
  refine ⟨rfl, rfl, fun o ho => sweepList_bits s.objects o ho, fun a o _ ho => ?_⟩
  exact sweepList_bits s.objects o (List.mem_of_find?_eq_some ho)

/-- C21 at the sweep after the frame of `frameVM` was marked: the marked closure
and the function are on the list afterwards, both with cleared bits. -/
theorem sweep_step_clears_bits_witness :
    markedFrameVM.gcPhase = GC_SWEEP_PHASE ∧
    (markedFrameVM.objects.map fun o => (o.addr, o.isMarked, o.isOnCurrentGC)) =
      [(1, true, true), (0, false, false)] ∧
    (collectGarbage markedFrameVM).gcPhase = GC_IDLE_PHASE ∧
    ((collectGarbage markedFrameVM).objects.map fun o => (o.addr, o.isMarked, o.isOnCurrentGC)) =
      [(1, false, false), (0, false, false)] ∧
    ∀ o ∈ (collectGarbage markedFrameVM).objects, o.isMarked = false ∧ o.isOnCurrentGC = false :=
  ⟨by decide, by decide, (sweep_step_clears_bits markedFrameVM (by decide)).1, by decide,
    (sweep_step_clears_bits markedFrameVM (by decide)).2.2.1⟩

/-- C22: a call of `collectGarbage` in Idle only sets the phase to Mark and the
cursor to 0 (no object, so no bit, changes); a call in Mark ends in Mark or in
Sweep; a call in Sweep ends in Idle.  Both outcomes of a call in Mark occur:
with eight values on the stack the first call stays in Mark and the second
reaches Sweep. -/
theorem collectGarbage_phase_moves (s : VM) :
    (s.gcPhase = GC_IDLE_PHASE →
      collectGarbage s = { s with gcPhase := GC_MARK_PHASE, currentMarkIndex := 0 }) ∧
    (s.gcPhase = GC_MARK_PHASE →
      (collectGarbage s).gcPhase = GC_MARK_PHASE ∨ (collectGarbage s).gcPhase = GC_SWEEP_PHASE) ∧
    (s.gcPhase = GC_SWEEP_PHASE → (collectGarbage s).gcPhase = GC_IDLE_PHASE) ∧
    (numbersVM.gcPhase = GC_MARK_PHASE ∧ numbersVM.currentMarkIndex = 0 ∧
      (collectGarbage numbersVM).gcPhase = GC_MARK_PHASE ∧
      (collectGarbage numbersVM).currentMarkIndex = 8 ∧
      (collectGarbage (collectGarbage numbersVM)).gcPhase = GC_SWEEP_PHASE ∧
      (collectGarbage (collectGarbage (collectGarbage numbersVM))).gcPhase = GC_IDLE_PHASE) := by
  refine ⟨fun h => collectGarbage_idle s h, fun h => ?_, fun h => ?_, by decide⟩
  · rw [collectGarbage_mark s h]
    rcases markRoots_gcPhase s with hm | hm
    · rw [h] at hm
      rw [if_neg (by rw [hm]; simp)]
      exact Or.inl hm
    · rw [if_pos (by rw [hm]; decide)]
      exact Or.inr rfl
  · rw [collectGarbage_sweep s h]

end Mem

/-- C23: for every word (a byte of `[A-Za-z_]` followed by bytes of
`[A-Za-z0-9_]`, up to a byte that is none of these), `scanToken` returns a token
whose lexeme is the word and whose kind is that of the keyword table; the kind
is a keyword kind exactly when the word is one of the eighteen keywords, each of
which has its own kind, and Identifier otherwise. -/
theorem keyword_iff_exact_lexeme (a : Nat) (t rest : List Nat) (sc : Scanner)
    (ha : Scan.isAlpha a = true) (ht : ∀ c ∈ t, isWordByte c = true)
    (hr : isWordByte (rest.headD 0) = false) (hc : sc.current = (a :: t) ++ rest) :
    (Scan.scanToken sc).1.type = keywordKind (a :: t) ∧
    (Scan.scanToken sc).1.lexeme = a :: t ∧
    (Scan.scanToken sc).2.current = rest ∧
    ((Scan.scanToken sc).1.type ≠ TOKEN_IDENTIFIER ↔ a :: t ∈ keywords) ∧
    (keywords.map keywordKind =
      [TOKEN_AND, TOKEN_OR, TOKEN_IF, TOKEN_ELSE, TOKEN_WHILE, TOKEN_FOR, TOKEN_RETURN, TOKEN_VAR,
        TOKEN_FUN, TOKEN_STRUCT, TOKEN_SUPER, TOKEN_THIS, TOKEN_TRUE, TOKEN_FALSE, TOKEN_NULL,
        TOKEN_PRINT, TOKEN_PRINTLN, TOKEN_IMPORT]) := by
  have h := Scan.scanToken_word a t rest sc ha ht hr hc
  rw [h]
  refine ⟨rfl, ?_, rfl, ?_, by decide⟩
  · show ((a :: t) ++ rest).take (t.length + 1) = a :: t
    rw [show t.length + 1 = (a :: t).length from rfl, List.take_left]
  · show keywordKind (a :: t) ≠ TOKEN_IDENTIFIER ↔ a :: t ∈ keywords
    obtain ⟨k1, k2, k3, k4, k5, k6, k7, k8, k9, k10, k11, k12, k13, k14, k15, k16, k17, k18⟩ :=
      Scan.cstr_keywords
    unfold keywordKind keywords
    simp only [k1, k2, k3, k4, k5, k6, k7, k8, k9, k10, k11, k12, k13, k14, k15, k16, k17, k18,
      List.mem_cons, List.mem_singleton]
    generalize a :: t = l
    constructor
    · intro h
      by_contra hn
      simp only [not_or] at hn
      obtain ⟨n1, n2, n3, n4, n5, n6, n7, n8, n9, n10, n11, n12, n13, n14, n15, n16, n17, n18⟩ := hn
      simp only [List.not_mem_nil, not_false_eq_true, and_true] at n18
      exact h (by simp only [n1, n2, n3, n4, n5, n6, n7, n8, n9, n10, n11, n12, n13, n14, n15, n16,
        n17, n18, if_false])
    · intro h
      rcases h with rfl | rfl | rfl | rfl | rfl | rfl | rfl | rfl | rfl | rfl | rfl | rfl | rfl |
        rfl | rfl | rfl | rfl | rfl | h
      all_goals first | decide | cases h

/-- C23 at the words of the claim: `printl`, `i`, `fo` and `selfish` are
identifiers, `println` and `self` are keywords. -/
theorem keyword_iff_exact_lexeme_witness :
    ((Scan.scanToken (Scan.initScanner (cstr "printl (x)"))).1.type = TOKEN_IDENTIFIER ∧
      (Scan.scanToken (Scan.initScanner (cstr "printl (x)"))).1.lexeme = cstr "printl") ∧
    (Scan.scanToken (Scan.initScanner (cstr "i"))).1.type = TOKEN_IDENTIFIER ∧
    (Scan.scanToken (Scan.initScanner (cstr "fo"))).1.type = TOKEN_IDENTIFIER ∧
    (Scan.scanToken (Scan.initScanner (cstr "selfish"))).1.type = TOKEN_IDENTIFIER ∧
    (Scan.scanToken (Scan.initScanner (cstr "println 1"))).1.type = TOKEN_PRINTLN ∧
    (Scan.scanToken (Scan.initScanner (cstr "self.x"))).1.type = TOKEN_THIS := by
  have h := keyword_iff_exact_lexeme 112 (cstr "rintl") (cstr " (x)")
    (Scan.initScanner (cstr "printl (x)")) (by decide) (by decide) (by decide) (by decide)
  exact ⟨⟨h.1.trans (by decide), h.2.1.trans (by decide)⟩, by decide, by decide, by decide,
    by decide, by decide⟩

/-- C24 as stated fails for the Script type: slot 0 of the compiler of the
top-level script is named `self`, not the empty name. -/
theorem initCompiler_script_slot_named_self :
    ((initCompiler TYPE_SCRIPT State.initial).cur.localAt 0).name.lexeme = cstr "self" ∧
    ((initCompiler TYPE_SCRIPT State.initial).cur.localAt 0).name.length = 4 := by
  decide

/-- C24 (amended): after `initCompiler(type)` the new compiler is current, has
one local, and its slot 0 has depth 0, is not captured, and is named `self`
when the type is Method, Initializer or Script (every type but Function and
Import); for Function and Import it has the empty name. -/
theorem initCompiler_slot_zero (type : FunctionType) (s : State) :
    (initCompiler type s).compilers.length = s.compilers.length + 1 ∧
    (initCompiler type s).cur.type = type ∧
    (initCompiler type s).cur.localCount = 1 ∧
    (initCompiler type s).cur.scopeDepth = 0 ∧
    ((initCompiler type s).cur.localAt 0).depth = 0 ∧
    ((initCompiler type s).cur.localAt 0).isCaptured = false ∧
    ((type = TYPE_METHOD ∨ type = TYPE_INITIALIZER ∨ type = TYPE_SCRIPT) →
      ((initCompiler type s).cur.localAt 0).name.lexeme = cstr "self" ∧
        ((initCompiler type s).cur.localAt 0).name.length = 4) ∧
    ((type = TYPE_FUNCTION ∨ type = TYPE_IMPORT) →
      ((initCompiler type s).cur.localAt 0).name.lexeme = [] ∧
        ((initCompiler type s).cur.localAt 0).name.length = 0) := by
  have hcur : (initCompiler type s).cur =
      { function := (initCompiler type s).cur.function, type := type,
        locals :=
          [{ name :=
               (if type ≠ TYPE_FUNCTION ∧ type ≠ TYPE_IMPORT then
                 { Token.zero with start := cstr "self", length := 4 }
               else { Token.zero with start := cstr "", length := 0 }),
             depth := 0, isCaptured := false }],
        localCount := 1, upvalues := [], scopeDepth := 0 } := by
    unfold initCompiler
    by_cases h1 : type = TYPE_IMPORT <;> by_cases h2 : type = TYPE_SCRIPT <;>
      simp [h1, h2, State.setCur, State.setCompilerAt, State.cur, State.compilerAt, newFunction,
        allocateObject, State.setFunctionAt, store]
  refine ⟨by rw [initCompiler_compilers]; rfl, by rw [hcur], by rw [hcur], by rw [hcur],
    by rw [hcur]; rfl, by rw [hcur]; rfl, fun h => ?_, fun h => ?_⟩
  · rw [hcur]
    rcases h with rfl | rfl | rfl <;> exact ⟨rfl, rfl⟩
  · rw [hcur]
    rcases h with rfl | rfl <;> exact ⟨rfl, rfl⟩

/-- C25: whenever the body of a method compiles (to the state `s1`, in which
`s1.cur.function` is the function of the method), `method` returns, the type of
the method's compiler is Initializer exactly when the test of `method` on the
name holds, and the chunk of the method is the code of its body followed by
`GetLocal 0, Return` when the test holds and by `Null, Return` when it does
not.  For a name token that lies in the text (its length is at most what is
left of the text) the test holds exactly when the lexeme is `init`.  And the
statement `return;` always compiles to the implicit value of the current
compiler, `GetLocal 0` in an initializer and `Null` otherwise, and `Return`. -/
theorem method_implicit_return (fs : List Nat → Option (List Nat)) (m n : Nat)
    (s s1 : State) (hok : s.funOK)
    (hbody : functionBody (declaration fs m) n (methodType s) (methodStart s) =
      Except.ok s1) :
    ∃ s', method (declaration fs m) n s = Except.ok s' ∧
      (s1.cur.type = TYPE_INITIALIZER ↔ namedInit (methodStart s).parser.previous = true) ∧
      (s1.cur.type = TYPE_METHOD ↔ namedInit (methodStart s).parser.previous = false) ∧
      (namedInit (methodStart s).parser.previous = true →
        (s'.functionAt s1.cur.function).chunk.code =
          (currentChunk s1).code ++
            [Byte.op OP_GET_LOCAL, Byte.raw 0, Byte.op OP_RETURN]) ∧
      (namedInit (methodStart s).parser.previous = false →
        (s'.functionAt s1.cur.function).chunk.code =
          (currentChunk s1).code ++ [Byte.op OP_NULL, Byte.op OP_RETURN]) ∧
      (∀ name : Token, name.length ≤ name.start.length →
        (namedInit name = true ↔ name.lexeme = cstr "init")) ∧
      (∀ (k : Nat) (t : State), t.funOK → t.parser.current.type = TOKEN_SEMICOLON →
        ∃ t', returnStatement k t = Except.ok t' ∧ t'.cur = t.cur ∧
          (currentChunk t').code = (currentChunk t).code ++
            (if t.cur.type = TYPE_INITIALIZER then
              [Byte.op OP_GET_LOCAL, Byte.raw 0, Byte.op OP_RETURN]
            else [Byte.op OP_NULL, Byte.op OP_RETURN])) := by
  have hR := keeps_passes
  have hk0 : Keeps s (methodStart s) := by
    unfold methodStart identifierConstant
    dsimp only
    exact hR.trans (hR.trans (hR.consume _ _ _) (hR.consume _ _ _)) (hR.makeConstant _ _)
  have hok0 : (methodStart s).funOK := keeps_funOK hk0 hok
  have hti : methodType s ≠ TYPE_IMPORT := by
    unfold methodType
    split <;> decide
  obtain ⟨sF, hF, hty, hne, hcode⟩ :=
    function_chunk_end fs m n (methodType s) (methodStart s) s1 hok0 hti hbody
  rw [method_eq_function, hF]
  refine ⟨_, rfl, ?_, ?_, fun hi => ?_, fun hi => ?_, namedInit_iff_lexeme,
    fun k t ht hc => returnStatement_bare k t ht hc⟩
  · rw [hty]
    unfold methodType
    cases namedInit (methodStart s).parser.previous <;> simp
  · rw [hty]
    unfold methodType
    cases namedInit (methodStart s).parser.previous <;> simp
  · rw [emitBytes_functionAt_ne _ _ _ _ hne, hcode]
    unfold methodType implicitReturn
    rw [hi]
    rfl
  · rw [emitBytes_functionAt_ne _ _ _ _ hne, hcode]
    unfold methodType implicitReturn
    rw [hi]
    rfl

/-- C25 at the methods `def init() { return; }` and `def init2() { return; }`:
the chunk of the first is `GetLocal 0, Return` twice (the `return;` and the end
of the method), that of the second `Null, Return` twice. -/
theorem method_implicit_return_witness :
    (methodState "def init() \x7b return; \x7d").funOK ∧
    functionBody (declaration noFiles 10) 10
        (methodType (methodState "def init() \x7b return; \x7d"))
        (methodStart (methodState "def init() \x7b return; \x7d")) =
      Except.ok (methodBodyState "def init() \x7b return; \x7d") ∧
    (∃ s', method (declaration noFiles 10) 10 (methodState "def init() \x7b return; \x7d") =
        Except.ok s' ∧
      (s'.functionAt (methodBodyState "def init() \x7b return; \x7d").cur.function).chunk.code =
        [Byte.op OP_GET_LOCAL, Byte.raw 0, Byte.op OP_RETURN,
          Byte.op OP_GET_LOCAL, Byte.raw 0, Byte.op OP_RETURN]) ∧
    (∃ s', method (declaration noFiles 10) 10 (methodState "def init2() \x7b return; \x7d") =
        Except.ok s' ∧
      (s'.functionAt (methodBodyState "def init2() \x7b return; \x7d").cur.function).chunk.code =
        [Byte.op OP_NULL, Byte.op OP_RETURN, Byte.op OP_NULL, Byte.op OP_RETURN]) := by
  have hok1 : (methodState "def init() \x7b return; \x7d").funOK := ⟨_, rfl⟩
  have hok2 : (methodState "def init2() \x7b return; \x7d").funOK := ⟨_, rfl⟩
  have hb1 : functionBody (declaration noFiles 10) 10
      (methodType (methodState "def init() \x7b return; \x7d"))
      (methodStart (methodState "def init() \x7b return; \x7d")) =
      Except.ok (methodBodyState "def init() \x7b return; \x7d") := by decide!
  have hb2 : functionBody (declaration noFiles 10) 10
      (methodType (methodState "def init2() \x7b return; \x7d"))
      (methodStart (methodState "def init2() \x7b return; \x7d")) =
      Except.ok (methodBodyState "def init2() \x7b return; \x7d") := by decide!
  obtain ⟨s', h1, -, -, h4, -, -, -⟩ :=
    method_implicit_return noFiles 10 10 _ _ hok1 hb1
  obtain ⟨s'', g1, -, -, -, g5, -, -⟩ :=
    method_implicit_return noFiles 10 10 _ _ hok2 hb2
  refine ⟨hok1, hb1, ⟨s', h1, ?_⟩, ⟨s'', g1, ?_⟩⟩
  · rw [h4 (by decide!)]
    decide!
  · rw [g5 (by decide!)]
    decide!

/-- C27: for every source without a token (only spaces, tabs, carriage
returns, newlines and `#` comments, or nothing at all), every file system and
every fuel from 1 on, `compile` returns the top-level function, whose chunk has
the code `Null, Return` and no constant; nothing is reported. -/
theorem blank_source_compiles (fs : List Nat → Option (List Nat)) (n : Nat)
    (filename source : List Nat) (h : blankSource source = true) :
    ∃ s', compile fs (n + 1) filename source State.initial = Except.ok (some 0, s') ∧
      (s'.functionAt 0).chunk.code = [Byte.op OP_NULL, Byte.op OP_RETURN] ∧
      (s'.functionAt 0).chunk.constants = [] ∧
      s'.stderr = [] := by
  obtain ⟨t0, c1, k0⟩ : ∃ t0 c1, Scan.scanToken (Scan.initScanner source) = (t0, c1) :=
    ⟨_, _, rfl⟩
  obtain ⟨t1, c2, k1⟩ : ∃ t1 c2, Scan.scanToken c1 = (t1, c2) := ⟨_, _, rfl⟩
  have b0 := Scan.scanToken_blank (Scan.initScanner source) h
  rw [k0] at b0
  have b1 := Scan.scanToken_blank c1 b0.2
  rw [k1] at b1
  have e0 : t0.type ≠ TOKEN_ERROR := by rw [b0.1]; decide
  have e1 : t1.type ≠ TOKEN_ERROR := by rw [b1.1]; decide
  have hadv : advance (scriptStart filename source) = (scriptStart filename source).shift t0 c1 :=
    advance_shift (by rw [(scriptStart_frame filename source).2.1]; exact k0) e0
  have hloop := declarationLoop_end (declaration fs (n + 1)) n
    ((scriptStart filename source).shift t0 c1) t1 c2 b0.1 k1 e1
  rw [compile_eq, hadv, hloop]
  have hok : (((scriptStart filename source).shift t0 c1).shift t1 c2).funOK := ⟨_, rfl⟩
  have hty : (((scriptStart filename source).shift t0 c1).shift t1 c2).cur.type ≠
      TYPE_INITIALIZER := by
    show (scriptStart filename source).cur.type ≠ TYPE_INITIALIZER
    rw [scriptStart_cur]
    decide
  have hc := endCompiler_chunk hok hty
  have hf := endCompiler_frame (((scriptStart filename source).shift t0 c1).shift t1 c2)
  refine ⟨_, ?_, hc.1, hc.2.1, hf.2⟩
  show Except.ok _ = Except.ok _
  rw [hf.1]
  rfl

/-- C27 at a source of two lines, a comment and blanks: it holds no token and
compiles to `Null, Return`. -/
theorem blank_source_compiles_witness :
    blankSource (cstr "  # nothing here\n\t \r\n") = true ∧
    ∃ s', compile noFiles 1 (cstr "main") (cstr "  # nothing here\n\t \r\n") State.initial =
        Except.ok (some 0, s') ∧
      (s'.functionAt 0).chunk.code = [Byte.op OP_NULL, Byte.op OP_RETURN] ∧
      (s'.functionAt 0).chunk.constants = [] ∧
      s'.stderr = [] :=
  ⟨by decide, blank_source_compiles noFiles 0 (cstr "main") (cstr "  # nothing here\n\t \r\n")
    (by decide)⟩

/-- C28 (the code breaks the claim): the compiler of an imported module shares
the function of the importing compiler, and `initCompiler` sets the name of
that function to the lexeme of `parser.previous`, the string token of the import
with its quotes; arity, `upvalueCount` and chunk are untouched by that step.
With the main source `print 2` and then `import "m"`, the module holding
`print 1`, `compile` returns the script function with the module's code and
constant appended to its own, arity 0 and `upvalueCount` 0, but with the name
`"m"`; without the import the script function has no name. -/
theorem import_renames_function :
    (∀ (f src : List Nat) (s : State), s.funOK →
      (importEnter f src s).cur.function = s.cur.function ∧
      (importEnter f src s).curFunction.name =
        some (s.parser.previous.start.take s.parser.previous.length) ∧
      (importEnter f src s).curFunction.arity = s.curFunction.arity ∧
      (importEnter f src s).curFunction.upvalueCount = s.curFunction.upvalueCount ∧
      (importEnter f src s).curFunction.chunk = s.curFunction.chunk) ∧
    (compile printModuleFiles 20 (cstr "main") (cstr "print 2") State.initial).map
        (fun r => (r.1, (r.2.functionAt 0).name, (r.2.functionAt 0).chunk.code)) =
      Except.ok (some 0, none,
        [Byte.op OP_CONSTANT, Byte.raw 0, Byte.op OP_PRINT,
          Byte.op OP_NULL, Byte.op OP_RETURN]) ∧
    (compile printModuleFiles 20 (cstr "main") (cstr "print 2\nimport \"m\"")
        State.initial).map
        (fun r => (r.1, (r.2.functionAt 0).name, (r.2.functionAt 0).arity,
          (r.2.functionAt 0).upvalueCount, (r.2.functionAt 0).chunk.code,
          (r.2.functionAt 0).chunk.constants, r.2.stderr)) =
      Except.ok (some 0, some (cstr "\"m\""), 0, 0,
        [Byte.op OP_CONSTANT, Byte.raw 0, Byte.op OP_PRINT,
          Byte.op OP_CONSTANT, Byte.raw 1, Byte.op OP_PRINT,
          Byte.op OP_NULL, Byte.op OP_RETURN],
        [Value.number (cstr "2\nimport \"m\""), Value.number (cstr "1")], []) := by
  refine ⟨fun f src s hok => ?_, by rfl, by rfl⟩
  obtain ⟨g, hg⟩ := hok
  have hlt : s.cur.function < s.heap.length := by
    by_contra hge
    rw [List.getElem?_eq_none (Nat.le_of_not_lt hge)] at hg
    cases hg
  have hfn : s.functionAt s.cur.function = g := functionAt_of_get hg
  have e : (importEnter f src s).cur.function = s.cur.function := importEnter_function f src s
  have hcur : (importEnter f src s).curFunction =
      { g with name := some (s.parser.previous.start.take s.parser.previous.length) } := by
    unfold State.curFunction
    rw [e]
    have hg' : s.heap[(s.compilers[0]?.getD Compiler.zero).function]? =
        some (Obj.function g) := by
      simpa [State.cur, State.compilerAt] using hg
    have hlt' : (s.compilers[0]?.getD Compiler.zero).function < s.heap.length := by
      simpa [State.cur, State.compilerAt] using hlt
    simp [importEnter, initCompiler, State.setCur, State.setCompilerAt, State.cur,
      State.compilerAt, State.setFunctionAt, addImportedModule, State.functionAt,
      State.curFunction, copyString, hg', hlt', List.getElem?_set]
  refine ⟨e, ?_, ?_, ?_, ?_⟩
  · rw [hcur]
  · rw [hcur]; unfold State.curFunction; rw [hfn]
  · rw [hcur]; unfold State.curFunction; rw [hfn]
  · rw [hcur]; unfold State.curFunction; rw [hfn]

namespace Mem

open GCPhase

/-- C29 fails for eight call frames or more: in the Mark phase every call of
`collectGarbage` leaves the phase at Mark, so no number of calls reaches Sweep.
`markRoots` sets the cursor to 0 before its second loop, and this loop returns
when the cursor reaches 8; the next call starts the second loop at 0 again.
For the recursion of depth 8 of `recursionVM` the state does not even change
after the first call. -/
theorem mark_phase_never_ends (s : VM) (hp : s.gcPhase = GC_MARK_PHASE)
    (h : 8 ≤ s.frames.length) :
    (∀ n, (Nat.iterate collectGarbage n s).gcPhase = GC_MARK_PHASE) ∧
    (recursionVM.gcPhase = GC_MARK_PHASE ∧ recursionVM.currentMarkIndex = 0 ∧
      recursionVM.frames.length = 8 ∧ recursionVM.stack = [] ∧ recursionVM.openUpvalues = [] ∧
      (collectGarbage recursionVM).gcPhase = GC_MARK_PHASE ∧
      (collectGarbage recursionVM).currentMarkIndex = 8 ∧
      collectGarbage (collectGarbage recursionVM) = collectGarbage recursionVM) := by
  refine ⟨fun n => ?_, by decide!⟩
  have key : ∀ n (t : VM), t.gcPhase = GC_MARK_PHASE → 8 ≤ t.frames.length →
      (Nat.iterate collectGarbage n t).gcPhase = GC_MARK_PHASE := by
    intro n
    induction n with
    | zero => intro t ht _; exact ht
    | succ k ih =>
      intro t ht h8
      rw [Function.iterate_succ_apply]
      obtain ⟨h1, h2⟩ := collectGarbage_stays t ht h8
      exact ih _ h1 (by rw [h2]; exact h8)
  exact key n s hp h

/-- C29 fails at `recursionVM`: the hypotheses hold there, and after 1000 calls
the collector is still in the Mark phase. -/
theorem mark_phase_never_ends_witness :
    recursionVM.gcPhase = GC_MARK_PHASE ∧ 8 ≤ recursionVM.frames.length ∧
    (Nat.iterate collectGarbage 1000 recursionVM).gcPhase = GC_MARK_PHASE :=
  ⟨by decide, by decide, (mark_phase_never_ends recursionVM (by decide) (by decide)).1 1000⟩

end Mem

/-- C30 as stated fails for `def f() { return }`: a `return` that no `;`
follows always parses an expression, so "Expect expression." is reported and
`compile` returns `NULL`. -/
theorem return_without_semicolon_reported :
    (compile noFiles 20 (cstr "main") (cstr "def f() \x7b return \x7d") State.initial).map
        (fun r => (r.1, r.2.stderr.head?)) =
      Except.ok (none,
        some (Diag.error 1 ErrorPlace.atEnd (cstr "Expect expression.") (cstr "main"))) := by
  rfl

/-- C30 (amended): inside a function (the current compiler is no script
compiler) a `return` that a `;` follows compiles without a diagnostic and
appends the implicit value of the function, `GetLocal 0` in an initializer and
`Null` otherwise, and then `Return`; a `return` that no `;` follows reads an
expression with `expression()` and emits `Return` after it, with no implicit
value. -/
theorem return_needs_semicolon (n : Nat) (s : State) (u : Token) (sc : Scanner)
    (hok : s.funOK) (hty : s.cur.type ≠ TYPE_SCRIPT)
    (hs : Scan.scanToken s.scanner = (u, sc)) (hu : u.type ≠ TOKEN_ERROR) :
    (s.parser.current.type = TOKEN_SEMICOLON →
      ∃ s', returnStatement n s = Except.ok s' ∧
        s'.stderr = s.stderr ∧ s'.parser.hadError = s.parser.hadError ∧
        s'.parser.panicMode = s.parser.panicMode ∧
        (currentChunk s').code = (currentChunk s).code ++
          (if s.cur.type = TYPE_INITIALIZER then
            [Byte.op OP_GET_LOCAL, Byte.raw 0, Byte.op OP_RETURN]
          else [Byte.op OP_NULL, Byte.op OP_RETURN])) ∧
    (s.parser.current.type ≠ TOKEN_SEMICOLON →
      returnStatement n s =
        expression (parsePrecedence n)
            (if s.cur.type = TYPE_INITIALIZER then
              error "Cannot return a value from initializer." s
            else s) >>= fun s' =>
          pure (emitByte (Byte.op OP_RETURN) s')) := by
  constructor
  · intro hc
    have hm : match_ TOKEN_SEMICOLON s = (true, s.shift u sc) := match_hit hc hs hu
    have hok' : (s.shift u sc).funOK := hok
    have hr := emitReturn_code hok'
    refine ⟨emitReturn (s.shift u sc), ?_, ?_, ?_, ?_, ?_⟩
    · unfold returnStatement
      rw [if_neg hty]
      simp only [hm, if_true]
      rfl
    · unfold emitReturn
      split <;> rfl
    · unfold emitReturn
      split <;> rfl
    · unfold emitReturn
      split <;> rfl
    · rw [hr.1]
      rfl
  · intro hc
    have hm : match_ TOKEN_SEMICOLON s = (false, s) := match_miss hc
    unfold returnStatement
    rw [if_neg hty]
    simp only [hm, Bool.false_eq_true, if_false]

/-- C30 (amended) at `return;` in the body of a function: no diagnostic, and
the chunk gets `Null, Return`. -/
theorem return_needs_semicolon_witness :
    (returnState "; \x7d").funOK ∧ (returnState "; \x7d").cur.type = TYPE_FUNCTION ∧
    (returnState "; \x7d").parser.current.type = TOKEN_SEMICOLON ∧
    ∃ s', returnStatement 10 (returnState "; \x7d") = Except.ok s' ∧
      s'.stderr = [] ∧ (currentChunk s').code = [Byte.op OP_NULL, Byte.op OP_RETURN] := by
  have h := (return_needs_semicolon 10 (returnState "; \x7d")
    (Scan.scanToken (returnState "; \x7d").scanner).1
    (Scan.scanToken (returnState "; \x7d").scanner).2 ⟨_, rfl⟩ (by decide!) rfl
    (by decide!)).1 (by decide!)
  obtain ⟨s', h1, h2, -, -, h5⟩ := h
  refine ⟨⟨_, rfl⟩, by decide!, by decide!, s', h1, ?_, ?_⟩
  · rw [h2]; decide!
  · rw [h5]; decide!

/-- A list literal whose elements are the keyword literals `l :: ls`
(`n = ls.length + 1` of them), in a state with no error pending and room for
one constant.  `list` returns.  When `n ≤ 255` nothing is reported, the chunk
gets for each element in order its opcode and AddList and then Constant `k`,
where `k` is the index of the one constant added; this constant is the object
at the next free cell of the heap, which holds an empty list at the end, and
the tokens after the closing bracket are next.  When `n ≥ 256` the one
diagnostic "Can't have more than 255 values in one list." is reported. -/
theorem list_literal (m : Nat) (l : Lit) (ls : List Lit) (t : TokenType) (ts : List TokenType)
    (canAssign : Bool) (s : State) (hok : s.funOK) (hpanic : s.parser.panicMode = false)
    (hroom : (currentChunk s).constants.length ≤ 255)
    (hup : upcoming s (argumentTokens l ls ++ TOKEN_RIGHT_BRACKET :: t :: ts) = true) :
    ∃ s', list (parsePrecedence (m + 2)) (ls.length + 1) canAssign s = Except.ok s' ∧
      s.heap[s.heap.length]? = none ∧ s'.heap[s.heap.length]? = some (Obj.list []) ∧
      (currentChunk s').constants = (currentChunk s).constants ++ [Value.obj s.heap.length] ∧
      (ls.length + 1 ≤ 255 →
        s'.stderr = s.stderr ∧ s'.parser.hadError = s.parser.hadError ∧
        s'.parser.panicMode = false ∧
        (currentChunk s').code =
          (currentChunk s).code ++ listCode (l :: ls) ++
            [Byte.op OP_CONSTANT, Byte.raw (currentChunk s).constants.length] ∧
        upcoming s' (t :: ts) = true) ∧
      (256 ≤ ls.length + 1 →
        s'.parser.hadError = true ∧
        ∃ line place, s'.stderr =
          s.stderr ++ [Diag.error line place (cstr tooManyValuesMessage) s.currentModuleName]) := by
  obtain ⟨f, hf⟩ := hok
  have hlt : s.cur.function < s.heap.length := by
    by_contra hge
    rw [List.getElem?_eq_none (Nat.le_of_not_lt hge)] at hf
    cases hf
  have hne : s.heap.length ≠ s.cur.function := by omega
  -- the state after `newList`
  have hok0 : (newList s).2.funOK := by
    refine ⟨f, ?_⟩
    show (s.heap ++ [Obj.list []])[s.cur.function]? = _
    rw [List.getElem?_append_left hlt]
    exact hf
  have hchunk0 : currentChunk (newList s).2 = currentChunk s := by
    show ((newList s).2.functionAt s.cur.function).chunk = (s.functionAt s.cur.function).chunk
    rw [functionAt_of_get hf]
    have : (newList s).2.heap[s.cur.function]? = some (Obj.function f) := by
      show (s.heap ++ [Obj.list []])[s.cur.function]? = _
      rw [List.getElem?_append_left hlt]
      exact hf
    rw [functionAt_of_get this]
  have hcell0 : (newList s).2.heap[s.heap.length]? = some (Obj.list []) := by
    show (s.heap ++ [Obj.list []])[s.heap.length]? = _
    simp
  have hup0 : upcoming (newList s).2 (argumentTokens l ls ++ TOKEN_RIGHT_BRACKET :: t :: ts) =
      true := by
    rw [@upcoming_congr s (newList s).2 rfl rfl]
    exact hup
  have hcheck : check TOKEN_RIGHT_BRACKET (newList s).2 = false := by
    obtain ⟨u, hu⟩ := argumentTokens_head l ls
    have h1 : upcoming s (l.type :: (u ++ TOKEN_RIGHT_BRACKET :: t :: ts)) = true := by
      rw [hu] at hup
      exact hup
    have h2 : (newList s).2.parser.current.type = l.type := upcoming_head h1
    simp only [check, h2]
    cases l <;> decide
  obtain ⟨s1, h1, h2, h3, h4, h5, h6⟩ := listLoop_lits m ls l 0 (newList s).2
    TOKEN_RIGHT_BRACKET (t :: ts) (ls.length + 1) (Nat.le_refl _) (by omega) hok0 rfl
    (by decide) (by decide) hup0
  have hlist : list (parsePrecedence (m + 2)) (ls.length + 1) canAssign s =
      Except.ok (emitConstant (Value.obj s.heap.length)
        (consume TOKEN_RIGHT_BRACKET "Expect ']' at list values." s1)) := by
    unfold list
    simp only [hcheck, Bool.not_false, if_true, h1, bind, Except.bind, pure, Except.pure]
    rfl
  have hcur1 : s1.cur = s.cur := cur_of_compilers h3
  by_cases hn : ls.length + 1 ≤ 255
  · obtain ⟨e1, e2, e3, e4, e5⟩ := h5 (by omega)
    have hc := consume_upcoming "Expect ']' at list values." e2
    obtain ⟨a1, -, a3, a4, a5⟩ := advance_upcoming e2
    have e6 := emits_then e1 (emits_advance e1.funOK)
    obtain ⟨c1, c2, c3, c4, c5, c6, c7, -⟩ :=
      emitConstant_emits e6.funOK (Value.obj s.heap.length)
    have hroom' : (currentChunk (advance s1)).constants.length ≤ 255 := by
      rw [e6.constants, hchunk0]; exact hroom
    obtain ⟨k1, k2, k3⟩ := c7 hroom'
    refine ⟨_, by rw [hlist, hc], List.getElem?_eq_none (Nat.le_refl _), ?_, ?_, fun _ => ?_,
      fun h256 => absurd hn (by omega)⟩
    · rw [c5 _ (by rw [cur_of_compilers e6.compilers]; exact hne),
        e6.cells _ hne]
      exact hcell0
    · rw [c4, e6.constants, hchunk0]
    · refine ⟨by rw [k2, a5, e3]; rfl, by rw [k3, a3, e4]; rfl, by rw [k3, a4, e5]; exact hpanic,
        ?_, by rw [c6]; exact a1⟩
      rw [c3, k1, e6.code, e6.constants, hchunk0]
      simp
  · obtain ⟨q1, q2, qb, q3, line, place, q4⟩ := h6 hpanic (by omega)
    have hc : consume TOKEN_RIGHT_BRACKET "Expect ']' at list values." s1 = s1 := by
      unfold consume
      rw [if_neg qb]
      unfold errorAtCurrent errorAt
      rw [if_pos q2]
    obtain ⟨c1, c2, c3, c4, c5, c6, -, c8⟩ := emitConstant_emits h2 (Value.obj s.heap.length)
    obtain ⟨k2, k3⟩ := c8 q2
    have hconst1 : (currentChunk s1).constants = (currentChunk s).constants := by
      rw [h4.2, hchunk0]
    refine ⟨_, by rw [hlist, hc], List.getElem?_eq_none (Nat.le_refl _), ?_, ?_,
      fun h => absurd h hn, fun _ => ⟨by rw [k3]; exact q1, line, place, ?_⟩⟩
    · rw [c5 _ (by rw [hcur1]; exact hne), q3 _ hne]
      exact hcell0
    · rw [c4, hconst1]
    · rw [k2, q4]
      rfl

/-- At `[true, null]`: the chunk gets True, AddList, Null, AddList,
Constant 0, and constant 0 is the empty list at cell 1 of the heap.  Through
`compile`: the list of 255 elements compiles without a diagnostic, the list of
256 elements makes `compile` return `NULL` with the one diagnostic. -/
theorem list_literal_witness :
    (listState "[true, null]").funOK ∧ (listState "[true, null]").parser.panicMode = false ∧
    upcoming (listState "[true, null]")
      (argumentTokens Lit.true_ [Lit.null_] ++ TOKEN_RIGHT_BRACKET :: TOKEN_EOF :: []) = true ∧
    (∃ s', list (parsePrecedence 2) 2 false (listState "[true, null]") = Except.ok s' ∧
      s'.stderr = [] ∧
      (currentChunk s').code =
        [Byte.op OP_TRUE, Byte.op OP_ADD_LIST, Byte.op OP_NULL, Byte.op OP_ADD_LIST,
          Byte.op OP_CONSTANT, Byte.raw 0] ∧
      (currentChunk s').constants = [Value.obj 1] ∧
      s'.heap[1]? = some (Obj.list [])) ∧
    (compile noFiles 300 (cstr "main") (listSource 254) State.initial).map
        (fun r => (r.1, r.2.stderr, (r.2.functionAt 0).chunk.code)) =
      Except.ok (some 0, [],
        (List.replicate 255 [Byte.op OP_TRUE, Byte.op OP_ADD_LIST]).flatten ++
          [Byte.op OP_CONSTANT, Byte.raw 0, Byte.op OP_PRINT, Byte.op OP_NULL,
            Byte.op OP_RETURN]) ∧
    (compile noFiles 300 (cstr "main") (listSource 254) State.initial).map
        (fun r => ((r.2.functionAt 0).chunk.constants, r.2.heap[1]?)) =
      Except.ok ([Value.obj 1], some (Obj.list [])) ∧
    (compile noFiles 300 (cstr "main") (listSource 255) State.initial).map
        (fun r => (r.1, r.2.stderr)) =
      Except.ok (none,
        [Diag.error 1 (ErrorPlace.atLexeme (cstr "true"))
          (cstr "Can't have more than 255 values in one list.") (cstr "main")]) := by
  obtain ⟨s', h1, -, h3, h4, h5, -⟩ := list_literal 0 Lit.true_ [Lit.null_] TOKEN_EOF [] false
    (listState "[true, null]") ⟨_, rfl⟩ rfl (by decide) rfl
  obtain ⟨e1, -, -, e4, -⟩ := h5 (by decide)
  exact ⟨⟨_, rfl⟩, rfl, rfl, ⟨s', h1, e1, e4, h4, h3⟩, by decide!, by decide!, by decide!⟩

/-- C31 as stated fails: `var a = [1,...,1]` with 255 number literals needs a
constant for the name, 255 for the elements and one for the list, 257 in all, so
the constant of the list reports "Too many constant in one chunk." and `compile`
returns `NULL`, though the literal has no more than 255 elements.  And in
`print 1 var a = [1,...,1]` with 256 elements the 255th element overflows the
pool, the parser is in panic mode at the 256th element, and "Can't have more than
255 values in one list." is not reported. -/
theorem list_255_numbers_report_pool :
    (compile noFiles 300 (cstr "main") (numberListSource 254) State.initial).map
        (fun r => (r.1, r.2.stderr)) =
      Except.ok (none,
        [Diag.error 1 ErrorPlace.atEnd (cstr "Too many constant in one chunk.")
          (cstr "main")]) ∧
    (compile noFiles 300 (cstr "main") (cstr "print 1 " ++ numberListSource 255)
        State.initial).map (fun r => (r.1, r.2.stderr)) =
      Except.ok (none,
        [Diag.error 1 (ErrorPlace.atLexeme (cstr ",")) (cstr "Too many constant in one chunk.")
          (cstr "main")]) := by
  exact ⟨by decide!, by decide!⟩

/-- C31 (amended): a list literal whose elements compile, whatever they are:
`elems` holds the state in which `expression()` returns for each.  `newList`
allocates the empty list at the first free cell of the heap.  With `n ≤ 255`
elements, each is compiled from the state the one before it left (after its
AddList and the comma) and AddList is appended after it, so the code is that
of the first element after the code that was there, AddList, the code of the
second, AddList, and so on; then the closing
bracket is consumed and Constant `k` is emitted, where the constant added to the
pool is the pointer to that list, which still is an empty list; with room in the
pool (255 constants or less, state `t`) `k` is its index and this step reports
nothing, and without room it reports "Too many constant in one chunk." (when no
error is pending).  With 255 elements and a comma after the last, the next
element is not compiled: "Can't have more than 255 values in one list." is
reported there if no error is pending, and stays on `stderr`; in panic mode
nothing is printed.  Every run of `list` that returns for a non-empty literal is
of one of the two kinds.  For elements that are keyword literals, which need no
constant, the literal with `n ≤ 255` elements compiles without a diagnostic and
the one with more reports the error, for every `n`. -/
theorem list_literal_elements (k : Nat) (s : State) (elems : List State) (fuel : Nat)
    (canAssign : Bool) (hok : s.funOK)
    (hall : ∀ c ∈ s.compilers, c.function < s.heap.length)
    (hopen : s.parser.current.type ≠ TOKEN_RIGHT_BRACKET) :
    ((newList s).1 = s.heap.length ∧ s.heap[s.heap.length]? = none ∧
      (newList s).2.heap[s.heap.length]? = some (Obj.list [])) ∧
    (elementsCompile (parsePrecedence k) false (newList s).2 elems → elems.length ≤ 255 →
      elems.length ≤ fuel →
      ∃ z t s', elems.getLast? = some z ∧
        t = consume TOKEN_RIGHT_BRACKET "Expect ']' at list values."
          (emitByte (Byte.op OP_ADD_LIST) z) ∧
        list (parsePrecedence k) fuel canAssign s = Except.ok s' ∧
        (∀ a, elems[0]? = some a → expression (parsePrecedence k) (newList s).2 = Except.ok a) ∧
        (∀ i a b, elems[i]? = some a → elems[i + 1]? = some b →
          a.parser.current.type = TOKEN_COMMA ∧
            expression (parsePrecedence k) (advance (emitByte (Byte.op OP_ADD_LIST) a)) =
              Except.ok b) ∧
        (∀ a ∈ elems, (currentChunk (emitByte (Byte.op OP_ADD_LIST) a)).code =
          (currentChunk a).code ++ [Byte.op OP_ADD_LIST]) ∧
        (∀ a, elems[0]? = some a →
          ∃ cb, (currentChunk a).code = (currentChunk s).code ++ cb) ∧
        (∀ i a b, elems[i]? = some a → elems[i + 1]? = some b →
          ∃ cb, (currentChunk b).code = (currentChunk a).code ++ Byte.op OP_ADD_LIST :: cb) ∧
        (currentChunk t).code = (currentChunk z).code ++ [Byte.op OP_ADD_LIST] ∧
        (currentChunk s').code = (currentChunk t).code ++
          [Byte.op OP_CONSTANT, Byte.raw (makeConstant (Value.obj s.heap.length) t).1] ∧
        (currentChunk s').constants =
          (currentChunk t).constants ++ [Value.obj s.heap.length] ∧
        s'.heap[s.heap.length]? = some (Obj.list []) ∧
        ((currentChunk t).constants.length ≤ 255 →
          (makeConstant (Value.obj s.heap.length) t).1 = (currentChunk t).constants.length ∧
            s'.stderr = t.stderr ∧ s'.parser = t.parser) ∧
        (255 < (currentChunk t).constants.length → t.parser.panicMode = false →
          s'.stderr = t.stderr ++ [errorDiag "Too many constant in one chunk." t])) ∧
    (elementsCompile (parsePrecedence k) true (newList s).2 elems → elems.length = 255 →
      256 ≤ fuel →
      ∃ z t, elems.getLast? = some z ∧
        t = advance (emitByte (Byte.op OP_ADD_LIST) z) ∧
        (t.parser.current.type ≠ TOKEN_COMMA →
          ∃ s', list (parsePrecedence k) fuel canAssign s = Except.ok s' ∧
            (t.parser.panicMode = false →
              (error "Can't have more than 255 values in one list." t).parser.hadError = true ∧
                (t.stderr ++ [errorDiag "Can't have more than 255 values in one list." t]) <+:
                  s'.stderr) ∧
            (t.parser.panicMode = true →
              error "Can't have more than 255 values in one list." t = t))) ∧
    (∀ (fuel' : Nat) (r : State), list (parsePrecedence k) fuel' canAssign s = Except.ok r →
      ∃ elems' more, elementsCompile (parsePrecedence k) more (newList s).2 elems' ∧
        elems'.length ≤ 255 ∧ (more = true → elems'.length = 255)) ∧
    (∀ (m : Nat) (l : Lit) (ls : List Lit) (t : TokenType) (ts : List TokenType) (x : State),
      x.funOK → x.parser.panicMode = false → (currentChunk x).constants.length ≤ 255 →
      upcoming x (argumentTokens l ls ++ TOKEN_RIGHT_BRACKET :: t :: ts) = true →
      ∃ x', list (parsePrecedence (m + 2)) (ls.length + 1) canAssign x = Except.ok x' ∧
        (ls.length + 1 ≤ 255 →
          x'.stderr = x.stderr ∧
          (currentChunk x').code =
            (currentChunk x).code ++ listCode (l :: ls) ++
              [Byte.op OP_CONSTANT, Byte.raw (currentChunk x).constants.length]) ∧
        (256 ≤ ls.length + 1 →
          x'.parser.hadError = true ∧
          ∃ line place, x'.stderr =
            x.stderr ++
              [Diag.error line place (cstr tooManyValuesMessage) x.currentModuleName])) := by
  have hlen : s.heap[s.heap.length]? = none := List.getElem?_eq_none (Nat.le_refl _)
  have hcell0 : (newList s).2.heap[s.heap.length]? = some (Obj.list []) := by
    show (s.heap ++ [Obj.list []])[s.heap.length]? = _
    simp
  have hptr : ∀ j, ((newList s).2.compilerAt j).function ≠ s.heap.length := fun j => by
    have := compilerAt_function_lt hok hall j
    show (s.compilerAt j).function ≠ s.heap.length
    omega
  have hok0 : (newList s).2.funOK := keeps_funOK (keeps_passes.newList s) hok
  have hc : check TOKEN_RIGHT_BRACKET (newList s).2 = false := by
    rw [check_newList]
    simp [check, hopen]
  refine ⟨⟨rfl, hlen, hcell0⟩, fun h hn hf => ?_, fun h hn hf => ?_, fun fuel' r hr => ?_,
    fun m l ls t ts x hx hp hroom hup => ?_⟩
  · obtain ⟨z, hz, hlist⟩ := list_of_elements (parsePrecedence k) s elems fuel canAssign hopen h
      hn hf
    obtain ⟨⟨a0, ha0, he0⟩, hnext⟩ := elementsCompile_next (parsePrecedence k) false elems _ h
    have hzmem : z ∈ elems := List.mem_of_mem_getLast? hz
    have hkeeps := elementsCompile_lands keeps_passes.steps
      (lands_parsePrecedence keeps_passes k) false elems _ h
    have hexpr := elementsCompile_lands exprKeeps_steps
      (reads_parsePrecedence exprKeeps_steps k) false elems _ h
    have hokz : z.funOK := keeps_funOK (hkeeps z hzmem).1 hok0
    have hok1 := emitByte_funOK hokz (Byte.op OP_ADD_LIST)
    have hokt : (consume TOKEN_RIGHT_BRACKET "Expect ']' at list values."
        (emitByte (Byte.op OP_ADD_LIST) z)).funOK :=
      keeps_funOK (keeps_passes.consume _ _ _) hok1
    have hzcur : z.cur.function ≠ s.heap.length := by
      have := (hexpr z hzmem).1.function 0
      show (z.compilerAt 0).function ≠ _
      rw [this]
      exact hptr 0
    have hcellz : z.heap[s.heap.length]? = some (Obj.list []) :=
      (hexpr z hzmem).1.cells _ _ hptr hcell0
    have hcellt : (consume TOKEN_RIGHT_BRACKET "Expect ']' at list values."
        (emitByte (Byte.op OP_ADD_LIST) z)).heap[s.heap.length]? = some (Obj.list []) := by
      rw [consume_heap]
      show (setCurrentChunk z _).heap[s.heap.length]? = _
      rw [setCurrentChunk_cell z _ _ hzcur.symm]
      exact hcellz
    obtain ⟨-, -, e3, e4, e5, -, e7, -⟩ := emitConstant_emits hokt (Value.obj s.heap.length)
    obtain ⟨c1, c2, c3⟩ := elements_code k false (newList s).2 elems hok0 h
    rw [(currentChunk_newList hok).2] at c1
    refine ⟨z, _, _, hz, rfl, hlist, fun a ha => ?_, hnext, fun a ha => ?_, c1, c2, c3 z hz,
      e3, e4, ?_, e7, fun hfull hp => ?_⟩
    · rw [ha0] at ha
      cases ha
      exact he0
    · exact emitByte_code (keeps_funOK (hkeeps a ha).1 hok0) _
    · rw [e5 _ (by rw [consume_cur]; exact hzcur.symm)]
      exact hcellt
    · exact ((makeConstant_full (Value.obj s.heap.length) hfull).2 hp).1
  · obtain ⟨z, hz, hlist⟩ := list_of_elements_more (parsePrecedence k) s elems fuel canAssign
      hopen h hn hf
    refine ⟨z, _, hz, rfl, fun hne => ⟨_, hlist hne, fun hp => ?_, fun hp => ?_⟩⟩
    · obtain ⟨e1, e2, -⟩ := error_reports "Can't have more than 255 values in one list."
        (advance (emitByte (Byte.op OP_ADD_LIST) z)) hp
      refine ⟨e2, ?_⟩
      rw [← e1]
      exact ((keeps_passes.consume TOKEN_RIGHT_BRACKET "Expect ']' at list values." _).stderr).trans
        (keeps_passes.emitConstant _ _).stderr
    · exact error_of_panic _ _ hp
  · unfold list at hr
    simp only [hc, Bool.not_false, if_true] at hr
    cases hl : listLoop (parsePrecedence k) fuel' 0 (newList s).2 with
    | error e => rw [hl] at hr; cases hr
    | ok x =>
      obtain ⟨elems', more, h1, h2, h3⟩ :=
        listLoop_compiles (parsePrecedence k) fuel' 0 (newList s).2 x (by decide) hl
      exact ⟨elems', more, h1, by omega, fun hm => by have := h3 hm; omega⟩
  · obtain ⟨x', g1, -, -, -, g5, g6⟩ := list_literal m l ls t ts canAssign x hx hp hroom hup
    exact ⟨x', g1, fun h255 => ⟨(g5 h255).1, (g5 h255).2.2.2.1⟩, g6⟩

/-- C31 (amended) at the literal `[true, null]`: the two elements compile to
`listStateElements`, and `list` appends True, AddList, Null, AddList, Constant 0,
where constant 0 points to the empty list at heap cell 1, and reports nothing.
Through `compile`: `var a = [1,...,1]` with 254 elements compiles without a
diagnostic, and `print [true,...,true]` with 256 elements reports "Can't have
more than 255 values in one list.". -/
theorem list_literal_elements_witness :
    (listState "[true, null]").funOK ∧
    elementsCompile (parsePrecedence 2) false (newList (listState "[true, null]")).2
      listStateElements ∧
    (∃ s', list (parsePrecedence 2) 2 false (listState "[true, null]") = Except.ok s' ∧
      (currentChunk s').code =
        [Byte.op OP_TRUE, Byte.op OP_ADD_LIST, Byte.op OP_NULL, Byte.op OP_ADD_LIST,
          Byte.op OP_CONSTANT, Byte.raw 0] ∧
      (currentChunk s').constants = [Value.obj 1] ∧
      s'.heap[1]? = some (Obj.list []) ∧ s'.stderr = []) ∧
    (compile noFiles 300 (cstr "main") (numberListSource 253) State.initial).map
        (fun r => (r.1, r.2.stderr)) = Except.ok (some 0, []) ∧
    (compile noFiles 300 (cstr "main") (listSource 255) State.initial).map
        (fun r => (r.1, r.2.stderr.take 1)) =
      Except.ok (none,
        [Diag.error 1 (ErrorPlace.atLexeme (cstr "true"))
          (cstr "Can't have more than 255 values in one list.") (cstr "main")]) := by
  have hok : (listState "[true, null]").funOK := ⟨_, rfl⟩
  have h : elementsCompile (parsePrecedence 2) false (newList (listState "[true, null]")).2
      listStateElements := ⟨by decide!, by decide!, by decide!, by decide!⟩
  obtain ⟨z, t, s', -, -, h1, -⟩ :=
    (list_literal_elements 2 (listState "[true, null]") listStateElements 2 false hok
      (by decide!) (by decide!)).2.1 h (by decide) (by decide)
  have hv : (list (parsePrecedence 2) 2 false (listState "[true, null]")).map
      (fun x => ((currentChunk x).code, (currentChunk x).constants, x.heap[1]?, x.stderr)) =
      Except.ok ([Byte.op OP_TRUE, Byte.op OP_ADD_LIST, Byte.op OP_NULL, Byte.op OP_ADD_LIST,
        Byte.op OP_CONSTANT, Byte.raw 0], [Value.obj 1], some (Obj.list []), []) := by
    decide!
  rw [h1] at hv
  have hv' : ((currentChunk s').code, (currentChunk s').constants, s'.heap[1]?, s'.stderr) =
      ([Byte.op OP_TRUE, Byte.op OP_ADD_LIST, Byte.op OP_NULL, Byte.op OP_ADD_LIST,
        Byte.op OP_CONSTANT, Byte.raw 0], [Value.obj 1], some (Obj.list []), []) :=
    Except.ok.inj hv
  simp only [Prod.mk.injEq] at hv'
  exact ⟨hok, h, ⟨s', h1, hv'.1, hv'.2.1, hv'.2.2.1, hv'.2.2.2⟩, by decide!, by decide!⟩

/-- C32 (the code breaks the claim): `list` consumes the closing bracket only
inside `if (!check(TOKEN_RIGHT_BRACKET))`, so for `[]` it emits the constant and
returns with `]` still the current token; `]` then starts the next statement,
where no expression can start.  `var a = []` reports "Expect expression." and
`compile` returns `NULL`. -/
theorem empty_list_bracket_left :
    (∀ (pp : Precedence → State → Res State) (n : Nat) (canAssign : Bool) (s : State),
      s.parser.current.type = TOKEN_RIGHT_BRACKET →
      list pp n canAssign s =
          Except.ok (emitConstant (Value.obj (newList s).1) (newList s).2) ∧
        (emitConstant (Value.obj (newList s).1) (newList s).2).parser.current =
          s.parser.current ∧
        (emitConstant (Value.obj (newList s).1) (newList s).2).scanner = s.scanner) ∧
    (compile noFiles 20 (cstr "main") (cstr "var a = []") State.initial).map
        (fun r => (r.1, r.2.stderr)) =
      Except.ok (none,
        [Diag.error 1 ErrorPlace.atEnd (cstr "Expect expression.") (cstr "main")]) := by
  refine ⟨fun pp n canAssign s h => ⟨?_, ?_, ?_⟩, by rfl⟩
  · have hc : check TOKEN_RIGHT_BRACKET (newList s).2 = true := by
      simp [check, newList, allocateObject, h]
    unfold list
    simp only [hc, Bool.not_true, Bool.false_eq_true, if_false]
    rfl
  · unfold emitConstant
    simp [newList, allocateObject]
  · unfold emitConstant makeConstant
    dsimp only
    split <;> simp [newList, allocateObject]

namespace Mem

open GCPhase

/-- C33: in every state of a run (allocations, calls of `markObject`,
collector steps, and steps of the program that leave the header bits alone)
every object of the heap list has `isOnCurrentGC` equal to `isMarked`; so no
object meets the test of the branch of `sweep` that unlinks (not marked and on
the current collection), and `sweep` returns the same objects in the same order,
with the same addresses and fields, only with both bits cleared. -/
theorem sweep_unlinks_nothing (s : VM) (h : Run s) :
    (∀ o ∈ s.objects, o.isOnCurrentGC = o.isMarked) ∧
    (∀ o ∈ s.objects, ¬ (o.isMarked = false ∧ o.isOnCurrentGC = true)) ∧
    (sweep s).objects =
      s.objects.map (fun o => { o with isMarked := false, isOnCurrentGC := false }) ∧
    (sweep s).objects.length = s.objects.length ∧
    (sweep s).addrs = s.addrs ∧
    (sweep s).skeleton = s.skeleton := by
  have hb := bitsEqual_of_run h
  have hs : (sweep s).objects =
      s.objects.map (fun o => { o with isMarked := false, isOnCurrentGC := false }) := by
    unfold sweep
    exact sweepList_of_bitsEqual _ hb
  have hk := (marks_sweep s).skeleton hb
  refine ⟨hb, fun o ho hc => ?_, hs, by rw [hs, List.length_map], ?_, hk⟩
  · have := hb o ho
    rw [hc.1, hc.2] at this
    cases this
  · rw [addrs_eq_skeleton, hk, ← addrs_eq_skeleton]

/-- C33 at the state in which the collector is about to sweep after marking the
frame of `frameVM`: the bits of the closure (both set) and of the function
(both clear) agree, and the sweep keeps both objects. -/
theorem sweep_unlinks_nothing_witness :
    Run markedFrameVM ∧
    markedFrameVM.bits = [(1, true, true), (0, false, false)] ∧
    (sweep markedFrameVM).bits = [(1, false, false), (0, false, false)] ∧
    (sweep markedFrameVM).skeleton = markedFrameVM.skeleton := by
  have hrun : Run markedFrameVM :=
    Run.collect (Run.collect (Run.mutate (Run.allocate false _ (Run.allocate false _ Run.init))
      ⟨rfl, rfl, rfl, rfl, rfl⟩))
  exact ⟨hrun, by decide, by decide, (sweep_unlinks_nothing markedFrameVM hrun).2.2.2.2.2⟩

end Mem

/-- C34: for every `loopStart` that is at most the length of the chunk (`count`),
`emitLoop(loopStart)` appends Loop and the two bytes of
`offset = count + 3 - loopStart`, the high byte first.  When `offset` is at most
65535 nothing is reported, the two bytes hold `offset` exactly, and the offset
of the byte after the operand (`count + 3`) minus the operand is `loopStart`;
when it is more (and no error is pending) "Loop body too large." is
reported. -/
theorem emitLoop_operand (loopStart : Nat) (s : State) (hok : s.funOK)
    (hle : loopStart ≤ (currentChunk s).code.length) :
    (currentChunk (emitLoop loopStart s)).code =
      (currentChunk s).code ++
        [Byte.op OP_LOOP,
          Byte.raw ((((currentChunk s).code.length + 3 - loopStart) / 256) % 256),
          Byte.raw (((currentChunk s).code.length + 3 - loopStart) % 256)] ∧
    (currentChunk (emitLoop loopStart s)).constants = (currentChunk s).constants ∧
    ((currentChunk s).code.length + 3 - loopStart ≤ 65535 →
      (emitLoop loopStart s).stderr = s.stderr ∧ (emitLoop loopStart s).parser = s.parser ∧
      (((currentChunk s).code.length + 3 - loopStart) / 256) % 256 =
        ((currentChunk s).code.length + 3 - loopStart) / 256 ∧
      (currentChunk (emitLoop loopStart s)).code.length -
          (256 * (((currentChunk s).code.length + 3 - loopStart) / 256) +
            ((currentChunk s).code.length + 3 - loopStart) % 256) = loopStart) ∧
    (65535 < (currentChunk s).code.length + 3 - loopStart → s.parser.panicMode = false →
      (emitLoop loopStart s).stderr = s.stderr ++ [errorDiag "Loop body too large." s] ∧
        (emitLoop loopStart s).parser.hadError = true) := by
  have hok1 : (emitByte (Byte.op OP_LOOP) s).funOK := emitByte_funOK hok _
  have hlen : (currentChunk (emitByte (Byte.op OP_LOOP) s)).code.length - loopStart + 2 =
      (currentChunk s).code.length + 3 - loopStart := by
    rw [emitByte_code hok]
    simp only [List.length_append, List.length_singleton]
    omega
  have hshape : ∀ t : State, t.funOK → currentChunk t = currentChunk (emitByte (Byte.op OP_LOOP) s) →
      ∀ a b : Byte, (currentChunk (emitByte b (emitByte a t))).code =
          (currentChunk s).code ++ [Byte.op OP_LOOP, a, b] ∧
        (currentChunk (emitByte b (emitByte a t))).constants = (currentChunk s).constants := by
    intro t ht hc a b
    constructor
    · rw [emitByte_code (emitByte_funOK ht _), emitByte_code ht, hc, emitByte_code hok]
      simp
    · rw [emitByte_constants (emitByte_funOK ht _), emitByte_constants ht, hc,
        emitByte_constants hok]
  unfold emitLoop
  simp only [hlen]
  by_cases hbig : (currentChunk s).code.length + 3 - loopStart > UINT16_MAX
  · simp only [if_pos hbig]
    have h := hshape (error "Loop body too large." (emitByte (Byte.op OP_LOOP) s))
      ((error_funOK _ _).2 hok1) (error_currentChunk _ _)
    refine ⟨(h _ _).1, (h _ _).2, fun hsmall => ?_, fun _ hp => ?_⟩
    · exact absurd hbig (Nat.not_lt.2 hsmall)
    · obtain ⟨e1, e2, -⟩ := error_reports "Loop body too large." (emitByte (Byte.op OP_LOOP) s) hp
      exact ⟨e1, e2⟩
  · simp only [if_neg hbig]
    have h := hshape (emitByte (Byte.op OP_LOOP) s) hok1 rfl
    have hsm : (currentChunk s).code.length + 3 - loopStart ≤ 65535 := Nat.not_lt.1 hbig
    refine ⟨(h _ _).1, (h _ _).2, fun _ => ⟨rfl, rfl, ?_, ?_⟩, fun hb _ => ?_⟩
    · exact Nat.mod_eq_of_lt (by omega)
    · rw [(h _ _).1]
      simp only [List.length_append, List.length_cons, List.length_nil]
      have := Nat.div_add_mod ((currentChunk s).code.length + 3 - loopStart) 256
      omega
    · exact absurd hb (Nat.not_lt.2 hsm)

/-- C34 at a chunk of four bytes and `loopStart = 1`: Loop and the operand 0, 6
are appended, and 7 - 6 = 1. -/
theorem emitLoop_operand_witness :
    jumpState.funOK ∧ 1 ≤ (currentChunk jumpState).code.length ∧
    (currentChunk jumpState).code.length = 4 ∧
    (currentChunk (emitLoop 1 jumpState)).code =
      (currentChunk jumpState).code ++ [Byte.op OP_LOOP, Byte.raw 0, Byte.raw 6] ∧
    (emitLoop 1 jumpState).stderr = jumpState.stderr := by
  have h := emitLoop_operand 1 jumpState ⟨_, rfl⟩ (by decide)
  exact ⟨⟨_, rfl⟩, by decide, by decide, h.1.trans (by decide), (h.2.2.1 (by decide)).1⟩

/-- C35: `and` and `or` are called when the left operand is compiled; the right
operand is compiled by `parsePrecedence` (here any `pp`) from the state
`andOperandState s` or `orOperandState s` to a state `s1` that has a current
function, whose chunk is the old one followed by the bytes `cb` (at most 65534
of them); nothing else is asked of `s1`, so the operand may report errors, add
constants and capture locals of enclosing functions, and every operand that
`parsePrecedence` compiles leaves such a state (last part).  Then `a and b` has
appended JumpIfFalse `L`, Pop and `cb`, where the operand `L`, two bytes with the high one first, added to
the offset of the byte after it gives the offset just after `cb`; and `a or b`
has appended JumpIfFalse 3, Jump `End`, Pop and `cb`, where JumpIfFalse leads to
the Pop and `End` added to the offset of the byte after it gives the offset
just after `cb`.  Nothing is reported. -/
theorem short_circuit_jumps (pp : Precedence → State → Res State) (canAssign : Bool)
    (s s1 : State) (cb : List Byte) (hok : s.funOK)
    (hsmall : cb.length + 1 ≤ 65535) :
    (pp PREC_AND (andOperandState s) = Except.ok s1 → s1.funOK →
      (currentChunk s1).code = (currentChunk (andOperandState s)).code ++ cb →
      ∃ s', and_ pp canAssign s = Except.ok s' ∧
        (currentChunk s').code =
          (currentChunk s).code ++
            [Byte.op OP_JUMP_IF_FALSE, Byte.raw ((cb.length + 1) / 256),
              Byte.raw ((cb.length + 1) % 256), Byte.op OP_POP] ++ cb ∧
        (currentChunk s).code.length + 3 +
            (256 * ((cb.length + 1) / 256) + (cb.length + 1) % 256) =
          (currentChunk s').code.length ∧
        s'.stderr = s1.stderr ∧ s'.parser = s1.parser) ∧
    (pp PREC_OR (orOperandState s) = Except.ok s1 → s1.funOK →
      (currentChunk s1).code = (currentChunk (orOperandState s)).code ++ cb →
      ∃ s', or_ pp canAssign s = Except.ok s' ∧
        (currentChunk s').code =
          (currentChunk s).code ++
            [Byte.op OP_JUMP_IF_FALSE, Byte.raw 0, Byte.raw 3,
              Byte.op OP_JUMP, Byte.raw ((cb.length + 1) / 256),
              Byte.raw ((cb.length + 1) % 256), Byte.op OP_POP] ++ cb ∧
        (currentChunk s').code[(currentChunk s).code.length + 3 + (256 * 0 + 3)]? =
          some (Byte.op OP_POP) ∧
        (currentChunk s).code.length + 6 +
            (256 * ((cb.length + 1) / 256) + (cb.length + 1) % 256) =
          (currentChunk s').code.length ∧
        s'.stderr = s1.stderr ∧ s'.parser = s1.parser) ∧
    (∀ (k : Nat) (x : State),
      (parsePrecedence k PREC_AND (andOperandState s) = Except.ok x →
        x.funOK ∧
          ∃ cb', (currentChunk x).code = (currentChunk (andOperandState s)).code ++ cb') ∧
      (parsePrecedence k PREC_OR (orOperandState s) = Except.ok x →
        x.funOK ∧
          ∃ cb', (currentChunk x).code = (currentChunk (orOperandState s)).code ++ cb')) := by
  have hdiv : ((cb.length + 1) / 256) % 256 = (cb.length + 1) / 256 :=
    Nat.mod_eq_of_lt (by omega)
  have hsum := Nat.div_add_mod (cb.length + 1) 256
  refine ⟨?_, ?_, fun k x =>
    ⟨parsePrecedence_grows k _ _ x (emitByte_funOK (emitJump_funOK hok _) _),
      parsePrecedence_grows k _ _ x
        (emitByte_funOK (patchJump_funOK (emitJump_funOK (emitJump_funOK hok _) _) _) _)⟩⟩
  · intro hpp hs1 hcb
    have hj := emitJump_code hok OP_JUMP_IF_FALSE
    have hjo := emitJump_offset hok OP_JUMP_IF_FALSE
    have h0 : (currentChunk (andOperandState s)).code =
        (currentChunk s).code ++
          [Byte.op OP_JUMP_IF_FALSE, Byte.raw 255, Byte.raw 255, Byte.op OP_POP] := by
      unfold andOperandState
      rw [emitByte_code (emitJump_funOK hok _), hj]
      simp
    have h1 : (currentChunk s1).code =
        (currentChunk s).code ++ Byte.op OP_JUMP_IF_FALSE :: Byte.raw 255 :: Byte.raw 255 ::
          (Byte.op OP_POP :: cb) := by
      rw [hcb, h0]
      simp
    obtain ⟨-, -, p3, -, p5⟩ := patchJump_placeholder hs1 _ _ _ _ _ h1
    have hlen : (Byte.op OP_POP :: cb).length = cb.length + 1 := rfl
    rw [hlen, hdiv] at p3
    rw [hlen] at p5
    refine ⟨patchJump (emitJump OP_JUMP_IF_FALSE s).1 s1, ?_, ?_, ?_, ?_⟩
    · unfold and_
      show (pp PREC_AND (andOperandState s) >>= fun s => pure (patchJump _ s)) = _
      rw [hpp]
      rfl
    · rw [hjo, p3]
      simp
    · rw [hjo, p3]
      simp only [List.length_append, List.length_cons]
      omega
    · rw [hjo]
      exact ⟨(p5 hsmall).1, (p5 hsmall).2⟩
  · intro hpp hs1 hcb
    have hok1 := emitJump_funOK hok OP_JUMP_IF_FALSE
    have hok2 := emitJump_funOK hok1 OP_JUMP
    have hj1 := emitJump_code hok OP_JUMP_IF_FALSE
    have hjo1 := emitJump_offset hok OP_JUMP_IF_FALSE
    have hj2 := emitJump_code hok1 OP_JUMP
    have hjo2 := emitJump_offset hok1 OP_JUMP
    have hc2 : (currentChunk (emitJump OP_JUMP (emitJump OP_JUMP_IF_FALSE s).2).2).code =
        (currentChunk s).code ++ Byte.op OP_JUMP_IF_FALSE :: Byte.raw 255 :: Byte.raw 255 ::
          [Byte.op OP_JUMP, Byte.raw 255, Byte.raw 255] := by
      rw [hj2, hj1]
      simp
    obtain ⟨q1, q2, q3, -, q5⟩ := patchJump_placeholder hok2 _ _ _ _ _ hc2
    rw [← hjo1] at q1 q2 q3 q5
    have h0 : (currentChunk (orOperandState s)).code =
        (currentChunk s).code ++
          [Byte.op OP_JUMP_IF_FALSE, Byte.raw 0, Byte.raw 3] ++
            Byte.op OP_JUMP :: Byte.raw 255 :: Byte.raw 255 :: [Byte.op OP_POP] := by
      unfold orOperandState
      rw [emitByte_code q1, q3]
      simp
    have h1 : (currentChunk s1).code =
        ((currentChunk s).code ++ [Byte.op OP_JUMP_IF_FALSE, Byte.raw 0, Byte.raw 3]) ++
          Byte.op OP_JUMP :: Byte.raw 255 :: Byte.raw 255 :: (Byte.op OP_POP :: cb) := by
      rw [hcb, h0]
      simp
    obtain ⟨-, -, p3, -, p5⟩ := patchJump_placeholder hs1 _ _ _ _ _ h1
    have hlen : (Byte.op OP_POP :: cb).length = cb.length + 1 := rfl
    rw [hlen, hdiv] at p3
    rw [hlen] at p5
    have hoff : (emitJump OP_JUMP (emitJump OP_JUMP_IF_FALSE s).2).1 =
        ((currentChunk s).code ++
          [Byte.op OP_JUMP_IF_FALSE, Byte.raw 0, Byte.raw 3]).length + 1 := by
      rw [hjo2, hj1]
      simp
    refine ⟨patchJump (emitJump OP_JUMP (emitJump OP_JUMP_IF_FALSE s).2).1 s1, ?_, ?_, ?_, ?_, ?_⟩
    · unfold or_
      show (pp PREC_OR (orOperandState s) >>= fun s => pure (patchJump _ s)) = _
      rw [hpp]
      rfl
    · rw [hoff, p3]
      simp
    · rw [hoff, p3]
      simp only [List.append_assoc, List.cons_append, List.nil_append, Nat.zero_add,
        Nat.mul_zero]
      rw [List.getElem?_append_right (by omega),
        show (currentChunk s).code.length + 3 + 3 - (currentChunk s).code.length = 6 by omega]
      simp
    · rw [hoff, p3]
      simp only [List.length_append, List.length_cons, List.length_nil]
      omega
    · rw [hoff]
      exact ⟨(p5 hsmall).1, (p5 hsmall).2⟩

/-- C35 at `true and x` and `true or x` in a function whose enclosing function
declares the local `x`: the right operand captures `x` (it changes the chain of
compilers) and compiles to GetUpvalue 0; the operand 3 of JumpIfFalse in the
first leads from offset 4 to offset 7, the end; in the second JumpIfFalse 3
leads from offset 4 to the Pop at offset 7 and Jump 3 from offset 7 to offset
10, the end. -/
theorem short_circuit_jumps_witness :
    (captureLogicalState "true and x").funOK ∧
    (∃ s1, parsePrecedence 5 PREC_AND (andOperandState (captureLogicalState "true and x")) =
        Except.ok s1 ∧
      s1.compilers ≠ (captureLogicalState "true and x").compilers) ∧
    (∃ s', and_ (parsePrecedence 5) true (captureLogicalState "true and x") = Except.ok s' ∧
      (currentChunk s').code =
        [Byte.op OP_TRUE, Byte.op OP_JUMP_IF_FALSE, Byte.raw 0, Byte.raw 3, Byte.op OP_POP,
          Byte.op OP_GET_UPVALUE, Byte.raw 0]) ∧
    (∃ s', or_ (parsePrecedence 5) true (captureLogicalState "true or x") = Except.ok s' ∧
      (currentChunk s').code =
        [Byte.op OP_TRUE, Byte.op OP_JUMP_IF_FALSE, Byte.raw 0, Byte.raw 3, Byte.op OP_JUMP,
          Byte.raw 0, Byte.raw 3, Byte.op OP_POP, Byte.op OP_GET_UPVALUE, Byte.raw 0]) := by
  have hok : ∀ src : String, src = "true and x" ∨ src = "true or x" →
      (captureLogicalState src).funOK := by
    rintro src (rfl | rfl) <;> exact ⟨_, rfl⟩
  obtain ⟨a, a1, a2, -⟩ := (short_circuit_jumps (parsePrecedence 5) true
    (captureLogicalState "true and x")
    ((parsePrecedence 5 PREC_AND
      (andOperandState (captureLogicalState "true and x"))).toOption.getD State.initial)
    [Byte.op OP_GET_UPVALUE, Byte.raw 0] (hok _ (Or.inl rfl)) (by decide)).1 (by decide!)
    ⟨_, rfl⟩ (by decide!)
  obtain ⟨b, b1, b2, -⟩ := (short_circuit_jumps (parsePrecedence 5) true
    (captureLogicalState "true or x")
    ((parsePrecedence 5 PREC_OR
      (orOperandState (captureLogicalState "true or x"))).toOption.getD State.initial)
    [Byte.op OP_GET_UPVALUE, Byte.raw 0] (hok _ (Or.inr rfl)) (by decide)).2.1 (by decide!)
    ⟨_, rfl⟩ (by decide!)
  exact ⟨hok _ (Or.inl rfl), ⟨_, by rfl, by decide!⟩, ⟨a, a1, a2.trans (by decide!)⟩,
    ⟨b, b1, b2.trans (by decide!)⟩⟩

/-- C36: `binary` is called when the left operand is compiled and the operator
is `parser.previous`; it compiles the right operand (to the state `s1`) and
then appends Equal, Not for `!=`, Less, Not for `>=`, Greater, Not for `<=`,
and the one opcode Equal, Greater, Less for `==`, `>`, `<`; it adds no constant
and reports nothing. -/
theorem comparison_lowering (pp : Precedence → State → Res State) (canAssign : Bool)
    (s s1 : State)
    (hpp : pp ((getRule s.parser.previous.type).precedence + 1) s = Except.ok s1)
    (hok : s1.funOK) :
    ∃ s', binary pp canAssign s = Except.ok s' ∧
      (s.parser.previous.type = TOKEN_BANG_EQUAL →
        (currentChunk s').code = (currentChunk s1).code ++ [Byte.op OP_EQUAL, Byte.op OP_NOT]) ∧
      (s.parser.previous.type = TOKEN_GREATER_EQUAL →
        (currentChunk s').code = (currentChunk s1).code ++ [Byte.op OP_LESS, Byte.op OP_NOT]) ∧
      (s.parser.previous.type = TOKEN_LESS_EQUAL →
        (currentChunk s').code =
          (currentChunk s1).code ++ [Byte.op OP_GREATER, Byte.op OP_NOT]) ∧
      (s.parser.previous.type = TOKEN_EQUAL_EQUAL →
        (currentChunk s').code = (currentChunk s1).code ++ [Byte.op OP_EQUAL]) ∧
      (s.parser.previous.type = TOKEN_GREATER →
        (currentChunk s').code = (currentChunk s1).code ++ [Byte.op OP_GREATER]) ∧
      (s.parser.previous.type = TOKEN_LESS →
        (currentChunk s').code = (currentChunk s1).code ++ [Byte.op OP_LESS]) ∧
      (currentChunk s').constants.length = (currentChunk s1).constants.length ∧
      s'.stderr = s1.stderr ∧ s'.parser = s1.parser := by
  have hA := appended_binaryOperator s.parser.previous.type hok
  have hF := binaryOperator_frame s.parser.previous.type s1
  refine ⟨binaryOperator s.parser.previous.type s1, by rw [binary_eq, hpp]; rfl,
    fun h => ?_, fun h => ?_, fun h => ?_, fun h => ?_, fun h => ?_, fun h => ?_,
    hA.constants, hF.1, hF.2⟩
  all_goals
    rw [hA.code, h]
    rfl

/-- C36 at `1 != 2`, `1 >= 2` and `1 == 2`: after the two constants the chunk
gets Equal, Not; Less, Not; and Equal. -/
theorem comparison_lowering_witness :
    (∃ s', binary (parsePrecedence 5) true (binaryState "1 != 2") = Except.ok s' ∧
      (currentChunk s').code =
        [Byte.op OP_CONSTANT, Byte.raw 0, Byte.op OP_CONSTANT, Byte.raw 1,
          Byte.op OP_EQUAL, Byte.op OP_NOT]) ∧
    (∃ s', binary (parsePrecedence 5) true (binaryState "1 >= 2") = Except.ok s' ∧
      (currentChunk s').code =
        [Byte.op OP_CONSTANT, Byte.raw 0, Byte.op OP_CONSTANT, Byte.raw 1,
          Byte.op OP_LESS, Byte.op OP_NOT]) ∧
    (∃ s', binary (parsePrecedence 5) true (binaryState "1 == 2") = Except.ok s' ∧
      (currentChunk s').code =
        [Byte.op OP_CONSTANT, Byte.raw 0, Byte.op OP_CONSTANT, Byte.raw 1,
          Byte.op OP_EQUAL]) := by
  obtain ⟨a, a1, a2, -⟩ := comparison_lowering (parsePrecedence 5) true (binaryState "1 != 2")
    (binaryOperandState "1 != 2") (by decide!) ⟨_, rfl⟩
  obtain ⟨b, b1, -, b3, -⟩ := comparison_lowering (parsePrecedence 5) true (binaryState "1 >= 2")
    (binaryOperandState "1 >= 2") (by decide!) ⟨_, rfl⟩
  obtain ⟨c, c1, -, -, -, c5, -⟩ := comparison_lowering (parsePrecedence 5) true
    (binaryState "1 == 2") (binaryOperandState "1 == 2") (by decide!) ⟨_, rfl⟩
  refine ⟨⟨a, a1, ?_⟩, ⟨b, b1, ?_⟩, ⟨c, c1, ?_⟩⟩
  · rw [a2 (by decide!)]; decide!
  · rw [b3 (by decide!)]; decide!
  · rw [c5 (by decide!)]; decide!

/-- C37: `super_` in a function whose slot 0 is `self`, in a struct that has a
superstruct, where `super` is no local of the function itself but a local of
an enclosing one (the scope `structDeclaration` opens), with room for one
more constant `k`, the string of the name.  For `super.name(a1..an)`, whatever
the `n ≤ 255` arguments are when they compile: GetLocal 0 is appended
(`superSelfState`), `argumentList` compiles the arguments from there to a state
`r` and returns `n` (the first argument adds its code after GetLocal 0, each
further one adds its code to what the one before it left, and the code of `r`
is that of the last), and then GetUpvalue `u`, SuperInvoke `k` `n` are appended,
where `u` is the index `resolveUpvalue` returns for `super` in `r`, which is not
-1, and `constants[k]` still is the name; the arguments keep the locals of every
compiler.  When `super` is the local of slot `j` of the directly enclosing
function and the function has room for a descriptor, `u` is the index of the
descriptor `(index = j, isLocal = true)`.  For `super.name` not followed by `(`
the code appended is GetLocal 0, GetUpvalue `u`, GetSuper `k`.  With no struct
around, or in a struct without a superstruct, the diagnostic is on `stderr` in
whatever `super_` returns, and `compile` returns `NULL` for `print super.m` and
for a method of a leaf struct that uses `super`, with this diagnostic first.
For arguments that are keyword literals the code appended is GetLocal 0, their
opcodes, GetUpvalue `u`, SuperInvoke `k` `n`; the methods of the struct `B : A`
of `superSource` compile to exactly these instructions. -/
theorem super_access (s : State) (hok : s.funOK)
    (hstruct : ∃ cs rest, s.structs = cs :: rest ∧ cs.hasSuperstruct = true)
    (hself : findLocal s.cur (syntheticToken "self") s.cur.localCount = some 0)
    (hdepth : (s.cur.localAt 0).depth ≠ -1)
    (hsup : hasLocal s.cur (syntheticToken "super") = false)
    (henc : ∃ k, 0 < k ∧ k < s.compilers.length ∧
      hasLocal (s.compilerAt k) (syntheticToken "super") = true)
    (hroom : (currentChunk s).constants.length ≤ 255) :
    (∀ (m fuel : Nat) (c : Bool) (args : List State),
      upcoming s [TOKEN_DOT, TOKEN_IDENTIFIER, TOKEN_LEFT_PAREN] = true →
      callArguments (parsePrecedence m) (advance (superSelfState s)) args →
      args.length ≤ 255 → args.length ≤ fuel →
      ∃ r s',
        (currentChunk (superSelfState s)).code =
          (currentChunk s).code ++ [Byte.op OP_GET_LOCAL, Byte.raw 0] ∧
        argumentList (parsePrecedence m) fuel (advance (superSelfState s)) =
          Except.ok (args.length, r) ∧
        ExprKeeps s r ∧ r.funOK ∧
        (∀ a, args[0]? = some a →
          ∃ cb, (currentChunk a).code =
            (currentChunk s).code ++ [Byte.op OP_GET_LOCAL, Byte.raw 0] ++ cb) ∧
        (∀ i a b, args[i]? = some a → args[i + 1]? = some b →
          ∃ cb, (currentChunk b).code = (currentChunk a).code ++ cb) ∧
        (currentChunk r).code =
          (currentChunk (args.getLast?.getD (superSelfState s))).code ∧
        (resolveUpvalue 0 (syntheticToken "super") r).1 ≠ -1 ∧
        super_ (parsePrecedence m) fuel c s = Except.ok s' ∧
        s'.compilers = (resolveUpvalue 0 (syntheticToken "super") r).2.compilers ∧
        (currentChunk s').code = (currentChunk r).code ++
          [Byte.op OP_GET_UPVALUE,
            Byte.raw ((resolveUpvalue 0 (syntheticToken "super") r).1.toNat % 256),
            Byte.op OP_SUPER_INVOKE, Byte.raw (currentChunk s).constants.length,
            Byte.raw args.length] ∧
        (currentChunk s').constants[(currentChunk s).constants.length]? =
          some (Value.string (copyString (advance (advance s)).parser.previous.start
            (advance (advance s)).parser.previous.length))) ∧
    (∀ (r : State) (j : Nat), ExprKeeps s r → r.funOK → 1 < s.compilers.length →
      findLocal (s.compilerAt 1) (syntheticToken "super") (s.compilerAt 1).localCount = some j →
      j < 256 →
      (r.upvalueCountAt 0 ≠ UINT8_COUNT ∨
        ∃ i, i < r.upvalueCountAt 0 ∧ (r.compilerAt 0).upvalueAt i = ⟨j, true⟩) →
      ∃ i : Nat, (resolveUpvalue 0 (syntheticToken "super") r).1 = (i : Int) ∧
        i < (resolveUpvalue 0 (syntheticToken "super") r).2.upvalueCountAt 0 ∧
        ((resolveUpvalue 0 (syntheticToken "super") r).2.compilerAt 0).upvalueAt i =
          ⟨j, true⟩) ∧
    (∀ (pp : Precedence → State → Res State) (n : Nat) (c : Bool) (t : TokenType)
        (ts : List TokenType), t ≠ TOKEN_LEFT_PAREN →
      upcoming s (TOKEN_DOT :: TOKEN_IDENTIFIER :: t :: ts) = true →
      ExprKeeps s (superSelfState s) ∧ (superSelfState s).funOK ∧
      (resolveUpvalue 0 (syntheticToken "super") (superSelfState s)).1 ≠ -1 ∧
      ∃ s', super_ pp n c s = Except.ok s' ∧
        s'.cur = (resolveUpvalue 0 (syntheticToken "super") (superSelfState s)).2.cur ∧
        (currentChunk s').code = (currentChunk s).code ++
          [Byte.op OP_GET_LOCAL, Byte.raw 0, Byte.op OP_GET_UPVALUE,
            Byte.raw ((resolveUpvalue 0 (syntheticToken "super")
              (superSelfState s)).1.toNat % 256),
            Byte.op OP_GET_SUPER, Byte.raw (currentChunk s).constants.length] ∧
        (currentChunk s').constants = (currentChunk s).constants ++
          [Value.string (copyString (advance (advance s)).parser.previous.start
            (advance (advance s)).parser.previous.length)] ∧
        upcoming s' (t :: ts) = true) ∧
    (∀ (k n : Nat) (c : Bool) (x x' : State), x.parser.panicMode = false →
      super_ (parsePrecedence k) n c x = Except.ok x' →
      (x.structs = [] →
        (x.stderr ++ [errorDiag "Can't use 'super' outside of struct." x]) <+: x'.stderr) ∧
      ((∃ cs rest, x.structs = cs :: rest ∧ cs.hasSuperstruct = false) →
        (x.stderr ++ [errorDiag "Can't use 'super' in leaf struct." x]) <+: x'.stderr)) ∧
    (∀ (m : Nat) (c : Bool) (lits : List Lit) (t : TokenType) (ts : List TokenType),
      lits.length ≤ 255 →
      upcoming s (TOKEN_DOT :: TOKEN_IDENTIFIER :: TOKEN_LEFT_PAREN ::
        (callTokens lits ++ TOKEN_RIGHT_PAREN :: t :: ts)) = true →
      ∃ r s',
        argumentList (parsePrecedence (m + 2)) lits.length (advance (superSelfState s)) =
          Except.ok (lits.length, r) ∧
        super_ (parsePrecedence (m + 2)) lits.length c s = Except.ok s' ∧
        (currentChunk s').code = (currentChunk s).code ++
          ([Byte.op OP_GET_LOCAL, Byte.raw 0] ++ argumentCode lits ++
            [Byte.op OP_GET_UPVALUE,
              Byte.raw ((resolveUpvalue 0 (syntheticToken "super") r).1.toNat % 256),
              Byte.op OP_SUPER_INVOKE, Byte.raw (currentChunk s).constants.length,
              Byte.raw lits.length]) ∧
        (currentChunk s').constants = (currentChunk s).constants ++
          [Value.string (copyString (advance (advance s)).parser.previous.start
            (advance (advance s)).parser.previous.length)]) ∧
    ([("print super.m", "Can't use 'super' outside of struct."),
        ("struct A \x7b def m() \x7b super.m() \x7d \x7d",
          "Can't use 'super' in leaf struct.")].map
        (fun x => (compile noFiles 30 (cstr "main") (cstr x.1) State.initial).map
          (fun r => (r.1, r.2.stderr.take 1 ==
            [Diag.error 1 (ErrorPlace.atLexeme (cstr ".")) (cstr x.2) (cstr "main")]))) =
      List.replicate 2 (Except.ok (none, true))) ∧
    ((compile noFiles 30 (cstr "main") (cstr superSource) State.initial).map
        (fun r => (r.1, r.2.stderr, (r.2.functionAt 2).chunk.code,
          (r.2.functionAt 2).chunk.constants)) =
      Except.ok (some 0, [],
        [Byte.op OP_GET_LOCAL, Byte.raw 0, Byte.op OP_TRUE, Byte.op OP_NULL,
          Byte.op OP_GET_UPVALUE, Byte.raw 0, Byte.op OP_SUPER_INVOKE, Byte.raw 0, Byte.raw 2,
          Byte.op OP_POP, Byte.op OP_NULL, Byte.op OP_RETURN],
        [Value.string (cstr "m")])) ∧
    ((compile noFiles 30 (cstr "main") (cstr superSource) State.initial).map
        (fun r => ((r.2.functionAt 3).chunk.code, (r.2.functionAt 3).chunk.constants)) =
      Except.ok
        ([Byte.op OP_GET_LOCAL, Byte.raw 0, Byte.op OP_GET_UPVALUE, Byte.raw 0,
          Byte.op OP_GET_SUPER, Byte.raw 0, Byte.op OP_PRINT, Byte.op OP_NULL,
          Byte.op OP_RETURN],
        [Value.string (cstr "m")])) := by
  refine ⟨fun m fuel c args hup hargs hn hf => ?_,
    fun r j hE hokr hlen hfind hj hroom' => super_descriptor hE hokr j hlen hfind hj hroom',
    fun pp n c t ts ht hup => ?_,
    fun k n c x x' hp h => super_reports k n c x x' hp h,
    fun m c lits t ts hn hup =>
      super_invoke_lits m c lits t ts s hn hok hstruct hself hdepth hsup henc hroom hup,
    by decide!, by decide!, by decide!⟩
  · obtain ⟨-, -, -, hok4, -, hcode4, -, -⟩ :=
      super_enter (parsePrecedence m) hok hself hdepth hroom hup
    obtain ⟨c1, c2, -, c4⟩ := arguments_code m (advance (superSelfState s)) args
      ((advance_funOK _).2 hok4) hargs hn
    rw [advance_currentChunk, hcode4] at c1
    have c5 := code_getLast_advance args (superSelfState s)
    have hlist := argumentList_of_arguments (parsePrecedence m) (advance (superSelfState s))
      args fuel hargs hf
    rw [Nat.mod_eq_of_lt (Nat.lt_succ_of_le hn)] at hlist
    obtain ⟨h1, h2, h3, h4, h5, h6, h7⟩ := super_invoke m c s _ fuel args.length hok hstruct
      hself hdepth hsup henc hroom hup hlist
    refine ⟨_, _, hcode4, hlist, h1, h2, c1, c2, c4.trans c5, h3, h4, ?_, h5, ?_⟩
    · rw [emitByte_compilers, emitBytes_compilers, emitBytes_compilers]
    · rw [h6]
      exact h7
  · obtain ⟨-, -, hc4, hok4, hs4, -, -, -⟩ := super_enter pp hok hself hdepth hroom hup
    have hE4 : ExprKeeps s (superSelfState s) := by
      unfold superSelfState identifierConstant
      exact exprKeeps_chain
        (exprKeeps_chain (exprKeeps_steps.advance s) (exprKeeps_steps.advance _))
        (exprKeeps_chain (exprKeeps_makeConstant _ _) (exprKeeps_steps.stepEmitBytes _ _ _))
    obtain ⟨g1, g2⟩ := super_get pp n c t ts s ht hok hstruct hself hdepth hsup henc hroom hup
    exact ⟨hE4, hok4, g1, g2⟩
/-- C37 at `super.m(true, null)` in a method of a struct with a superstruct,
whose enclosing scope holds `super` in slot 1: the hypotheses hold, the two
arguments compile to `superStateArguments`, and `super_` appends GetLocal 0,
True, Null, GetUpvalue 0, SuperInvoke `k` 2, where upvalue 0 of the method is
the descriptor of the local in slot 1 of the enclosing function. -/
theorem super_access_witness :
    (superState "super.m(true, null)").funOK ∧
    findLocal (superState "super.m(true, null)").cur (syntheticToken "self")
      (superState "super.m(true, null)").cur.localCount = some 0 ∧
    hasLocal (superState "super.m(true, null)").cur (syntheticToken "super") = false ∧
    hasLocal ((superState "super.m(true, null)").compilerAt 1) (syntheticToken "super") = true ∧
    callArguments (parsePrecedence 2)
      (advance (superSelfState (superState "super.m(true, null)"))) superStateArguments ∧
    ∃ r s', argumentList (parsePrecedence 2) 2
          (advance (superSelfState (superState "super.m(true, null)"))) =
        Except.ok (2, r) ∧
      super_ (parsePrecedence 2) 2 false (superState "super.m(true, null)") = Except.ok s' ∧
      (resolveUpvalue 0 (syntheticToken "super") r).1 = 0 ∧
      ((resolveUpvalue 0 (syntheticToken "super") r).2.compilerAt 0).upvalueAt 0 = ⟨1, true⟩ ∧
      s'.compilers = (resolveUpvalue 0 (syntheticToken "super") r).2.compilers ∧
      (currentChunk s').code = (currentChunk (superState "super.m(true, null)")).code ++
        [Byte.op OP_GET_LOCAL, Byte.raw 0, Byte.op OP_TRUE, Byte.op OP_NULL,
          Byte.op OP_GET_UPVALUE, Byte.raw 0, Byte.op OP_SUPER_INVOKE,
          Byte.raw (currentChunk (superState "super.m(true, null)")).constants.length,
          Byte.raw 2] := by
  have hok : (superState "super.m(true, null)").funOK := ⟨_, rfl⟩
  have h : callArguments (parsePrecedence 2)
      (advance (superSelfState (superState "super.m(true, null)"))) superStateArguments := by
    unfold callArguments
    rw [if_neg (by decide)]
    exact ⟨by decide!, by decide!, by decide!, by decide!, by decide!⟩
  obtain ⟨r, s', -, hlist, -, -, -, -, -, -, hsuper, hcomp, hcode, -⟩ :=
    (super_access (superState "super.m(true, null)") hok ⟨_, _, rfl, rfl⟩ (by decide!)
      (by decide!) (by decide!) ⟨1, by decide, by decide!, by decide!⟩ (by decide!)).1
        2 2 false superStateArguments (by decide!) h (by decide) (by decide)
  have hu : (argumentList (parsePrecedence 2) 2
      (advance (superSelfState (superState "super.m(true, null)")))).map
        (fun x => (resolveUpvalue 0 (syntheticToken "super") x.2).1) = Except.ok 0 := by
    decide!
  have hd : (argumentList (parsePrecedence 2) 2
      (advance (superSelfState (superState "super.m(true, null)")))).map
        (fun x => ((resolveUpvalue 0 (syntheticToken "super") x.2).2.compilerAt 0).upvalueAt 0) =
      Except.ok ⟨1, true⟩ := by
    decide!
  have hc : (argumentList (parsePrecedence 2) 2
      (advance (superSelfState (superState "super.m(true, null)")))).map
        (fun x => (currentChunk x.2).code) =
      Except.ok ((currentChunk (superState "super.m(true, null)")).code ++
        [Byte.op OP_GET_LOCAL, Byte.raw 0, Byte.op OP_TRUE, Byte.op OP_NULL]) := by
    decide!
  rw [hlist] at hu hd hc
  have hu' := Except.ok.inj hu
  have hd' := Except.ok.inj hd
  have hc' := Except.ok.inj hc
  simp only at hu' hd' hc'
  refine ⟨hok, by decide!, by decide!, by decide!, h, r, s', hlist, hsuper, hu', hd', hcomp, ?_⟩
  rw [hcode, hu', hc']
  simp
  rfl

/-- The end of `parsePrecedence` at Assignment precedence, when the prefix rule and
the loop of infix rules have run (to the state `t2`).  If the current token is
then `=`, which no variable and no property access has taken, the `=` is
consumed and "Invalid assignment target." is reported (when no error is
pending after the `=`), and `hadError` is set; if it is not `=`, nothing more
happens.  So `a * b = c`, `1 = 2`, `f() = 3` and `a + b.c = d` make `compile`
return `NULL` with this diagnostic, and `a = b = c` and `a.b = c` compile
without a diagnostic. -/
theorem invalid_assignment_target (n : Nat) (s t1 t2 : State) (f : ParseFn)
    (hrule : (getRule (advance s).parser.previous.type).prefixFn = some f)
    (hpre : applyRule (parsePrecedence n) n f true (advance s) = Except.ok t1)
    (hloop : infixLoop (parsePrecedence n) n PREC_ASSIGNMENT true n t1 = Except.ok t2) :
    (t2.parser.current.type = TOKEN_EQUAL →
      parsePrecedence (n + 1) PREC_ASSIGNMENT s =
          Except.ok (error "Invalid assignment target." (advance t2)) ∧
        ((advance t2).parser.panicMode = false →
          (error "Invalid assignment target." (advance t2)).stderr =
              (advance t2).stderr ++ [errorDiag "Invalid assignment target." (advance t2)] ∧
            (error "Invalid assignment target." (advance t2)).parser.hadError = true)) ∧
    (t2.parser.current.type ≠ TOKEN_EQUAL →
      parsePrecedence (n + 1) PREC_ASSIGNMENT s = Except.ok t2) ∧
    ([("a * b = c", "c"), ("1 = 2", "2"), ("f() = 3", "3"), ("a + b.c = d", "d")].map
        (fun x => (compile noFiles 20 (cstr "main") (cstr x.1) State.initial).map
          (fun r => (r.1, r.2.stderr ==
            [Diag.error 1 (ErrorPlace.atLexeme (cstr x.2))
              (cstr "Invalid assignment target.") (cstr "main")]))) =
      List.replicate 4 (Except.ok (none, true))) ∧
    ([cstr "a = b = c", cstr "a.b = c"].map
        (fun source => (compile noFiles 20 (cstr "main") source State.initial).map
          (fun r => (r.1, r.2.stderr))) =
      List.replicate 2 (Except.ok (some 0, []))) := by
  have hpp : parsePrecedence (n + 1) PREC_ASSIGNMENT s =
      if check TOKEN_EQUAL t2 then
        Except.ok (error "Invalid assignment target." (match_ TOKEN_EQUAL t2).2)
      else Except.ok t2 := by
    rw [parsePrecedence]
    simp only [hrule, hpre, hloop, bind, Except.bind, pure, Except.pure,
      show decide (PREC_ASSIGNMENT ≤ PREC_ASSIGNMENT) = true from rfl, Bool.true_and]
  refine ⟨fun h => ⟨?_, fun hp => ?_⟩, fun h => ?_, by decide!, by decide!⟩
  · have hc : check TOKEN_EQUAL t2 = true := by simp [check, h]
    have hm : (match_ TOKEN_EQUAL t2).2 = advance t2 := by
      unfold match_
      simp [hc]
    rw [hpp, hc, hm]
    rfl
  · obtain ⟨e1, e2, -⟩ := error_reports "Invalid assignment target." (advance t2) hp
    exact ⟨e1, e2⟩
  · have hc : check TOKEN_EQUAL t2 = false := by simp [check, h]
    rw [hpp, hc]
    rfl

/-- At `1 = 2`: the prefix rule of `1` is `number`, the loop runs no infix
rule, the current token is `=`, and `parsePrecedence` reports "Invalid
assignment target." at the `2`. -/
theorem invalid_assignment_target_witness :
    (getRule (advance (expressionState "1 = 2")).parser.previous.type).prefixFn =
      some ParseFn.number ∧
    (number true (advance (expressionState "1 = 2"))).parser.current.type = TOKEN_EQUAL ∧
    (∃ s', parsePrecedence 5 PREC_ASSIGNMENT (expressionState "1 = 2") = Except.ok s' ∧
      s'.parser.hadError = true ∧
      s'.stderr =
        [Diag.error 1 (ErrorPlace.atLexeme (cstr "2")) (cstr "Invalid assignment target.")
          []]) := by
  have h := (invalid_assignment_target 4 (expressionState "1 = 2")
    (number true (advance (expressionState "1 = 2")))
    (number true (advance (expressionState "1 = 2"))) ParseFn.number (by decide!) (by decide!)
    (by decide!)).1 (by decide!)
  obtain ⟨h1, h2⟩ := h
  obtain ⟨e1, e2⟩ := h2 (by decide!)
  exact ⟨by decide!, by decide!, _, h1, e2, e1.trans (by decide!)⟩

/-- C38 (the code breaks the claim): an `=` that nothing took after an
expression at Assignment precedence reports "Invalid assignment target.", but
when the text is in an imported module `compile` returns the function:
`importModule` restores the parser it saved, and with it `hadError` (the defect
of C1).  Here the main source is `import "m"` and `m.luna` is `1 = 2`: the
diagnostic is on `stderr` and `compile` returns function 0.  As main sources,
`a * b = c`, `1 = 2`, `f() = 3` and `a + b.c = d` make `compile` return `NULL`
with this diagnostic, and `a = b = c` and `a.b = c` compile without one.  In
every state, when the prefix rule and the loop of infix rules of
`parsePrecedence` at Assignment precedence have run and the current token is
then `=`, the `=` is consumed and the error reported (when none is pending). -/
theorem invalid_assignment_forgotten_in_module :
    ((compile badAssignmentFiles 20 (cstr "main") (cstr "import \"m\"") State.initial).map
        (fun r => (r.1, r.2.stderr)) =
      Except.ok (some 0,
        [Diag.error 1 (ErrorPlace.atLexeme (cstr "2")) (cstr "Invalid assignment target.")
          (cstr "m.luna")])) ∧
    ([("a * b = c", "c"), ("1 = 2", "2"), ("f() = 3", "3"), ("a + b.c = d", "d")].map
        (fun x => (compile noFiles 20 (cstr "main") (cstr x.1) State.initial).map
          (fun r => (r.1, r.2.stderr ==
            [Diag.error 1 (ErrorPlace.atLexeme (cstr x.2))
              (cstr "Invalid assignment target.") (cstr "main")]))) =
      List.replicate 4 (Except.ok (none, true))) ∧
    ([cstr "a = b = c", cstr "a.b = c"].map
        (fun source => (compile noFiles 20 (cstr "main") source State.initial).map
          (fun r => (r.1, r.2.stderr))) =
      List.replicate 2 (Except.ok (some 0, []))) ∧
    (∀ (n : Nat) (s t1 t2 : State) (f : ParseFn),
      (getRule (advance s).parser.previous.type).prefixFn = some f →
      applyRule (parsePrecedence n) n f true (advance s) = Except.ok t1 →
      infixLoop (parsePrecedence n) n PREC_ASSIGNMENT true n t1 = Except.ok t2 →
      t2.parser.current.type = TOKEN_EQUAL →
      parsePrecedence (n + 1) PREC_ASSIGNMENT s =
          Except.ok (error "Invalid assignment target." (advance t2)) ∧
        ((advance t2).parser.panicMode = false →
          (error "Invalid assignment target." (advance t2)).stderr =
              (advance t2).stderr ++ [errorDiag "Invalid assignment target." (advance t2)] ∧
            (error "Invalid assignment target." (advance t2)).parser.hadError = true)) :=
  ⟨by decide!, by decide!, by decide!,
    fun n s t1 t2 f hrule hpre hloop => (invalid_assignment_target n s t1 t2 f hrule hpre hloop).1⟩

namespace Mem

open GCPhase

/-- C39: for bytes `characters[0..length)`, `hashString` returns their FNV-1a
hash of 32 bits as the specification words it (`fnv1a`); the hash of no byte is
2166136261; and in a state whose string table is sound the string object that
`copyString` or `takeString` returns holds these bytes, `length` of them, and
this hash. -/
theorem hashString_is_fnv1a (s : VM) (h : Interned s) (overChars over : Bool)
    (grow : Option Bool) (characters : List Nat) (length : Nat)
    (hl : length ≤ characters.length) (hb : ∀ c ∈ characters, c < 256) :
    hashString characters length = fnv1a (characters.take length) ∧
    hashString characters length < 2 ^ 32 ∧
    (length = 0 → hashString characters length = 2166136261) ∧
    fnv1a [] = 2166136261 ∧
    (∀ b bs, fnv1a (bs ++ [b]) = ((fnv1a bs ^^^ b) * 16777619) % 2 ^ 32) ∧
    (∀ r, (r = copyString overChars over grow characters length s ∨
          r = takeString over grow characters length s) →
      r.2.stringAt r.1 = some (characters.take length, fnv1a (characters.take length)) ∧
        (characters.take length).length = length) := by
  have hbt : ∀ c ∈ characters.take length, c < 256 := fun c hc =>
    hb c (List.mem_of_mem_take hc)
  have he : hashString characters length = fnv1a (characters.take length) :=
    foldl_eq_fnv1aFrom _ _ hbt
  have hstep : ∀ (bs : List Nat) (b h0 : Nat),
      fnv1aFrom h0 (bs ++ [b]) = ((fnv1aFrom h0 bs ^^^ b) * 16777619) % 2 ^ 32 := by
    intro bs
    induction bs with
    | nil => intro b h0; rfl
    | cons c cs ih => intro b h0; exact ih b _
  refine ⟨he, ?_, fun h0 => ?_, rfl, fun b bs => hstep bs b _, fun r hr => ⟨?_, ?_⟩⟩
  · rw [he]
    exact fnv1aFrom_lt _ _ (by decide)
  · subst h0
    rfl
  · rw [← he]
    rcases hr with rfl | rfl
    · exact (copyString_spec h overChars over grow characters length hl).2.2
    · exact (takeString_spec h over grow characters length hl).2.2
  · rw [List.length_take, Nat.min_eq_left hl]

/-- C39 at the bytes `ab`: their hash is 1294271946 (0x4d2505ca), and the string
object `copyString` creates in the first state stores it. -/
theorem hashString_is_fnv1a_witness :
    hashString [97, 98] 2 = 1294271946 ∧ fnv1a [97, 98] = 1294271946 ∧
    (copyString true false none [97, 98] 2 VM.init).2.stringAt
        (copyString true false none [97, 98] 2 VM.init).1 =
      some ([97, 98], 1294271946) := by
  have h := hashString_is_fnv1a VM.init interned_init true false none [97, 98] 2 (by decide)
    (by decide)
  have e : fnv1a [97, 98] = 1294271946 := by decide
  refine ⟨h.1.trans e, e, ?_⟩
  rw [(h.2.2.2.2.2 _ (Or.inl rfl)).1]
  exact congrArg (fun x => some ([97, 98], x)) e

end Mem

/-- C40: the text left to scan is a list of bytes that ends at its first NUL
byte (or at the end of the list).  A call of `scanToken` moves the cursor
forward over bytes none of which is NUL; when it returns end-of-file the cursor
is on the terminator, and otherwise it has stepped over at least one byte.  So
among the first `length + 1` calls one returns end-of-file, every call after
one that returned end-of-file returns end-of-file again, and no call returns a
token of kind Newline: in `a`, newline, `b` the tokens are two identifiers and
end-of-file. -/
theorem scanToken_reaches_eof (sc : Scanner) :
    (∃ pre, sc.current = pre ++ (Scan.scanToken sc).2.current ∧ 0 ∉ pre ∧
      ((Scan.scanToken sc).1.type ≠ TOKEN_EOF → pre ≠ [])) ∧
    ((Scan.scanToken sc).1.type = TOKEN_EOF → Scan.isAtEnd (Scan.scanToken sc).2 = true) ∧
    (∃ k, k ≤ sc.current.length ∧ (nthToken sc k).type = TOKEN_EOF) ∧
    (∀ k, (nthToken sc k).type = TOKEN_EOF → ∀ j, k ≤ j → (nthToken sc j).type = TOKEN_EOF) ∧
    (∀ k, (nthToken sc k).type ≠ TOKEN_NEWLINE) ∧
    ((List.range 4).map (fun i => (nthToken (Scan.initScanner (cstr "a\nb")) i).type) =
      [TOKEN_IDENTIFIER, TOKEN_IDENTIFIER, TOKEN_EOF, TOKEN_EOF]) := by
  obtain ⟨⟨pre, hpre, h0⟩, -, hE, hlt⟩ := Scan.scanToken_cursor sc
  refine ⟨⟨pre, hpre, h0, fun hne hnil => ?_⟩, fun h => (hE h).1,
    nthToken_reaches_eof sc.current.length sc (Nat.le_refl _),
    fun k hk j hj => (nthToken_stays_eof sc k hk j hj).1,
    fun k => (Scan.scanToken_cursor (scanAfter sc k)).2.1, by decide⟩
  have := hlt hne
  rw [hnil] at hpre
  rw [hpre] at this
  simp at this

end Luna
